import Mathlib

/-!
# Child/parent linkage of the seastore fixed-key B-tree

A shallow embedding of `src/crimson/os/seastore/linked_tree_node.h`
(`ParentNode`, `ChildNode`, `parent_tracker_t`) and the properties of its
pointer surgery.

Conventions of the embedding

* Objects live in a `Store`; a `T&`/`TCachedExtentRef<T>` is a `NodeRef`, a
  `BaseChildNode*` is a `ChildPtr` (an address, `0` being `nullptr`), a
  `parent_tracker_t*` is a `TrackerRef`.
* An operation that aborts (`ceph_assert`, `assert` of a debug build, an
  access outside an array, a null dereference) returns `none`.
* The vector `children` is the `List` of the slots of its storage, one for
  each slot of its `capacity()`; the field `children_spare` counts the slots
  that lie past its `size()`. The code reads and writes the storage through
  `data()` and `operator[]`, which do not look at `size()`. Growth follows
  libstdc++: a `resize` beyond the capacity allocates `size + max(size, added)`
  slots and copies the `size()` elements, `shrink_to_fit` reallocates to the
  size. A slot of fresh storage past `size()` is uninitialised; it holds
  `nullptr` here and no statement depends on what it holds.
* `std::set<TCachedExtentRef<T>, node_cmp_t>` is a `List NodeRef` kept in
  comparator order; two nodes with equal begin keys are equivalent for it.
  The debug assertion inside `node_cmp_t` is run on the node handed to
  `insert`, `emplace`, `find` or `erase` against every member of the set. (A
  search compares the node with its neighbours in key order; in a set that
  the comparator has accepted, where the ranges are not empty and pairwise
  disjoint, a node that fails the assertion against some member fails it
  against a neighbour.)
* The intrusive sets keyed by transaction id (`copy_dests_by_trans`,
  `mutation_pending_extents`) are association lists, looked up by id.
* Keys (`node_key_t`) and positions (`btreenode_pos_t`) are natural numbers.
* Reference counts of `parent_tracker_t` are not part of the store, and tracker
  cells stay in it. Where a method only drops a reference (`on_invalidated`),
  whether it was the last one is a parameter of the method, and the destructor
  then clears `my_tracker` of the parent; where a child is handed another
  tracker (`set_child_ptracker`, `take_parent_from_prior`), the release of the
  tracker it had is not modelled.
* What a method reads from the derived class `T` and from `cached_extent.h`
  (`get_node_split_pivot()`, `get_prior_instance()` and `is_btree_root()` of a
  child, `is_logical()`, the answers of the retriever) is a parameter of the
  method; `get_begin()` of a child is its `node_begin()`.
* A definition whose name ends in `_traced` is the method with the store as it
  is when the call stops, for the statements about what an aborted call has
  written.
-/

namespace LinkedTreeNode

/-! ## Data model -/

abbrev ChildPtr := Nat
abbrev NodeRef := Nat
abbrev TrackerRef := Nat
abbrev transaction_id_t := Nat

def nullptr : ChildPtr := 0

/-- The sentinel `std::numeric_limits<size_t>::max() - 15` of `get_reserved_ptr`. -/
def get_reserved_ptr : ChildPtr := 18446744073709551615 - 15

def is_reserved_ptr (child : ChildPtr) : Bool :=
  child == get_reserved_ptr

def is_valid_child_ptr (child : ChildPtr) : Bool :=
  child != nullptr && child != get_reserved_ptr

/-- Modelled from the spec: the extent lifecycle states of `cached_extent.h`
(not part of the source), with `INVALID` for an extent whose `is_valid()` is
false. -/
inductive extent_state_t where
  | STABLE
  | MUTATION_PENDING
  | INITIAL_PENDING
  | EXIST_CLEAN
  | EXIST_MUTATION_PENDING
  | INVALID
  deriving DecidableEq, Repr

/-- Modelled from the spec: the answer of `CachedExtent::is_viewable_by_trans`
(`cached_extent.h`, not part of the source) for an extent that is not
viewable or viewable. -/
inductive viewable_state_t where
  | stable
  | pending
  | invalid
  | stable_become_retired
  | stable_become_pending
  deriving DecidableEq, Repr

/-- The state of one `ParentNode<T, node_key_t>` together with what the code
reads from its derived class `T`: lifecycle state, prior instance, key range
and the keys of the node layout (`get_size()` is the number of keys). Keys
(`node_key_t`) are natural numbers: the code only compares them. The field
`children` is the storage of the vector `children` (`capacity()` slots), of
which the last `children_spare` lie past `size()`. -/
structure Node where
  state : extent_state_t
  pending_for_transaction : transaction_id_t
  prior_instance : Option NodeRef
  range_begin : Nat
  range_end : Nat
  keys : List Nat
  children : List ChildPtr
  children_spare : Nat
  copy_sources : List NodeRef
  copy_dests_by_trans : List (transaction_id_t × List NodeRef)
  mutation_pending_extents : List (transaction_id_t × NodeRef)
  my_tracker : Option TrackerRef
  deriving DecidableEq, Repr

/-- The fields of `BaseChildNode` and the answers of its virtual methods. -/
structure BaseChildNode where
  parent_tracker : Option TrackerRef
  node_begin : Nat
  is_valid : Bool
  is_stable : Bool

structure parent_tracker_t where
  parent : Option NodeRef

structure Store where
  nodes : NodeRef → Node
  child_objs : ChildPtr → BaseChildNode
  trackers : TrackerRef → parent_tracker_t
  next_tracker : TrackerRef

def Store.set_node (s : Store) (r : NodeRef) (n : Node) : Store :=
  { s with nodes := fun x => if x = r then n else s.nodes x }

/-! ## Extent lifecycle queries (external contract) -/

/-- Modelled from the spec: `is_valid()` of the extent lifecycle provider. -/
def Node.is_valid (n : Node) : Bool :=
  n.state != extent_state_t.INVALID

/-- Modelled from the spec: `is_stable()` of the extent lifecycle provider. -/
def Node.is_stable (n : Node) : Bool :=
  n.state == extent_state_t.STABLE

/-- Modelled from the spec: `is_mutation_pending()` of the extent lifecycle provider. -/
def Node.is_mutation_pending (n : Node) : Bool :=
  n.state == extent_state_t.MUTATION_PENDING

/-- Modelled from the spec: `is_initial_pending()` of the extent lifecycle provider. -/
def Node.is_initial_pending (n : Node) : Bool :=
  n.state == extent_state_t.INITIAL_PENDING

/-- Modelled from the spec: `is_pending()` of the extent lifecycle provider,
true of the four pending states. -/
def Node.is_pending (n : Node) : Bool :=
  n.state == extent_state_t.MUTATION_PENDING
    || n.state == extent_state_t.INITIAL_PENDING
    || n.state == extent_state_t.EXIST_CLEAN
    || n.state == extent_state_t.EXIST_MUTATION_PENDING

def Node.get_size (n : Node) : Nat :=
  n.keys.length

/-- Modelled from the spec: `is_in_range(key)` of the node layout,
`begin <= key < end`. -/
def Node.is_in_range (n : Node) (key : Nat) : Bool :=
  decide (n.range_begin ≤ key) && decide (key < n.range_end)

/-! ## Backing array -/

/-- Modelled from the spec: `p2roundup(x, align)` of `include/intarith.h`
(not part of the source), the least multiple of `align` that is `>= x`, for
`align` a power of two as `CHILD_VEC_UNIT` is. -/
def p2roundup (x align : Nat) : Nat :=
  (x + align - 1) / align * align

/-- The value of `children.size()`: the slots of the storage that are not spare. -/
def Node.children_size (n : Node) : Nat :=
  n.children.length - n.children_spare

/-- Modelled from the spec: the geometric growth of the backing storage, as
`std::vector` of libstdc++ does it (`_M_check_len`, not part of the source): a
vector of `size` elements that has to grow by `added` elements allocates
`size + max(size, added)` slots. -/
def vec_check_len (size added : Nat) : Nat :=
  size + max size added

/-- The call `children.resize(k)`. Down to `k <= size()` the storage is not
touched; up to `k <= capacity()` the slots `[size(), k)` are value-initialised
in place; beyond the capacity new storage is allocated, the `size()` elements
are copied and the slots up to `k` value-initialised (the slots past `k` are
uninitialised, `nullptr` here). -/
def Node.resize_children (n : Node) (k : Nat) : Node :=
  if k ≤ n.children_size then
    { n with children_spare := n.children.length - k }
  else if k ≤ n.children.length then
    { n with
      children := n.children.take n.children_size
        ++ List.replicate (k - n.children_size) nullptr ++ n.children.drop k
      children_spare := n.children.length - k }
  else
    { n with
      children := n.children.take n.children_size
        ++ List.replicate (vec_check_len n.children_size (k - n.children_size)
            - n.children_size) nullptr
      children_spare := vec_check_len n.children_size (k - n.children_size) - k }

/-- The call `children.shrink_to_fit()`: the storage is reallocated to the
`size()` elements. -/
def Node.shrink_children_to_fit (n : Node) : Node :=
  { n with children := n.children.take n.children_size, children_spare := 0 }

/-- The method `maybe_expand_children`; `CHILD_VEC_UNIT` is the constant of the node type `T`. -/
def maybe_expand_children (CHILD_VEC_UNIT : Nat) (n : Node) (size : Nat) : Option Node :=
  if CHILD_VEC_UNIT ≠ 0 then
    if size > n.children.length then
      some (n.resize_children (p2roundup size CHILD_VEC_UNIT))
    else
      some n
  else if size ≤ n.children.length then
    some n
  else
    none

/-- The effect of `std::memmove(dst + dst_start, seg, |seg|)` on the array `dst`. -/
def memmove (dst : List ChildPtr) (dst_start : Nat) (seg : List ChildPtr) : List ChildPtr :=
  dst.take dst_start ++ seg ++ dst.drop (dst_start + seg.length)

/-! ## Parent trackers -/

/-- The method `set_child_ptracker` of node `me`, for a `child` that points to
an object (the callers that hand it another pointer stop at the call). -/
def set_child_ptracker (s : Store) (me : NodeRef) (child : ChildPtr) : Store :=
  let s1 : Store :=
    match (s.nodes me).my_tracker with
    | some _ => s
    | none =>
      { (s.set_node me { s.nodes me with my_tracker := some s.next_tracker }) with
        trackers := fun x => if x = s.next_tracker then ⟨some me⟩ else s.trackers x
        next_tracker := s.next_tracker + 1 }
  { s1 with
    child_objs := fun c =>
      if c = child then { s1.child_objs c with parent_tracker := (s1.nodes me).my_tracker }
      else s1.child_objs c }

/-- The assignment `r.my_tracker = nullptr`. -/
def Store.clear_my_tracker (s : Store) (r : NodeRef) : Store :=
  s.set_node r { s.nodes r with my_tracker := none }

/-- The static method `move_child_ptrs(dest, src, dest_start, src_start, src_end)`.
It aborts on the two assertions (the second is on `src.children.size()`), and
on a `memmove` that would write past the end of the storage of the
destination. -/
def move_child_ptrs (s : Store) (dest src : NodeRef)
    (dest_start src_start src_end : Nat) : Option Store :=
  if src_start < src_end ∧ src_end ≤ (s.nodes src).children_size
      ∧ dest_start + (src_end - src_start) ≤ (s.nodes dest).children.length then
    let seg := ((s.nodes src).children.drop src_start).take (src_end - src_start)
    let s1 := s.set_node dest
      { s.nodes dest with children := memmove (s.nodes dest).children dest_start seg }
    let moved := ((s1.nodes src).children.drop src_start).take (src_end - src_start)
    some (moved.foldl
      (fun st child => if is_valid_child_ptr child then set_child_ptracker st dest child else st)
      s1)
  else
    none

/-- The method `split_child_ptrs(t, left, right)` of node `me`; `pivot` is the
value of `me.get_node_split_pivot()`. A pivot beyond the size makes
`get_size() - pivot` wrap around, a size no child array can be expanded to. -/
def split_child_ptrs (CHILD_VEC_UNIT : Nat) (s : Store) (me left right : NodeRef)
    (pivot : Nat) : Option Store :=
  if (s.nodes left).my_tracker.isSome || (s.nodes right).my_tracker.isSome then none
  else if pivot > (s.nodes me).get_size then none
  else do
    let l ← maybe_expand_children CHILD_VEC_UNIT (s.nodes left) pivot
    let s1 := s.set_node left l
    let r ← maybe_expand_children CHILD_VEC_UNIT (s1.nodes right) ((s1.nodes me).get_size - pivot)
    let s2 := s1.set_node right r
    if (s2.nodes me).is_pending then
      let s3 ← move_child_ptrs s2 left me 0 0 pivot
      let s4 ← move_child_ptrs s3 right me 0 pivot (s3.nodes me).get_size
      some (s4.clear_my_tracker me)
    else
      some s2

/-- The method `merge_child_ptrs(t, left, right)` of the new node `me`. -/
def merge_child_ptrs (CHILD_VEC_UNIT : Nat) (s : Store) (me left right : NodeRef) :
    Option Store :=
  if (s.nodes me).my_tracker.isSome then none
  else do
    let m ← maybe_expand_children CHILD_VEC_UNIT (s.nodes me)
      ((s.nodes left).get_size + (s.nodes right).get_size)
    let s1 := s.set_node me m
    let s2 ←
      if (s1.nodes left).is_pending then do
        let s' ← move_child_ptrs s1 me left 0 0 (s1.nodes left).get_size
        some (s'.clear_my_tracker left)
      else some s1
    if (s2.nodes right).is_pending then do
      let s' ← move_child_ptrs s2 me right (s2.nodes left).get_size 0 (s2.nodes right).get_size
      some (s'.clear_my_tracker right)
    else some s2

/-! ## Copy sources and copy destinations -/

/-- The begin key `get_begin()` of every node of the store. -/
def Store.begin_of (s : Store) : NodeRef → Nat :=
  fun r => (s.nodes r).range_begin

/-- The debug assertion of `node_cmp_t::operator()` on two nodes: their key
ranges are disjoint or the same. -/
def node_cmp_assert (s : Store) (l r : NodeRef) : Bool :=
  decide ((s.nodes l).range_end ≤ (s.nodes r).range_begin)
    || decide ((s.nodes r).range_end ≤ (s.nodes l).range_begin)
    || ((s.nodes l).range_begin == (s.nodes r).range_begin
        && (s.nodes l).range_end == (s.nodes r).range_end)

/-- The assertions of `node_cmp_t` that a search for the node `x` in the set
`l` runs (`insert`, `emplace`, `find`, `erase`) all hold. -/
def set_cmp_ok (s : Store) (x : NodeRef) (l : List NodeRef) : Bool :=
  l.all (fun y => node_cmp_assert s x y)

/-- The call `std::set::insert(x)` (or `emplace`) under `node_cmp_t`: `x` goes
before the first member with a greater begin key, unless a member with the
same begin key is there already. -/
def set_insert (begin_of : NodeRef → Nat) (x : NodeRef) : List NodeRef → List NodeRef
  | [] => [x]
  | y :: ys =>
    if begin_of x < begin_of y then x :: y :: ys
    else if begin_of y < begin_of x then y :: set_insert begin_of x ys
    else y :: ys

/-- The call `std::set::find(x)` under `node_cmp_t`: the member with the begin key of `x`. -/
def set_find (begin_of : NodeRef → Nat) (x : NodeRef) (l : List NodeRef) : Option NodeRef :=
  l.find? (fun y => begin_of y == begin_of x)

/-- The call `std::set::erase(x)` under `node_cmp_t`: no member with the begin key of `x` stays. -/
def set_erase (begin_of : NodeRef → Nat) (x : NodeRef) (l : List NodeRef) : List NodeRef :=
  l.filter (fun y => begin_of y != begin_of x)

/-- The copy dests registered on node `r` for transaction `t`
(`dests_by_key` of the `copy_dests_t` of `t`, empty when there is none). -/
def Store.copy_dests (s : Store) (r : NodeRef) (t : transaction_id_t) : List NodeRef :=
  ((s.nodes r).copy_dests_by_trans.lookup t).getD []

/-- The entry of transaction `t` of a set keyed by transaction id becomes `v`. -/
def trans_view_set {β : Type} (t : transaction_id_t) (v : β)
    (l : List (transaction_id_t × β)) : List (transaction_id_t × β) :=
  (t, v) :: l.filter (fun e => e.1 != t)

/-- The `dests_by_key` of the `copy_dests_t` of `t` on node `r` becomes `l`
(the `copy_dests_t` is created when there is none). -/
def Store.set_copy_dests (s : Store) (r : NodeRef) (t : transaction_id_t)
    (l : List NodeRef) : Store :=
  s.set_node r { s.nodes r with
    copy_dests_by_trans := trans_view_set t l (s.nodes r).copy_dests_by_trans }

def Store.set_copy_sources (s : Store) (r : NodeRef) (l : List NodeRef) : Store :=
  s.set_node r { s.nodes r with copy_sources := l }

/-- The method `add_copy_dest(t, dest)` of node `me`. The `copy_dests_t` of the
transaction is created when missing; the insertion must either succeed or
find `dest` itself. -/
def add_copy_dest (s : Store) (me : NodeRef) (t : transaction_id_t) (dest : NodeRef) :
    Option Store :=
  if (s.nodes me).is_stable && (s.nodes dest).is_pending then
    if set_cmp_ok s dest (s.copy_dests me t) then
      match set_find s.begin_of dest (s.copy_dests me t) with
      | none => some (s.set_copy_dests me t (set_insert s.begin_of dest (s.copy_dests me t)))
      | some y =>
        if y = dest then
          some (s.set_copy_dests me t (set_insert s.begin_of dest (s.copy_dests me t)))
        else none
    else none
  else none

/-- The method `del_copy_dest(t, dest)` of node `me`. -/
def del_copy_dest (s : Store) (me : NodeRef) (t : transaction_id_t) (dest : NodeRef) :
    Option Store :=
  match (s.nodes me).copy_dests_by_trans.lookup t with
  | none => none
  | some dests =>
    if set_cmp_ok s dest dests then
      match set_find s.begin_of dest dests with
      | none => none
      | some _ => some (s.set_copy_dests me t (set_erase s.begin_of dest dests))
    else none

/-- The loop `for (auto &cs : l) cs->add_copy_dest(t, &dest)`. -/
def add_copy_dest_each (t : transaction_id_t) (dest : NodeRef) :
    List NodeRef → Store → Option Store
  | [], s => some s
  | cs :: rest, s =>
    match add_copy_dest s cs t dest with
    | none => none
    | some s1 => add_copy_dest_each t dest rest s1

/-- The loop `for (auto &cs : l) cs->del_copy_dest(t, &dest)`. -/
def del_copy_dest_each (t : transaction_id_t) (dest : NodeRef) :
    List NodeRef → Store → Option Store
  | [], s => some s
  | cs :: rest, s =>
    match del_copy_dest s cs t dest with
    | none => none
    | some s1 => del_copy_dest_each t dest rest s1

/-- The call `dest.copy_sources.insert(first, last)` over the members `l`. -/
def set_insert_range (begin_of : NodeRef → Nat) (l : List NodeRef) (into : List NodeRef) :
    List NodeRef :=
  l.foldl (fun acc x => set_insert begin_of x acc) into

/-- The assertions of `node_cmp_t` that the call `into.insert(first, last)`
over the members `l` runs, one insertion after the other, all hold. -/
def set_insert_range_cmp_ok (s : Store) : List NodeRef → List NodeRef → Bool
  | [], _ => true
  | x :: rest, into =>
    set_cmp_ok s x into && set_insert_range_cmp_ok s rest (set_insert s.begin_of x into)

/-- The static method `push_copy_sources(t, dest, src)`. -/
def push_copy_sources (s : Store) (t : transaction_id_t) (dest src : NodeRef) :
    Option Store :=
  if (s.nodes dest).is_initial_pending then
    if (s.nodes src).is_stable then
      match add_copy_dest s src t dest with
      | none => none
      | some s1 =>
        if set_cmp_ok s1 src (s1.nodes dest).copy_sources then
          some (s1.set_copy_sources dest (set_insert s1.begin_of src (s1.nodes dest).copy_sources))
        else none
    else if (s.nodes src).is_mutation_pending then
      match (s.nodes src).prior_instance with
      | none => none
      | some copy_src =>
        match add_copy_dest s copy_src t dest with
        | none => none
        | some s1 =>
          if set_cmp_ok s1 copy_src (s1.nodes dest).copy_sources then
            some (s1.set_copy_sources dest
              (set_insert s1.begin_of copy_src (s1.nodes dest).copy_sources))
          else none
    else if (s.nodes src).is_initial_pending then
      match add_copy_dest_each t dest (s.nodes src).copy_sources s with
      | none => none
      | some s1 =>
        if set_insert_range_cmp_ok s1 (s1.nodes src).copy_sources
            (s1.nodes dest).copy_sources then
          some (s1.set_copy_sources dest
            (set_insert_range s1.begin_of (s1.nodes src).copy_sources
              (s1.nodes dest).copy_sources))
        else none
    else none
  else none

/-- The guarded loop `if (x.is_initial_pending()) for (auto &cs : x.copy_sources)
cs->del_copy_dest(t, &x)` of the `adjust_copy_src_dest_on_*` methods. -/
def del_copy_dests_of (s : Store) (t : transaction_id_t) (x : NodeRef) : Option Store :=
  if (s.nodes x).is_initial_pending then
    del_copy_dest_each t x (s.nodes x).copy_sources s
  else some s

/-- The method `adjust_copy_src_dest_on_split(t, left, right)` of node `me`. -/
def adjust_copy_src_dest_on_split (s : Store) (t : transaction_id_t)
    (me left right : NodeRef) : Option Store := do
  let s1 ← del_copy_dests_of s t me
  let s2 ← push_copy_sources s1 t left me
  push_copy_sources s2 t right me

/-- The method `adjust_copy_src_dest_on_merge(t, left, right)` of the new node `me`. -/
def adjust_copy_src_dest_on_merge (s : Store) (t : transaction_id_t)
    (me left right : NodeRef) : Option Store := do
  let s1 ← del_copy_dests_of s t left
  let s2 ← del_copy_dests_of s1 t right
  let s3 ← push_copy_sources s2 t me left
  push_copy_sources s3 t me right

/-- The static method `adjust_copy_src_dest_on_balance(t, left, right, pivot_idx,
replacement_left, replacement_right)`. -/
def adjust_copy_src_dest_on_balance (s : Store) (t : transaction_id_t)
    (left right : NodeRef) (pivot_idx : Nat) (replacement_left replacement_right : NodeRef) :
    Option Store := do
  let l_size := (s.nodes left).get_size
  let s1 ← del_copy_dests_of s t left
  let s2 ← del_copy_dests_of s1 t right
  if pivot_idx < l_size then do
    let s3 ← push_copy_sources s2 t replacement_left left
    let s4 ← push_copy_sources s3 t replacement_right left
    push_copy_sources s4 t replacement_right right
  else do
    let s3 ← push_copy_sources s2 t replacement_left left
    let s4 ← push_copy_sources s3 t replacement_left right
    push_copy_sources s4 t replacement_right right

/-- The assignment of the vector `l` to `r.children`. -/
def Store.set_children (s : Store) (r : NodeRef) (l : List ChildPtr) : Store :=
  s.set_node r { s.nodes r with children := l }

/-- The method `adjust_ptracker_for_children` of node `me`; the assertion
`end <= children.end()` is on `size()`. -/
def adjust_ptracker_for_children (s : Store) (me : NodeRef) : Option Store :=
  if (s.nodes me).get_size ≤ (s.nodes me).children_size then
    some (((s.nodes me).children.take (s.nodes me).get_size).foldl
      (fun st child => if is_valid_child_ptr child then set_child_ptracker st me child else st)
      s)
  else none

/-- The move assignment `dest.children = std::move(src.children)`: the storage
and the size go to `dest`, the vector moved from is left empty. -/
def Store.move_children (s : Store) (dest src : NodeRef) : Store :=
  let vec := s.nodes src
  let s1 := s.set_node src { vec with children := [], children_spare := 0 }
  s1.set_node dest
    { s1.nodes dest with children := vec.children, children_spare := vec.children_spare }

/-- The method `on_rewrite(t, foreign_extent)` of node `me`. -/
def on_rewrite (s : Store) (t : transaction_id_t) (me foreign_extent : NodeRef) :
    Option Store :=
  if (s.nodes foreign_extent).is_stable then
    match add_copy_dest s foreign_extent t me with
    | none => none
    | some s1 =>
      if set_cmp_ok s1 foreign_extent (s1.nodes me).copy_sources then
        some (s1.set_copy_sources me
          (set_insert s1.begin_of foreign_extent (s1.nodes me).copy_sources))
      else none
  else if (s.nodes foreign_extent).is_mutation_pending then
    match (s.nodes foreign_extent).prior_instance with
    | none => none
    | some copy_source =>
      match add_copy_dest s copy_source t me with
      | none => none
      | some s1 =>
        if set_cmp_ok s1 copy_source (s1.nodes me).copy_sources then
          let s2 := s1.set_copy_sources me
            (set_insert s1.begin_of copy_source (s1.nodes me).copy_sources)
          adjust_ptracker_for_children (s2.move_children me foreign_extent) me
        else none
  else none

/-! ## Commit-time adoption of child pointers -/

/-- The `while` loop of `copy_children_from_stable_source`; iterators are
offsets into the key arrays, `get_key()` past the end of a key array and a
slot past the end of `children` abort. -/
def copy_children_loop (source : Node) (foreign_end : Nat) :
    Nat → Node → Nat → Nat → Option (Node × Nat)
  | 0, _, _, _ => none
  | fuel + 1, me, foreign_it, local_it =>
    if foreign_it ≠ foreign_end ∧ local_it < me.get_size then
      match me.children[local_it]?, source.keys[foreign_it]?, me.keys[local_it]? with
      | some child, some fkey, some lkey =>
        if fkey = lkey then
          if child = nullptr then
            match source.children[foreign_it]? with
            | some c =>
              copy_children_loop source foreign_end fuel
                { me with children := me.children.set local_it c } (foreign_it + 1) (local_it + 1)
            | none => none
          else
            copy_children_loop source foreign_end fuel me (foreign_it + 1) (local_it + 1)
        else if fkey < lkey then
          copy_children_loop source foreign_end fuel me (foreign_it + 1) local_it
        else
          copy_children_loop source foreign_end fuel me foreign_it (local_it + 1)
      | _, _, _ => none
    else
      some (me, local_it)

/-- The method `copy_children_from_stable_source(source, foreign_start_it,
foreign_end_it, local_start_it)` of node `me`; it returns the node and the
offset of the local cursor. Every turn of the loop advances a cursor, and the
foreign cursor cannot pass the end of the source's keys, so the fuel given
here is never used up. -/
def copy_children_from_stable_source (me source : Node)
    (foreign_start foreign_end local_start : Nat) : Option (Node × Nat) :=
  copy_children_loop source foreign_end
    ((source.get_size - foreign_start) + (me.get_size - local_start) + 1)
    me foreign_start local_start

/-- Modelled from the spec: `lower_bound(key)` of the node layout, the offset
of the first key that is `>= key` (`get_size()` when there is none). -/
def Node.lower_bound (n : Node) (key : Nat) : Nat :=
  n.keys.findIdx (fun k => decide (key ≤ k))

/-- Modelled from the spec: `upper_bound(key)` of the node layout, the offset
of the first key that is `> key` (`get_size()` when there is none). -/
def Node.upper_bound (n : Node) (key : Nat) : Nat :=
  n.keys.findIdx (fun k => decide (key < k))

/-- The call `std::set::upper_bound(key)` under `node_cmp_t`: the offset of the
first member whose begin key is greater than `key`. -/
def set_upper_bound (s : Store) (l : List NodeRef) (key : Nat) : Nat :=
  l.findIdx (fun r => decide (key < (s.nodes r).range_begin))

/-- The call `std::set::lower_bound(key)` under `node_cmp_t`: the offset of the
first member whose begin key is not less than `key`. -/
def set_lower_bound (s : Store) (l : List NodeRef) (key : Nat) : Nat :=
  l.findIdx (fun r => decide (¬ (s.nodes r).range_begin < key))

/-- The `for` loop of `copy_children_from_stable_sources` over the copy sources
from the current iterator on. -/
def copy_sources_loop (me : NodeRef) :
    List NodeRef → Store → Nat → Nat → Option Store
  | [], s, _, _ => some s
  | cs :: rest, s, start_pos, local_next_pos =>
    let copy_source := s.nodes cs
    let end_pos :=
      if copy_source.is_in_range (s.nodes me).range_end then
        copy_source.upper_bound (s.nodes me).range_end
      else copy_source.get_size
    match copy_children_from_stable_source (s.nodes me) copy_source start_pos end_pos
        local_next_pos with
    | none => none
    | some (me', next) =>
      if end_pos ≠ copy_source.get_size then some (s.set_node me me')
      else copy_sources_loop me rest (s.set_node me me') 0 next

/-- The method `copy_children_from_stable_sources` of node `me`. -/
def copy_children_from_stable_sources (s : Store) (me : NodeRef) : Option Store :=
  let copy_sources := (s.nodes me).copy_sources
  if copy_sources.isEmpty then some s
  else
    let ub := set_upper_bound s copy_sources (s.nodes me).range_begin
    if ub = 0 then none
    else
      match copy_sources[ub - 1]? with
      | none => none
      | some cs =>
        let start_pos := (s.nodes cs).lower_bound (s.nodes me).range_begin
        if start_pos = (s.nodes cs).get_size then
          copy_sources_loop me (copy_sources.drop ub) s 0 0
        else
          copy_sources_loop me (copy_sources.drop (ub - 1)) s start_pos 0

/-- Modelled from the spec: `is_rewrite()` of the extent lifecycle provider
(`cached_extent.h`, not part of the source): an initial-pending extent that
replaces one stable predecessor, its prior instance. -/
def Node.is_rewrite (n : Node) : Bool :=
  n.is_initial_pending && n.prior_instance.isSome

/-- The debug method `is_children_empty` of node `me`; the loop stops at the
first valid child whose `_is_valid()` is true. -/
def is_children_empty (s : Store) (me : NodeRef) : Option Bool :=
  if ((s.nodes me).children.take (s.nodes me).get_size).any
      (fun c => is_valid_child_ptr c && (s.child_objs c).is_valid) then
    some false
  else if (s.nodes me).get_size ≤ (s.nodes me).children.length then some true
  else none

/-- The assertion `assert(my_tracker || is_children_empty())` on node `me`. -/
def assert_tracker_or_empty (s : Store) (me : NodeRef) : Bool :=
  (s.nodes me).my_tracker.isSome || is_children_empty s me == some true

/-- The method `set_children_from_prior_instance` of node `me`. -/
def set_children_from_prior_instance (s : Store) (me : NodeRef) : Option Store :=
  match (s.nodes me).prior_instance with
  | none => none
  | some prior =>
    if assert_tracker_or_empty s prior then
      match (s.nodes prior).my_tracker with
      | some tr =>
        let s1 : Store :=
          { s with trackers := fun x => if x = tr then ⟨some me⟩ else s.trackers x }
        let s2 := s1.set_node me { s1.nodes me with my_tracker := some tr }
        match adjust_ptracker_for_children s2 me with
        | none => none
        | some s3 => if assert_tracker_or_empty s3 me then some s3 else none
      | none => if assert_tracker_or_empty s me then some s else none
    else none

/-- The method `take_children_from_prior_instance` of node `me`. -/
def take_children_from_prior_instance (s : Store) (me : NodeRef) : Option Store :=
  if (s.nodes me).is_mutation_pending || (s.nodes me).copy_sources.length == 1 then
    match (s.nodes me).prior_instance with
    | none => none
    | some prior =>
      if (s.nodes me).is_mutation_pending
          || (s.nodes me).copy_sources.head? == some prior then
        match set_children_from_prior_instance s me with
        | none => none
        | some s1 =>
          match copy_children_from_stable_source (s1.nodes me) (s1.nodes prior) 0
              (s1.nodes prior).get_size 0 with
          | none => none
          | some (me', copied) =>
            if copied ≤ (s1.nodes me).get_size then some (s1.set_node me me') else none
      else none
  else none

/-- The method `take_children_from_stable_sources` of node `me`. -/
def take_children_from_stable_sources (s : Store) (me : NodeRef) : Option Store :=
  match copy_children_from_stable_sources s me with
  | none => none
  | some s1 => adjust_ptracker_for_children s1 me

/-- The debug method `validate_stable_children` of node `me`: `some false` for
an empty child array (`children.empty()`, on `size()`), `none` when it aborts
on a child whose begin key is not the key of its slot. -/
def validate_stable_children (s : Store) (me : NodeRef) : Option Bool :=
  if (s.nodes me).children_size = 0 then some false
  else if (s.nodes me).get_size ≤ (s.nodes me).children.length then
    if ((s.nodes me).keys.zip (s.nodes me).children).all
        (fun kc => !(is_valid_child_ptr kc.2 && (s.child_objs kc.2).node_begin != kc.1)) then
      some true
    else none
  else none

/-- The method `prepare_commit` of node `me`. -/
def prepare_commit (s : Store) (me : NodeRef) : Option Store :=
  if (s.nodes me).is_initial_pending then
    match (if (s.nodes me).is_rewrite then take_children_from_prior_instance s me
        else take_children_from_stable_sources s me) with
    | none => none
    | some s1 =>
      if validate_stable_children s1 me == some true then some (s1.set_copy_sources me [])
      else none
  else some s

/-- The loop of `copy_children_from_stable_sources` on the values of the nodes,
for a node that is not among its own sources. -/
def copy_sources_walk : List Node → Node → Nat → Nat → Option Node
  | [], me, _, _ => some me
  | c :: rest, me, sp, l =>
    let end_pos := if c.is_in_range me.range_end then c.upper_bound me.range_end else c.get_size
    match copy_children_from_stable_source me c sp end_pos l with
    | none => none
    | some (me', next) =>
      if end_pos ≠ c.get_size then some me' else copy_sources_walk rest me' 0 next

/-- The copy sources `l` are in order with disjoint ranges (each ends where or
before the next begins), and each has strictly increasing keys inside its
range and a child array that holds a slot for every key. -/
def sources_ok (l : List Node) : Prop :=
  l.Pairwise (fun a b => a.range_end ≤ b.range_begin)
    ∧ ∀ c ∈ l, c.keys.Pairwise (fun a b => a < b)
        ∧ (∀ k ∈ c.keys, c.range_begin ≤ k ∧ k < c.range_end)
        ∧ c.get_size ≤ c.children.length

/-- Two nodes that differ at most in the vector `children` and in `my_tracker`. -/
def Node.same_links (a b : Node) : Prop :=
  ∃ ch sp tr, b = { a with children := ch, children_spare := sp, my_tracker := tr }

/-- What one walk of `copy_children_from_stable_source` from the cursors
`(f, l)` over the foreign range `[f, fe)` has done when it returns `(me', next)`:
matched null slots hold the source's pointer, every other slot is as before,
and every local key the cursor has passed is at most some walked foreign key. -/
def walk_post (me source : Node) (f fe l : Nat) (me' : Node) (next : Nat) : Prop :=
  me.same_links me' ∧ me'.my_tracker = me.my_tracker
    ∧ me'.children.length = me.children.length
    ∧ l ≤ next
    ∧ (∀ i j k, l ≤ i → f ≤ j → j < fe → me.keys[i]? = some k → source.keys[j]? = some k →
        me.children[i]? = some nullptr → me'.children[i]? = source.children[j]?)
    ∧ (∀ i, ¬ (l ≤ i ∧ me.children[i]? = some nullptr
          ∧ ∃ j k, f ≤ j ∧ j < fe ∧ me.keys[i]? = some k ∧ source.keys[j]? = some k) →
        me'.children[i]? = me.children[i]?)
    ∧ (∀ i ki, l ≤ i → i < next → me.keys[i]? = some ki →
        ∃ j kj, f ≤ j ∧ j < fe ∧ source.keys[j]? = some kj ∧ ki ≤ kj)

/-! ## Child resolution -/

/-- The result `get_child_ret_t<T, ChildT>`: a deferred position `child_pos_t`
or the future the retriever hands back for a child. -/
inductive get_child_ret_t (α : Type) where
  | child_pos (stable_parent : NodeRef) (pos : Nat)
  | child (fut : α)
  deriving DecidableEq, Repr

/-- The method `get_stable_for_key(key)` of node `me`. -/
def get_stable_for_key (s : Store) (me : NodeRef) (key : Nat) : Option NodeRef :=
  if (s.nodes me).is_pending then
    if (s.nodes me).is_mutation_pending then (s.nodes me).prior_instance
    else if (s.nodes me).copy_sources.isEmpty then none
    else
      let ub := set_upper_bound s (s.nodes me).copy_sources key
      if ub = 0 then none
      else
        match (s.nodes me).copy_sources[ub - 1]? with
        | none => none
        | some copy_source =>
          if (s.nodes copy_source).is_in_range key then some copy_source else none
  else none

/-- The method `get_child(t, etvr, pos, key)` of node `me`; the parameter
`get_extent_viewable_by_trans` is the retriever's answer
`etvr.get_extent_viewable_by_trans(t, child)` for each child. -/
def get_child {α : Type} (get_extent_viewable_by_trans : ChildPtr → α) (s : Store)
    (me : NodeRef) (pos key : Nat) : Option (get_child_ret_t α) :=
  if (s.nodes me).children.length = 0 then none
  else if (s.nodes me).keys[pos]? ≠ some key then none
  else
    match (s.nodes me).children[pos]? with
    | none => none
    | some child =>
      if is_reserved_ptr child then none
      else if is_valid_child_ptr child then
        some (get_child_ret_t.child (get_extent_viewable_by_trans child))
      else if (s.nodes me).is_pending then
        match get_stable_for_key s me key with
        | none => none
        | some sparent =>
          let spos := (s.nodes sparent).lower_bound key
          match (s.nodes sparent).children[spos]? with
          | none => none
          | some child =>
            if is_valid_child_ptr child then
              some (get_child_ret_t.child (get_extent_viewable_by_trans child))
            else some (get_child_ret_t.child_pos sparent spos)
      else some (get_child_ret_t.child_pos me pos)

/-- The method `update_child_ptr(pos, child)` of node `me`. The call
`child->reset_parent_tracker(...)` inside `set_child_ptracker` is not guarded:
for a `child` that is null or the reserved sentinel it dereferences an address
that holds no object, and the method does not return. -/
def update_child_ptr (s : Store) (me : NodeRef) (pos : Nat) (child : ChildPtr) :
    Option Store :=
  if pos < (s.nodes me).children.length then
    if is_valid_child_ptr child then
      some (set_child_ptracker (s.set_children me ((s.nodes me).children.set pos child)) me child)
    else none
  else none

/-- The method `link_child(child, pos)` of node `me`. -/
def link_child (s : Store) (me : NodeRef) (child : ChildPtr) (pos : Nat) : Option Store :=
  if pos < (s.nodes me).get_size ∧ pos < (s.nodes me).children.length ∧ child ≠ nullptr
      ∧ (s.nodes me).is_stable = true ∧ (s.child_objs child).is_stable = true
      ∧ (s.nodes me).children[pos]? = some nullptr ∧ is_valid_child_ptr child = true then
    update_child_ptr s me pos child
  else none

/-- The method `insert_child_ptr(offset, child, size)` of node `me`; `size = 0`
stands for the default argument, replaced by `get_size()`. -/
def insert_child_ptr (CHILD_VEC_UNIT : Nat) (s : Store) (me : NodeRef) (offset : Nat)
    (child : ChildPtr) (size : Nat) : Option Store :=
  if child = nullptr then none
  else
    let size := if size = 0 then (s.nodes me).get_size else size
    match maybe_expand_children CHILD_VEC_UNIT (s.nodes me) (size + 1) with
    | none => none
    | some n =>
      if size < n.children.length ∧ offset ≤ size then
        let seg := (n.children.drop offset).take (size - offset)
        let s1 := s.set_node me
          { n with children := (memmove n.children (offset + 1) seg).set offset child }
        some (if is_reserved_ptr child then s1 else set_child_ptracker s1 me child)
      else none

/-! ## Transactional resolution -/

/-- The method `find_pending_version(t, key, hint)` of node `me`. -/
def find_pending_version (s : Store) (me : NodeRef) (t : transaction_id_t) (key : Nat)
    (hint : viewable_state_t) : Option NodeRef :=
  if (s.nodes me).is_stable then
    if hint = viewable_state_t.stable_become_pending then
      match (s.nodes me).mutation_pending_extents.lookup t with
      | none => none
      | some mut_pending =>
        if ((s.nodes me).copy_dests_by_trans.lookup t).isSome then none else some mut_pending
    else if hint = viewable_state_t.stable_become_retired then
      match (s.nodes me).copy_dests_by_trans.lookup t with
      | none => none
      | some dests =>
        let lb := set_lower_bound s dests key
        let step_back :=
          match dests[lb]? with
          | none => true
          | some d => decide ((s.nodes d).range_begin > key)
        if step_back && lb == 0 then none
        else
          match dests[if step_back then lb - 1 else lb]? with
          | none => none
          | some d =>
            if (s.nodes d).range_begin ≤ key ∧ key < (s.nodes d).range_end then some d
            else none
    else none
  else none

/-- The method `resolve_transaction(t, key)` of node `me`; the parameter
`is_viewable_by_trans` is the answer of `CachedExtent::is_viewable_by_trans`
(not part of the source) for each node and transaction. -/
def resolve_transaction
    (is_viewable_by_trans : NodeRef → transaction_id_t → Bool × viewable_state_t)
    (s : Store) (me : NodeRef) (t : transaction_id_t) (key : Nat) : Option (Bool × NodeRef) :=
  if (s.nodes me).is_valid then
    if (is_viewable_by_trans me t).1 then some ((is_viewable_by_trans me t).1, me)
    else
      match find_pending_version s me t key (is_viewable_by_trans me t).2 with
      | none => none
      | some n => some ((is_viewable_by_trans me t).1, n)
  else none

/-! ## Invariants of the copy-source/copy-dest index -/

/-- The nodes a `push_copy_sources(t, dest, src)` registers as copy sources of
`dest`: `src` itself when stable, its prior instance when mutation-pending,
its copy sources when initial-pending. -/
def Store.pushed_sources (s : Store) (src : NodeRef) : List NodeRef :=
  if (s.nodes src).is_stable then [src]
  else if (s.nodes src).is_mutation_pending then
    match (s.nodes src).prior_instance with
    | none => []
    | some p => [p]
  else (s.nodes src).copy_sources

/-- Copy-source/copy-dest symmetry for the transaction `t`, for every pending
node of `t` outside the list `donors`: a stable node `S` is a copy source of
`P` iff `P` is among the copy dests of `S` for `t`. -/
def copy_symmetry (s : Store) (t : transaction_id_t) (donors : List NodeRef) : Prop :=
  ∀ S P, (s.nodes S).is_stable = true → (s.nodes P).is_pending = true →
    (s.nodes P).pending_for_transaction = t → P ∉ donors →
    (S ∈ (s.nodes P).copy_sources ↔ P ∈ s.copy_dests S t)

/-- The invariant of `std::set` under `node_cmp_t` for every `dests_by_key`: no
two members share a begin key. -/
def dests_wf (s : Store) : Prop :=
  ∀ S t, ∀ a ∈ s.copy_dests S t, ∀ b ∈ s.copy_dests S t,
    s.begin_of a = s.begin_of b → a = b

/-- No two different nodes among the copy sources of `dest` and the nodes of
`extra` share a begin key, so that `std::set::insert` of a node of `extra`
into `dest.copy_sources` does insert it. -/
def sources_distinct (s : Store) (dest : NodeRef) (extra : List NodeRef) : Prop :=
  ∀ a b, (a ∈ (s.nodes dest).copy_sources ∨ a ∈ extra) →
    (b ∈ (s.nodes dest).copy_sources ∨ b ∈ extra) → s.begin_of a = s.begin_of b → a = b

/-- The two stores agree on what the extent lifecycle provider and the node
layout give for every node (state, transaction, prior instance, range, keys). -/
def Store.same_static (s s' : Store) : Prop :=
  ∀ x, (s'.nodes x).state = (s.nodes x).state
    ∧ (s'.nodes x).pending_for_transaction = (s.nodes x).pending_for_transaction
    ∧ (s'.nodes x).prior_instance = (s.nodes x).prior_instance
    ∧ (s'.nodes x).range_begin = (s.nodes x).range_begin
    ∧ (s'.nodes x).range_end = (s.nodes x).range_end
    ∧ (s'.nodes x).keys = (s.nodes x).keys

/-- The symmetry of the index for `t`, checked on the nodes `0 .. n-1`. -/
def symmetry_check (s : Store) (t : transaction_id_t) (n : Nat) : Bool :=
  (List.range n).all fun S => (List.range n).all fun P =>
    !((s.nodes S).is_stable && (s.nodes P).is_pending
        && (s.nodes P).pending_for_transaction == t)
      || (decide (S ∈ (s.nodes P).copy_sources) == decide (P ∈ s.copy_dests S t))

/-- The invariant `dests_wf`, checked on the nodes `0 .. n-1`. -/
def dests_check (s : Store) (n : Nat) : Bool :=
  (List.range n).all fun S => (s.nodes S).copy_dests_by_trans.all fun e =>
    e.2.all fun a => e.2.all fun b => s.begin_of a != s.begin_of b || a == b

/-- The hypothesis `sources_distinct`, checked on the members. -/
def sources_distinct_check (s : Store) (dest : NodeRef) (extra : List NodeRef) : Bool :=
  ((s.nodes dest).copy_sources ++ extra).all fun a =>
    ((s.nodes dest).copy_sources ++ extra).all fun b => s.begin_of a != s.begin_of b || a == b

/-! ## Removal of a child pointer -/

/-- The method `maybe_shink_children` on the node `n`. -/
def maybe_shink_children (CHILD_VEC_UNIT : Nat) (n : Node) : Node :=
  if CHILD_VEC_UNIT ≠ 0 then
    if n.children.length > CHILD_VEC_UNIT ∧ n.get_size < n.children.length / 3 then
      (n.resize_children (p2roundup n.get_size CHILD_VEC_UNIT)).shrink_children_to_fit
    else n
  else n

/-- The method `remove_child_ptr(offset)` of node `me`. The `memmove` reads the
slots `[offset + 1, get_size())`: it aborts when they are not all inside the
array, and when `get_size() - offset - 1` wraps around. -/
def remove_child_ptr (CHILD_VEC_UNIT : Nat) (s : Store) (me : NodeRef) (offset : Nat) :
    Option Store :=
  if offset < (s.nodes me).get_size ∧ (s.nodes me).get_size ≤ (s.nodes me).children.length then
    let seg := ((s.nodes me).children.drop (offset + 1)).take ((s.nodes me).get_size - offset - 1)
    some (s.set_node me (maybe_shink_children CHILD_VEC_UNIT
      { s.nodes me with children := memmove (s.nodes me).children offset seg }))
  else none

/-! ## Balance -/

/-- The static method `balance_child_ptrs(t, left, right, pivot_idx,
replacement_left, replacement_right)`. A pivot beyond `l_size + r_size` makes
`r_size + l_size - pivot_idx` wrap around, a size no child array can be
expanded to. -/
def balance_child_ptrs (CHILD_VEC_UNIT : Nat) (s : Store) (left right : NodeRef)
    (pivot_idx : Nat) (replacement_left replacement_right : NodeRef) : Option Store :=
  let l_size := (s.nodes left).get_size
  let r_size := (s.nodes right).get_size
  if pivot_idx = l_size ∨ pivot_idx = r_size then none
  else if pivot_idx > r_size + l_size then none
  else do
    let rl ← maybe_expand_children CHILD_VEC_UNIT (s.nodes replacement_left) pivot_idx
    let s1 := s.set_node replacement_left rl
    let rr ← maybe_expand_children CHILD_VEC_UNIT (s1.nodes replacement_right)
      (r_size + l_size - pivot_idx)
    let s2 := s1.set_node replacement_right rr
    if (s2.nodes replacement_left).my_tracker.isSome
        || (s2.nodes replacement_right).my_tracker.isSome then none
    else if pivot_idx < l_size then do
      let s3 ←
        if (s2.nodes left).is_pending then do
          let a ← move_child_ptrs s2 replacement_left left 0 0 pivot_idx
          let b ← move_child_ptrs a replacement_right left 0 pivot_idx l_size
          some (b.clear_my_tracker left)
        else some s2
      if (s3.nodes right).is_pending then do
        let a ← move_child_ptrs s3 replacement_right right (l_size - pivot_idx) 0 r_size
        some (a.clear_my_tracker right)
      else some s3
    else do
      let s3 ←
        if (s2.nodes left).is_pending then do
          let a ← move_child_ptrs s2 replacement_left left 0 0 l_size
          some (a.clear_my_tracker left)
        else some s2
      if (s3.nodes right).is_pending then do
        let a ← move_child_ptrs s3 replacement_left right l_size 0 (pivot_idx - l_size)
        let b ← move_child_ptrs a replacement_right right 0 (pivot_idx - l_size) r_size
        some (b.clear_my_tracker right)
      else some s3

/-! ## Stability query -/

/-- The method `parent_tracker_t::get_parent`. -/
def parent_tracker_t.get_parent (tr : parent_tracker_t) : Option NodeRef :=
  tr.parent

/-- The method `parent_tracker_t::reset_parent(p)` on the tracker cell `tr`. -/
def Store.reset_parent (s : Store) (tr : TrackerRef) (p : NodeRef) : Store :=
  { s with trackers := fun x => if x = tr then ⟨some p⟩ else s.trackers x }

def BaseChildNode.has_parent_tracker (c : BaseChildNode) : Bool :=
  c.parent_tracker.isSome

/-- The method `reset_parent_tracker(p)` of the child `child`. -/
def reset_parent_tracker (s : Store) (child : ChildPtr) (p : Option TrackerRef) : Store :=
  { s with
    child_objs := fun c =>
      if c = child then { s.child_objs c with parent_tracker := p } else s.child_objs c }

/-- The method `peek_parent_node` of the child `child`. -/
def peek_parent_node (s : Store) (child : ChildPtr) : Option NodeRef :=
  match (s.child_objs child).parent_tracker with
  | none => none
  | some tr => (s.trackers tr).get_parent

/-- The search of `get_parent_pos` in the layout of the parent `n` for the begin
key `key` of the child; `get_key()` of an iterator outside the key array aborts. -/
def Node.parent_pos (n : Node) (key : Nat) : Option Nat :=
  let iter := n.lower_bound key
  match n.keys[iter]? with
  | none => none
  | some k =>
    if k > key then
      if iter = n.get_size then none
      else if iter = 0 then none
      else
        match n.keys[iter - 1]? with
        | none => none
        | some k' => if k' = key then some (iter - 1) else none
    else if k = key then some iter
    else none

/-- The method `get_parent_pos` of the child `me`; `get_begin()` of the child is
its `node_begin()`. -/
def get_parent_pos (s : Store) (me : ChildPtr) : Option Nat :=
  match peek_parent_node s me with
  | none => none
  | some parent => (s.nodes parent).parent_pos (s.child_objs me).node_begin

/-- The destructor `~parent_tracker_t` of the tracker cell `tr`: `my_tracker` of
its parent is cleared when it is this tracker. -/
def parent_tracker_t.destructor (s : Store) (tr : TrackerRef) : Store :=
  match (s.trackers tr).parent with
  | none => s
  | some p => if (s.nodes p).my_tracker = some tr then s.clear_my_tracker p else s

/-- The method `on_invalidated` of the child `me`: `reset_parent_tracker()`
drops the reference of the child to its tracker. Reference counts are not part
of the store; `last_reference` tells whether the child held the last
reference to its tracker, in which case the tracker is destroyed. -/
def on_invalidated (s : Store) (me : ChildPtr) (last_reference : Bool) : Store :=
  match (s.child_objs me).parent_tracker with
  | none => reset_parent_tracker s me none
  | some tr =>
    if last_reference then parent_tracker_t.destructor (reset_parent_tracker s me none) tr
    else reset_parent_tracker s me none

/-- The method `destroy` of the child `me`; `is_btree_root` is the answer of
`is_btree_root()` of the derived class. -/
def destroy (s : Store) (me : ChildPtr) (is_btree_root : Bool) : Option Store :=
  if is_btree_root then none
  else if (s.child_objs me).has_parent_tracker then
    match get_parent_pos s me with
    | none => none
    | some off =>
      match peek_parent_node s me with
      | none => none
      | some parent =>
        if (s.nodes parent).children[off]? = some me then
          some (s.set_children parent ((s.nodes parent).children.set off nullptr))
        else none
  else none

/-- The method `_take_parent_from_prior` of the child `me`; `is_btree_root` and
`prior_instance` are the answers of `is_btree_root()` and
`get_prior_instance()` of the derived class. -/
def _take_parent_from_prior (s : Store) (me : ChildPtr) (is_btree_root : Bool)
    (prior_instance : Option ChildPtr) : Option Store :=
  if is_btree_root then none
  else
    match prior_instance with
    | none => none
    | some prior =>
      let s1 := reset_parent_tracker s me (s.child_objs prior).parent_tracker
      if (s1.child_objs me).has_parent_tracker then
        match get_parent_pos s1 me with
        | none => none
        | some off =>
          match peek_parent_node s1 me with
          | none => none
          | some parent =>
            if (s1.nodes parent).children[off]? = some prior then
              some (s1.set_children parent ((s1.nodes parent).children.set off me))
            else none
      else none

/-- The method `take_parent_from_prior` of the child `me`. -/
def take_parent_from_prior (s : Store) (me : ChildPtr) (is_btree_root : Bool)
    (prior_instance : Option ChildPtr) : Option Store :=
  _take_parent_from_prior s me is_btree_root prior_instance

/-! ## Ownership of trackers -/

/-- The tracker of node `d`, when it has one, is an allocated cell whose parent is `d`. -/
def tracker_owned (s : Store) (d : NodeRef) : Prop :=
  ∀ tr, (s.nodes d).my_tracker = some tr →
    (s.trackers tr).get_parent = some d ∧ tr < s.next_tracker

/-- The parent tracker of the child `c` is the tracker of node `d`, whose parent is `d`. -/
def tracked_by (s : Store) (d : NodeRef) (c : ChildPtr) : Prop :=
  ∃ tr, (s.nodes d).my_tracker = some tr ∧ (s.child_objs c).parent_tracker = some tr
    ∧ (s.trackers tr).get_parent = some d

/-! ## Agreement of children and trackers -/

/-- The method `link_child(child, pos)` of node `me` with the store as it is
when the call stops: `Except.error st` is an abort in the store `st`,
`Except.ok st` a return. The assertions come before the only write. -/
def link_child_traced (s : Store) (me : NodeRef) (child : ChildPtr) (pos : Nat) :
    Except Store Store :=
  if pos < (s.nodes me).get_size ∧ pos < (s.nodes me).children.length ∧ child ≠ nullptr
      ∧ (s.nodes me).is_stable = true ∧ (s.child_objs child).is_stable = true
      ∧ (s.nodes me).children[pos]? = some nullptr ∧ is_valid_child_ptr child = true then
    match update_child_ptr s me pos child with
    | some s1 => Except.ok s1
    | none => Except.error s
  else Except.error s

/-- The first statement of `set_child_ptracker` of node `me`: the node gets a
tracker when it has none. -/
def ensure_my_tracker (s : Store) (me : NodeRef) : Store :=
  match (s.nodes me).my_tracker with
  | some _ => s
  | none =>
    { (s.set_node me { s.nodes me with my_tracker := some s.next_tracker }) with
      trackers := fun x => if x = s.next_tracker then ⟨some me⟩ else s.trackers x
      next_tracker := s.next_tracker + 1 }

/-- The method `update_child_ptr(pos, child)` of node `me` with the store as it
is when the call stops: `Except.error st` is a stop in the store `st`,
`Except.ok st` a return. For a `child` that is null or the reserved sentinel
the slot has been written and the node has its tracker when
`child->reset_parent_tracker(...)` dereferences `child`. -/
def update_child_ptr_traced (s : Store) (me : NodeRef) (pos : Nat) (child : ChildPtr) :
    Except Store Store :=
  if pos < (s.nodes me).children.length then
    let s1 := s.set_children me ((s.nodes me).children.set pos child)
    if is_valid_child_ptr child then Except.ok (set_child_ptracker s1 me child)
    else Except.error (ensure_my_tracker s1 me)
  else Except.error s

/-- The method `insert_child_ptr(offset, child, size)` of node `me` with the
store as it is when the call stops: `Except.error st` is an abort in the
store `st`, `Except.ok st` a return. -/
def insert_child_ptr_traced (CHILD_VEC_UNIT : Nat) (s : Store) (me : NodeRef) (offset : Nat)
    (child : ChildPtr) (size : Nat) : Except Store Store :=
  if child = nullptr then Except.error s
  else
    let size := if size = 0 then (s.nodes me).get_size else size
    match maybe_expand_children CHILD_VEC_UNIT (s.nodes me) (size + 1) with
    | none => Except.error s
    | some n =>
      if size < n.children.length ∧ offset ≤ size then
        let seg := (n.children.drop offset).take (size - offset)
        let s1 := s.set_node me
          { n with children := (memmove n.children (offset + 1) seg).set offset child }
        Except.ok (if is_reserved_ptr child then s1 else set_child_ptracker s1 me child)
      else Except.error (s.set_node me n)

/-! ## Validity of the parent of a child -/

/-- The method `parent_tracker_t::is_valid` of the tracker cell `tr`. -/
def parent_tracker_t.is_valid (s : Store) (tr : parent_tracker_t) : Bool :=
  match tr.parent with
  | none => false
  | some p => (s.nodes p).is_valid

/-- The method `is_parent_valid` of the child `child`. -/
def is_parent_valid (s : Store) (child : ChildPtr) : Bool :=
  match (s.child_objs child).parent_tracker with
  | none => false
  | some tr => parent_tracker_t.is_valid s (s.trackers tr)

/-! ## Key alignment -/

/-- The method `on_replace_prior` of node `me` (`ParentNode::on_replace_prior`). -/
def on_replace_prior (s : Store) (me : NodeRef) : Option Store :=
  if (s.nodes me).is_rewrite then none
  else
    match take_children_from_prior_instance s me with
    | none => none
    | some s1 => if validate_stable_children s1 me == some true then some s1 else none

/-- Key alignment of the node `n`, `node_begin` giving the begin key of every
child: every valid child pointer in a slot that has a key has that key as
begin key (what `validate_stable_children` checks). -/
def Node.keys_aligned (node_begin : ChildPtr → Nat) (n : Node) : Prop :=
  ∀ (i k : Nat) (c : ChildPtr), n.keys[i]? = some k → n.children[i]? = some c →
    is_valid_child_ptr c = true → node_begin c = k

/-- Key alignment of the node `r` of the store. -/
def Store.keys_aligned (s : Store) (r : NodeRef) : Prop :=
  (s.nodes r).keys_aligned (fun c => (s.child_objs c).node_begin)

/-! ## Overlap of the copy sources -/

/-- The key ranges `[range_begin, range_end)` of the two nodes have a key in common. -/
def Node.overlaps (a b : Node) : Bool :=
  decide (max a.range_begin b.range_begin < min a.range_end b.range_end)

/-- Class invariant 3d for the node `P`: every member of `copy_sources` is a
stable node whose key range overlaps the key range of `P`. -/
def copy_sources_overlap (s : Store) (P : NodeRef) : Prop :=
  ∀ S ∈ (s.nodes P).copy_sources,
    (s.nodes S).is_stable = true ∧ (s.nodes S).overlaps (s.nodes P) = true

/-! ## The bulk moves of split, merge and balance -/

/-- One statement of the pointer surgery of `split_child_ptrs`,
`merge_child_ptrs` and `balance_child_ptrs`: a call `move_child_ptrs(dest, src,
dest_start, src_start, src_end)` or an assignment `r.my_tracker = nullptr`. -/
inductive surgery_step where
  | move (dest src : NodeRef) (dest_start src_start src_end : Nat)
  | clear (r : NodeRef)
  deriving DecidableEq, Repr

/-- The statements `steps` run one after the other. -/
def run_steps : List surgery_step → Store → Option Store
  | [], s => some s
  | surgery_step.move dest src dest_start src_start src_end :: rest, s =>
    match move_child_ptrs s dest src dest_start src_start src_end with
    | none => none
    | some s1 => run_steps rest s1
  | surgery_step.clear r :: rest, s => run_steps rest (s.clear_my_tracker r)

/-- The statements of `split_child_ptrs(t, left, right)` of node `me` that
follow the two calls of `maybe_expand_children`; `pivot` is the value of
`me.get_node_split_pivot()`. -/
def split_child_ptrs_steps (s : Store) (me left right : NodeRef) (pivot : Nat) :
    List surgery_step :=
  if (s.nodes me).is_pending then
    [surgery_step.move left me 0 0 pivot,
      surgery_step.move right me 0 pivot (s.nodes me).get_size,
      surgery_step.clear me]
  else []

/-- The statements of `merge_child_ptrs(t, left, right)` of the new node `me`
that follow the call of `maybe_expand_children`. -/
def merge_child_ptrs_steps (s : Store) (me left right : NodeRef) : List surgery_step :=
  (if (s.nodes left).is_pending then
      [surgery_step.move me left 0 0 (s.nodes left).get_size, surgery_step.clear left]
    else [])
  ++ (if (s.nodes right).is_pending then
      [surgery_step.move me right (s.nodes left).get_size 0 (s.nodes right).get_size,
        surgery_step.clear right]
    else [])

/-- The statements of `balance_child_ptrs(t, left, right, pivot_idx,
replacement_left, replacement_right)` that follow the two calls of
`maybe_expand_children` and the assertions. -/
def balance_child_ptrs_steps (s : Store) (left right : NodeRef) (pivot_idx : Nat)
    (replacement_left replacement_right : NodeRef) : List surgery_step :=
  let l_size := (s.nodes left).get_size
  let r_size := (s.nodes right).get_size
  if pivot_idx < l_size then
    (if (s.nodes left).is_pending then
        [surgery_step.move replacement_left left 0 0 pivot_idx,
          surgery_step.move replacement_right left 0 pivot_idx l_size,
          surgery_step.clear left]
      else [])
    ++ (if (s.nodes right).is_pending then
        [surgery_step.move replacement_right right (l_size - pivot_idx) 0 r_size,
          surgery_step.clear right]
      else [])
  else
    (if (s.nodes left).is_pending then
        [surgery_step.move replacement_left left 0 0 l_size, surgery_step.clear left]
      else [])
    ++ (if (s.nodes right).is_pending then
        [surgery_step.move replacement_left right l_size 0 (pivot_idx - l_size),
          surgery_step.move replacement_right right 0 (pivot_idx - l_size) r_size,
          surgery_step.clear right]
      else [])

/-- The call of `move_child_ptrs` reads a source range `[src_start, src_end)`
inside the array of `src` (its `size()` elements) and writes a destination
range `[dest_start, dest_start + src_end - src_start)` inside the capacity of
`dest`, the arrays being those of the store `s`. -/
def surgery_step.in_bounds (s : Store) : surgery_step → Prop
  | surgery_step.move dest src dest_start src_start src_end =>
    src_start ≤ src_end ∧ src_end ≤ (s.nodes src).children_size
      ∧ dest_start + (src_end - src_start) ≤ (s.nodes dest).children.length
  | surgery_step.clear _ => True

/-- Two calls of `move_child_ptrs` into one node write destination ranges that
do not overlap. -/
def surgery_step.writes_apart : surgery_step → surgery_step → Prop
  | surgery_step.move d1 _ ds1 ss1 se1, surgery_step.move d2 _ ds2 ss2 se2 =>
    d1 = d2 → ds1 + (se1 - ss1) ≤ ds2 ∨ ds2 + (se2 - ss2) ≤ ds1
  | _, _ => True

/-! ## Concrete stores used by the examples -/

/-- A node with no keys, no children and no links. -/
def Node.blank (st : extent_state_t) : Node :=
  { state := st, pending_for_transaction := 0, prior_instance := none,
    range_begin := 0, range_end := 0, keys := [], children := [], children_spare := 0,
    copy_sources := [], copy_dests_by_trans := [],
    mutation_pending_extents := [], my_tracker := none }

def Store.blank : Store :=
  { nodes := fun _ => Node.blank extent_state_t.INVALID,
    child_objs := fun _ => ⟨none, 0, true, true⟩,
    trackers := fun _ => ⟨none⟩,
    next_tracker := 0 }

/-- A store whose node `me` is `n`, with two fresh fixed-capacity nodes `1` and `2`
of capacity `cap` (initial-pending, all slots null). -/
def Store.with_fresh_pair (n : Node) (cap : Nat) : Store :=
  { Store.blank with
    nodes := fun x =>
      if x = 0 then n
      else if x = 1 ∨ x = 2 then
        { Node.blank extent_state_t.INITIAL_PENDING with children := List.replicate cap nullptr }
      else Node.blank extent_state_t.INVALID }

/-- A stable node with two keys and two valid children. -/
def split_stable_node : Node :=
  { Node.blank extent_state_t.STABLE with
    range_begin := 10, range_end := 30, keys := [10, 20], children := [100, 200] }

/-- A pending node with two keys whose slots hold one and the same child. -/
def split_twice_node : Node :=
  { Node.blank extent_state_t.INITIAL_PENDING with
    range_begin := 10, range_end := 30, keys := [10, 20], children := [100, 100] }

/-- A mutation-pending node with two keys whose slots are still null. -/
def split_null_node : Node :=
  { Node.blank extent_state_t.MUTATION_PENDING with
    range_begin := 10, range_end := 30, keys := [10, 20], children := [nullptr, nullptr] }

/-- An initial-pending node with four keys and four valid children. -/
def split_pending_node : Node :=
  { Node.blank extent_state_t.INITIAL_PENDING with
    range_begin := 10, range_end := 50, keys := [10, 20, 30, 40],
    children := [100, 200, 300, 400] }

/-- A store with a fresh fixed-capacity node `0` of capacity `cap` and two donors `1`, `2`. -/
def Store.with_donors (l r : Node) (cap : Nat) : Store :=
  { Store.blank with
    nodes := fun x =>
      if x = 0 then
        { Node.blank extent_state_t.INITIAL_PENDING with children := List.replicate cap nullptr }
      else if x = 1 then l
      else if x = 2 then r
      else Node.blank extent_state_t.INVALID }

/-- A stable donor with one key and one valid child. -/
def merge_stable_left : Node :=
  { Node.blank extent_state_t.STABLE with
    range_begin := 10, range_end := 20, keys := [10], children := [100] }

/-- A pending donor with two keys and two valid children. -/
def merge_pending_left : Node :=
  { Node.blank extent_state_t.INITIAL_PENDING with
    range_begin := 10, range_end := 30, keys := [10, 20], children := [100, 200] }

/-- A pending donor with one key and one valid child. -/
def merge_pending_right : Node :=
  { Node.blank extent_state_t.MUTATION_PENDING with
    range_begin := 30, range_end := 40, keys := [30], children := [300] }

/-- A pending node with keys 5, 7, 8, 9: the slot of 7 is already taken, the
slot of 8 is reserved, the other slots are null. -/
def copy_local_node : Node :=
  { Node.blank extent_state_t.MUTATION_PENDING with
    range_begin := 0, range_end := 10, keys := [5, 7, 8, 9],
    children := [nullptr, 700, get_reserved_ptr, nullptr] }

/-- A stable node with keys 5, 6, 7, 8, 9 and a child for each but the last, which is reserved. -/
def copy_source_node : Node :=
  { Node.blank extent_state_t.STABLE with
    range_begin := 0, range_end := 10, keys := [5, 6, 7, 8, 9],
    children := [50, 60, 70, 80, get_reserved_ptr] }

/-- Scenario 2, stable node A: range [0,10), a key and a child for each of 0..9. -/
def scenario_A : Node :=
  { Node.blank extent_state_t.STABLE with
    range_begin := 0, range_end := 10, keys := List.range 10,
    children := (List.range 10).map (fun k => 100 + k) }

/-- Scenario 2, stable node B: range [10,20), a key and a child for each of 10..19. -/
def scenario_B : Node :=
  { Node.blank extent_state_t.STABLE with
    range_begin := 10, range_end := 20, keys := (List.range 10).map (fun k => 10 + k),
    children := (List.range 10).map (fun k => 110 + k) }

/-- Scenario 2, initial-pending node C: range [5,15) with copy sources A and B;
keys 7 and 12 were deleted in this transaction, the slot of key 8 was already
filled in this transaction, the slot of key 11 is reserved, the others are null. -/
def scenario_C : Node :=
  { Node.blank extent_state_t.INITIAL_PENDING with
    range_begin := 5, range_end := 15, keys := [5, 6, 8, 9, 10, 11, 13, 14],
    children := [nullptr, nullptr, 808, nullptr, nullptr, get_reserved_ptr, nullptr, nullptr],
    copy_sources := [1, 2] }

/-- Scenario 2: C is node 0, A is node 1, B is node 2. -/
def scenario_store : Store :=
  { Store.blank with
    nodes := fun x =>
      if x = 0 then scenario_C
      else if x = 1 then scenario_A
      else if x = 2 then scenario_B
      else Node.blank extent_state_t.INVALID }

/-- A store made of the listed nodes (node `i` is the `i`-th of the list); a
child at address `100 + i` has begin key `10 * i`. -/
def Store.of_list (l : List Node) : Store :=
  { nodes := fun x => l.getD x (Node.blank extent_state_t.INVALID),
    child_objs := fun c => ⟨none, (c - 100) * 10, true, true⟩,
    trackers := fun _ => ⟨none⟩,
    next_tracker := 0 }

/-- A fresh initial-pending node of transaction 7 with range `[b, e)`, no key
and `cap` null slots. -/
def fresh_node (b e cap : Nat) : Node :=
  { Node.blank extent_state_t.INITIAL_PENDING with
    pending_for_transaction := 7, range_begin := b, range_end := e,
    children := List.replicate cap nullptr }

/-- Scenario 3 and its neighbours, all of transaction 7.
Node 0 is R, initial-pending over [0,60) with six keys and copy sources 3 and 4;
nodes 1 and 2 are the fresh L and Right; nodes 3 and 4 are the stable
predecessors of R; node 5 is a fresh merge target for the initial-pending
donors 6 and 7, whose copy sources are the stable nodes 8 and 9; nodes 10 and
11 are fresh replacements for a balance of 6 and 7. -/
def index_store : Store :=
  Store.of_list
    [ { Node.blank extent_state_t.INITIAL_PENDING with
        pending_for_transaction := 7, range_begin := 0, range_end := 60,
        keys := [0, 10, 20, 30, 40, 50],
        children := [nullptr, nullptr, 102, nullptr, nullptr, nullptr],
        copy_sources := [3, 4] },
      fresh_node 0 30 3,
      fresh_node 30 60 3,
      { Node.blank extent_state_t.STABLE with
        range_begin := 0, range_end := 30, keys := [0, 10, 20], children := [100, 101, 102],
        copy_dests_by_trans := [(7, [0])] },
      { Node.blank extent_state_t.STABLE with
        range_begin := 30, range_end := 60, keys := [30, 40, 50], children := [103, 104, 105],
        copy_dests_by_trans := [(7, [0])] },
      fresh_node 60 80 4,
      { Node.blank extent_state_t.INITIAL_PENDING with
        pending_for_transaction := 7, range_begin := 60, range_end := 70,
        keys := [60, 65], children := [nullptr, nullptr], copy_sources := [8] },
      { Node.blank extent_state_t.INITIAL_PENDING with
        pending_for_transaction := 7, range_begin := 70, range_end := 80,
        keys := [70, 75], children := [nullptr, nullptr], copy_sources := [9] },
      { Node.blank extent_state_t.STABLE with
        range_begin := 60, range_end := 70, keys := [60, 65], children := [106, 107],
        copy_dests_by_trans := [(7, [6])] },
      { Node.blank extent_state_t.STABLE with
        range_begin := 70, range_end := 80, keys := [70, 75], children := [107, 108],
        copy_dests_by_trans := [(7, [7])] },
      fresh_node 60 65 2,
      fresh_node 65 80 2 ]

/-- A stable node (node 0, range [0,30)) that no transaction has touched, and
a fresh initial-pending node of transaction 7 over the same range (node 1), as
they are when a rewrite of node 0 starts. -/
def fresh_rewrite_store : Store :=
  Store.of_list
    [ { Node.blank extent_state_t.STABLE with
        range_begin := 0, range_end := 30, keys := [0, 10, 20], children := [100, 101, 102] },
      fresh_node 0 30 3 ]

/-- Scenario 1: node 0 is the stable node N with four keys, its child at
position 2 being `c2`; node 1 is N', the mutation-pending version of N for
transaction 1, whose slots are all null. -/
def scenario1_store (c2 : ChildPtr) : Store :=
  Store.of_list
    [ { Node.blank extent_state_t.STABLE with
        range_begin := 0, range_end := 40, keys := [0, 10, 20, 30],
        children := [100, 101, c2, 103], mutation_pending_extents := [(1, 1)] },
      { Node.blank extent_state_t.MUTATION_PENDING with
        pending_for_transaction := 1, prior_instance := some 0,
        range_begin := 0, range_end := 40, keys := [0, 10, 20, 30],
        children := [nullptr, nullptr, nullptr, nullptr] } ]

/-- A stable node (node 0, range [0,100)) retired by transaction 7, with the
copy dests 1 = [0,30), 2 = [30,60) and 3 = [70,100) registered for 7, and a
mutation-pending version (node 4) for transaction 8. -/
def resolve_store : Store :=
  Store.of_list
    [ { Node.blank extent_state_t.STABLE with
        range_begin := 0, range_end := 100,
        copy_dests_by_trans := [(7, [1, 2, 3])], mutation_pending_extents := [(8, 4)] },
      fresh_node 0 30 0,
      fresh_node 30 60 0,
      fresh_node 70 100 0,
      { Node.blank extent_state_t.MUTATION_PENDING with
        pending_for_transaction := 8, prior_instance := some 0,
        range_begin := 0, range_end := 100 } ]

/-- The answers of `is_viewable_by_trans` for `resolve_store`: node 0 is retired
for transaction 7, has become pending for transaction 8 and is viewable by
every other transaction; the other nodes are viewable (pending). -/
def resolve_viewable (r : NodeRef) (t : transaction_id_t) : Bool × viewable_state_t :=
  if r = 0 then
    if t = 7 then (false, viewable_state_t.stable_become_retired)
    else if t = 8 then (false, viewable_state_t.stable_become_pending)
    else (true, viewable_state_t.stable)
  else (true, viewable_state_t.pending)

/-- Modelled from the spec: the node layout of `T` takes the key `k` at its end,
as the caller of `insert_child_ptr` makes it do next to the call (the layout
is not part of the source). -/
def Store.append_key (s : Store) (r : NodeRef) (k : Nat) : Store :=
  s.set_node r { s.nodes r with keys := (s.nodes r).keys ++ [k] }

/-- The child `c` with the key `k` is appended to node `r`: the call
`insert_child_ptr(get_size(), c, get_size())`, then the key goes into the
layout. -/
def append_child (CHILD_VEC_UNIT : Nat) (s : Store) (r : NodeRef) (c : ChildPtr) (k : Nat) :
    Option Store :=
  (insert_child_ptr CHILD_VEC_UNIT s r (s.nodes r).get_size c (s.nodes r).get_size).map
    (fun s' => s'.append_key r k)

/-- A pending node of a dynamically sized node type (node 0) with four keys and
a child array of four elements, as constructed (`capacity() = size() = 4`);
nodes 1 and 2 are fresh nodes whose child arrays are still empty. -/
def grow_store : Store :=
  Store.of_list
    [ { Node.blank extent_state_t.INITIAL_PENDING with
        pending_for_transaction := 7, range_begin := 0, range_end := 90,
        keys := [0, 10, 20, 30], children := [100, 101, 102, 103] },
      fresh_node 0 30 0,
      fresh_node 30 90 0 ]

/-- The store `grow_store` after the children 104, 105 and 106 have been
appended to node 0, `CHILD_VEC_UNIT` being 2 (`none` if an insertion aborts). -/
def grown_store : Option Store :=
  (append_child 2 grow_store 0 104 40).bind fun s1 =>
    (append_child 2 s1 0 105 50).bind fun s2 => append_child 2 s2 0 106 60

/-! ## Concrete stores for the child node engine -/

/-- A stable parent (node 0) with keys 0, 10, 20, 30, the children 100 .. 103
and the tracker 0, which every child carries; the child 112 is a
mutation-pending version of the child 102 and has no tracker yet; the child 105
has begin key 50 and no tracker. -/
def family_store : Store :=
  { nodes := fun x =>
      if x = 0 then
        { Node.blank extent_state_t.STABLE with
          range_begin := 0, range_end := 40, keys := [0, 10, 20, 30],
          children := [100, 101, 102, 103], my_tracker := some 0 }
      else Node.blank extent_state_t.INVALID,
    child_objs := fun c =>
      if 100 ≤ c ∧ c < 104 then ⟨some 0, (c - 100) * 10, true, true⟩
      else if c = 112 then ⟨none, 20, true, false⟩
      else ⟨none, (c - 100) * 10, true, true⟩,
    trackers := fun x => if x = 0 then ⟨some 0⟩ else ⟨none⟩,
    next_tracker := 1 }

/-- The store `family_store` with the slot 2 of the parent empty and the child
102 without tracker. -/
def link_store : Store :=
  { family_store with
    nodes := fun x =>
      if x = 0 then
        { Node.blank extent_state_t.STABLE with
          range_begin := 0, range_end := 40, keys := [0, 10, 20, 30],
          children := [100, 101, nullptr, 103], my_tracker := some 0 }
      else Node.blank extent_state_t.INVALID,
    child_objs := fun c =>
      if c = 100 ∨ c = 101 ∨ c = 103 then ⟨some 0, (c - 100) * 10, true, true⟩
      else ⟨none, (c - 100) * 10, true, true⟩ }

/-- Two pending donors (node 0 with the children 100 .. 103, node 1 with the
children 104 and 105) and two fresh replacement nodes 2 and 3 of capacity 4. -/
def balance_store : Store :=
  Store.of_list
    [ { Node.blank extent_state_t.INITIAL_PENDING with
        range_begin := 0, range_end := 40, keys := [0, 10, 20, 30],
        children := [100, 101, 102, 103] },
      { Node.blank extent_state_t.MUTATION_PENDING with
        range_begin := 40, range_end := 60, keys := [40, 50], children := [104, 105] },
      fresh_node 0 30 4,
      fresh_node 30 60 4 ]

/-- A stable node (node 0) with the tracker 0 and its mutation-pending version
(node 1), which already holds a child of this transaction in its slot 1. The
children 100 .. 103 carry the tracker 0, the child 111 does not. -/
def retarget_store : Store :=
  { nodes := fun x =>
      if x = 0 then
        { Node.blank extent_state_t.STABLE with
          range_begin := 0, range_end := 40, keys := [0, 10, 20, 30],
          children := [100, 101, 102, 103], my_tracker := some 0 }
      else if x = 1 then
        { Node.blank extent_state_t.MUTATION_PENDING with
          pending_for_transaction := 1, prior_instance := some 0,
          range_begin := 0, range_end := 40, keys := [0, 10, 20, 30],
          children := [nullptr, 111, nullptr, nullptr] }
      else Node.blank extent_state_t.INVALID,
    child_objs := fun c =>
      if 100 ≤ c ∧ c < 104 then ⟨some 0, (c - 100) * 10, true, true⟩
      else ⟨none, (c - 110) * 10, true, false⟩,
    trackers := fun x => if x = 0 then ⟨some 0⟩ else ⟨none⟩,
    next_tracker := 1 }

/-- A dynamically sized node (node 0) with three keys and a child array of twelve slots. -/
def shrink_store : Store :=
  Store.of_list
    [ { Node.blank extent_state_t.MUTATION_PENDING with
        range_begin := 0, range_end := 30, keys := [0, 10, 20],
        children := [100, 101, 102] ++ List.replicate 9 nullptr } ]

/-- The store `retarget_store` with node 1 a rewrite of node 0 instead of a
mutation-pending version: initial-pending, with node 0 as prior instance and
only copy source. -/
def rewrite_store : Store :=
  { retarget_store with
    nodes := fun x =>
      if x = 1 then
        { retarget_store.nodes 1 with
          state := extent_state_t.INITIAL_PENDING, copy_sources := [0] }
      else retarget_store.nodes x }

/-! ## Predicates for the agreement through the pointer surgery -/

/-- A guarded result that is there has passed its guard. -/
theorem ite_some_guard {α : Type} {c : Prop} [Decidable c] {a : Option α} {b : α}
    (h : (if c then a else none) = some b) : c ∧ a = some b := by
  by_cases hc : c
  · rw [if_pos hc] at h; exact ⟨hc, h⟩
  · rw [if_neg hc] at h; exact absurd h (by simp)

theorem Node.same_links_refl (a : Node) : a.same_links a :=
  ⟨a.children, a.children_spare, a.my_tracker, rfl⟩

theorem Node.same_links_trans {a b c : Node} (h1 : a.same_links b) (h2 : b.same_links c) :
    a.same_links c := by
  obtain ⟨ch1, sp1, tr1, rfl⟩ := h1
  obtain ⟨ch2, sp2, tr2, rfl⟩ := h2
  exact ⟨ch2, sp2, tr2, rfl⟩

theorem Node.same_links_keys {a b : Node} (h : a.same_links b) : b.keys = a.keys := by
  obtain ⟨ch, sp, tr, rfl⟩ := h; rfl

theorem Node.same_links_get_size {a b : Node} (h : a.same_links b) :
    b.get_size = a.get_size := by
  obtain ⟨ch, sp, tr, rfl⟩ := h; rfl

theorem Node.same_links_range_end {a b : Node} (h : a.same_links b) :
    b.range_end = a.range_end := by
  obtain ⟨ch, sp, tr, rfl⟩ := h; rfl

theorem Node.same_links_range_begin {a b : Node} (h : a.same_links b) :
    b.range_begin = a.range_begin := by
  obtain ⟨ch, sp, tr, rfl⟩ := h; rfl

theorem Node.same_links_state {a b : Node} (h : a.same_links b) : b.state = a.state := by
  obtain ⟨ch, sp, tr, rfl⟩ := h; rfl

theorem Node.same_links_is_pending {a b : Node} (h : a.same_links b) :
    b.is_pending = a.is_pending := by
  obtain ⟨ch, sp, tr, rfl⟩ := h; rfl

theorem Node.same_links_copy_sources {a b : Node} (h : a.same_links b) :
    b.copy_sources = a.copy_sources := by
  obtain ⟨ch, sp, tr, rfl⟩ := h; rfl

theorem Node.same_links_copy_dests {a b : Node} (h : a.same_links b) :
    b.copy_dests_by_trans = a.copy_dests_by_trans := by
  obtain ⟨ch, sp, tr, rfl⟩ := h; rfl

@[simp] theorem Store.set_node_same (s : Store) (r : NodeRef) (n : Node) :
    (s.set_node r n).nodes r = n := by
  simp [Store.set_node]

theorem Store.set_node_other (s : Store) (r : NodeRef) (n : Node) {x : NodeRef} (h : x ≠ r) :
    (s.set_node r n).nodes x = s.nodes x := by
  simp [Store.set_node, h]

theorem Store.clear_my_tracker_same_links (s : Store) (r x : NodeRef) :
    (s.nodes x).same_links ((s.clear_my_tracker r).nodes x) := by
  unfold Store.clear_my_tracker
  by_cases hx : x = r
  · subst hx; rw [Store.set_node_same]; exact ⟨_, _, _, rfl⟩
  · rw [Store.set_node_other _ _ _ hx]; exact Node.same_links_refl _

theorem Store.clear_my_tracker_children (s : Store) (r x : NodeRef) :
    ((s.clear_my_tracker r).nodes x).children = (s.nodes x).children := by
  unfold Store.clear_my_tracker
  by_cases hx : x = r
  · subst hx; rw [Store.set_node_same]
  · rw [Store.set_node_other _ _ _ hx]

theorem Store.clear_my_tracker_children_size (s : Store) (r x : NodeRef) :
    ((s.clear_my_tracker r).nodes x).children_size = (s.nodes x).children_size := by
  unfold Store.clear_my_tracker
  by_cases hx : x = r
  · subst hx; rw [Store.set_node_same]; rfl
  · rw [Store.set_node_other _ _ _ hx]

theorem Node.children_size_le (n : Node) : n.children_size ≤ n.children.length :=
  Nat.sub_le _ _

@[simp] theorem Store.clear_my_tracker_tracker (s : Store) (r : NodeRef) :
    ((s.clear_my_tracker r).nodes r).my_tracker = none := by
  unfold Store.clear_my_tracker
  rw [Store.set_node_same]

theorem Store.set_node_self (s : Store) (r : NodeRef) : s.set_node r (s.nodes r) = s := by
  unfold Store.set_node
  have : (fun x => if x = r then s.nodes r else s.nodes x) = s.nodes := by
    funext x
    split
    · rename_i h; rw [h]
    · rfl
  rw [this]

theorem Store.set_node_set_node (s : Store) (r : NodeRef) (a b : Node) :
    (s.set_node r a).set_node r b = s.set_node r b := by
  unfold Store.set_node
  simp only
  congr 1
  funext x
  split <;> rfl

/-- The method `set_child_ptracker` leaves every child array as it was. -/
theorem set_child_ptracker_children (s : Store) (me : NodeRef) (c : ChildPtr) (x : NodeRef) :
    ((set_child_ptracker s me c).nodes x).children = (s.nodes x).children := by
  unfold set_child_ptracker
  cases h : (s.nodes me).my_tracker with
  | some t => simp
  | none =>
    by_cases hx : x = me
    · subst hx; simp [Store.set_node]
    · simp [Store.set_node, hx]

/-- The method `set_child_ptracker` leaves the size of every child array as it was. -/
theorem set_child_ptracker_children_size (s : Store) (me : NodeRef) (c : ChildPtr)
    (x : NodeRef) :
    ((set_child_ptracker s me c).nodes x).children_size = (s.nodes x).children_size := by
  unfold set_child_ptracker
  cases h : (s.nodes me).my_tracker with
  | some t => simp
  | none =>
    by_cases hx : x = me
    · subst hx; simp [Store.set_node, Node.children_size]
    · simp [Store.set_node, hx]

theorem set_child_ptracker_same_links (s : Store) (me : NodeRef) (c : ChildPtr) (x : NodeRef) :
    (s.nodes x).same_links ((set_child_ptracker s me c).nodes x) := by
  unfold set_child_ptracker
  cases h : (s.nodes me).my_tracker with
  | some t => exact Node.same_links_refl _
  | none =>
    by_cases hx : x = me
    · subst hx
      exact ⟨(s.nodes x).children, (s.nodes x).children_spare, some s.next_tracker,
        by simp [Store.set_node]⟩
    · simp only [Store.set_node, hx, if_false]
      exact Node.same_links_refl _

/-- The tracker loop of `move_child_ptrs` leaves every child array as it was. -/
theorem foldl_ptracker_children (dest : NodeRef) (l : List ChildPtr) (s : Store) (x : NodeRef) :
    ((l.foldl (fun st child =>
        if is_valid_child_ptr child then set_child_ptracker st dest child else st) s).nodes
      x).children = (s.nodes x).children := by
  induction l generalizing s with
  | nil => rfl
  | cons c cs ih =>
    simp only [List.foldl_cons]
    rw [ih]
    split
    · exact set_child_ptracker_children s dest c x
    · rfl

theorem foldl_ptracker_children_size (dest : NodeRef) (l : List ChildPtr) (s : Store)
    (x : NodeRef) :
    ((l.foldl (fun st child =>
        if is_valid_child_ptr child then set_child_ptracker st dest child else st) s).nodes
      x).children_size = (s.nodes x).children_size := by
  induction l generalizing s with
  | nil => rfl
  | cons c cs ih =>
    simp only [List.foldl_cons]
    rw [ih]
    split
    · exact set_child_ptracker_children_size s dest c x
    · rfl

theorem foldl_ptracker_same_links (dest : NodeRef) (l : List ChildPtr) (s : Store)
    (x : NodeRef) :
    (s.nodes x).same_links ((l.foldl (fun st child =>
        if is_valid_child_ptr child then set_child_ptracker st dest child else st) s).nodes
      x) := by
  induction l generalizing s with
  | nil => exact Node.same_links_refl _
  | cons c cs ih =>
    simp only [List.foldl_cons]
    refine Node.same_links_trans ?_ (ih _)
    split
    · exact set_child_ptracker_same_links s dest c x
    · exact Node.same_links_refl _

/-- What a successful `move_child_ptrs` does to the child arrays. -/
theorem move_child_ptrs_some {s s' : Store} {dest src : NodeRef} {ds ss se : Nat}
    (h : move_child_ptrs s dest src ds ss se = some s') :
    (s'.nodes dest).children =
        memmove (s.nodes dest).children ds (((s.nodes src).children.drop ss).take (se - ss))
      ∧ (∀ x, x ≠ dest → (s'.nodes x).children = (s.nodes x).children)
      ∧ (∀ x, (s.nodes x).same_links (s'.nodes x)) := by
  unfold move_child_ptrs at h
  split at h
  · simp only [Option.some.injEq] at h
    subst h
    refine ⟨?_, ?_, ?_⟩
    · rw [foldl_ptracker_children]; simp
    · intro x hx
      rw [foldl_ptracker_children, Store.set_node_other _ _ _ hx]
    · intro x
      refine Node.same_links_trans ?_ (foldl_ptracker_same_links _ _ _ x)
      by_cases hx : x = dest
      · subst hx
        rw [Store.set_node_same]
        exact ⟨_, _, _, rfl⟩
      · rw [Store.set_node_other _ _ _ hx]
        exact Node.same_links_refl _
  · exact absurd h (by simp)

/-- A successful `move_child_ptrs` leaves the length of the storage and the
size of every child array as they were. -/
theorem move_child_ptrs_children_size {s s' : Store} {dest src : NodeRef} {ds ss se : Nat}
    (h : move_child_ptrs s dest src ds ss se = some s') (x : NodeRef) :
    (s'.nodes x).children.length = (s.nodes x).children.length
      ∧ (s'.nodes x).children_size = (s.nodes x).children_size := by
  unfold move_child_ptrs at h
  split at h
  · rename_i hg
    simp only [Option.some.injEq] at h
    subst h
    have hsl := Node.children_size_le (s.nodes src)
    rw [foldl_ptracker_children, foldl_ptracker_children_size]
    by_cases hx : x = dest
    · subst hx
      rw [Store.set_node_same]
      have hlen : (memmove (s.nodes x).children ds
          (((s.nodes src).children.drop ss).take (se - ss))).length
          = (s.nodes x).children.length := by
        unfold memmove
        simp only [List.length_append, List.length_take, List.length_drop]
        omega
      exact ⟨hlen, by simp only [Node.children_size, hlen]⟩
    · rw [Store.set_node_other _ _ _ hx]
      exact ⟨rfl, rfl⟩
  · exact absurd h (by simp)

/-- The guard of `move_child_ptrs` is all it needs to succeed. -/
theorem move_child_ptrs_isSome (s : Store) (dest src : NodeRef) (ds ss se : Nat)
    (h1 : ss < se) (h2 : se ≤ (s.nodes src).children_size)
    (h3 : ds + (se - ss) ≤ (s.nodes dest).children.length) :
    ∃ s', move_child_ptrs s dest src ds ss se = some s' := by
  unfold move_child_ptrs
  rw [if_pos ⟨h1, h2, h3⟩]
  exact ⟨_, rfl⟩

/-! ## Backing array lemmas -/

theorem p2roundup_ge (x a : Nat) (ha : a ≠ 0) : x ≤ p2roundup x a := by
  unfold p2roundup
  have hpos : 0 < a := Nat.pos_of_ne_zero ha
  have h1 : (x + a - 1) % a < a := Nat.mod_lt _ hpos
  have h2 := Nat.div_add_mod (x + a - 1) a
  have h3 : (x + a - 1) / a * a = a * ((x + a - 1) / a) := Nat.mul_comm _ _
  omega

theorem vec_check_len_ge (size added : Nat) : size + added ≤ vec_check_len size added := by
  unfold vec_check_len
  omega

theorem Node.resize_children_same_links (n : Node) (k : Nat) :
    n.same_links (n.resize_children k) := by
  unfold Node.resize_children
  split
  · exact ⟨_, _, _, rfl⟩
  · split <;> exact ⟨_, _, _, rfl⟩

theorem Node.resize_children_my_tracker (n : Node) (k : Nat) :
    (n.resize_children k).my_tracker = n.my_tracker := by
  unfold Node.resize_children
  split
  · rfl
  · split <;> rfl

/-- The storage after `resize(k)`: as long as before when `k` is within the
capacity, and the grown capacity of libstdc++ otherwise. -/
theorem Node.resize_children_length (n : Node) (k : Nat) :
    (n.resize_children k).children.length
      = if k ≤ n.children.length then n.children.length
        else vec_check_len n.children_size (k - n.children_size) := by
  have hle := Node.children_size_le n
  unfold Node.resize_children
  split
  · rename_i h1
    rw [if_pos (by omega)]
  · rename_i h1
    split
    · rename_i h2
      simp only [List.length_append, List.length_take, List.length_replicate, List.length_drop]
      omega
    · rename_i h2
      have := vec_check_len_ge n.children_size (k - n.children_size)
      simp only [List.length_append, List.length_take, List.length_replicate]
      omega

/-- After `resize(k)` the vector has `k` elements. -/
theorem Node.resize_children_size (n : Node) (k : Nat) :
    (n.resize_children k).children_size = k := by
  have hle := Node.children_size_le n
  have hlen := Node.resize_children_length n k
  have hsp : (n.resize_children k).children_spare
      = (if k ≤ n.children.length then n.children.length
          else vec_check_len n.children_size (k - n.children_size)) - k := by
    unfold Node.resize_children
    split
    · rename_i h1
      rw [if_pos (by omega)]
    · split <;> rfl
  have hck := vec_check_len_ge n.children_size (k - n.children_size)
  unfold Node.children_size
  rw [hlen, hsp]
  split
  · omega
  · simp only [Node.children_size] at hck ⊢
    omega

/-- The call `resize(k)` keeps the elements below `k` and the old size. -/
theorem Node.resize_children_take (n : Node) (k m : Nat) (hm : m ≤ n.children_size)
    (hk : m ≤ k) : (n.resize_children k).children.take m = n.children.take m := by
  have hle := Node.children_size_le n
  unfold Node.resize_children
  split
  · rfl
  · split
    · simp only
      rw [List.append_assoc, List.take_append_of_le_length (by simp; omega), List.take_take,
        Nat.min_eq_left hm]
    · simp only
      rw [List.take_append_of_le_length (by simp; omega), List.take_take, Nat.min_eq_left hm]

theorem Node.shrink_children_to_fit_same_links (n : Node) :
    n.same_links n.shrink_children_to_fit :=
  ⟨_, _, _, rfl⟩

/-- What a successful `maybe_expand_children` gives: room for `size` slots in
the storage, the elements of the array where they were, nothing else touched. -/
theorem maybe_expand_children_some {U : Nat} {n n' : Node} {size : Nat}
    (h : maybe_expand_children U n size = some n') :
    size ≤ n'.children.length ∧ n.same_links n' ∧ n'.my_tracker = n.my_tracker
      ∧ n.children.length ≤ n'.children.length
      ∧ n'.children.take n.children_size = n.children.take n.children_size := by
  have hle := Node.children_size_le n
  unfold maybe_expand_children at h
  split at h
  · rename_i hU
    split at h
    · rename_i hsz
      simp only [Option.some.injEq] at h
      subst h
      have hge := p2roundup_ge size U hU
      have hlen := Node.resize_children_length n (p2roundup size U)
      rw [if_neg (by omega)] at hlen
      have := vec_check_len_ge n.children_size (p2roundup size U - n.children_size)
      refine ⟨by omega, Node.resize_children_same_links _ _, Node.resize_children_my_tracker _ _,
        by omega, Node.resize_children_take _ _ _ (le_refl _) (by omega)⟩
    · rename_i hsz
      simp only [Option.some.injEq] at h
      subst h
      exact ⟨by omega, Node.same_links_refl _, rfl, le_refl _, rfl⟩
  · split at h
    · rename_i hsz
      simp only [Option.some.injEq] at h
      subst h
      exact ⟨hsz, Node.same_links_refl _, rfl, le_refl _, rfl⟩
    · exact absurd h (by simp)

/-- Within the capacity `maybe_expand_children` does nothing. -/
theorem maybe_expand_children_of_le {U : Nat} {n n' : Node} {size : Nat}
    (h : maybe_expand_children U n size = some n') (hsz : size ≤ n.children.length) :
    n' = n := by
  unfold maybe_expand_children at h
  by_cases hU : U = 0
  · simp only [hU, ne_eq, not_true_eq_false, if_false, if_pos hsz, Option.some.injEq] at h
    exact h.symm
  · simp only [ne_eq, hU, not_false_eq_true, if_true, gt_iff_lt, if_neg (Nat.not_lt.mpr hsz),
      Option.some.injEq] at h
    exact h.symm

theorem maybe_expand_children_isSome (U : Nat) (n : Node) (size : Nat)
    (h : U = 0 → size ≤ n.children.length) :
    ∃ n', maybe_expand_children U n size = some n' := by
  unfold maybe_expand_children
  by_cases hU : U = 0
  · simp [hU, h hU]
  · simp only [ne_eq, hU, not_false_eq_true, if_true]
    split <;> exact ⟨_, rfl⟩

theorem memmove_length (dst : List ChildPtr) (k : Nat) (seg : List ChildPtr)
    (h : k + seg.length ≤ dst.length) : (memmove dst k seg).length = dst.length := by
  unfold memmove
  simp
  omega

theorem memmove_take_drop (dst : List ChildPtr) (k : Nat) (seg : List ChildPtr)
    (h : k + seg.length ≤ dst.length) :
    ((memmove dst k seg).drop k).take seg.length = seg := by
  unfold memmove
  have hk : (dst.take k).length = k := by simp; omega
  rw [List.append_assoc, List.drop_left' hk]
  simp

theorem take_length_drop_take (l : List ChildPtr) (a b : Nat) (h : a + b ≤ l.length) :
    ((l.drop a).take b).length = b := by
  simp
  omega

/-- Helper for the split: how the pieces are laid out after a split of a pending node. -/
theorem split_child_ptrs_pending_layout (U : Nat) (s : Store) (me left right : NodeRef)
    (pivot : Nat)
    (hpend : (s.nodes me).is_pending = true)
    (hlm : left ≠ me) (hrm : right ≠ me) (hlr : left ≠ right)
    (hlt : (s.nodes left).my_tracker = none) (hrt : (s.nodes right).my_tracker = none)
    (hp0 : 0 < pivot) (hpn : pivot < (s.nodes me).get_size)
    (hsize : (s.nodes me).get_size ≤ (s.nodes me).children_size)
    (hfix : U = 0 → pivot ≤ (s.nodes left).children.length
      ∧ (s.nodes me).get_size - pivot ≤ (s.nodes right).children.length) :
    ∃ s', split_child_ptrs U s me left right pivot = some s'
      ∧ (s'.nodes left).children.take pivot = (s.nodes me).children.take pivot
      ∧ (s'.nodes right).children.take ((s.nodes me).get_size - pivot)
          = ((s.nodes me).children.drop pivot).take ((s.nodes me).get_size - pivot)
      ∧ (s'.nodes me).children = (s.nodes me).children
      ∧ (s'.nodes me).my_tracker = none := by
  obtain ⟨l, hl⟩ := maybe_expand_children_isSome U (s.nodes left) pivot (fun h => (hfix h).1)
  have hs1r : (s.set_node left l).nodes right = s.nodes right :=
    Store.set_node_other _ _ _ hlr.symm
  have hs1m : (s.set_node left l).nodes me = s.nodes me :=
    Store.set_node_other _ _ _ hlm.symm
  obtain ⟨r, hr⟩ := maybe_expand_children_isSome U (s.nodes right)
    ((s.nodes me).get_size - pivot) (fun h => (hfix h).2)
  obtain ⟨hl1, -, -, -, -⟩ := maybe_expand_children_some hl
  obtain ⟨hr1, -, -, -, -⟩ := maybe_expand_children_some hr
  have hs2m : ((s.set_node left l).set_node right r).nodes me = s.nodes me := by
    rw [Store.set_node_other _ _ _ hrm.symm, hs1m]
  have hs2l : ((s.set_node left l).set_node right r).nodes left = l := by
    rw [Store.set_node_other _ _ _ hlr]; simp
  have hs2r : ((s.set_node left l).set_node right r).nodes right = r := by simp
  have hsz : (s.nodes me).get_size = (s.nodes me).keys.length := rfl
  have hcap : (s.nodes me).get_size ≤ (s.nodes me).children.length :=
    Nat.le_trans hsize (Node.children_size_le _)
  obtain ⟨s3, h3⟩ := move_child_ptrs_isSome ((s.set_node left l).set_node right r) left me
    0 0 pivot hp0 (by rw [hs2m]; omega) (by rw [hs2l]; omega)
  obtain ⟨h3l, h3o, h3s⟩ := move_child_ptrs_some h3
  have h3m : (s3.nodes me).children = (s.nodes me).children := by
    rw [h3o me hlm.symm, hs2m]
  have h3r : (s3.nodes right).children = r.children := by
    rw [h3o right hlr.symm, hs2r]
  have h3sz : (s3.nodes me).get_size = (s.nodes me).get_size := by
    rw [Node.same_links_get_size (h3s me), hs2m]
  obtain ⟨s4, h4⟩ := move_child_ptrs_isSome s3 right me 0 pivot (s3.nodes me).get_size
    (by rw [h3sz]; exact hpn)
    (by rw [h3sz, (move_child_ptrs_children_size h3 me).2, hs2m]; exact hsize)
    (by rw [h3sz, h3r]; omega)
  obtain ⟨h4r, h4o, h4s⟩ := move_child_ptrs_some h4
  refine ⟨s4.clear_my_tracker me, ?_, ?_, ?_, ?_, ?_⟩
  · unfold split_child_ptrs
    have hpend2 : (((s.set_node left l).set_node right r).nodes me).is_pending = true := by
      rw [hs2m]; exact hpend
    simp [hlt, hrt, Nat.not_lt.mpr (Nat.le_of_lt hpn), hl, hs1r, hs1m, hr, hpend2, h3, h4]
  · rw [Store.clear_my_tracker_children, h4o left hlr, h3l, hs2l, hs2m]
    simp only [List.drop_zero, Nat.sub_zero]
    have hlen : ((s.nodes me).children.take pivot).length = pivot := by simp; omega
    have := memmove_take_drop l.children 0 ((s.nodes me).children.take pivot)
      (by rw [hlen]; omega)
    rw [hlen] at this
    simpa using this
  · rw [Store.clear_my_tracker_children, h4r, h3r, h3m, h3sz]
    have hlen : (((s.nodes me).children.drop pivot).take ((s.nodes me).get_size - pivot)).length
        = (s.nodes me).get_size - pivot := by simp; omega
    have := memmove_take_drop r.children 0
      (((s.nodes me).children.drop pivot).take ((s.nodes me).get_size - pivot))
      (by rw [hlen]; omega)
    rw [hlen] at this
    simpa using this
  · rw [Store.clear_my_tracker_children, h4o me hrm.symm, h3m]
  · simp

theorem memmove_take_end (dst : List ChildPtr) (k : Nat) (seg : List ChildPtr)
    (h : k ≤ dst.length) :
    (memmove dst k seg).take (k + seg.length) = dst.take k ++ seg := by
  unfold memmove
  have hk : (dst.take k ++ seg).length = k + seg.length := by simp; omega
  rw [List.take_left' hk]

/-! ## The merge walk of one copy source -/

theorem pairwise_lt_getElem? {l : List Nat} (h : l.Pairwise (fun a b => a < b)) {i j a b : Nat}
    (hij : i < j) (hi : l[i]? = some a) (hj : l[j]? = some b) : a < b := by
  obtain ⟨hi1, rfl⟩ := List.getElem?_eq_some_iff.mp hi
  obtain ⟨hj1, rfl⟩ := List.getElem?_eq_some_iff.mp hj
  exact List.pairwise_iff_getElem.mp h i j hi1 hj1 hij

theorem pairwise_lt_le {l : List Nat} (h : l.Pairwise (fun a b => a < b)) {i j a b : Nat}
    (hij : i ≤ j) (hi : l[i]? = some a) (hj : l[j]? = some b) : a ≤ b := by
  rcases Nat.lt_or_eq_of_le hij with hlt | heq
  · exact Nat.le_of_lt (pairwise_lt_getElem? h hlt hi hj)
  · subst heq; rw [hi] at hj; cases hj; exact le_refl _

theorem pairwise_lt_inj {l : List Nat} (h : l.Pairwise (fun a b => a < b)) {i j a : Nat}
    (hi : l[i]? = some a) (hj : l[j]? = some a) : i = j := by
  rcases Nat.lt_trichotomy i j with hlt | heq | hgt
  · exact absurd (pairwise_lt_getElem? h hlt hi hj) (lt_irrefl _)
  · exact heq
  · exact absurd (pairwise_lt_getElem? h hgt hj hi) (lt_irrefl _)

theorem walk_post_stop (me source : Node) (f fe l : Nat)
    (h : ¬ (f ≠ fe ∧ l < me.get_size)) : walk_post me source f fe l me l := by
  refine ⟨Node.same_links_refl _, rfl, rfl, le_refl _, ?_, ?_, ?_⟩
  · intro i j k hi hj hjf hki hkj hnull
    have hil : i < me.keys.length := (List.getElem?_eq_some_iff.mp hki).1
    exfalso
    apply h
    unfold Node.get_size
    constructor <;> omega
  · intro i _; rfl
  · intro i ki hi hin; omega

theorem walk_post_foreign_lt (me source : Node) (f fe l : Nat) (me' : Node) (next : Nat)
    (hlk : me.keys.Pairwise (fun a b => a < b)) {fk lk : Nat}
    (hfk : source.keys[f]? = some fk) (hlkey : me.keys[l]? = some lk) (hlt : fk < lk)
    (h : walk_post me source (f + 1) fe l me' next) : walk_post me source f fe l me' next := by
  obtain ⟨h1, h2, h3, h4, h5, h6, h7⟩ := h
  refine ⟨h1, h2, h3, h4, ?_, ?_, ?_⟩
  · intro i j k hi hj hjf hki hkj hnull
    have hjne : j ≠ f := by
      rintro rfl
      rw [hfk] at hkj
      cases hkj
      have := pairwise_lt_le hlk hi hlkey hki
      omega
    exact h5 i j k hi (by omega) hjf hki hkj hnull
  · intro i hi
    apply h6
    rintro ⟨a, b, j, k, hj, c⟩
    exact hi ⟨a, b, j, k, by omega, c⟩
  · intro i ki hi hin hki
    obtain ⟨j, kj, hj, rest⟩ := h7 i ki hi hin hki
    exact ⟨j, kj, by omega, rest⟩

theorem walk_post_local_lt (me source : Node) (f fe l : Nat) (me' : Node) (next : Nat)
    (hsk : source.keys.Pairwise (fun a b => a < b)) {fk lk : Nat} (hffe : f < fe)
    (hfk : source.keys[f]? = some fk) (hlkey : me.keys[l]? = some lk) (hlt : lk < fk)
    (h : walk_post me source f fe (l + 1) me' next) : walk_post me source f fe l me' next := by
  obtain ⟨h1, h2, h3, h4, h5, h6, h7⟩ := h
  refine ⟨h1, h2, h3, by omega, ?_, ?_, ?_⟩
  · intro i j k hi hj hjf hki hkj hnull
    have hine : i ≠ l := by
      rintro rfl
      rw [hlkey] at hki
      cases hki
      have := pairwise_lt_le hsk hj hfk hkj
      omega
    exact h5 i j k (by omega) hj hjf hki hkj hnull
  · intro i hi
    apply h6
    rintro ⟨a, b⟩
    exact hi ⟨by omega, b⟩
  · intro i ki hi hin hki
    by_cases hil : i = l
    · subst hil
      rw [hlkey] at hki
      cases hki
      exact ⟨f, fk, le_refl _, hffe, hfk, Nat.le_of_lt hlt⟩
    · exact h7 i ki (by omega) hin hki

theorem walk_post_eq_keep (me source : Node) (f fe l : Nat) (me' : Node) (next : Nat)
    (hlk : me.keys.Pairwise (fun a b => a < b))
    {k0 child : Nat} (hffe : f < fe)
    (hfk : source.keys[f]? = some k0) (hlkey : me.keys[l]? = some k0)
    (hchild : me.children[l]? = some child) (hnn : child ≠ nullptr)
    (h : walk_post me source (f + 1) fe (l + 1) me' next) :
    walk_post me source f fe l me' next := by
  obtain ⟨h1, h2, h3, h4, h5, h6, h7⟩ := h
  refine ⟨h1, h2, h3, by omega, ?_, ?_, ?_⟩
  · intro i j k hi hj hjf hki hkj hnull
    have hine : i ≠ l := by
      rintro rfl
      rw [hchild] at hnull
      cases hnull
      exact hnn rfl
    have hjne : j ≠ f := by
      rintro rfl
      rw [hfk] at hkj
      cases hkj
      exact hine (pairwise_lt_inj hlk hki hlkey)
    exact h5 i j k (by omega) (by omega) hjf hki hkj hnull
  · intro i hi
    apply h6
    rintro ⟨a, b, j, k, hj, c⟩
    exact hi ⟨by omega, b, j, k, by omega, c⟩
  · intro i ki hi hin hki
    by_cases hil : i = l
    · subst hil
      rw [hlkey] at hki
      cases hki
      exact ⟨f, _, le_refl _, hffe, hfk, le_refl _⟩
    · obtain ⟨j, kj, hj, rest⟩ := h7 i ki (by omega) hin hki
      exact ⟨j, kj, by omega, rest⟩

theorem walk_post_eq_copy (me source : Node) (f fe l : Nat) (me' : Node) (next : Nat)
    (hlk : me.keys.Pairwise (fun a b => a < b)) (hsk : source.keys.Pairwise (fun a b => a < b))
    {k0 c : Nat} (hffe : f < fe)
    (hfk : source.keys[f]? = some k0) (hlkey : me.keys[l]? = some k0)
    (hchild : me.children[l]? = some nullptr) (hc : source.children[f]? = some c)
    (h : walk_post { me with children := me.children.set l c } source (f + 1) fe (l + 1)
      me' next) :
    walk_post me source f fe l me' next := by
  obtain ⟨h1, h2, h3, h4, h5, h6, h7⟩ := h
  have hll : l < me.children.length := (List.getElem?_eq_some_iff.mp hchild).1
  have hset : ∀ i, i ≠ l → (me.children.set l c)[i]? = me.children[i]? := by
    intro i hi
    exact List.getElem?_set_ne (Ne.symm hi)
  have hsame : me.same_links me' :=
    Node.same_links_trans ⟨me.children.set l c, me.children_spare, me.my_tracker, rfl⟩ h1
  have hl' : me'.children[l]? = source.children[f]? := by
    have := h6 l (by rintro ⟨a, -⟩; omega)
    rw [this, hc]
    exact List.getElem?_set_self hll
  refine ⟨hsame, h2, ?_, by omega, ?_, ?_, ?_⟩
  · rw [h3]; exact List.length_set _ _ _
  · intro i j k hi hj hjf hki hkj hnull
    by_cases hil : i = l
    · subst hil
      rw [hlkey] at hki
      cases hki
      have hjf' : j = f := pairwise_lt_inj hsk hkj hfk
      subst hjf'
      exact hl'
    · have hjne : j ≠ f := by
        rintro rfl
        rw [hfk] at hkj
        cases hkj
        exact hil (pairwise_lt_inj hlk hki hlkey)
      have := h5 i j k (by omega) (by omega) hjf hki hkj (by
        show (me.children.set l c)[i]? = some nullptr
        rw [hset i hil]; exact hnull)
      exact this
  · intro i hi
    have hil : i ≠ l := by
      rintro rfl
      exact hi ⟨le_refl _, hchild, f, k0, le_refl _, hffe, hlkey, hfk⟩
    have := h6 i (by
      rintro ⟨a, b, j, k, hj, c1, c2, c3⟩
      exact hi ⟨by omega, by rw [← hset i hil]; exact b, j, k, by omega, c1, c2, c3⟩)
    rw [this]
    exact hset i hil
  · intro i ki hi hin hki
    by_cases hil : i = l
    · subst hil
      rw [hlkey] at hki
      cases hki
      exact ⟨f, _, le_refl _, hffe, hfk, le_refl _⟩
    · obtain ⟨j, kj, hj, rest⟩ := h7 i ki (by omega) hin hki
      exact ⟨j, kj, by omega, rest⟩

/-- The loop of `copy_children_from_stable_source` returns, and what it returns
satisfies `walk_post`, whenever the fuel exceeds the distance left to walk. -/
theorem copy_children_loop_spec (source : Node) (fe : Nat)
    (hsk : source.keys.Pairwise (fun a b => a < b)) (hfe : fe ≤ source.get_size)
    (hscap : source.get_size ≤ source.children.length) :
    ∀ (fuel : Nat) (me : Node) (f l : Nat),
      me.keys.Pairwise (fun a b => a < b) → me.get_size ≤ me.children.length → f ≤ fe →
      (fe - f) + (me.get_size - l) < fuel →
      ∃ me' next, copy_children_loop source fe fuel me f l = some (me', next)
        ∧ walk_post me source f fe l me' next := by
  intro fuel
  induction fuel with
  | zero => intro me f l _ _ _ h; omega
  | succ n ih =>
    intro me f l hlk hcap hf hfuel
    unfold copy_children_loop
    by_cases hcond : f ≠ fe ∧ l < me.get_size
    · rw [if_pos hcond]
      obtain ⟨hne, hl⟩ := hcond
      have hffe : f < fe := lt_of_le_of_ne hf hne
      have hsz : me.get_size = me.keys.length := rfl
      have hssz : source.get_size = source.keys.length := rfl
      have h1 : l < me.children.length := by omega
      have h2 : f < source.keys.length := by omega
      have h3 : l < me.keys.length := by omega
      have h4 : f < source.children.length := by omega
      have e1 := List.getElem?_eq_getElem h1
      have e2 := List.getElem?_eq_getElem h2
      have e3 := List.getElem?_eq_getElem h3
      have e4 := List.getElem?_eq_getElem h4
      rw [e1, e2, e3]
      simp only []
      by_cases heq : source.keys[f] = me.keys[l]
      · rw [if_pos heq]
        rw [heq] at e2
        by_cases hnull : me.children[l] = nullptr
        · rw [if_pos hnull, e4]
          simp only []
          rw [hnull] at e1
          obtain ⟨me', next, hres, hpost⟩ :=
            ih { me with children := me.children.set l source.children[f] } (f + 1) (l + 1)
              hlk (by simpa [Node.get_size] using hcap) (by omega)
              (by simp only [Node.get_size] at hfuel ⊢; omega)
          exact ⟨me', next, hres,
            walk_post_eq_copy me source f fe l me' next hlk hsk hffe e2 e3 e1 e4 hpost⟩
        · rw [if_neg hnull]
          obtain ⟨me', next, hres, hpost⟩ := ih me (f + 1) (l + 1) hlk hcap (by omega)
            (by omega)
          exact ⟨me', next, hres,
            walk_post_eq_keep me source f fe l me' next hlk hffe e2 e3 e1 hnull hpost⟩
      · rw [if_neg heq]
        by_cases hlt : source.keys[f] < me.keys[l]
        · rw [if_pos hlt]
          obtain ⟨me', next, hres, hpost⟩ := ih me (f + 1) l hlk hcap (by omega) (by omega)
          exact ⟨me', next, hres,
            walk_post_foreign_lt me source f fe l me' next hlk e2 e3 hlt hpost⟩
        · rw [if_neg hlt]
          obtain ⟨me', next, hres, hpost⟩ := ih me f (l + 1) hlk hcap hf (by omega)
          exact ⟨me', next, hres,
            walk_post_local_lt me source f fe l me' next hsk hffe e2 e3
              (Nat.lt_of_le_of_ne (Nat.le_of_not_lt hlt) (Ne.symm heq)) hpost⟩
    · rw [if_neg hcond]
      exact ⟨me, l, rfl, walk_post_stop me source f fe l hcond⟩

theorem copy_children_from_stable_source_walk (me source : Node) (fs fe ls : Nat)
    (hlk : me.keys.Pairwise (fun a b => a < b)) (hsk : source.keys.Pairwise (fun a b => a < b))
    (hfs : fs ≤ fe) (hfe : fe ≤ source.get_size)
    (hcap : me.get_size ≤ me.children.length)
    (hscap : source.get_size ≤ source.children.length) :
    ∃ me' next, copy_children_from_stable_source me source fs fe ls = some (me', next)
      ∧ walk_post me source fs fe ls me' next := by
  unfold copy_children_from_stable_source
  exact copy_children_loop_spec source fe hsk hfe hscap _ me fs ls hlk hcap hfs (by omega)

/-- C3: `copy_children_from_stable_source` over strictly increasing local keys
and strictly increasing source keys (cursors and capacities in bounds)
returns, and: a slot at or after the start cursor that was null and whose key
is the key at position `j` of the walked source range now holds
`source.children[j]`; every other slot (before the start cursor, already
non-null, reserved included, or with a key absent from the walked range) is
exactly what it was. -/
theorem copy_children_from_stable_source_spec (me source : Node) (fs fe ls : Nat)
    (hlk : me.keys.Pairwise (fun a b => a < b)) (hsk : source.keys.Pairwise (fun a b => a < b))
    (hfs : fs ≤ fe) (hfe : fe ≤ source.get_size)
    (hcap : me.get_size ≤ me.children.length)
    (hscap : source.get_size ≤ source.children.length) :
    ∃ me' next, copy_children_from_stable_source me source fs fe ls = some (me', next)
      ∧ me'.children.length = me.children.length
      ∧ (∀ i j k, ls ≤ i → fs ≤ j → j < fe → me.keys[i]? = some k → source.keys[j]? = some k →
          me.children[i]? = some nullptr → me'.children[i]? = source.children[j]?)
      ∧ (∀ i, ¬ (ls ≤ i ∧ me.children[i]? = some nullptr
            ∧ ∃ j k, fs ≤ j ∧ j < fe ∧ me.keys[i]? = some k ∧ source.keys[j]? = some k) →
          me'.children[i]? = me.children[i]?) := by
  obtain ⟨me', next, hres, -, -, h3, -, h5, h6, -⟩ :=
    copy_children_from_stable_source_walk me source fs fe ls hlk hsk hfs hfe hcap hscap
  exact ⟨me', next, hres, h3, h5, h6⟩

/-- C3 witness: local keys 5, 7, 8, 9 walked against source keys 5..9. -/
theorem copy_children_from_stable_source_spec_witness :
    ∃ me' next,
      copy_children_from_stable_source copy_local_node copy_source_node 0 5 0 = some (me', next)
      ∧ me'.children.length = copy_local_node.children.length
      ∧ (∀ i j k, 0 ≤ i → 0 ≤ j → j < 5 → copy_local_node.keys[i]? = some k →
          copy_source_node.keys[j]? = some k →
          copy_local_node.children[i]? = some nullptr →
          me'.children[i]? = copy_source_node.children[j]?)
      ∧ (∀ i, ¬ (0 ≤ i ∧ copy_local_node.children[i]? = some nullptr
            ∧ ∃ j k, 0 ≤ j ∧ j < 5 ∧ copy_local_node.keys[i]? = some k
              ∧ copy_source_node.keys[j]? = some k) →
          me'.children[i]? = copy_local_node.children[i]?) :=
  copy_children_from_stable_source_spec copy_local_node copy_source_node 0 5 0
    (by decide) (by decide) (by decide) (by decide) (by decide) (by decide)

/-! ## The merge walk over all copy sources -/

theorem lt_findIdx_upper {l : List Nat} (h : l.Pairwise (fun a b => a < b)) {j k key : Nat}
    (hj : l[j]? = some k) (hk : k ≤ key) : j < l.findIdx (fun x => decide (key < x)) := by
  by_contra hcon
  have hle : l.findIdx (fun x => decide (key < x)) ≤ j := Nat.le_of_not_lt hcon
  have hjl : j < l.length := (List.getElem?_eq_some_iff.mp hj).1
  have hlt : l.findIdx (fun x => decide (key < x)) < l.length := by omega
  have hp := @List.findIdx_getElem _ (fun x => decide (key < x)) l hlt
  simp only [decide_eq_true_eq] at hp
  have := pairwise_lt_le h hle (List.getElem?_eq_getElem hlt) hj
  omega

theorem lt_of_lt_findIdx_lower {l : List Nat} {j k key : Nat}
    (hj : l[j]? = some k) (hlt : j < l.findIdx (fun x => decide (key ≤ x))) : k < key := by
  obtain ⟨hjl, rfl⟩ := List.getElem?_eq_some_iff.mp hj
  have := List.not_of_lt_findIdx hlt
  simp only [decide_eq_false_iff_not] at this
  omega

theorem findIdx_mono {α : Type} (p q : α → Bool) (h : ∀ x, q x = true → p x = true) :
    ∀ l : List α, l.findIdx p ≤ l.findIdx q := by
  intro l
  induction l with
  | nil => simp
  | cons a t ih =>
    rw [List.findIdx_cons, List.findIdx_cons]
    cases hq : q a
    · cases hp : p a
      · simp only [cond_false]; omega
      · simp
    · rw [h a hq]; simp

theorem mem_of_getElem?_eq {l : List Nat} {i k : Nat} (h : l[i]? = some k) : k ∈ l := by
  obtain ⟨hi, rfl⟩ := List.getElem?_eq_some_iff.mp h
  exact List.getElem_mem hi

/-- The walk over the remaining copy sources returns, hands every null slot
whose key a remaining source holds that source's pointer, and leaves every
other slot as it was. -/
theorem copy_sources_walk_spec : ∀ (R : List Node) (me : Node) (sp L : Nat),
    sources_ok R → me.keys.Pairwise (fun a b => a < b) →
    (∀ k ∈ me.keys, k < me.range_end) → me.get_size ≤ me.children.length →
    (∀ c, R.head? = some c →
      sp ≤ (if c.is_in_range me.range_end then c.upper_bound me.range_end else c.get_size)
      ∧ ∀ (j : Nat) (kj : Nat), j < sp → c.keys[j]? = some kj →
          ∀ (i : Nat) (ki : Nat), L ≤ i → me.keys[i]? = some ki → kj < ki) →
    (∀ (i : Nat) (ki : Nat), i < L → me.keys[i]? = some ki →
      ∀ c ∈ R, ∀ (j : Nat) (kj : Nat), c.keys[j]? = some kj → ki < kj) →
    ∃ me', copy_sources_walk R me sp L = some me' ∧ me.same_links me'
      ∧ me'.children.length = me.children.length
      ∧ (∀ (i : Nat) (k : Nat) (c : Node) (j : Nat), c ∈ R → me.keys[i]? = some k →
          c.keys[j]? = some k →
          me.children[i]? = some nullptr → me'.children[i]? = c.children[j]?)
      ∧ (∀ i : Nat, ¬ (me.children[i]? = some nullptr
            ∧ ∃ c ∈ R, ∃ (j : Nat) (k : Nat),
                me.keys[i]? = some k ∧ c.keys[j]? = some k) →
          me'.children[i]? = me.children[i]?) := by
  intro R
  induction R with
  | nil =>
    intro me sp L _ _ _ _ _ _
    refine ⟨me, rfl, Node.same_links_refl _, rfl, ?_, ?_⟩
    · intro i k c j hc; exact absurd hc (List.not_mem_nil _)
    · intro i _; rfl
  | cons c rest ih =>
    intro me sp L hok hlk hkr hcap hPsp hPL
    obtain ⟨hpw, hall⟩ := hok
    obtain ⟨hcrest, hpwrest⟩ := List.pairwise_cons.mp hpw
    obtain ⟨hck, hcr, hccap⟩ := hall c (List.mem_cons_self _ _)
    have hokrest : sources_ok rest :=
      ⟨hpwrest, fun c' hc' => hall c' (List.mem_cons_of_mem _ hc')⟩
    obtain ⟨hsp1, hsp2⟩ := hPsp c rfl
    have hep_le : (if c.is_in_range me.range_end then c.upper_bound me.range_end
        else c.get_size) ≤ c.get_size := by
      split
      · exact List.findIdx_le_length _
      · exact le_refl _
    obtain ⟨me1, next, hres, w1, w2, w3, w4, w5, w6, w7⟩ :=
      copy_children_from_stable_source_walk me c sp _ L hlk hck hsp1 hep_le hcap hccap
    have match_c : ∀ (i k j : Nat), me.keys[i]? = some k → c.keys[j]? = some k →
        L ≤ i ∧ sp ≤ j ∧ j < (if c.is_in_range me.range_end then c.upper_bound me.range_end
          else c.get_size) := by
      intro i k j hki hkj
      have hiL : L ≤ i := by
        by_contra hcon
        have := hPL i k (by omega) hki c (List.mem_cons_self _ _) j k hkj
        omega
      refine ⟨hiL, ?_, ?_⟩
      · by_contra hcon
        have := hsp2 j k (by omega) hkj i k hiL hki
        omega
      · split
        · exact lt_findIdx_upper hck hkj (Nat.le_of_lt (hkr k (mem_of_getElem?_eq hki)))
        · exact (List.getElem?_eq_some_iff.mp hkj).1
    have nomatch_rest : ∀ c' ∈ rest, ∀ (k j j' : Nat), c.keys[j]? = some k →
        c'.keys[j']? = some k → False := by
      intro c' hc' k j j' hkj hkj'
      have h1 := (hcr k (mem_of_getElem?_eq hkj)).2
      have h2 := hcrest c' hc'
      have h3 := ((hall c' (List.mem_cons_of_mem _ hc')).2.1 k (mem_of_getElem?_eq hkj')).1
      omega
    unfold copy_sources_walk
    simp only [hres]
    by_cases hbreak : (if c.is_in_range me.range_end then c.upper_bound me.range_end
        else c.get_size) ≠ c.get_size
    · rw [if_pos hbreak]
      refine ⟨me1, rfl, w1, w3, ?_, ?_⟩
      · intro i k c' j hc' hki hkj hnull
        rcases List.mem_cons.mp hc' with rfl | hc'
        · obtain ⟨m1, m2, m3⟩ := match_c i k j hki hkj
          exact w5 i j k m1 m2 m3 hki hkj hnull
        · exfalso
          have hin : c.is_in_range me.range_end = true := by
            by_contra hcon
            rw [if_neg hcon] at hbreak
            exact hbreak rfl
          unfold Node.is_in_range at hin
          simp only [Bool.and_eq_true, decide_eq_true_eq] at hin
          obtain ⟨-, hin2⟩ := hin
          have h1 := hkr k (mem_of_getElem?_eq hki)
          have h2 := hcrest c' hc'
          have h3 := ((hall c' (List.mem_cons_of_mem _ hc')).2.1 k (mem_of_getElem?_eq hkj)).1
          omega
      · intro i hi
        apply w6
        rintro ⟨-, hnull, j, k, -, -, hki, hkj⟩
        exact hi ⟨hnull, c, List.mem_cons_self _ _, j, k, hki, hkj⟩
    · rw [if_neg hbreak]
      have hkeys : me1.keys = me.keys := Node.same_links_keys w1
      have hre : me1.range_end = me.range_end := Node.same_links_range_end w1
      obtain ⟨me', hres', s1, s3, hA, hB⟩ := ih me1 0 next hokrest (by rw [hkeys]; exact hlk)
        (by rw [hkeys, hre]; exact hkr)
        (by rw [w3]; unfold Node.get_size at hcap ⊢; rw [hkeys]; exact hcap)
        (by
          intro c2 _
          refine ⟨Nat.zero_le _, ?_⟩
          intro j kj hj
          omega)
        (by
          intro i ki hi hki c' hc' j kj hkj
          rw [hkeys] at hki
          by_cases hiL : i < L
          · exact hPL i ki hiL hki c' (List.mem_cons_of_mem _ hc') j kj hkj
          · obtain ⟨j0, kj0, -, -, hk0, hle⟩ := w7 i ki (by omega) hi hki
            have h1 := (hcr kj0 (mem_of_getElem?_eq hk0)).2
            have h2 := hcrest c' hc'
            have h3 := ((hall c' (List.mem_cons_of_mem _ hc')).2.1 kj
              (mem_of_getElem?_eq hkj)).1
            omega)
      refine ⟨me', hres', Node.same_links_trans w1 s1, by rw [s3, w3], ?_, ?_⟩
      · intro i k c' j hc' hki hkj hnull
        rcases List.mem_cons.mp hc' with rfl | hc'
        · obtain ⟨m1, m2, m3⟩ := match_c i k j hki hkj
          rw [← w5 i j k m1 m2 m3 hki hkj hnull]
          apply hB
          rintro ⟨-, c'', hc'', j', k', hki', hkj'⟩
          rw [hkeys, hki] at hki'
          cases hki'
          exact nomatch_rest c'' hc'' k j j' hkj hkj'
        · have hsame : me1.children[i]? = me.children[i]? := by
            apply w6
            rintro ⟨-, -, j', k', -, -, hki', hkj'⟩
            rw [hki] at hki'
            cases hki'
            exact nomatch_rest c' hc' k j' j hkj' hkj
          exact hA i k c' j hc' (by rw [hkeys]; exact hki) hkj (by rw [hsame]; exact hnull)
      · intro i hi
        have hsame : me1.children[i]? = me.children[i]? := by
          apply w6
          rintro ⟨-, hnull, j, k, -, -, hki, hkj⟩
          exact hi ⟨hnull, c, List.mem_cons_self _ _, j, k, hki, hkj⟩
        rw [← hsame]
        apply hB
        rintro ⟨hnull, c', hc', j, k, hki, hkj⟩
        exact hi ⟨by rw [← hsame]; exact hnull, c', List.mem_cons_of_mem _ hc', j, k,
          by rw [← hkeys]; exact hki, hkj⟩

/-- The loop over the copy sources, read from the store, is the walk over their values. -/
theorem copy_sources_loop_eq_walk (me : NodeRef) :
    ∀ (R : List NodeRef) (s : Store) (sp L : Nat), me ∉ R →
      copy_sources_loop me R s sp L
        = (copy_sources_walk (R.map s.nodes) (s.nodes me) sp L).map
            (fun m => s.set_node me m) := by
  intro R
  induction R with
  | nil =>
    intro s sp L _
    simp [copy_sources_loop, copy_sources_walk, Store.set_node_self]
  | cons c rest ih =>
    intro s sp L hme
    have hc : c ≠ me := fun h => hme (h ▸ List.mem_cons_self _ _)
    have hrest : me ∉ rest := fun h => hme (List.mem_cons_of_mem _ h)
    simp only [copy_sources_loop, List.map_cons, copy_sources_walk]
    generalize (if (s.nodes c).is_in_range (s.nodes me).range_end = true then
          (s.nodes c).upper_bound (s.nodes me).range_end
        else (s.nodes c).get_size) = ep
    cases hw : copy_children_from_stable_source (s.nodes me) (s.nodes c) sp ep L with
    | none => rfl
    | some r =>
      obtain ⟨me1, next⟩ := r
      simp only
      by_cases hb : ep ≠ (s.nodes c).get_size
      · rw [if_pos hb, if_pos hb]
        rfl
      · rw [if_neg hb, if_neg hb, ih (s.set_node me me1) 0 next hrest]
        have hmap : rest.map (s.set_node me me1).nodes = rest.map s.nodes := by
          apply List.map_congr_left
          intro x hx
          exact Store.set_node_other _ _ _ (fun h => hrest (h ▸ hx))
        rw [hmap, Store.set_node_same]
        congr 1
        funext m
        exact Store.set_node_set_node _ _ _ _

/-- The loop over the copy sources `R` from the local cursor 0, on the store. -/
theorem copy_sources_loop_spec (s : Store) (me : NodeRef) (R : List NodeRef) (sp : Nat)
    (hme : me ∉ R)
    (hord : R.Pairwise (fun a b => (s.nodes a).range_end ≤ (s.nodes b).range_begin))
    (hsrc : ∀ c ∈ R, (s.nodes c).keys.Pairwise (fun a b => a < b)
      ∧ (∀ k ∈ (s.nodes c).keys, (s.nodes c).range_begin ≤ k ∧ k < (s.nodes c).range_end)
      ∧ (s.nodes c).get_size ≤ (s.nodes c).children.length)
    (hlk : (s.nodes me).keys.Pairwise (fun a b => a < b))
    (hkr : ∀ k ∈ (s.nodes me).keys, k < (s.nodes me).range_end)
    (hcap : (s.nodes me).get_size ≤ (s.nodes me).children.length)
    (hsp : ∀ c, R.head? = some c →
      sp ≤ (if (s.nodes c).is_in_range (s.nodes me).range_end then
          (s.nodes c).upper_bound (s.nodes me).range_end else (s.nodes c).get_size)
      ∧ ∀ (j kj : Nat), j < sp → (s.nodes c).keys[j]? = some kj →
          ∀ (i ki : Nat), (s.nodes me).keys[i]? = some ki → kj < ki) :
    ∃ s', copy_sources_loop me R s sp 0 = some s'
      ∧ (∀ x, x ≠ me → s'.nodes x = s.nodes x)
      ∧ (s'.nodes me).children.length = (s.nodes me).children.length
      ∧ (∀ (i k : Nat) (c : NodeRef) (j : Nat), c ∈ R → (s.nodes me).keys[i]? = some k →
          (s.nodes c).keys[j]? = some k → (s.nodes me).children[i]? = some nullptr →
          (s'.nodes me).children[i]? = (s.nodes c).children[j]?)
      ∧ (∀ i : Nat, ¬ ((s.nodes me).children[i]? = some nullptr
            ∧ ∃ c ∈ R, ∃ (j k : Nat),
                (s.nodes me).keys[i]? = some k ∧ (s.nodes c).keys[j]? = some k) →
          (s'.nodes me).children[i]? = (s.nodes me).children[i]?) := by
  obtain ⟨me', hres, -, hlen, hA, hB⟩ :=
    copy_sources_walk_spec (R.map s.nodes) (s.nodes me) sp 0
      ⟨List.pairwise_map.mpr hord, by
        intro c hc
        obtain ⟨r, hr, rfl⟩ := List.mem_map.mp hc
        exact hsrc r hr⟩
      hlk hkr hcap
      (by
        intro c hc
        rw [List.head?_map] at hc
        cases hh : R.head? with
        | none => rw [hh] at hc; cases hc
        | some r =>
          rw [hh] at hc
          simp only [Option.map_some', Option.some.injEq] at hc
          subst hc
          obtain ⟨h1, h2⟩ := hsp r hh
          exact ⟨h1, fun j kj hj hkj i ki _ hki => h2 j kj hj hkj i ki hki⟩)
      (by intro i ki hi; omega)
  refine ⟨s.set_node me me', ?_, ?_, ?_, ?_, ?_⟩
  · rw [copy_sources_loop_eq_walk me R s sp 0 hme, hres]
    rfl
  · intro x hx
    exact Store.set_node_other _ _ _ hx
  · rw [Store.set_node_same]; exact hlen
  · intro i k c j hc hki hkj hnull
    rw [Store.set_node_same]
    exact hA i k (s.nodes c) j (List.mem_map.mpr ⟨c, hc, rfl⟩) hki hkj hnull
  · intro i hi
    rw [Store.set_node_same]
    apply hB
    rintro ⟨hnull, c, hc, j, k, hki, hkj⟩
    obtain ⟨r, hr, rfl⟩ := List.mem_map.mp hc
    exact hi ⟨hnull, r, hr, j, k, hki, hkj⟩

theorem pairwise_getElem? {α : Type} {R : α → α → Prop} {l : List α} (h : l.Pairwise R)
    {i j : Nat} {a b : α} (hij : i < j) (hi : l[i]? = some a) (hj : l[j]? = some b) :
    R a b := by
  obtain ⟨hi1, rfl⟩ := List.getElem?_eq_some_iff.mp hi
  obtain ⟨hj1, rfl⟩ := List.getElem?_eq_some_iff.mp hj
  exact List.pairwise_iff_getElem.mp h i j hi1 hj1 hij

theorem findIdx_false_of_lt {α : Type} {p : α → Bool} {l : List α} {i : Nat} {x : α}
    (hlt : i < l.findIdx p) (hx : l[i]? = some x) : p x = false := by
  obtain ⟨hi, rfl⟩ := List.getElem?_eq_some_iff.mp hx
  exact List.not_of_lt_findIdx hlt

theorem findIdx_true_at {α : Type} {p : α → Bool} {l : List α} {x : α}
    (hx : l[l.findIdx p]? = some x) : p x = true := by
  obtain ⟨hi, rfl⟩ := List.getElem?_eq_some_iff.mp hx
  exact List.findIdx_getElem

/-- C4: for an initial-pending node C whose copy sources are stable nodes, in
order, with non-empty pairwise disjoint ranges that together cover C's
(non-empty) range, every node holding strictly increasing keys inside its
range and a slot for every key, `copy_children_from_stable_sources` returns,
changes no other node, sets every initially-null slot of C whose key is held
by a copy source (the one whose range contains the key) to that source's
pointer for the key, and leaves every other slot of C unchanged, so a key that
a source holds and C no longer holds populates no slot. -/
theorem copy_children_from_stable_sources_spec (s : Store) (me : NodeRef)
    (hip : (s.nodes me).is_initial_pending = true)
    (hst : ∀ c ∈ (s.nodes me).copy_sources, (s.nodes c).is_stable = true)
    (hord : (s.nodes me).copy_sources.Pairwise
      (fun a b => (s.nodes a).range_end ≤ (s.nodes b).range_begin))
    (hne : ∀ c ∈ (s.nodes me).copy_sources, (s.nodes c).range_begin < (s.nodes c).range_end)
    (hcover : ∀ k, (s.nodes me).range_begin ≤ k → k < (s.nodes me).range_end →
      ∃ c ∈ (s.nodes me).copy_sources, (s.nodes c).is_in_range k = true)
    (hrange : (s.nodes me).range_begin < (s.nodes me).range_end)
    (hsrc : ∀ c ∈ (s.nodes me).copy_sources, (s.nodes c).keys.Pairwise (fun a b => a < b)
      ∧ (∀ k ∈ (s.nodes c).keys, (s.nodes c).range_begin ≤ k ∧ k < (s.nodes c).range_end)
      ∧ (s.nodes c).get_size ≤ (s.nodes c).children.length)
    (hlk : (s.nodes me).keys.Pairwise (fun a b => a < b))
    (hkr : ∀ k ∈ (s.nodes me).keys, (s.nodes me).range_begin ≤ k ∧ k < (s.nodes me).range_end)
    (hcap : (s.nodes me).get_size ≤ (s.nodes me).children.length) :
    ∃ s', copy_children_from_stable_sources s me = some s'
      ∧ (∀ x, x ≠ me → s'.nodes x = s.nodes x)
      ∧ (s'.nodes me).children.length = (s.nodes me).children.length
      ∧ (∀ (i k : Nat) (c : NodeRef) (j : Nat), c ∈ (s.nodes me).copy_sources →
          (s.nodes me).keys[i]? = some k → (s.nodes c).keys[j]? = some k →
          (s.nodes me).children[i]? = some nullptr →
          (s'.nodes me).children[i]? = (s.nodes c).children[j]?)
      ∧ (∀ i : Nat, ¬ ((s.nodes me).children[i]? = some nullptr
            ∧ ∃ c ∈ (s.nodes me).copy_sources, ∃ (j k : Nat),
                (s.nodes me).keys[i]? = some k ∧ (s.nodes c).keys[j]? = some k) →
          (s'.nodes me).children[i]? = (s.nodes me).children[i]?) := by
  have hme : me ∉ (s.nodes me).copy_sources := by
    intro h
    have h1 := hst me h
    unfold Node.is_stable at h1
    unfold Node.is_initial_pending at hip
    simp only [beq_iff_eq] at h1 hip
    rw [h1] at hip
    cases hip
  simp only [copy_children_from_stable_sources]
  by_cases hemp : (s.nodes me).copy_sources.isEmpty = true
  · rw [if_pos hemp]
    have hnil : (s.nodes me).copy_sources = [] := List.isEmpty_iff.mp hemp
    refine ⟨s, rfl, fun _ _ => rfl, rfl, ?_, fun _ _ => rfl⟩
    intro i k c j hc
    rw [hnil] at hc
    exact absurd hc (List.not_mem_nil _)
  · rw [if_neg hemp]
    obtain ⟨c0, hc0, hin0⟩ := hcover (s.nodes me).range_begin (le_refl _) hrange
    have hb0 : (s.nodes c0).range_begin ≤ (s.nodes me).range_begin := by
      unfold Node.is_in_range at hin0
      simp only [Bool.and_eq_true, decide_eq_true_eq] at hin0
      exact hin0.1
    obtain ⟨idx0, hidx0⟩ := List.mem_iff_getElem?.mp hc0
    have hublen : set_upper_bound s (s.nodes me).copy_sources (s.nodes me).range_begin
        ≤ (s.nodes me).copy_sources.length := List.findIdx_le_length _
    have hub_pos : set_upper_bound s (s.nodes me).copy_sources (s.nodes me).range_begin ≠ 0 := by
      intro h0
      have hlen0 : 0 < (s.nodes me).copy_sources.length := by
        have := (List.getElem?_eq_some_iff.mp hidx0).1
        omega
      have hx := List.getElem?_eq_getElem hlen0
      have hp : decide ((s.nodes me).range_begin
          < (s.nodes ((s.nodes me).copy_sources[0])).range_begin) = true := by
        have h1 : (s.nodes me).copy_sources[List.findIdx
            (fun r => decide ((s.nodes me).range_begin < (s.nodes r).range_begin))
            (s.nodes me).copy_sources]? = some ((s.nodes me).copy_sources[0]) := by
          unfold set_upper_bound at h0
          rw [h0]; exact hx
        exact @findIdx_true_at _
          (fun r => decide ((s.nodes me).range_begin < (s.nodes r).range_begin)) _ _ h1
      simp only [decide_eq_true_eq] at hp
      by_cases hi0 : idx0 = 0
      · subst hi0
        rw [hx] at hidx0
        cases hidx0
        omega
      · have h2 := pairwise_getElem? hord (Nat.pos_of_ne_zero hi0) hx hidx0
        have h3 := hne _ (List.getElem_mem hlen0)
        omega
    have hhlt : set_upper_bound s (s.nodes me).copy_sources (s.nodes me).range_begin - 1
        < (s.nodes me).copy_sources.length := by omega
    have hhget := List.getElem?_eq_getElem hhlt
    generalize hhdef : (s.nodes me).copy_sources[set_upper_bound s (s.nodes me).copy_sources
      (s.nodes me).range_begin - 1] = h at hhget
    have hhmem : h ∈ (s.nodes me).copy_sources := List.mem_iff_getElem?.mpr ⟨_, hhget⟩
    have hhb : (s.nodes h).range_begin ≤ (s.nodes me).range_begin := by
      have := @findIdx_false_of_lt _
        (fun r => decide ((s.nodes me).range_begin < (s.nodes r).range_begin))
        (s.nodes me).copy_sources _ h (by unfold set_upper_bound at hub_pos ⊢; omega) hhget
      simp only [decide_eq_false_iff_not] at this
      omega
    -- a source that holds a key of the node does not come before `h`
    have hidx : ∀ (c : NodeRef) (idx j i k : Nat), (s.nodes me).copy_sources[idx]? = some c →
        (s.nodes me).keys[i]? = some k → (s.nodes c).keys[j]? = some k →
        set_upper_bound s (s.nodes me).copy_sources (s.nodes me).range_begin - 1 ≤ idx := by
      intro c idx j i k hcidx hki hkj
      by_contra hcon
      have h1 := pairwise_getElem? hord (Nat.lt_of_not_le hcon) hcidx hhget
      have h2 := (hkr k (mem_of_getElem?_eq hki)).1
      have h3 := ((hsrc c (List.mem_iff_getElem?.mpr ⟨_, hcidx⟩)).2.1 k
        (mem_of_getElem?_eq hkj)).2
      omega
    rw [if_neg hub_pos, hhget]
    simp only
    by_cases hskip : (s.nodes h).lower_bound (s.nodes me).range_begin = (s.nodes h).get_size
    · rw [if_pos hskip]
      obtain ⟨s', hres, hother, hlen, hA, hB⟩ := copy_sources_loop_spec s me
        ((s.nodes me).copy_sources.drop
          (set_upper_bound s (s.nodes me).copy_sources (s.nodes me).range_begin)) 0
        (fun hm => hme (List.mem_of_mem_drop hm))
        (List.Pairwise.sublist (List.drop_sublist _ _) hord)
        (fun c hc => hsrc c (List.mem_of_mem_drop hc)) hlk (fun k hk => (hkr k hk).2) hcap
        (by
          intro c _
          refine ⟨Nat.zero_le _, ?_⟩
          intro j kj hj
          omega)
      refine ⟨s', hres, hother, hlen, ?_, ?_⟩
      · intro i k c j hc hki hkj hnull
        refine hA i k c j ?_ hki hkj hnull
        obtain ⟨idx, hcidx⟩ := List.mem_iff_getElem?.mp hc
        have hge := hidx c idx j i k hcidx hki hkj
        have hne1 : idx ≠ set_upper_bound s (s.nodes me).copy_sources
            (s.nodes me).range_begin - 1 := by
          rintro rfl
          have hch : c = h := by
            rw [hhget] at hcidx
            exact (Option.some.inj hcidx).symm
          rw [hch] at hkj
          have hjl : j < (s.nodes h).keys.length := (List.getElem?_eq_some_iff.mp hkj).1
          have := @lt_of_lt_findIdx_lower (s.nodes h).keys j k (s.nodes me).range_begin hkj
            (by unfold Node.lower_bound Node.get_size at hskip; rw [hskip]; exact hjl)
          have h2 := (hkr k (mem_of_getElem?_eq hki)).1
          omega
        obtain ⟨hil, hci⟩ := List.getElem?_eq_some_iff.mp hcidx
        refine List.mem_drop_iff_getElem.mpr
          ⟨idx - set_upper_bound s (s.nodes me).copy_sources (s.nodes me).range_begin,
            by omega, ?_⟩
        rw [← hci]
        congr 1
        omega
      · intro i hi
        apply hB
        rintro ⟨hnull, c, hc, rest⟩
        exact hi ⟨hnull, c, List.mem_of_mem_drop hc, rest⟩
    · rw [if_neg hskip]
      obtain ⟨s', hres, hother, hlen, hA, hB⟩ := copy_sources_loop_spec s me
        ((s.nodes me).copy_sources.drop
          (set_upper_bound s (s.nodes me).copy_sources (s.nodes me).range_begin - 1))
        ((s.nodes h).lower_bound (s.nodes me).range_begin)
        (fun hm => hme (List.mem_of_mem_drop hm))
        (List.Pairwise.sublist (List.drop_sublist _ _) hord)
        (fun c hc => hsrc c (List.mem_of_mem_drop hc)) hlk (fun k hk => (hkr k hk).2) hcap
        (by
          intro c hc
          rw [List.head?_drop, hhget] at hc
          cases hc
          constructor
          · split
            · exact findIdx_mono _ _ (fun x hx => by
                simp only [decide_eq_true_eq] at hx ⊢
                omega) _
            · exact List.findIdx_le_length _
          · intro j kj hj hkj i ki hki
            have h1 := lt_of_lt_findIdx_lower hkj hj
            have h2 := (hkr ki (mem_of_getElem?_eq hki)).1
            omega)
      refine ⟨s', hres, hother, hlen, ?_, ?_⟩
      · intro i k c j hc hki hkj hnull
        refine hA i k c j ?_ hki hkj hnull
        obtain ⟨idx, hcidx⟩ := List.mem_iff_getElem?.mp hc
        have hge := hidx c idx j i k hcidx hki hkj
        obtain ⟨hil, hci⟩ := List.getElem?_eq_some_iff.mp hcidx
        refine List.mem_drop_iff_getElem.mpr
          ⟨idx - (set_upper_bound s (s.nodes me).copy_sources (s.nodes me).range_begin - 1),
            by omega, ?_⟩
        rw [← hci]
        congr 1
        omega
      · intro i hi
        apply hB
        rintro ⟨hnull, c, hc, rest⟩
        exact hi ⟨hnull, c, List.mem_of_mem_drop hc, rest⟩

/-- C4 witness: scenario 2 (A = [0,10), B = [10,20), C = [5,15), copy sources A and B). -/
theorem copy_children_from_stable_sources_spec_witness :
    ∃ s', copy_children_from_stable_sources scenario_store 0 = some s'
      ∧ (∀ x, x ≠ 0 → s'.nodes x = scenario_store.nodes x)
      ∧ (s'.nodes 0).children.length = (scenario_store.nodes 0).children.length
      ∧ (∀ (i k : Nat) (c : NodeRef) (j : Nat), c ∈ (scenario_store.nodes 0).copy_sources →
          (scenario_store.nodes 0).keys[i]? = some k →
          (scenario_store.nodes c).keys[j]? = some k →
          (scenario_store.nodes 0).children[i]? = some nullptr →
          (s'.nodes 0).children[i]? = (scenario_store.nodes c).children[j]?)
      ∧ (∀ i : Nat, ¬ ((scenario_store.nodes 0).children[i]? = some nullptr
            ∧ ∃ c ∈ (scenario_store.nodes 0).copy_sources, ∃ (j k : Nat),
                (scenario_store.nodes 0).keys[i]? = some k
                  ∧ (scenario_store.nodes c).keys[j]? = some k) →
          (s'.nodes 0).children[i]? = (scenario_store.nodes 0).children[i]?) :=
  copy_children_from_stable_sources_spec scenario_store 0 (by decide) (by decide) (by decide)
    (by decide)
    (by
      intro k h1 h2
      have e1 : (scenario_store.nodes 0).range_begin = 5 := rfl
      have e2 : (scenario_store.nodes 0).range_end = 15 := rfl
      rw [e1] at h1
      rw [e2] at h2
      by_cases hk : k < 10
      · refine ⟨1, by decide, ?_⟩
        show (decide (0 ≤ k) && decide (k < 10)) = true
        simp [hk]
      · refine ⟨2, by decide, ?_⟩
        show (decide (10 ≤ k) && decide (k < 20)) = true
        simp only [Bool.and_eq_true, decide_eq_true_eq]
        omega)
    (by decide) (by decide) (by decide) (by decide) (by decide)

/-- Scenario 2 evaluated: keys 5, 6, 9 are taken from A and keys 10, 13, 14 from
B; the slot filled in this transaction (key 8) and the reserved slot (key 11)
stay; the deleted keys 7 and 12 populate nothing. -/
theorem scenario2_children :
    (copy_children_from_stable_sources scenario_store 0).map (fun s' => (s'.nodes 0).children)
      = some [105, 106, 808, 109, 110, get_reserved_ptr, 113, 114] := by
  decide

/-- The walk of one source evaluated on the example of C3. -/
theorem copy_children_from_stable_source_example :
    (copy_children_from_stable_source copy_local_node copy_source_node 0 5 0).map
      (fun r => (r.1.children, r.2)) = some ([50, 700, get_reserved_ptr, get_reserved_ptr], 4) := by
  decide

/-! ## The copy-source/copy-dest index -/

theorem Store.same_static_refl (s : Store) : s.same_static s :=
  fun _ => ⟨rfl, rfl, rfl, rfl, rfl, rfl⟩

theorem Store.same_static_trans {a b c : Store} (h1 : a.same_static b)
    (h2 : b.same_static c) : a.same_static c := by
  intro x
  obtain ⟨a1, a2, a3, a4, a5, a6⟩ := h1 x
  obtain ⟨b1, b2, b3, b4, b5, b6⟩ := h2 x
  exact ⟨b1.trans a1, b2.trans a2, b3.trans a3, b4.trans a4, b5.trans a5, b6.trans a6⟩

theorem Store.same_static_begin_of {s s' : Store} (h : s.same_static s') :
    s'.begin_of = s.begin_of := by
  funext x
  exact (h x).2.2.2.1

theorem Store.same_static_is_stable {s s' : Store} (h : s.same_static s') (x : NodeRef) :
    (s'.nodes x).is_stable = (s.nodes x).is_stable := by
  unfold Node.is_stable; rw [(h x).1]

theorem Store.same_static_is_pending {s s' : Store} (h : s.same_static s') (x : NodeRef) :
    (s'.nodes x).is_pending = (s.nodes x).is_pending := by
  unfold Node.is_pending; rw [(h x).1]

theorem Store.same_static_is_initial_pending {s s' : Store} (h : s.same_static s')
    (x : NodeRef) : (s'.nodes x).is_initial_pending = (s.nodes x).is_initial_pending := by
  unfold Node.is_initial_pending; rw [(h x).1]

theorem Store.same_static_is_mutation_pending {s s' : Store} (h : s.same_static s')
    (x : NodeRef) : (s'.nodes x).is_mutation_pending = (s.nodes x).is_mutation_pending := by
  unfold Node.is_mutation_pending; rw [(h x).1]

theorem Store.same_static_of_same_links {s s' : Store}
    (h : ∀ x, (s.nodes x).same_links (s'.nodes x)) : s.same_static s' := by
  intro x
  obtain ⟨ch, sp, tr, hx⟩ := h x
  rw [hx]
  exact ⟨rfl, rfl, rfl, rfl, rfl, rfl⟩

theorem Store.copy_dests_of_same_links {s s' : Store}
    (h : ∀ x, (s.nodes x).same_links (s'.nodes x)) (r : NodeRef) (t : transaction_id_t) :
    s'.copy_dests r t = s.copy_dests r t := by
  unfold Store.copy_dests
  rw [Node.same_links_copy_dests (h r)]

theorem lookup_filter_ne {β : Type} (t t' : transaction_id_t) (h : t' ≠ t) :
    ∀ l : List (transaction_id_t × β),
      (l.filter (fun e => e.1 != t)).lookup t' = l.lookup t' := by
  intro l
  induction l with
  | nil => rfl
  | cons e rest ih =>
    obtain ⟨k, v⟩ := e
    by_cases hk : k = t
    · subst hk
      have h1 : (t' == k) = false := by simpa using h
      simp only [List.filter_cons, bne_self_eq_false, Bool.false_eq_true, if_false,
        List.lookup_cons, h1, ih]
    · have h1 : (k != t) = true := by simpa using hk
      simp only [List.filter_cons, h1, if_true, List.lookup_cons, ih]

theorem lookup_trans_view_set {β : Type} (t t' : transaction_id_t) (v : β)
    (l : List (transaction_id_t × β)) :
    (trans_view_set t v l).lookup t' = if t' = t then some v else l.lookup t' := by
  unfold trans_view_set
  by_cases h : t' = t
  · subst h
    simp [List.lookup_cons]
  · have h1 : (t' == t) = false := by simpa using h
    rw [if_neg h, List.lookup_cons, h1]
    exact lookup_filter_ne t t' h l

/-- What `set_copy_dests` changes. -/
theorem Store.set_copy_dests_spec (s : Store) (r : NodeRef) (t : transaction_id_t)
    (l : List NodeRef) :
    s.same_static (s.set_copy_dests r t l)
      ∧ (∀ x, ((s.set_copy_dests r t l).nodes x).copy_sources = (s.nodes x).copy_sources)
      ∧ (∀ x t', (s.set_copy_dests r t l).copy_dests x t'
          = if x = r ∧ t' = t then l else s.copy_dests x t') := by
  unfold Store.set_copy_dests
  refine ⟨?_, ?_, ?_⟩
  · intro x
    by_cases hx : x = r
    · subst hx; rw [Store.set_node_same]; exact ⟨rfl, rfl, rfl, rfl, rfl, rfl⟩
    · rw [Store.set_node_other _ _ _ hx]; exact ⟨rfl, rfl, rfl, rfl, rfl, rfl⟩
  · intro x
    by_cases hx : x = r
    · subst hx; rw [Store.set_node_same]
    · rw [Store.set_node_other _ _ _ hx]
  · intro x t'
    unfold Store.copy_dests
    by_cases hx : x = r
    · subst hx
      rw [Store.set_node_same]
      simp only [lookup_trans_view_set]
      by_cases ht : t' = t
      · simp [ht]
      · simp [ht]
    · rw [Store.set_node_other _ _ _ hx]
      simp [hx]

/-- What `set_copy_sources` changes. -/
theorem Store.set_copy_sources_spec (s : Store) (r : NodeRef) (l : List NodeRef) :
    s.same_static (s.set_copy_sources r l)
      ∧ (∀ x, ((s.set_copy_sources r l).nodes x).copy_sources
          = if x = r then l else (s.nodes x).copy_sources)
      ∧ (∀ x t', (s.set_copy_sources r l).copy_dests x t' = s.copy_dests x t') := by
  unfold Store.set_copy_sources
  refine ⟨?_, ?_, ?_⟩
  · intro x
    by_cases hx : x = r
    · subst hx; rw [Store.set_node_same]; exact ⟨rfl, rfl, rfl, rfl, rfl, rfl⟩
    · rw [Store.set_node_other _ _ _ hx]; exact ⟨rfl, rfl, rfl, rfl, rfl, rfl⟩
  · intro x
    by_cases hx : x = r
    · subst hx; rw [Store.set_node_same]; simp
    · rw [Store.set_node_other _ _ _ hx]; simp [hx]
  · intro x t'
    unfold Store.copy_dests
    by_cases hx : x = r
    · subst hx; rw [Store.set_node_same]
    · rw [Store.set_node_other _ _ _ hx]

/-- Membership after `std::set::insert`, when no other member has the begin key of `x`. -/
theorem mem_set_insert (b : NodeRef → Nat) (x : NodeRef) :
    ∀ (l : List NodeRef), (∀ y ∈ l, b y = b x → y = x) →
      ∀ z, z ∈ set_insert b x l ↔ z = x ∨ z ∈ l := by
  intro l
  induction l with
  | nil => intro _ z; simp [set_insert]
  | cons y ys ih =>
    intro h z
    unfold set_insert
    by_cases h1 : b x < b y
    · rw [if_pos h1]; simp
    · rw [if_neg h1]
      by_cases h2 : b y < b x
      · rw [if_pos h2]
        simp only [List.mem_cons]
        rw [ih (fun y' hy' => h y' (List.mem_cons_of_mem _ hy')) z]
        tauto
      · rw [if_neg h2]
        have hyx : y = x := h y (List.mem_cons_self _ _) (by omega)
        subst hyx
        simp only [List.mem_cons]
        tauto

/-- After `std::set::insert` every member was there or is `x`. -/
theorem mem_set_insert_imp (b : NodeRef → Nat) (x : NodeRef) :
    ∀ (l : List NodeRef) z, z ∈ set_insert b x l → z = x ∨ z ∈ l := by
  intro l
  induction l with
  | nil => intro z; simp [set_insert]
  | cons y ys ih =>
    intro z
    unfold set_insert
    by_cases h1 : b x < b y
    · rw [if_pos h1]; simp
    · rw [if_neg h1]
      by_cases h2 : b y < b x
      · rw [if_pos h2]
        simp only [List.mem_cons]
        intro hz
        rcases hz with hz | hz
        · exact Or.inr (Or.inl hz)
        · rcases ih z hz with h | h
          · exact Or.inl h
          · exact Or.inr (Or.inr h)
      · rw [if_neg h2]
        intro hz
        exact Or.inr hz

theorem mem_set_erase (b : NodeRef → Nat) (x : NodeRef) (l : List NodeRef) (z : NodeRef) :
    z ∈ set_erase b x l ↔ z ∈ l ∧ b z ≠ b x := by
  unfold set_erase
  simp [List.mem_filter]

theorem set_find_none (b : NodeRef → Nat) (x : NodeRef) (l : List NodeRef)
    (h : set_find b x l = none) : ∀ y ∈ l, b y ≠ b x := by
  unfold set_find at h
  intro y hy
  have := List.find?_eq_none.mp h y hy
  simpa using this

theorem set_find_some (b : NodeRef → Nat) (x : NodeRef) (l : List NodeRef) (y : NodeRef)
    (h : set_find b x l = some y) : y ∈ l ∧ b y = b x := by
  unfold set_find at h
  have h1 := List.find?_some h
  have h2 := List.mem_of_find?_eq_some h
  simp only [beq_iff_eq] at h1
  exact ⟨h2, h1⟩

/-- What a successful `add_copy_dest` does to the index. -/
theorem add_copy_dest_some {s s' : Store} {S0 P0 : NodeRef} {t : transaction_id_t}
    (h : add_copy_dest s S0 t P0 = some s') (hwf : dests_wf s) :
    (s.nodes S0).is_stable = true ∧ (s.nodes P0).is_pending = true ∧ s.same_static s'
      ∧ (∀ x, (s'.nodes x).copy_sources = (s.nodes x).copy_sources)
      ∧ (∀ S t' z, z ∈ s'.copy_dests S t' ↔
          z ∈ s.copy_dests S t' ∨ (S = S0 ∧ t' = t ∧ z = P0))
      ∧ dests_wf s' := by
  unfold add_copy_dest at h
  split at h
  case isFalse => exact absurd h (by simp)
  case isTrue hg =>
  simp only [Bool.and_eq_true] at hg
  have hins : (∀ y ∈ s.copy_dests S0 t, s.begin_of y = s.begin_of P0 → y = P0)
      ∧ s' = s.set_copy_dests S0 t (set_insert s.begin_of P0 (s.copy_dests S0 t)) := by
    rw [if_pos (by by_contra hc; rw [if_neg hc] at h; exact absurd h (by simp))] at h
    split at h
    · rename_i hf
      refine ⟨fun y hy hb => absurd hb (set_find_none _ _ _ hf y hy), ?_⟩
      exact (Option.some.inj h).symm
    · rename_i y hf
      split at h
      · rename_i hy
        subst hy
        obtain ⟨hmem, -⟩ := set_find_some _ _ _ _ hf
        refine ⟨fun y' hy' hb => hwf S0 t y' hy' y hmem hb, ?_⟩
        exact (Option.some.inj h).symm
      · exact absurd h (by simp)
  obtain ⟨hins1, rfl⟩ := hins
  obtain ⟨v1, v2, v3⟩ := s.set_copy_dests_spec S0 t (set_insert s.begin_of P0 (s.copy_dests S0 t))
  have hD : ∀ S t' z, z ∈ (s.set_copy_dests S0 t
      (set_insert s.begin_of P0 (s.copy_dests S0 t))).copy_dests S t' ↔
      z ∈ s.copy_dests S t' ∨ (S = S0 ∧ t' = t ∧ z = P0) := by
    intro S t' z
    rw [v3]
    by_cases hc : S = S0 ∧ t' = t
    · rw [if_pos hc, mem_set_insert _ _ _ hins1]
      obtain ⟨rfl, rfl⟩ := hc
      tauto
    · rw [if_neg hc]
      tauto
  refine ⟨hg.1, hg.2, v1, v2, hD, ?_⟩
  intro S t' a ha b hb hab
  rw [Store.same_static_begin_of v1] at hab
  rw [hD] at ha hb
  rcases ha with ha | ⟨rfl, rfl, rfl⟩
  · rcases hb with hb | ⟨rfl, rfl, rfl⟩
    · exact hwf S t' a ha b hb hab
    · exact hins1 a ha hab
  · rcases hb with hb | ⟨-, -, rfl⟩
    · exact (hins1 b hb hab.symm).symm
    · rfl

/-- What a successful `del_copy_dest` does to the index. -/
theorem del_copy_dest_some {s s' : Store} {S0 P0 : NodeRef} {t : transaction_id_t}
    (h : del_copy_dest s S0 t P0 = some s') :
    s.same_static s'
      ∧ (∀ x, (s'.nodes x).copy_sources = (s.nodes x).copy_sources)
      ∧ (∀ S t' z, z ∈ s'.copy_dests S t' ↔
          z ∈ s.copy_dests S t' ∧ ¬ (S = S0 ∧ t' = t ∧ s.begin_of z = s.begin_of P0))
      ∧ (dests_wf s → dests_wf s') := by
  unfold del_copy_dest at h
  split at h
  · exact absurd h (by simp)
  · rename_i dests hd
    rw [if_pos (by by_contra hc; rw [if_neg hc] at h; exact absurd h (by simp))] at h
    split at h
    · exact absurd h (by simp)
    · have hs' := (Option.some.inj h).symm
      subst hs'
      have hdd : s.copy_dests S0 t = dests := by
        unfold Store.copy_dests; rw [hd]; rfl
      obtain ⟨v1, v2, v3⟩ := s.set_copy_dests_spec S0 t (set_erase s.begin_of P0 dests)
      have hD : ∀ S t' z, z ∈ (s.set_copy_dests S0 t
          (set_erase s.begin_of P0 dests)).copy_dests S t' ↔
          z ∈ s.copy_dests S t' ∧ ¬ (S = S0 ∧ t' = t ∧ s.begin_of z = s.begin_of P0) := by
        intro S t' z
        rw [v3]
        by_cases hc : S = S0 ∧ t' = t
        · rw [if_pos hc, mem_set_erase]
          obtain ⟨rfl, rfl⟩ := hc
          rw [hdd]
          tauto
        · rw [if_neg hc]
          tauto
      refine ⟨v1, v2, hD, ?_⟩
      intro hwf S t' a ha b hb hab
      rw [Store.same_static_begin_of v1] at hab
      rw [hD] at ha hb
      exact hwf S t' a ha.1 b hb.1 hab

/-- What the loop of `add_copy_dest` over the nodes `X` does to the index. -/
theorem add_copy_dest_each_some (t : transaction_id_t) (P0 : NodeRef) :
    ∀ (X : List NodeRef) (s s' : Store), add_copy_dest_each t P0 X s = some s' → dests_wf s →
      (∀ x ∈ X, (s.nodes x).is_stable = true) ∧ s.same_static s'
        ∧ (∀ x, (s'.nodes x).copy_sources = (s.nodes x).copy_sources)
        ∧ (∀ S t' z, z ∈ s'.copy_dests S t' ↔
            z ∈ s.copy_dests S t' ∨ (S ∈ X ∧ t' = t ∧ z = P0))
        ∧ dests_wf s' := by
  intro X
  induction X with
  | nil =>
    intro s s' h hwf
    simp only [add_copy_dest_each, Option.some.injEq] at h
    subst h
    refine ⟨fun x hx => absurd hx (List.not_mem_nil _), Store.same_static_refl _,
      fun _ => rfl, ?_, hwf⟩
    intro S t' z
    simp
  | cons c rest ih =>
    intro s s' h hwf
    simp only [add_copy_dest_each] at h
    cases h1 : add_copy_dest s c t P0 with
    | none => rw [h1] at h; exact absurd h (by simp)
    | some s1 =>
      rw [h1] at h
      simp only at h
      obtain ⟨a1, -, a3, a4, a5, a6⟩ := add_copy_dest_some h1 hwf
      obtain ⟨b1, b3, b4, b5, b6⟩ := ih s1 s' h a6
      refine ⟨?_, Store.same_static_trans a3 b3, fun x => (b4 x).trans (a4 x), ?_, b6⟩
      · intro x hx
        rcases List.mem_cons.mp hx with rfl | hx
        · exact a1
        · rw [← Store.same_static_is_stable a3]; exact b1 x hx
      · intro S t' z
        rw [b5, a5]
        simp only [List.mem_cons]
        tauto

/-- What the loop of `del_copy_dest` over the nodes `X` does to the index. -/
theorem del_copy_dest_each_some (t : transaction_id_t) (P0 : NodeRef) :
    ∀ (X : List NodeRef) (s s' : Store), del_copy_dest_each t P0 X s = some s' →
      s.same_static s'
        ∧ (∀ x, (s'.nodes x).copy_sources = (s.nodes x).copy_sources)
        ∧ (∀ S t' z, z ∈ s'.copy_dests S t' ↔
            z ∈ s.copy_dests S t' ∧ ¬ (S ∈ X ∧ t' = t ∧ s.begin_of z = s.begin_of P0))
        ∧ (dests_wf s → dests_wf s') := by
  intro X
  induction X with
  | nil =>
    intro s s' h
    simp only [del_copy_dest_each, Option.some.injEq] at h
    subst h
    refine ⟨Store.same_static_refl _, fun _ => rfl, ?_, fun h => h⟩
    intro S t' z
    simp
  | cons c rest ih =>
    intro s s' h
    simp only [del_copy_dest_each] at h
    cases h1 : del_copy_dest s c t P0 with
    | none => rw [h1] at h; exact absurd h (by simp)
    | some s1 =>
      rw [h1] at h
      simp only at h
      obtain ⟨a3, a4, a5, a6⟩ := del_copy_dest_some h1
      obtain ⟨b3, b4, b5, b6⟩ := ih s1 s' h
      refine ⟨Store.same_static_trans a3 b3, fun x => (b4 x).trans (a4 x), ?_,
        fun hw => b6 (a6 hw)⟩
      intro S t' z
      rw [b5, a5, Store.same_static_begin_of a3]
      simp only [List.mem_cons]
      tauto

/-- Membership after `insert(first, last)`, when no two different nodes among the
members and the inserted nodes share a begin key. -/
theorem mem_set_insert_range (b : NodeRef → Nat) :
    ∀ (X L : List NodeRef),
      (∀ a c, (a ∈ L ∨ a ∈ X) → (c ∈ L ∨ c ∈ X) → b a = b c → a = c) →
      ∀ z, z ∈ set_insert_range b X L ↔ z ∈ L ∨ z ∈ X := by
  intro X
  induction X with
  | nil => intro L _ z; simp [set_insert_range]
  | cons x rest ih =>
    intro L hinj z
    have hx : ∀ y ∈ L, b y = b x → y = x := fun y hy hb =>
      hinj y x (Or.inl hy) (Or.inr (List.mem_cons_self _ _)) hb
    have hmem := mem_set_insert b x L hx
    have hstep : set_insert_range b (x :: rest) L = set_insert_range b rest (set_insert b x L) :=
      rfl
    rw [hstep, ih (set_insert b x L) (by
      intro a c ha hc hab
      refine hinj a c ?_ ?_ hab
      · rcases ha with ha | ha
        · rcases (hmem a).mp ha with rfl | ha
          · exact Or.inr (List.mem_cons_self _ _)
          · exact Or.inl ha
        · exact Or.inr (List.mem_cons_of_mem _ ha)
      · rcases hc with hc | hc
        · rcases (hmem c).mp hc with rfl | hc
          · exact Or.inr (List.mem_cons_self _ _)
          · exact Or.inl hc
        · exact Or.inr (List.mem_cons_of_mem _ hc)) z, hmem z]
    simp only [List.mem_cons]
    tauto

/-- What `add_copy_dest` on the nodes `X` followed by the insertion of `X` into
`dest.copy_sources` does to the index. -/
theorem link_sources_some {s s1 : Store} {t : transaction_id_t} {dest : NodeRef}
    {X : List NodeRef} (h : add_copy_dest_each t dest X s = some s1) (hwf : dests_wf s)
    (hd : sources_distinct s dest X) :
    (∀ x ∈ X, (s.nodes x).is_stable = true)
      ∧ s.same_static
          (s1.set_copy_sources dest (set_insert_range s1.begin_of X (s1.nodes dest).copy_sources))
      ∧ (∀ P z, z ∈ ((s1.set_copy_sources dest
            (set_insert_range s1.begin_of X (s1.nodes dest).copy_sources)).nodes P).copy_sources
          ↔ z ∈ (s.nodes P).copy_sources ∨ (P = dest ∧ z ∈ X))
      ∧ (∀ P, P ≠ dest → ((s1.set_copy_sources dest
            (set_insert_range s1.begin_of X (s1.nodes dest).copy_sources)).nodes P).copy_sources
          = (s.nodes P).copy_sources)
      ∧ (∀ S t' z, z ∈ (s1.set_copy_sources dest
            (set_insert_range s1.begin_of X (s1.nodes dest).copy_sources)).copy_dests S t'
          ↔ z ∈ s.copy_dests S t' ∨ (S ∈ X ∧ t' = t ∧ z = dest))
      ∧ dests_wf (s1.set_copy_sources dest
          (set_insert_range s1.begin_of X (s1.nodes dest).copy_sources)) := by
  obtain ⟨a1, a3, a4, a5, a6⟩ := add_copy_dest_each_some t dest X s s1 h hwf
  obtain ⟨v1, v2, v3⟩ := s1.set_copy_sources_spec dest
    (set_insert_range s1.begin_of X (s1.nodes dest).copy_sources)
  have hb : s1.begin_of = s.begin_of := Store.same_static_begin_of a3
  refine ⟨a1, Store.same_static_trans a3 v1, ?_, ?_, ?_, ?_⟩
  · intro P z
    rw [v2]
    by_cases hP : P = dest
    · subst hP
      rw [if_pos rfl, a4, hb, mem_set_insert_range s.begin_of X _ hd]
      tauto
    · rw [if_neg hP, a4]
      tauto
  · intro P hP
    rw [v2, if_neg hP, a4]
  · intro S t' z
    rw [v3, a5]
  · intro S t' a ha b hb' hab
    rw [Store.same_static_begin_of v1] at hab
    rw [v3] at ha hb'
    exact a6 S t' a ha b hb' hab

/-- What a successful `push_copy_sources(t, dest, src)` does to the index: the
nodes `pushed_sources src` become copy sources of `dest`, and `dest` one of
their copy dests for `t`. -/
theorem push_copy_sources_some {s s' : Store} {t : transaction_id_t} {dest src : NodeRef}
    (h : push_copy_sources s t dest src = some s') (hwf : dests_wf s)
    (hd : sources_distinct s dest (s.pushed_sources src)) :
    (s.nodes dest).is_initial_pending = true
      ∧ (∀ x ∈ s.pushed_sources src, (s.nodes x).is_stable = true)
      ∧ s.same_static s'
      ∧ (∀ P z, z ∈ (s'.nodes P).copy_sources ↔
          z ∈ (s.nodes P).copy_sources ∨ (P = dest ∧ z ∈ s.pushed_sources src))
      ∧ (∀ P, P ≠ dest → (s'.nodes P).copy_sources = (s.nodes P).copy_sources)
      ∧ (∀ S t' z, z ∈ s'.copy_dests S t' ↔
          z ∈ s.copy_dests S t' ∨ (S ∈ s.pushed_sources src ∧ t' = t ∧ z = dest))
      ∧ dests_wf s' := by
  unfold push_copy_sources at h
  split at h
  case isFalse => exact absurd h (by simp)
  case isTrue hip =>
  refine ⟨hip, ?_⟩
  have key : ∀ (X : List NodeRef) (s1 : Store), s.pushed_sources src = X →
      add_copy_dest_each t dest X s = some s1 →
      s' = s1.set_copy_sources dest
        (set_insert_range s1.begin_of X (s1.nodes dest).copy_sources) →
      (∀ x ∈ s.pushed_sources src, (s.nodes x).is_stable = true)
      ∧ s.same_static s'
      ∧ (∀ P z, z ∈ (s'.nodes P).copy_sources ↔
          z ∈ (s.nodes P).copy_sources ∨ (P = dest ∧ z ∈ s.pushed_sources src))
      ∧ (∀ P, P ≠ dest → (s'.nodes P).copy_sources = (s.nodes P).copy_sources)
      ∧ (∀ S t' z, z ∈ s'.copy_dests S t' ↔
          z ∈ s.copy_dests S t' ∨ (S ∈ s.pushed_sources src ∧ t' = t ∧ z = dest))
      ∧ dests_wf s' := by
    intro X s1 hX hadd hs'
    rw [hX] at hd ⊢
    rw [hs']
    exact link_sources_some hadd hwf hd
  split at h
  · rename_i hst
    cases h1 : add_copy_dest s src t dest with
    | none => rw [h1] at h; exact absurd h (by simp)
    | some s1 =>
      rw [h1] at h
      obtain ⟨-, h⟩ := ite_some_guard h
      simp only [Option.some.injEq] at h
      refine key [src] s1 (by unfold Store.pushed_sources; rw [if_pos hst]) ?_ h.symm
      simp only [add_copy_dest_each, h1]
  · rename_i hst
    split at h
    · rename_i hmp
      cases hp : (s.nodes src).prior_instance with
      | none => rw [hp] at h; exact absurd h (by simp)
      | some copy_src =>
        rw [hp] at h
        simp only at h
        cases h1 : add_copy_dest s copy_src t dest with
        | none => rw [h1] at h; exact absurd h (by simp)
        | some s1 =>
          rw [h1] at h
          obtain ⟨-, h⟩ := ite_some_guard h
          simp only [Option.some.injEq] at h
          refine key [copy_src] s1
            (by unfold Store.pushed_sources; rw [if_neg hst, if_pos hmp, hp]) ?_ h.symm
          simp only [add_copy_dest_each, h1]
    · rename_i hmp
      split at h
      · cases h1 : add_copy_dest_each t dest (s.nodes src).copy_sources s with
        | none => rw [h1] at h; exact absurd h (by simp)
        | some s1 =>
          rw [h1] at h
          obtain ⟨-, h⟩ := ite_some_guard h
          simp only [Option.some.injEq] at h
          have hcs : (s1.nodes src).copy_sources = (s.nodes src).copy_sources :=
            (add_copy_dest_each_some t dest _ s s1 h1 hwf).2.2.1 src
          rw [hcs] at h
          exact key (s.nodes src).copy_sources s1
            (by unfold Store.pushed_sources; rw [if_neg hst, if_neg hmp]) h1 h.symm
      · exact absurd h (by simp)

/-- What the guarded loop of `del_copy_dest` for the donor `x` does to the index. -/
theorem del_copy_dests_of_some {s s' : Store} {t : transaction_id_t} {x : NodeRef}
    (h : del_copy_dests_of s t x = some s') :
    s.same_static s'
      ∧ (∀ P, (s'.nodes P).copy_sources = (s.nodes P).copy_sources)
      ∧ (∀ S t' z, z ∈ s'.copy_dests S t' ↔
          z ∈ s.copy_dests S t' ∧ ¬ ((s.nodes x).is_initial_pending = true
            ∧ S ∈ (s.nodes x).copy_sources ∧ t' = t ∧ s.begin_of z = s.begin_of x))
      ∧ (dests_wf s → dests_wf s') := by
  unfold del_copy_dests_of at h
  split at h
  · rename_i hip
    obtain ⟨a1, a2, a3, a4⟩ := del_copy_dest_each_some t x _ s s' h
    refine ⟨a1, a2, ?_, a4⟩
    intro S t' z
    rw [a3]
    tauto
  · rename_i hip
    simp only [Option.some.injEq] at h
    subst h
    refine ⟨Store.same_static_refl _, fun _ => rfl, ?_, fun h => h⟩
    intro S t' z
    tauto

/-- The pushes keep the symmetry of the index. -/
theorem copy_symmetry_push {s s' : Store} {t : transaction_id_t} {dest : NodeRef}
    {X donors : List NodeRef} (hsym : copy_symmetry s t donors) (hst : s.same_static s')
    (hC : ∀ P z, z ∈ (s'.nodes P).copy_sources ↔
      z ∈ (s.nodes P).copy_sources ∨ (P = dest ∧ z ∈ X))
    (hD : ∀ S t' z, z ∈ s'.copy_dests S t' ↔
      z ∈ s.copy_dests S t' ∨ (S ∈ X ∧ t' = t ∧ z = dest)) :
    copy_symmetry s' t donors := by
  intro S P hS hP hPt hPd
  rw [Store.same_static_is_stable hst] at hS
  rw [Store.same_static_is_pending hst] at hP
  rw [(hst P).2.1] at hPt
  have := hsym S P hS hP hPt hPd
  rw [hC, hD, this]
  tauto

/-- Dropping the registrations of a donor keeps the symmetry for every other node. -/
theorem copy_symmetry_del {s s' : Store} {t : transaction_id_t} {x : NodeRef}
    {donors : List NodeRef} (hsym : copy_symmetry s t donors) (hwf : dests_wf s)
    (hx : x ∉ donors) (hxt : (s.nodes x).pending_for_transaction = t)
    (h : del_copy_dests_of s t x = some s') :
    copy_symmetry s' t (x :: donors) := by
  obtain ⟨hst, hC, hD, -⟩ := del_copy_dests_of_some h
  intro S P hS hP hPt hPd
  rw [Store.same_static_is_stable hst] at hS
  rw [Store.same_static_is_pending hst] at hP
  rw [(hst P).2.1] at hPt
  have hPx : P ≠ x := fun e => hPd (e ▸ List.mem_cons_self _ _)
  have hPd' : P ∉ donors := fun e => hPd (List.mem_cons_of_mem _ e)
  have h1 := hsym S P hS hP hPt hPd'
  rw [hC, hD, h1]
  constructor
  · intro hmem
    refine ⟨hmem, ?_⟩
    rintro ⟨hip, hScs, -, hb⟩
    have hxp : (s.nodes x).is_pending = true := by
      unfold Node.is_initial_pending at hip
      unfold Node.is_pending
      simp only [beq_iff_eq] at hip
      rw [hip]
      rfl
    have hxm : x ∈ s.copy_dests S t := (hsym S x hS hxp hxt hx).mp hScs
    exact hPx (hwf S t P hmem x hxm hb)
  · exact fun hmem => hmem.1

/-! ## Frames of the commit-time operations -/

theorem same_links_all_trans {a b c : Store} (h1 : ∀ x, (a.nodes x).same_links (b.nodes x))
    (h2 : ∀ x, (b.nodes x).same_links (c.nodes x)) :
    ∀ x, (a.nodes x).same_links (c.nodes x) :=
  fun x => Node.same_links_trans (h1 x) (h2 x)

theorem set_node_same_links (s : Store) (r : NodeRef) (n : Node)
    (h : (s.nodes r).same_links n) : ∀ x, (s.nodes x).same_links ((s.set_node r n).nodes x) := by
  intro x
  by_cases hx : x = r
  · subst hx; rw [Store.set_node_same]; exact h
  · rw [Store.set_node_other _ _ _ hx]; exact Node.same_links_refl _

theorem copy_children_loop_same_links (source : Node) (fe : Nat) :
    ∀ (fuel : Nat) (me : Node) (f l : Nat) (me' : Node) (next : Nat),
      copy_children_loop source fe fuel me f l = some (me', next) → me.same_links me' := by
  intro fuel
  induction fuel with
  | zero => intro me f l me' next h; simp [copy_children_loop] at h
  | succ n ih =>
    intro me f l me' next h
    unfold copy_children_loop at h
    split at h
    · split at h
      · split at h
        · split at h
          · split at h
            · exact Node.same_links_trans ⟨_, me.children_spare, me.my_tracker, rfl⟩ (ih _ _ _ _ _ h)
            · exact absurd h (by simp)
          · exact ih _ _ _ _ _ h
        · split at h
          · exact ih _ _ _ _ _ h
          · exact ih _ _ _ _ _ h
      · exact absurd h (by simp)
    · simp only [Option.some.injEq, Prod.mk.injEq] at h
      rw [← h.1]
      exact Node.same_links_refl _

theorem copy_sources_loop_same_links (me : NodeRef) :
    ∀ (R : List NodeRef) (s s' : Store) (sp L : Nat),
      copy_sources_loop me R s sp L = some s' → ∀ x, (s.nodes x).same_links (s'.nodes x) := by
  intro R
  induction R with
  | nil =>
    intro s s' sp L h
    simp only [copy_sources_loop, Option.some.injEq] at h
    subst h
    exact fun x => Node.same_links_refl _
  | cons c rest ih =>
    intro s s' sp L h
    simp only [copy_sources_loop] at h
    generalize (if (s.nodes c).is_in_range (s.nodes me).range_end = true then
          (s.nodes c).upper_bound (s.nodes me).range_end
        else (s.nodes c).get_size) = ep at h
    cases hw : copy_children_from_stable_source (s.nodes me) (s.nodes c) sp ep L with
    | none => rw [hw] at h; exact absurd h (by simp)
    | some r =>
      obtain ⟨me1, next⟩ := r
      rw [hw] at h
      simp only at h
      have h1 : (s.nodes me).same_links me1 :=
        copy_children_loop_same_links _ _ _ _ _ _ _ _ hw
      by_cases hb : ep ≠ (s.nodes c).get_size
      · rw [if_pos hb] at h
        simp only [Option.some.injEq] at h
        subst h
        exact set_node_same_links s me me1 h1
      · rw [if_neg hb] at h
        exact same_links_all_trans (set_node_same_links s me me1 h1) (ih _ _ _ _ h)

theorem copy_children_from_stable_sources_same_links {s s' : Store} {me : NodeRef}
    (h : copy_children_from_stable_sources s me = some s') :
    ∀ x, (s.nodes x).same_links (s'.nodes x) := by
  simp only [copy_children_from_stable_sources] at h
  split at h
  · simp only [Option.some.injEq] at h
    subst h
    exact fun x => Node.same_links_refl _
  · split at h
    · exact absurd h (by simp)
    · split at h
      · exact absurd h (by simp)
      · split at h
        · exact copy_sources_loop_same_links me _ _ _ _ _ h
        · exact copy_sources_loop_same_links me _ _ _ _ _ h

theorem adjust_ptracker_for_children_same_links {s s' : Store} {me : NodeRef}
    (h : adjust_ptracker_for_children s me = some s') :
    ∀ x, (s.nodes x).same_links (s'.nodes x) := by
  unfold adjust_ptracker_for_children at h
  split at h
  · simp only [Option.some.injEq] at h
    subst h
    exact fun x => foldl_ptracker_same_links _ _ _ x
  · exact absurd h (by simp)

theorem set_children_from_prior_instance_same_links {s s' : Store} {me : NodeRef}
    (h : set_children_from_prior_instance s me = some s') :
    ∀ x, (s.nodes x).same_links (s'.nodes x) := by
  unfold set_children_from_prior_instance at h
  split at h
  · exact absurd h (by simp)
  · split at h
    · split at h
      · rename_i tr htr
        simp only at h
        split at h
        · exact absurd h (by simp)
        · rename_i s3 h3
          split at h
          · simp only [Option.some.injEq] at h
            subst h
            refine same_links_all_trans ?_ (adjust_ptracker_for_children_same_links h3)
            exact set_node_same_links _ me _ ⟨_, _, _, rfl⟩
          · exact absurd h (by simp)
      · split at h
        · simp only [Option.some.injEq] at h
          subst h
          exact fun x => Node.same_links_refl _
        · exact absurd h (by simp)
    · exact absurd h (by simp)

theorem take_children_from_prior_instance_same_links {s s' : Store} {me : NodeRef}
    (h : take_children_from_prior_instance s me = some s') :
    ∀ x, (s.nodes x).same_links (s'.nodes x) := by
  unfold take_children_from_prior_instance at h
  split at h
  · split at h
    · exact absurd h (by simp)
    · split at h
      · split at h
        · exact absurd h (by simp)
        · rename_i s1 h1
          split at h
          · exact absurd h (by simp)
          · rename_i me1 copied hw
            split at h
            · simp only [Option.some.injEq] at h
              subst h
              exact same_links_all_trans (set_children_from_prior_instance_same_links h1)
                (set_node_same_links s1 me me1
                  (copy_children_loop_same_links _ _ _ _ _ _ _ _ hw))
            · exact absurd h (by simp)
      · exact absurd h (by simp)
  · exact absurd h (by simp)

theorem take_children_from_stable_sources_same_links {s s' : Store} {me : NodeRef}
    (h : take_children_from_stable_sources s me = some s') :
    ∀ x, (s.nodes x).same_links (s'.nodes x) := by
  unfold take_children_from_stable_sources at h
  split at h
  · exact absurd h (by simp)
  · rename_i s1 h1
    exact same_links_all_trans (copy_children_from_stable_sources_same_links h1)
      (adjust_ptracker_for_children_same_links h)

/-- What `prepare_commit` does to the index: the copy sources of an
initial-pending node are emptied, nothing else of the index changes. -/
theorem prepare_commit_index {s s' : Store} {me : NodeRef}
    (h : prepare_commit s me = some s') :
    s.same_static s'
      ∧ (∀ S t', s'.copy_dests S t' = s.copy_dests S t')
      ∧ (∀ P, P ≠ me → (s'.nodes P).copy_sources = (s.nodes P).copy_sources)
      ∧ ((s.nodes me).is_initial_pending = true → (s'.nodes me).copy_sources = [])
      ∧ ((s.nodes me).is_initial_pending = false → s' = s) := by
  unfold prepare_commit at h
  split at h
  · rename_i hip
    split at h
    · exact absurd h (by simp)
    · rename_i s1 h1
      have hsl : ∀ x, (s.nodes x).same_links (s1.nodes x) := by
        split at h1
        · exact take_children_from_prior_instance_same_links h1
        · exact take_children_from_stable_sources_same_links h1
      split at h
      · simp only [Option.some.injEq] at h
        subst h
        obtain ⟨v1, v2, v3⟩ := s1.set_copy_sources_spec me []
        refine ⟨Store.same_static_trans (Store.same_static_of_same_links hsl) v1, ?_, ?_, ?_, ?_⟩
        · intro S t'
          rw [v3, Store.copy_dests_of_same_links hsl]
        · intro P hP
          rw [v2, if_neg hP, Node.same_links_copy_sources (hsl P)]
        · intro _
          rw [v2, if_pos rfl]
        · intro hf
          rw [hip] at hf
          cases hf
      · exact absurd h (by simp)
  · rename_i hip
    simp only [Option.some.injEq] at h
    subst h
    refine ⟨Store.same_static_refl _, fun _ _ => rfl, fun _ _ => rfl, ?_, fun _ => rfl⟩
    intro hf
    exact absurd hf hip

/-! ## Symmetry of the index through the structural operations -/

theorem pushed_sources_eq {s s' : Store} (hst : s.same_static s') (src : NodeRef)
    (hcs : (s'.nodes src).copy_sources = (s.nodes src).copy_sources) :
    s'.pushed_sources src = s.pushed_sources src := by
  unfold Store.pushed_sources
  rw [Store.same_static_is_stable hst, Store.same_static_is_mutation_pending hst,
    (hst src).2.2.1, hcs]

theorem sources_distinct_mono {s s' : Store} {d : NodeRef} {X X' : List NodeRef}
    (hst : s.same_static s')
    (hcs : ∀ z, z ∈ (s'.nodes d).copy_sources → z ∈ (s.nodes d).copy_sources ∨ z ∈ X)
    (hX : ∀ z ∈ X', z ∈ X) (h : sources_distinct s d X) : sources_distinct s' d X' := by
  intro a b ha hb hab
  rw [Store.same_static_begin_of hst] at hab
  refine h a b ?_ ?_ hab
  · rcases ha with ha | ha
    · exact hcs a ha
    · exact Or.inr (hX a ha)
  · rcases hb with hb | hb
    · exact hcs b hb
    · exact Or.inr (hX b hb)

/-- What a successful `adjust_copy_src_dest_on_split` does to the index. -/
theorem adjust_copy_src_dest_on_split_some {s s' : Store} {t : transaction_id_t}
    {me left right : NodeRef}
    (h : adjust_copy_src_dest_on_split s t me left right = some s') (hwf : dests_wf s)
    (hlm : left ≠ me)
    (hdl : sources_distinct s left (s.pushed_sources me))
    (hdr : sources_distinct s right (s.pushed_sources me)) :
    s.same_static s' ∧ dests_wf s'
      ∧ (s.nodes left).is_initial_pending = true ∧ (s.nodes right).is_initial_pending = true
      ∧ (∀ P z, z ∈ (s'.nodes P).copy_sources ↔
          z ∈ (s.nodes P).copy_sources ∨ ((P = left ∨ P = right) ∧ z ∈ s.pushed_sources me))
      ∧ (∀ S t' z, z ∈ s'.copy_dests S t' ↔
          (z ∈ s.copy_dests S t' ∧ ¬ ((s.nodes me).is_initial_pending = true
            ∧ S ∈ (s.nodes me).copy_sources ∧ t' = t ∧ s.begin_of z = s.begin_of me))
          ∨ (S ∈ s.pushed_sources me ∧ t' = t ∧ (z = left ∨ z = right)))
      ∧ (∀ donors, copy_symmetry s t donors → me ∉ donors →
          (s.nodes me).pending_for_transaction = t → copy_symmetry s' t (me :: donors)) := by
  simp only [adjust_copy_src_dest_on_split, Option.bind_eq_bind, Option.bind_eq_some] at h
  obtain ⟨s1, h1, s2, h2, h3⟩ := h
  obtain ⟨a1, a2, a3, a4⟩ := del_copy_dests_of_some h1
  have hX1 : s1.pushed_sources me = s.pushed_sources me := pushed_sources_eq a1 me (a2 me)
  have hd1 : sources_distinct s1 left (s1.pushed_sources me) :=
    sources_distinct_mono a1 (fun z hz => Or.inl (by rw [← a2 left]; exact hz))
      (fun z hz => by rw [← hX1]; exact hz) hdl
  obtain ⟨b0, -, b1, b2, b3, b4, b5⟩ := push_copy_sources_some h2 (a4 hwf) hd1
  have hX2 : s2.pushed_sources me = s.pushed_sources me := by
    rw [pushed_sources_eq b1 me (b3 me hlm.symm), hX1]
  have hd2 : sources_distinct s2 right (s2.pushed_sources me) :=
    sources_distinct_mono (Store.same_static_trans a1 b1)
      (fun z hz => by
        rcases (b2 right z).mp hz with hz | ⟨-, hz⟩
        · exact Or.inl (by rw [← a2 right]; exact hz)
        · exact Or.inr (by rw [← hX1]; exact hz))
      (fun z hz => by rw [← hX2]; exact hz) hdr
  obtain ⟨c0, -, c1, c2, c3, c4, c5⟩ := push_copy_sources_some h3 b5 hd2
  have hst : s.same_static s' := Store.same_static_trans a1 (Store.same_static_trans b1 c1)
  refine ⟨hst, c5, ?_, ?_, ?_, ?_, ?_⟩
  · rw [← Store.same_static_is_initial_pending a1]; exact b0
  · rw [← Store.same_static_is_initial_pending (Store.same_static_trans a1 b1)]; exact c0
  · intro P z
    rw [c2, b2, a2, hX2, hX1]
    tauto
  · intro S t' z
    rw [c4, b4, a3, hX2, hX1]
    tauto
  · intro donors hsym hme hmt
    have s1sym := copy_symmetry_del hsym hwf hme hmt h1
    have s2sym := copy_symmetry_push s1sym b1 b2 b4
    exact copy_symmetry_push s2sym c1 c2 c4

/-- The method `adjust_copy_src_dest_on_merge` keeps the symmetry for every node but the donors. -/
theorem adjust_copy_src_dest_on_merge_symmetry {s s' : Store} {t : transaction_id_t}
    {me left right : NodeRef}
    (h : adjust_copy_src_dest_on_merge s t me left right = some s') (hwf : dests_wf s)
    (hrm : right ≠ me) (hlr : left ≠ right)
    (hd : sources_distinct s me (s.pushed_sources left ++ s.pushed_sources right))
    (hlt : (s.nodes left).pending_for_transaction = t)
    (hrt : (s.nodes right).pending_for_transaction = t)
    (hsym : copy_symmetry s t []) :
    copy_symmetry s' t [right, left] := by
  simp only [adjust_copy_src_dest_on_merge, Option.bind_eq_bind, Option.bind_eq_some] at h
  obtain ⟨s1, h1, s2, h2, s3, h3, h4⟩ := h
  obtain ⟨a1, a2, a3, a4⟩ := del_copy_dests_of_some h1
  obtain ⟨b1, b2, b3, b4⟩ := del_copy_dests_of_some h2
  have s1sym := copy_symmetry_del hsym hwf (List.not_mem_nil _) hlt h1
  have s2sym := copy_symmetry_del s1sym (a4 hwf)
    (by simp only [List.mem_singleton]; exact hlr.symm)
    (by rw [(a1 right).2.1]; exact hrt) h2
  have hst2 : s.same_static s2 := Store.same_static_trans a1 b1
  have hcs2 : ∀ P, (s2.nodes P).copy_sources = (s.nodes P).copy_sources :=
    fun P => (b2 P).trans (a2 P)
  have hXl : s2.pushed_sources left = s.pushed_sources left :=
    pushed_sources_eq hst2 left (hcs2 left)
  have hXr : s2.pushed_sources right = s.pushed_sources right :=
    pushed_sources_eq hst2 right (hcs2 right)
  have hd1 : sources_distinct s2 me (s2.pushed_sources left) :=
    sources_distinct_mono hst2 (fun z hz => Or.inl (by rw [← hcs2 me]; exact hz))
      (fun z hz => by rw [hXl] at hz; exact List.mem_append_left _ hz) hd
  obtain ⟨-, -, c1, c2, c3, c4, c5⟩ := push_copy_sources_some h3 (b4 (a4 hwf)) hd1
  have hXr3 : s3.pushed_sources right = s.pushed_sources right := by
    rw [pushed_sources_eq c1 right (c3 right hrm), hXr]
  have hd2 : sources_distinct s3 me (s3.pushed_sources right) :=
    sources_distinct_mono (Store.same_static_trans hst2 c1)
      (fun z hz => by
        rcases (c2 me z).mp hz with hz | ⟨-, hz⟩
        · exact Or.inl (by rw [← hcs2 me]; exact hz)
        · exact Or.inr (by rw [hXl] at hz; exact List.mem_append_left _ hz))
      (fun z hz => by rw [hXr3] at hz; exact List.mem_append_right _ hz) hd
  obtain ⟨-, -, d1, d2, d3, d4, d5⟩ := push_copy_sources_some h4 c5 hd2
  exact copy_symmetry_push (copy_symmetry_push s2sym c1 c2 c4) d1 d2 d4

/-- The method `adjust_copy_src_dest_on_balance` keeps the symmetry for every node but the
donors. -/
theorem adjust_copy_src_dest_on_balance_symmetry {s s' : Store} {t : transaction_id_t}
    {left right : NodeRef} {pivot_idx : Nat} {rl rr : NodeRef}
    (h : adjust_copy_src_dest_on_balance s t left right pivot_idx rl rr = some s')
    (hwf : dests_wf s) (hlr : left ≠ right)
    (h1l : left ≠ rl) (h1r : right ≠ rl) (h2r : right ≠ rr)
    (hdl : sources_distinct s rl (s.pushed_sources left ++ s.pushed_sources right))
    (hdr : sources_distinct s rr (s.pushed_sources left ++ s.pushed_sources right))
    (hlt : (s.nodes left).pending_for_transaction = t)
    (hrt : (s.nodes right).pending_for_transaction = t)
    (hsym : copy_symmetry s t []) :
    copy_symmetry s' t [right, left] := by
  simp only [adjust_copy_src_dest_on_balance, Option.bind_eq_bind, Option.bind_eq_some] at h
  obtain ⟨s1, h1, s2, h2, h3⟩ := h
  obtain ⟨a1, a2, a3, a4⟩ := del_copy_dests_of_some h1
  obtain ⟨b1, b2, b3, b4⟩ := del_copy_dests_of_some h2
  have s1sym := copy_symmetry_del hsym hwf (List.not_mem_nil _) hlt h1
  have s2sym := copy_symmetry_del s1sym (a4 hwf)
    (by simp only [List.mem_singleton]; exact hlr.symm)
    (by rw [(a1 right).2.1]; exact hrt) h2
  have hst2 : s.same_static s2 := Store.same_static_trans a1 b1
  have hcs2 : ∀ P, (s2.nodes P).copy_sources = (s.nodes P).copy_sources :=
    fun P => (b2 P).trans (a2 P)
  have hXl : s2.pushed_sources left = s.pushed_sources left :=
    pushed_sources_eq hst2 left (hcs2 left)
  have hXr : s2.pushed_sources right = s.pushed_sources right :=
    pushed_sources_eq hst2 right (hcs2 right)
  have hd1 : sources_distinct s2 rl (s2.pushed_sources left) :=
    sources_distinct_mono hst2 (fun z hz => Or.inl (by rw [← hcs2 rl]; exact hz))
      (fun z hz => by rw [hXl] at hz; exact List.mem_append_left _ hz) hdl
  split at h3
  · simp only [Option.bind_eq_bind, Option.bind_eq_some] at h3
    obtain ⟨s3, h3, s4, h4, h5⟩ := h3
    obtain ⟨-, -, c1, c2, c3, c4, c5⟩ := push_copy_sources_some h3 (b4 (a4 hwf)) hd1
    have hst3 : s.same_static s3 := Store.same_static_trans hst2 c1
    have hXl3 : s3.pushed_sources left = s.pushed_sources left := by
      rw [pushed_sources_eq c1 left (c3 left h1l), hXl]
    have hXr3 : s3.pushed_sources right = s.pushed_sources right := by
      rw [pushed_sources_eq c1 right (c3 right h1r), hXr]
    have hcs3 : ∀ z, z ∈ (s3.nodes rr).copy_sources →
        z ∈ (s.nodes rr).copy_sources ∨ z ∈ s.pushed_sources left ++ s.pushed_sources right := by
      intro z hz
      rcases (c2 rr z).mp hz with hz | ⟨-, hz⟩
      · exact Or.inl (by rw [← hcs2 rr]; exact hz)
      · exact Or.inr (by rw [hXl] at hz; exact List.mem_append_left _ hz)
    have hd2 : sources_distinct s3 rr (s3.pushed_sources left) :=
      sources_distinct_mono hst3 hcs3
        (fun z hz => by rw [hXl3] at hz; exact List.mem_append_left _ hz) hdr
    obtain ⟨-, -, d1, d2, d3, d4, d5⟩ := push_copy_sources_some h4 c5 hd2
    have hXr4 : s4.pushed_sources right = s.pushed_sources right := by
      rw [pushed_sources_eq d1 right (d3 right h2r), hXr3]
    have hd3 : sources_distinct s4 rr (s4.pushed_sources right) :=
      sources_distinct_mono (Store.same_static_trans hst3 d1)
        (fun z hz => by
          rcases (d2 rr z).mp hz with hz | ⟨-, hz⟩
          · exact hcs3 z hz
          · exact Or.inr (by rw [hXl3] at hz; exact List.mem_append_left _ hz))
        (fun z hz => by rw [hXr4] at hz; exact List.mem_append_right _ hz) hdr
    obtain ⟨-, -, e1, e2, e3, e4, e5⟩ := push_copy_sources_some h5 d5 hd3
    exact copy_symmetry_push (copy_symmetry_push (copy_symmetry_push s2sym c1 c2 c4) d1 d2 d4)
      e1 e2 e4
  · simp only [Option.bind_eq_bind, Option.bind_eq_some] at h3
    obtain ⟨s3, h3, s4, h4, h5⟩ := h3
    obtain ⟨-, -, c1, c2, c3, c4, c5⟩ := push_copy_sources_some h3 (b4 (a4 hwf)) hd1
    have hst3 : s.same_static s3 := Store.same_static_trans hst2 c1
    have hXr3 : s3.pushed_sources right = s.pushed_sources right := by
      rw [pushed_sources_eq c1 right (c3 right h1r), hXr]
    have hcs3 : ∀ z, z ∈ (s3.nodes rl).copy_sources →
        z ∈ (s.nodes rl).copy_sources ∨ z ∈ s.pushed_sources left ++ s.pushed_sources right := by
      intro z hz
      rcases (c2 rl z).mp hz with hz | ⟨-, hz⟩
      · exact Or.inl (by rw [← hcs2 rl]; exact hz)
      · exact Or.inr (by rw [hXl] at hz; exact List.mem_append_left _ hz)
    have hd2 : sources_distinct s3 rl (s3.pushed_sources right) :=
      sources_distinct_mono hst3 hcs3
        (fun z hz => by rw [hXr3] at hz; exact List.mem_append_right _ hz) hdl
    obtain ⟨-, -, d1, d2, d3, d4, d5⟩ := push_copy_sources_some h4 c5 hd2
    have hXr4 : s4.pushed_sources right = s.pushed_sources right := by
      rw [pushed_sources_eq d1 right (d3 right h1r), hXr3]
    have hd3 : sources_distinct s4 rr (s4.pushed_sources right) :=
      sources_distinct_mono (Store.same_static_trans hst3 d1)
        (fun z hz => by
          rcases (d2 rr z).mp hz with hz | ⟨-, hz⟩
          · rcases (c2 rr z).mp hz with hz | ⟨-, hz⟩
            · exact Or.inl (by rw [← hcs2 rr]; exact hz)
            · exact Or.inr (by rw [hXl] at hz; exact List.mem_append_left _ hz)
          · exact Or.inr (by rw [hXr3] at hz; exact List.mem_append_right _ hz))
        (fun z hz => by rw [hXr4] at hz; exact List.mem_append_right _ hz) hdr
    obtain ⟨-, -, e1, e2, e3, e4, e5⟩ := push_copy_sources_some h5 d5 hd3
    exact copy_symmetry_push (copy_symmetry_push (copy_symmetry_push s2sym c1 c2 c4) d1 d2 d4)
      e1 e2 e4

theorem Store.set_children_same_links (s : Store) (r : NodeRef) (l : List ChildPtr) :
    ∀ x, (s.nodes x).same_links ((s.set_children r l).nodes x) :=
  set_node_same_links s r _ ⟨_, _, _, rfl⟩

theorem Store.move_children_same_links (s : Store) (dest src : NodeRef) :
    ∀ x, (s.nodes x).same_links ((s.move_children dest src).nodes x) := by
  unfold Store.move_children
  exact same_links_all_trans (set_node_same_links s src _ ⟨_, _, _, rfl⟩)
    (set_node_same_links _ dest _ ⟨_, _, _, rfl⟩)

theorem copy_symmetry_of_same_links {s s' : Store} {t : transaction_id_t}
    {donors : List NodeRef} (hsym : copy_symmetry s t donors)
    (h : ∀ x, (s.nodes x).same_links (s'.nodes x)) : copy_symmetry s' t donors := by
  have hst := Store.same_static_of_same_links h
  intro S P hS hP hPt hPd
  rw [Store.same_static_is_stable hst] at hS
  rw [Store.same_static_is_pending hst] at hP
  rw [(hst P).2.1] at hPt
  rw [Node.same_links_copy_sources (h P), Store.copy_dests_of_same_links h]
  exact hsym S P hS hP hPt hPd

/-- The method `on_rewrite` keeps the symmetry of the index. -/
theorem on_rewrite_symmetry {s s' : Store} {t : transaction_id_t} {me foreign : NodeRef}
    {donors : List NodeRef}
    (h : on_rewrite s t me foreign = some s') (hwf : dests_wf s)
    (hd : sources_distinct s me (s.pushed_sources foreign))
    (hsym : copy_symmetry s t donors) : copy_symmetry s' t donors := by
  unfold on_rewrite at h
  split at h
  · rename_i hst
    cases h1 : add_copy_dest s foreign t me with
    | none => rw [h1] at h; exact absurd h (by simp)
    | some s1 =>
      rw [h1] at h
      obtain ⟨-, h⟩ := ite_some_guard h
      simp only [Option.some.injEq] at h
      have hX : s.pushed_sources foreign = [foreign] := by
        unfold Store.pushed_sources; rw [if_pos hst]
      rw [hX] at hd
      have hadd : add_copy_dest_each t me [foreign] s = some s1 := by
        simp only [add_copy_dest_each, h1]
      obtain ⟨-, c1, c2, -, c4, -⟩ := link_sources_some hadd hwf hd
      rw [← h]
      exact copy_symmetry_push hsym c1 c2 c4
  · rename_i hst
    split at h
    · rename_i hmp
      cases hp : (s.nodes foreign).prior_instance with
      | none => rw [hp] at h; exact absurd h (by simp)
      | some copy_source =>
        rw [hp] at h
        simp only at h
        cases h1 : add_copy_dest s copy_source t me with
        | none => rw [h1] at h; exact absurd h (by simp)
        | some s1 =>
          rw [h1] at h
          obtain ⟨-, h⟩ := ite_some_guard h
          have hX : s.pushed_sources foreign = [copy_source] := by
            unfold Store.pushed_sources; rw [if_neg hst, if_pos hmp, hp]
          rw [hX] at hd
          have hadd : add_copy_dest_each t me [copy_source] s = some s1 := by
            simp only [add_copy_dest_each, h1]
          obtain ⟨-, c1, c2, -, c4, -⟩ := link_sources_some hadd hwf hd
          have hsym2 := copy_symmetry_push hsym c1 c2 c4
          refine copy_symmetry_of_same_links hsym2 ?_
          refine same_links_all_trans ?_ (adjust_ptracker_for_children_same_links h)
          exact Store.move_children_same_links _ me foreign
    · exact absurd h (by simp)

/-! ## The index on the example store -/

theorem Store.of_list_default (l : List Node) (x : Nat) (h : l.length ≤ x) :
    (Store.of_list l).nodes x = Node.blank extent_state_t.INVALID :=
  List.getD_eq_default _ _ h

theorem copy_symmetry_of_check (s : Store) (t : transaction_id_t) (n : Nat)
    (hchk : symmetry_check s t n = true)
    (hdef : ∀ x, n ≤ x → (s.nodes x).is_stable = false ∧ (s.nodes x).is_pending = false) :
    copy_symmetry s t [] := by
  intro S P hS hP hPt _
  have hSn : S < n := by
    by_contra hcon
    rw [(hdef S (Nat.le_of_not_lt hcon)).1] at hS
    cases hS
  have hPn : P < n := by
    by_contra hcon
    rw [(hdef P (Nat.le_of_not_lt hcon)).2] at hP
    cases hP
  unfold symmetry_check at hchk
  rw [List.all_eq_true] at hchk
  have h1 := hchk S (List.mem_range.mpr hSn)
  rw [List.all_eq_true] at h1
  have h2 := h1 P (List.mem_range.mpr hPn)
  rw [hS, hP, hPt] at h2
  simp only [Bool.and_self, beq_self_eq_true, Bool.not_true, Bool.false_or, beq_iff_eq,
    decide_eq_decide] at h2
  exact h2

theorem lookup_mem {β : Type} (t : transaction_id_t) (v : β) :
    ∀ l : List (transaction_id_t × β), l.lookup t = some v → (t, v) ∈ l := by
  intro l
  induction l with
  | nil => intro h; cases h
  | cons e rest ih =>
    obtain ⟨k, w⟩ := e
    intro h
    rw [List.lookup_cons] at h
    by_cases hk : t = k
    · subst hk
      simp only [beq_self_eq_true, Option.some.injEq] at h
      subst h
      exact List.mem_cons_self _ _
    · have h1 : (t == k) = false := by simpa using hk
      rw [h1] at h
      exact List.mem_cons_of_mem _ (ih h)

theorem dests_wf_of_check (s : Store) (n : Nat) (hchk : dests_check s n = true)
    (hdef : ∀ x, n ≤ x → (s.nodes x).copy_dests_by_trans = []) : dests_wf s := by
  intro S t a ha b hb hab
  unfold Store.copy_dests at ha hb
  cases hl : (s.nodes S).copy_dests_by_trans.lookup t with
  | none => rw [hl] at ha; simp at ha
  | some l =>
    rw [hl] at ha hb
    simp only [Option.getD_some] at ha hb
    have hmem := lookup_mem t l _ hl
    have hSn : S < n := by
      by_contra hcon
      rw [hdef S (Nat.le_of_not_lt hcon)] at hmem
      exact absurd hmem (List.not_mem_nil _)
    unfold dests_check at hchk
    rw [List.all_eq_true] at hchk
    have h1 := hchk S (List.mem_range.mpr hSn)
    rw [List.all_eq_true] at h1
    have h2 := h1 (t, l) hmem
    rw [List.all_eq_true] at h2
    have h3 := h2 a ha
    rw [List.all_eq_true] at h3
    have h4 := h3 b hb
    simp only [Bool.or_eq_true, bne_iff_ne, ne_eq, beq_iff_eq] at h4
    rcases h4 with h4 | h4
    · exact absurd hab h4
    · exact h4

theorem index_store_default (x : Nat) (h : 12 ≤ x) :
    index_store.nodes x = Node.blank extent_state_t.INVALID :=
  Store.of_list_default _ x h

theorem index_store_symmetry : copy_symmetry index_store 7 [] :=
  copy_symmetry_of_check index_store 7 12 (by decide)
    (fun x hx => by rw [index_store_default x hx]; exact ⟨rfl, rfl⟩)

theorem index_store_dests_wf : dests_wf index_store :=
  dests_wf_of_check index_store 12 (by decide)
    (fun x hx => by rw [index_store_default x hx]; rfl)

theorem sources_distinct_of_check (s : Store) (dest : NodeRef) (extra : List NodeRef)
    (hchk : sources_distinct_check s dest extra = true) : sources_distinct s dest extra := by
  intro a b ha hb hab
  unfold sources_distinct_check at hchk
  rw [List.all_eq_true] at hchk
  have h1 := hchk a (List.mem_append.mpr ha)
  rw [List.all_eq_true] at h1
  have h2 := h1 b (List.mem_append.mpr hb)
  simp only [Bool.or_eq_true, bne_iff_ne, ne_eq, beq_iff_eq] at h2
  rcases h2 with h2 | h2
  · exact absurd hab h2
  · exact h2

/-- C5 (as stated) fails: on the example store the index is symmetric for
transaction 7; after `adjust_copy_src_dest_on_split` the donor (node 0) still
lists the stable node 3 as a copy source while node 3 no longer has it among
its copy dests; and after `prepare_commit` node 0 has no copy source while
node 3 still has it among its copy dests. -/
theorem copy_symmetry_claim_fails :
    copy_symmetry index_store 7 []
      ∧ (adjust_copy_src_dest_on_split index_store 7 0 1 2).map
          (fun s' => ((s'.nodes 3).is_stable, (s'.nodes 0).is_pending,
            (s'.nodes 0).pending_for_transaction, (s'.nodes 0).copy_sources,
            s'.copy_dests 3 7)) = some (true, true, 7, [3, 4], [1, 2])
      ∧ (prepare_commit index_store 0).map
          (fun s' => ((s'.nodes 3).is_stable, (s'.nodes 0).is_pending,
            (s'.nodes 0).pending_for_transaction, (s'.nodes 0).copy_sources,
            s'.copy_dests 3 7)) = some (true, true, 7, [], [0])
      ∧ (∃ s', adjust_copy_src_dest_on_split index_store 7 0 1 2 = some s'
          ∧ ¬ copy_symmetry s' 7 [])
      ∧ (∃ s', prepare_commit index_store 0 = some s' ∧ ¬ copy_symmetry s' 7 []) := by
  have e1 : (adjust_copy_src_dest_on_split index_store 7 0 1 2).map
      (fun s' => ((s'.nodes 3).is_stable, (s'.nodes 0).is_pending,
        (s'.nodes 0).pending_for_transaction, (s'.nodes 0).copy_sources,
        s'.copy_dests 3 7)) = some (true, true, 7, [3, 4], [1, 2]) := by decide
  have e2 : (prepare_commit index_store 0).map
      (fun s' => ((s'.nodes 3).is_stable, (s'.nodes 0).is_pending,
        (s'.nodes 0).pending_for_transaction, (s'.nodes 0).copy_sources,
        s'.copy_dests 3 7)) = some (true, true, 7, [], [0]) := by decide
  refine ⟨index_store_symmetry, e1, e2, ?_, ?_⟩
  · cases h : adjust_copy_src_dest_on_split index_store 7 0 1 2 with
    | none => rw [h] at e1; cases e1
    | some s' =>
      rw [h] at e1
      simp only [Option.map_some', Option.some.injEq, Prod.mk.injEq] at e1
      obtain ⟨a1, a2, a3, a4, a5⟩ := e1
      refine ⟨s', rfl, fun hsym => ?_⟩
      have := (hsym 3 0 a1 a2 a3 (List.not_mem_nil _)).mp (by rw [a4]; decide)
      rw [a5] at this
      exact absurd this (by decide)
  · cases h : prepare_commit index_store 0 with
    | none => rw [h] at e2; cases e2
    | some s' =>
      rw [h] at e2
      simp only [Option.map_some', Option.some.injEq, Prod.mk.injEq] at e2
      obtain ⟨a1, a2, a3, a4, a5⟩ := e2
      refine ⟨s', rfl, fun hsym => ?_⟩
      have := (hsym 3 0 a1 a2 a3 (List.not_mem_nil _)).mpr (by rw [a5]; decide)
      rw [a4] at this
      exact absurd this (List.not_mem_nil _)

/-- C5 (amended): in a store whose index is symmetric for `t` (and whose
`dests_by_key` sets hold no two nodes with one begin key), the symmetry still
holds for every pair after `on_rewrite` and after `push_copy_sources`
(provided the nodes pushed and the copy sources already present have pairwise
distinct begin keys, so that `std::set` inserts them); it still holds for
every pair whose pending node is not a donor after
`adjust_copy_src_dest_on_split`, `adjust_copy_src_dest_on_merge` and
`adjust_copy_src_dest_on_balance` (donors pending for `t`, distinct from each
other and from the nodes their sources are pushed to); and `prepare_commit`
changes no copy-dest registration and empties the copy sources of an
initial-pending node, so that the symmetry still holds for every other
pending node. -/
theorem copy_symmetry_preserved (s : Store) (t : transaction_id_t) (hwf : dests_wf s)
    (hsym : copy_symmetry s t []) :
    (∀ me foreign s', sources_distinct s me (s.pushed_sources foreign) →
        on_rewrite s t me foreign = some s' → copy_symmetry s' t [])
      ∧ (∀ dest src s', sources_distinct s dest (s.pushed_sources src) →
        push_copy_sources s t dest src = some s' → copy_symmetry s' t [])
      ∧ (∀ me left right s', left ≠ me → (s.nodes me).pending_for_transaction = t →
        sources_distinct s left (s.pushed_sources me) →
        sources_distinct s right (s.pushed_sources me) →
        adjust_copy_src_dest_on_split s t me left right = some s' →
        copy_symmetry s' t [me])
      ∧ (∀ me left right s', right ≠ me → left ≠ right →
        (s.nodes left).pending_for_transaction = t →
        (s.nodes right).pending_for_transaction = t →
        sources_distinct s me (s.pushed_sources left ++ s.pushed_sources right) →
        adjust_copy_src_dest_on_merge s t me left right = some s' →
        copy_symmetry s' t [right, left])
      ∧ (∀ left right pivot_idx rl rr s', left ≠ right → left ≠ rl → right ≠ rl → right ≠ rr →
        (s.nodes left).pending_for_transaction = t →
        (s.nodes right).pending_for_transaction = t →
        sources_distinct s rl (s.pushed_sources left ++ s.pushed_sources right) →
        sources_distinct s rr (s.pushed_sources left ++ s.pushed_sources right) →
        adjust_copy_src_dest_on_balance s t left right pivot_idx rl rr = some s' →
        copy_symmetry s' t [right, left])
      ∧ (∀ me s', prepare_commit s me = some s' →
        copy_symmetry s' t [me]
          ∧ (∀ S t', s'.copy_dests S t' = s.copy_dests S t')
          ∧ ((s.nodes me).is_initial_pending = true → (s'.nodes me).copy_sources = [])) := by
  refine ⟨?_, ?_, ?_, ?_, ?_, ?_⟩
  · intro me foreign s' hd h
    exact on_rewrite_symmetry h hwf hd hsym
  · intro dest src s' hd h
    obtain ⟨-, -, c1, c2, -, c4, -⟩ := push_copy_sources_some h hwf hd
    exact copy_symmetry_push hsym c1 c2 c4
  · intro me left right s' hlm hmt hdl hdr h
    exact (adjust_copy_src_dest_on_split_some h hwf hlm hdl hdr).2.2.2.2.2.2 [] hsym
      (List.not_mem_nil _) hmt
  · intro me left right s' hrm hlr hlt hrt hd h
    exact adjust_copy_src_dest_on_merge_symmetry h hwf hrm hlr hd hlt hrt hsym
  · intro left right pivot_idx rl rr s' hlr h1l h1r h2r hlt hrt hdl hdr h
    exact adjust_copy_src_dest_on_balance_symmetry h hwf hlr h1l h1r h2r hdl hdr hlt hrt hsym
  · intro me s' h
    obtain ⟨p1, p2, p3, p4, -⟩ := prepare_commit_index h
    refine ⟨?_, p2, p4⟩
    intro S P hS hP hPt hPd
    rw [Store.same_static_is_stable p1] at hS
    rw [Store.same_static_is_pending p1] at hP
    rw [(p1 P).2.1] at hPt
    have hPme : P ≠ me := fun e => hPd (e ▸ List.mem_cons_self _ _)
    rw [p3 P hPme, p2]
    exact hsym S P hS hP hPt (List.not_mem_nil _)

/-- C5 witness: `on_rewrite` and `push_copy_sources` at the start of a rewrite
of a stable node, and the other four operations on the example store; each
call returns and leaves the index symmetric as the theorem says. -/
theorem copy_symmetry_preserved_witness :
    (∃ s', on_rewrite fresh_rewrite_store 7 1 0 = some s' ∧ copy_symmetry s' 7 [])
      ∧ (∃ s', push_copy_sources fresh_rewrite_store 7 1 0 = some s'
          ∧ copy_symmetry s' 7 [])
      ∧ (∃ s', adjust_copy_src_dest_on_split index_store 7 0 1 2 = some s'
          ∧ copy_symmetry s' 7 [0])
      ∧ (∃ s', adjust_copy_src_dest_on_merge index_store 7 5 6 7 = some s'
          ∧ copy_symmetry s' 7 [7, 6])
      ∧ (∃ s', adjust_copy_src_dest_on_balance index_store 7 6 7 1 10 11 = some s'
          ∧ copy_symmetry s' 7 [7, 6])
      ∧ (∃ s', prepare_commit index_store 0 = some s' ∧ copy_symmetry s' 7 [0]) := by
  have T := copy_symmetry_preserved index_store 7 index_store_dests_wf index_store_symmetry
  obtain ⟨-, -, T3, T4, T5, T6⟩ := T
  have hdef : ∀ x, 2 ≤ x → fresh_rewrite_store.nodes x = Node.blank extent_state_t.INVALID :=
    fun x hx => Store.of_list_default _ x hx
  have R := copy_symmetry_preserved fresh_rewrite_store 7
    (dests_wf_of_check fresh_rewrite_store 2 (by decide)
      (fun x hx => by rw [hdef x hx]; rfl))
    (copy_symmetry_of_check fresh_rewrite_store 7 2 (by decide)
      (fun x hx => by rw [hdef x hx]; exact ⟨rfl, rfl⟩))
  obtain ⟨T1, T2, -⟩ := R
  refine ⟨?_, ?_, ?_, ?_, ?_, ?_⟩
  · obtain ⟨s', hs'⟩ := Option.isSome_iff_exists.mp
      (show (on_rewrite fresh_rewrite_store 7 1 0).isSome = true by decide)
    exact ⟨s', hs', T1 1 0 s' (sources_distinct_of_check _ _ _ (by decide)) hs'⟩
  · obtain ⟨s', hs'⟩ := Option.isSome_iff_exists.mp
      (show (push_copy_sources fresh_rewrite_store 7 1 0).isSome = true by decide)
    exact ⟨s', hs', T2 1 0 s' (sources_distinct_of_check _ _ _ (by decide)) hs'⟩
  · obtain ⟨s', hs'⟩ := Option.isSome_iff_exists.mp
      (show (adjust_copy_src_dest_on_split index_store 7 0 1 2).isSome = true by decide)
    exact ⟨s', hs', T3 0 1 2 s' (by decide) (by decide)
      (sources_distinct_of_check _ _ _ (by decide))
      (sources_distinct_of_check _ _ _ (by decide)) hs'⟩
  · obtain ⟨s', hs'⟩ := Option.isSome_iff_exists.mp
      (show (adjust_copy_src_dest_on_merge index_store 7 5 6 7).isSome = true by decide)
    exact ⟨s', hs', T4 5 6 7 s' (by decide) (by decide) (by decide) (by decide)
      (sources_distinct_of_check _ _ _ (by decide)) hs'⟩
  · obtain ⟨s', hs'⟩ := Option.isSome_iff_exists.mp
      (show (adjust_copy_src_dest_on_balance index_store 7 6 7 1 10 11).isSome = true by decide)
    exact ⟨s', hs', T5 6 7 1 10 11 s' (by decide) (by decide) (by decide) (by decide)
      (by decide) (by decide)
      (sources_distinct_of_check _ _ _ (by decide))
      (sources_distinct_of_check _ _ _ (by decide)) hs'⟩
  · obtain ⟨s', hs'⟩ := Option.isSome_iff_exists.mp
      (show (prepare_commit index_store 0).isSome = true by decide)
    exact ⟨s', hs', (T6 0 s' hs').1⟩

/-! ## Split followed by the transfer of the registrations -/

theorem maybe_expand_children_same_links {U : Nat} {n n' : Node} {size : Nat}
    (h : maybe_expand_children U n size = some n') : n.same_links n' :=
  (maybe_expand_children_some h).2.1

/-- The method `split_child_ptrs` touches child arrays and trackers only. -/
theorem split_child_ptrs_same_links {U : Nat} {s s' : Store} {me left right : NodeRef}
    {pivot : Nat} (h : split_child_ptrs U s me left right pivot = some s') :
    ∀ x, (s.nodes x).same_links (s'.nodes x) := by
  unfold split_child_ptrs at h
  split at h
  · exact absurd h (by simp)
  · split at h
    · exact absurd h (by simp)
    · simp only [Option.bind_eq_bind, Option.bind_eq_some] at h
      obtain ⟨l, hl, r, hr, h⟩ := h
      have f1 := set_node_same_links s left l (maybe_expand_children_same_links hl)
      have f2 := set_node_same_links (s.set_node left l) right r
        (maybe_expand_children_same_links hr)
      have f12 := same_links_all_trans f1 f2
      split at h
      · simp only [Option.bind_eq_bind, Option.bind_eq_some, Option.some.injEq] at h
        obtain ⟨s3, h3, s4, h4, rfl⟩ := h
        exact same_links_all_trans f12
          (same_links_all_trans (move_child_ptrs_some h3).2.2
            (same_links_all_trans (move_child_ptrs_some h4).2.2
              (fun x => Store.clear_my_tracker_same_links s4 me x)))
      · simp only [Option.some.injEq] at h
        subst h
        exact f12

theorem dests_wf_of_same_links {s s' : Store} (hwf : dests_wf s)
    (h : ∀ x, (s.nodes x).same_links (s'.nodes x)) : dests_wf s' := by
  intro S t a ha b hb hab
  rw [Store.same_static_begin_of (Store.same_static_of_same_links h)] at hab
  rw [Store.copy_dests_of_same_links h] at ha hb
  exact hwf S t a ha b hb hab

theorem sources_distinct_of_same_links {s s' : Store} {d : NodeRef} {X : List NodeRef}
    (hd : sources_distinct s d X) (h : ∀ x, (s.nodes x).same_links (s'.nodes x)) :
    sources_distinct s' d X :=
  sources_distinct_mono (Store.same_static_of_same_links h)
    (fun z hz => Or.inl (by rw [← Node.same_links_copy_sources (h d)]; exact hz))
    (fun _ hz => hz) hd

/-- C6: for an initial-pending node R of transaction `t` with copy sources CS,
in a store whose index is symmetric for `t`, split into two other nodes L and
Right (the members of CS and the copy sources L and Right already have being
of pairwise distinct begin keys): after `split_child_ptrs` followed by
`adjust_copy_src_dest_on_split(t, L, Right)`, for every S in CS, R is not
among the copy dests of S for `t` while L and Right are, and S is a copy
source of L and of Right; and no stable node has R among its copy dests for `t`. -/
theorem split_transfers_copy_dests (U : Nat) (s s1 s2 : Store) (t : transaction_id_t)
    (R L Right : NodeRef) (pivot : Nat)
    (hR : (s.nodes R).is_initial_pending = true)
    (hRt : (s.nodes R).pending_for_transaction = t)
    (hLR : L ≠ R) (hRR : Right ≠ R)
    (hwf : dests_wf s) (hsym : copy_symmetry s t [])
    (hdl : sources_distinct s L (s.nodes R).copy_sources)
    (hdr : sources_distinct s Right (s.nodes R).copy_sources)
    (h1 : split_child_ptrs U s R L Right pivot = some s1)
    (h2 : adjust_copy_src_dest_on_split s1 t R L Right = some s2) :
    (∀ S ∈ (s.nodes R).copy_sources,
        R ∉ s2.copy_dests S t ∧ L ∈ s2.copy_dests S t ∧ Right ∈ s2.copy_dests S t
          ∧ S ∈ (s2.nodes L).copy_sources ∧ S ∈ (s2.nodes Right).copy_sources)
      ∧ (∀ S, (s.nodes S).is_stable = true → R ∉ s2.copy_dests S t) := by
  have hsl := split_child_ptrs_same_links h1
  have hst := Store.same_static_of_same_links hsl
  have hR1 : (s1.nodes R).is_initial_pending = true := by
    rw [Store.same_static_is_initial_pending hst]; exact hR
  have hcsR : (s1.nodes R).copy_sources = (s.nodes R).copy_sources :=
    Node.same_links_copy_sources (hsl R)
  have hX : s1.pushed_sources R = (s.nodes R).copy_sources := by
    unfold Store.pushed_sources
    have e1 : (s1.nodes R).is_stable = false := by
      unfold Node.is_initial_pending at hR1
      unfold Node.is_stable
      simp only [beq_iff_eq] at hR1
      rw [hR1]; rfl
    have e2 : (s1.nodes R).is_mutation_pending = false := by
      unfold Node.is_initial_pending at hR1
      unfold Node.is_mutation_pending
      simp only [beq_iff_eq] at hR1
      rw [hR1]; rfl
    rw [e1, e2, hcsR]
    rfl
  obtain ⟨-, -, -, -, hC, hD, -⟩ := adjust_copy_src_dest_on_split_some h2
    (dests_wf_of_same_links hwf hsl) hLR
    (by rw [hX]; exact sources_distinct_of_same_links hdl hsl)
    (by rw [hX]; exact sources_distinct_of_same_links hdr hsl)
  rw [hX] at hC hD
  have hnoR : ∀ S, R ∈ s2.copy_dests S t → R ∈ s.copy_dests S t
      ∧ S ∉ (s.nodes R).copy_sources := by
    intro S hmem
    rcases (hD S t R).mp hmem with ⟨hm, hn⟩ | ⟨-, -, hz⟩
    · rw [Store.copy_dests_of_same_links hsl] at hm
      refine ⟨hm, fun hS => hn ⟨hR1, ?_, rfl, rfl⟩⟩
      rw [hcsR]; exact hS
    · rcases hz with hz | hz
      · exact absurd hz.symm hLR
      · exact absurd hz.symm hRR
  refine ⟨?_, ?_⟩
  · intro S hS
    refine ⟨fun hmem => (hnoR S hmem).2 hS, ?_, ?_, ?_, ?_⟩
    · exact (hD S t L).mpr (Or.inr ⟨hS, rfl, Or.inl rfl⟩)
    · exact (hD S t Right).mpr (Or.inr ⟨hS, rfl, Or.inr rfl⟩)
    · exact (hC L S).mpr (Or.inr ⟨Or.inl rfl, hS⟩)
    · exact (hC Right S).mpr (Or.inr ⟨Or.inr rfl, hS⟩)
  · intro S hS hmem
    obtain ⟨hm, hn⟩ := hnoR S hmem
    have hRp : (s.nodes R).is_pending = true := by
      unfold Node.is_initial_pending at hR
      unfold Node.is_pending
      simp only [beq_iff_eq] at hR
      rw [hR]; rfl
    exact hn ((hsym S R hS hRp hRt (List.not_mem_nil _)).mpr hm)

/-- C6 witness: scenario 3 on the example store, R (node 0, six keys) split at
pivot 3 into L (node 1) and Right (node 2). -/
theorem split_transfers_copy_dests_witness :
    ∃ s1 s2, split_child_ptrs 0 index_store 0 1 2 3 = some s1
      ∧ adjust_copy_src_dest_on_split s1 7 0 1 2 = some s2
      ∧ (∀ S ∈ (index_store.nodes 0).copy_sources,
          0 ∉ s2.copy_dests S 7 ∧ 1 ∈ s2.copy_dests S 7 ∧ 2 ∈ s2.copy_dests S 7
            ∧ S ∈ (s2.nodes 1).copy_sources ∧ S ∈ (s2.nodes 2).copy_sources)
      ∧ (∀ S, (index_store.nodes S).is_stable = true → 0 ∉ s2.copy_dests S 7) := by
  obtain ⟨s1, hs1⟩ := Option.isSome_iff_exists.mp
    (show (split_child_ptrs 0 index_store 0 1 2 3).isSome = true by decide)
  obtain ⟨s2, hs2⟩ := Option.isSome_iff_exists.mp
    (show ((split_child_ptrs 0 index_store 0 1 2 3).bind
      (fun s1 => adjust_copy_src_dest_on_split s1 7 0 1 2)).isSome = true by decide)
  rw [hs1] at hs2
  exact ⟨s1, s2, hs1, hs2,
    split_transfers_copy_dests 0 index_store s1 s2 7 0 1 2 3 (by decide) (by decide)
      (by decide) (by decide) index_store_dests_wf index_store_symmetry
      (sources_distinct_of_check _ _ _ (by decide))
      (sources_distinct_of_check _ _ _ (by decide)) hs1 hs2⟩

/-- Scenario 3 evaluated: after the split and the transfer, the stable nodes 3
and 4 have L and Right (nodes 1, 2) as copy dests for transaction 7 and not R
(node 0); L and Right have both as copy sources and hold R's children. -/
theorem scenario3_registrations :
    ((split_child_ptrs 0 index_store 0 1 2 3).bind
        (fun s1 => adjust_copy_src_dest_on_split s1 7 0 1 2)).map
      (fun s2 => [s2.copy_dests 3 7, s2.copy_dests 4 7, (s2.nodes 1).copy_sources,
        (s2.nodes 2).copy_sources, (s2.nodes 1).children, (s2.nodes 2).children])
      = some [[1, 2], [1, 2], [3, 4], [3, 4], [nullptr, nullptr, 102],
          [nullptr, nullptr, nullptr]] := by
  decide

/-! ## Child resolution -/

theorem lower_bound_eq_of_key {n : Node} (hk : n.keys.Pairwise (fun a b => a < b))
    {j key : Nat} (hj : n.keys[j]? = some key) : n.lower_bound key = j := by
  obtain ⟨hjl, hjk⟩ := List.getElem?_eq_some_iff.mp hj
  unfold Node.lower_bound
  rw [List.findIdx_eq hjl]
  constructor
  · simp [hjk]
  · intro i hi
    have := pairwise_lt_getElem? hk hi (List.getElem?_eq_getElem (by omega)) hj
    simp only [decide_eq_false_iff_not, not_le]
    exact this

/-- C7: `get_child` at a position `pos` whose key is `key`. A valid local child
is handed to the retriever. On a pending node with a null local slot whose
stable predecessor `get_stable_for_key(key)` (strictly increasing keys) holds
the key at index `j` (with a slot for it), the call does not fail: it hands
the predecessor's child at `j` to the retriever when that is a valid pointer
and otherwise returns the deferred position `(predecessor, j)`. On a node that
is not pending a null local slot gives the deferred position `(node, pos)`.
The stable predecessor of a mutation-pending node is its prior instance. -/
theorem get_child_spec {α : Type} (f : ChildPtr → α) (s : Store) (me : NodeRef)
    (pos key : Nat) (hkey : (s.nodes me).keys[pos]? = some key) :
    (∀ child, (s.nodes me).children[pos]? = some child → is_valid_child_ptr child = true →
        get_child f s me pos key = some (get_child_ret_t.child (f child)))
      ∧ (∀ sp j c, (s.nodes me).is_pending = true → (s.nodes me).children[pos]? = some nullptr →
        get_stable_for_key s me key = some sp →
        (s.nodes sp).keys.Pairwise (fun a b => a < b) → (s.nodes sp).keys[j]? = some key →
        (s.nodes sp).children[j]? = some c →
        get_child f s me pos key
          = some (if is_valid_child_ptr c then get_child_ret_t.child (f c)
              else get_child_ret_t.child_pos sp j))
      ∧ ((s.nodes me).is_pending = false → (s.nodes me).children[pos]? = some nullptr →
        get_child f s me pos key = some (get_child_ret_t.child_pos me pos))
      ∧ (∀ sp, (s.nodes me).is_mutation_pending = true →
        (s.nodes me).prior_instance = some sp → get_stable_for_key s me key = some sp) := by
  have hlen : ∀ c, (s.nodes me).children[pos]? = some c → (s.nodes me).children.length ≠ 0 := by
    intro c hc
    have := (List.getElem?_eq_some_iff.mp hc).1
    omega
  have hnull_r : is_reserved_ptr nullptr = false := by decide
  have hnull_v : is_valid_child_ptr nullptr = false := by decide
  refine ⟨?_, ?_, ?_, ?_⟩
  · intro child hc hv
    have hr : is_reserved_ptr child = false := by
      unfold is_valid_child_ptr at hv
      unfold is_reserved_ptr
      simp only [Bool.and_eq_true, bne_iff_ne, ne_eq] at hv
      simpa using hv.2
    unfold get_child
    rw [if_neg (hlen child hc), if_neg (by rw [hkey]; simp), hc]
    simp [hr, hv]
  · intro sp j c hp hc hsp hk hj hcj
    unfold get_child
    rw [if_neg (hlen _ hc), if_neg (by rw [hkey]; simp), hc]
    simp only [hnull_r, hnull_v, Bool.false_eq_true, if_false, hp, if_true, hsp,
      lower_bound_eq_of_key hk hj, hcj]
    split <;> rfl
  · intro hp hc
    unfold get_child
    rw [if_neg (hlen _ hc), if_neg (by rw [hkey]; simp), hc]
    simp [hnull_r, hnull_v, hp]
  · intro sp hmp hprior
    have hp : (s.nodes me).is_pending = true := by
      unfold Node.is_mutation_pending at hmp
      unfold Node.is_pending
      simp only [beq_iff_eq] at hmp
      rw [hmp]
      rfl
    unfold get_stable_for_key
    rw [if_pos hp, if_pos hmp, hprior]

/-- C7 witness: scenario 1, `get_child(T1, pos = 2)` on N' resolves to the child
of N at position 2; a valid local child and a null slot of the stable N are
resolved as the theorem says. -/
theorem get_child_spec_witness :
    get_child id (scenario1_store 102) 1 2 20 = some (get_child_ret_t.child 102)
      ∧ get_child id (scenario1_store 102) 0 2 20 = some (get_child_ret_t.child 102)
      ∧ get_child id (scenario1_store nullptr) 0 2 20 = some (get_child_ret_t.child_pos 0 2) :=
  ⟨(get_child_spec id (scenario1_store 102) 1 2 20 (by decide)).2.1 0 2 102 (by decide)
      (by decide)
      ((get_child_spec id (scenario1_store 102) 1 2 20 (by decide)).2.2.2 0 (by decide)
        (by decide))
      (by decide) (by decide) (by decide),
    (get_child_spec id (scenario1_store 102) 0 2 20 (by decide)).1 102 (by decide) (by decide),
    (get_child_spec id (scenario1_store nullptr) 0 2 20 (by decide)).2.2.1 (by decide)
      (by decide)⟩

/-- C9, the failing input: N' is pending with a null slot at position 2 and the
slot of its stable predecessor N for the key holds the reserved sentinel;
`get_child` does not fail, it returns the deferred position naming that slot.
A reserved local slot does make it fail. -/
theorem get_child_reserved_in_predecessor :
    get_child id (scenario1_store get_reserved_ptr) 1 2 20
        = some (get_child_ret_t.child_pos 0 2)
      ∧ ((scenario1_store get_reserved_ptr).nodes 0).children[2]? = some get_reserved_ptr
      ∧ get_child id (scenario1_store get_reserved_ptr) 0 2 20 = none := by
  decide

/-- C8, the failing input: `update_child_ptr(pos, child)` with the reserved
sentinel as `child`,
for a position inside the storage of the node. The call does not return: it
writes the sentinel into the slot, gives the node its tracker and then calls
`reset_parent_tracker` on the sentinel, an address that holds no object; and a
call of `update_child_ptr` that returns has a valid child. The method
`insert_child_ptr` with the sentinel as child returns and calls nothing on it
(the parent tracker of the sentinel address stays as it was). -/
theorem update_child_ptr_reserved_dereferenced (s : Store) (me : NodeRef) (pos : Nat)
    (hpos : pos < (s.nodes me).children.length) :
    update_child_ptr s me pos get_reserved_ptr = none
      ∧ (∃ st, update_child_ptr_traced s me pos get_reserved_ptr = Except.error st
          ∧ (st.nodes me).children[pos]? = some get_reserved_ptr
          ∧ (st.nodes me).my_tracker.isSome = true
          ∧ st.child_objs = s.child_objs)
      ∧ (∀ child s', update_child_ptr s me pos child = some s' →
          is_valid_child_ptr child = true)
      ∧ (∀ U offset size s', insert_child_ptr U s me offset get_reserved_ptr size = some s' →
          s'.child_objs = s.child_objs) := by
  have hinv : is_valid_child_ptr get_reserved_ptr = false := by decide
  refine ⟨?_, ?_, ?_, ?_⟩
  · unfold update_child_ptr
    rw [if_pos hpos, hinv]
    rfl
  · unfold update_child_ptr_traced
    rw [if_pos hpos, hinv]
    refine ⟨_, rfl, ?_, ?_, ?_⟩
    · have h1 : ((ensure_my_tracker (s.set_children me ((s.nodes me).children.set pos
          get_reserved_ptr)) me).nodes me).children
          = (s.nodes me).children.set pos get_reserved_ptr := by
        unfold ensure_my_tracker Store.set_children
        split <;> simp [Store.set_node]
      rw [h1, List.getElem?_set_self (by simpa using hpos)]
    · unfold ensure_my_tracker Store.set_children
      split
      · rename_i t ht
        rw [ht]; rfl
      · simp [Store.set_node]
    · unfold ensure_my_tracker Store.set_children
      split <;> rfl
  · intro child s' h
    unfold update_child_ptr at h
    rw [if_pos hpos] at h
    by_contra hc
    rw [if_neg hc] at h
    exact absurd h (by simp)
  · intro U offset size s' h
    unfold insert_child_ptr at h
    rw [if_neg (by decide)] at h
    simp only at h
    split at h
    · exact absurd h (by simp)
    · rename_i n hn
      obtain ⟨-, h⟩ := ite_some_guard h
      have hres : is_reserved_ptr get_reserved_ptr = true := by decide
      rw [hres] at h
      simp only [if_true, Option.some.injEq] at h
      subst h
      rfl

/-- C8 witness: on the pending node of scenario 1 `update_child_ptr(0, reserved)`
does not return, the slot 0 holding the sentinel when the call stops, and
`insert_child_ptr` of the sentinel into a fresh node returns. -/
theorem update_child_ptr_reserved_dereferenced_witness :
    update_child_ptr (scenario1_store 102) 1 0 get_reserved_ptr = none
      ∧ (∃ st, update_child_ptr_traced (scenario1_store 102) 1 0 get_reserved_ptr
            = Except.error st
          ∧ (st.nodes 1).children[0]? = some get_reserved_ptr
          ∧ (st.nodes 1).my_tracker.isSome = true
          ∧ st.child_objs = (scenario1_store 102).child_objs)
      ∧ (insert_child_ptr 0 (Store.with_fresh_pair split_pending_node 2) 1 0
            get_reserved_ptr 1).map
          (fun s' => (((s'.nodes 1).children[0]?),
            (s'.child_objs get_reserved_ptr).parent_tracker))
          = some (some get_reserved_ptr, none) :=
  ⟨(update_child_ptr_reserved_dereferenced (scenario1_store 102) 1 0 (by decide)).1,
    (update_child_ptr_reserved_dereferenced (scenario1_store 102) 1 0 (by decide)).2.1,
    by decide⟩

/-! ## Transactional resolution -/

/-- The method `find_pending_version` for a retired stable node whose copy dests for `t`
are in set order: it returns the copy dest with the greatest begin key
`<= key`, provided its range contains `key`, and fails otherwise. -/
theorem find_pending_version_retired (s : Store) (me : NodeRef) (t : transaction_id_t)
    (key : Nat) (ds : List NodeRef) (hst : (s.nodes me).is_stable = true)
    (hl : (s.nodes me).copy_dests_by_trans.lookup t = some ds)
    (hs : ds.Pairwise (fun a b => (s.nodes a).range_begin < (s.nodes b).range_begin)) :
    ∀ d, find_pending_version s me t key viewable_state_t.stable_become_retired = some d ↔
      (d ∈ ds ∧ (s.nodes d).range_begin ≤ key ∧ key < (s.nodes d).range_end
        ∧ ∀ d' ∈ ds, (s.nodes d').range_begin ≤ key →
            (s.nodes d').range_begin ≤ (s.nodes d).range_begin) := by
  intro d
  have hle : ∀ (i j : Nat) (a b : NodeRef), i ≤ j → ds[i]? = some a → ds[j]? = some b →
      (s.nodes a).range_begin ≤ (s.nodes b).range_begin := by
    intro i j a b hij ha hb
    rcases Nat.lt_or_eq_of_le hij with hlt | heq
    · exact Nat.le_of_lt (pairwise_getElem? hs hlt ha hb)
    · subst heq; rw [ha] at hb; cases hb; exact le_refl _
  have hinj : ∀ a ∈ ds, ∀ b ∈ ds, (s.nodes a).range_begin = (s.nodes b).range_begin → a = b := by
    intro a ha b hb hab
    obtain ⟨i, hi⟩ := List.mem_iff_getElem?.mp ha
    obtain ⟨j, hj⟩ := List.mem_iff_getElem?.mp hb
    rcases Nat.lt_trichotomy i j with hlt | heq | hgt
    · have := pairwise_getElem? hs hlt hi hj; omega
    · subst heq; rw [hi] at hj; exact Option.some.inj hj
    · have := pairwise_getElem? hs hgt hj hi; omega
  -- the candidate: the member with the greatest begin key `<= key`
  have hfinal : ∀ d0, d0 ∈ ds → (s.nodes d0).range_begin ≤ key →
      (∀ d' ∈ ds, (s.nodes d').range_begin ≤ key →
        (s.nodes d').range_begin ≤ (s.nodes d0).range_begin) →
      ((if (s.nodes d0).range_begin ≤ key ∧ key < (s.nodes d0).range_end then some d0
          else none) = some d ↔
        (d ∈ ds ∧ (s.nodes d).range_begin ≤ key ∧ key < (s.nodes d).range_end
          ∧ ∀ d' ∈ ds, (s.nodes d').range_begin ≤ key →
              (s.nodes d').range_begin ≤ (s.nodes d).range_begin)) := by
    intro d0 hd0 hb0 hg0
    constructor
    · intro h
      split at h
      · rename_i hc
        simp only [Option.some.injEq] at h
        subst h
        exact ⟨hd0, hc.1, hc.2, hg0⟩
      · cases h
    · rintro ⟨hd, hb, he, hg⟩
      have hdd : d = d0 := hinj d hd d0 hd0 (Nat.le_antisymm (hg0 d hd hb) (hg d0 hd0 hb0))
      subst hdd
      rw [if_pos ⟨hb, he⟩]
  have hlb_lt : ∀ (i : Nat) (a : NodeRef), i < set_lower_bound s ds key → ds[i]? = some a →
      (s.nodes a).range_begin < key := by
    intro i a hi ha
    have := @findIdx_false_of_lt _ (fun r => decide (¬ (s.nodes r).range_begin < key)) ds i a
      hi ha
    simpa using this
  unfold find_pending_version
  rw [if_pos hst, if_neg (by decide), if_pos rfl, hl]
  simp only
  cases hdl : ds[set_lower_bound s ds key]? with
  | none =>
    have hlen : ds.length ≤ set_lower_bound s ds key := by
      by_contra hcon
      rw [List.getElem?_eq_getElem (Nat.lt_of_not_le hcon)] at hdl
      cases hdl
    simp only [Bool.true_and, beq_iff_eq, if_true]
    by_cases h0 : set_lower_bound s ds key = 0
    · rw [if_pos h0]
      have hnil : ds = [] := List.length_eq_zero.mp (by omega)
      constructor
      · intro h; cases h
      · rintro ⟨hd, -⟩
        rw [hnil] at hd
        exact absurd hd (List.not_mem_nil _)
    · rw [if_neg h0]
      have hublen : set_lower_bound s ds key ≤ ds.length := List.findIdx_le_length _
      have hit : set_lower_bound s ds key - 1 < ds.length := by omega
      have hget := List.getElem?_eq_getElem hit
      rw [hget]
      simp only
      refine hfinal _ (List.getElem_mem hit)
        (Nat.le_of_lt (hlb_lt _ _ (by omega) hget)) ?_
      intro d' hd' _
      obtain ⟨j, hj⟩ := List.mem_iff_getElem?.mp hd'
      have hjl := (List.getElem?_eq_some_iff.mp hj).1
      exact hle j _ d' _ (by omega) hj hget
  | some dl =>
    have hdl_ge : key ≤ (s.nodes dl).range_begin := by
      have := @findIdx_true_at _ (fun r => decide (¬ (s.nodes r).range_begin < key)) ds dl hdl
      simpa using this
    have hlbl := (List.getElem?_eq_some_iff.mp hdl).1
    by_cases hgt : (s.nodes dl).range_begin > key
    · have hsb : decide ((s.nodes dl).range_begin > key) = true := by simpa using hgt
      simp only [hsb, Bool.true_and, beq_iff_eq, if_true]
      have hnone : ∀ (j : Nat) (d' : NodeRef), set_lower_bound s ds key ≤ j → ds[j]? = some d' →
          ¬ (s.nodes d').range_begin ≤ key := by
        intro j d' hj hd'
        have := hle _ j dl d' hj hdl hd'
        omega
      by_cases h0 : set_lower_bound s ds key = 0
      · rw [if_pos h0]
        constructor
        · intro h; cases h
        · rintro ⟨hd, hb, -⟩
          obtain ⟨j, hj⟩ := List.mem_iff_getElem?.mp hd
          exact absurd hb (hnone j d (by omega) hj)
      · rw [if_neg h0]
        have hit : set_lower_bound s ds key - 1 < ds.length := by omega
        have hget := List.getElem?_eq_getElem hit
        rw [hget]
        simp only
        refine hfinal _ (List.getElem_mem hit)
          (Nat.le_of_lt (hlb_lt _ _ (by omega) hget)) ?_
        intro d' hd' hb'
        obtain ⟨j, hj⟩ := List.mem_iff_getElem?.mp hd'
        have hjlt : j < set_lower_bound s ds key := by
          by_contra hcon
          exact hnone j d' (Nat.le_of_not_lt hcon) hj hb'
        exact hle j _ d' _ (by omega) hj hget
    · have hsb : decide ((s.nodes dl).range_begin > key) = false := by simpa using hgt
      simp only [hsb, Bool.false_and, Bool.false_eq_true, if_false, hdl]
      refine hfinal dl (List.mem_iff_getElem?.mpr ⟨_, hdl⟩) (by omega) ?_
      intro d' _ hb'
      omega

/-- C10 (as stated) fails: transaction 8 and transaction 9 have no copy-dest
entry on node 0, yet `resolve_transaction` does not fail for them: it returns
the mutation-pending version for 8 (state `stable_become_pending`) and the
node itself for 9 (viewable). -/
theorem resolve_transaction_claim_fails :
    resolve_transaction resolve_viewable resolve_store 0 8 50 = some (false, 4)
      ∧ (resolve_store.nodes 0).copy_dests_by_trans.lookup 8 = none
      ∧ resolve_transaction resolve_viewable resolve_store 0 9 50 = some (true, 0)
      ∧ (resolve_store.nodes 0).copy_dests_by_trans.lookup 9 = none := by
  decide

/-- C10 (amended): `resolve_transaction(t, key)` fails on an invalid node. On a
valid node it returns `(true, node)` when the node is viewable by `t`. When it
is not viewable and the node is stable: in state `stable_become_pending` it
returns `false` with the node's mutation-pending version for `t`, `t` having
no copy-dest entry on the node; in state `stable_become_retired`, the copy
dests registered for `t` being in set order, it returns `false` with the
copy dest `d` of greatest begin key `<= key`, provided `d.begin <= key < d.end`,
and it fails when `t` has no copy-dest entry on the node or when no registered
copy dest's range contains `key`. -/
theorem resolve_transaction_spec
    (ivt : NodeRef → transaction_id_t → Bool × viewable_state_t)
    (s : Store) (me : NodeRef) (t : transaction_id_t) (key : Nat) :
    ((s.nodes me).is_valid = false → resolve_transaction ivt s me t key = none)
      ∧ ((s.nodes me).is_valid = true → (ivt me t).1 = true →
          resolve_transaction ivt s me t key = some (true, me))
      ∧ ((s.nodes me).is_valid = true →
          ivt me t = (false, viewable_state_t.stable_become_pending) →
          (s.nodes me).is_stable = true →
          ∀ m, (s.nodes me).mutation_pending_extents.lookup t = some m →
            (s.nodes me).copy_dests_by_trans.lookup t = none →
            resolve_transaction ivt s me t key = some (false, m))
      ∧ ((s.nodes me).is_valid = true →
          ivt me t = (false, viewable_state_t.stable_become_retired) →
          (s.nodes me).is_stable = true →
          ∀ ds, (s.nodes me).copy_dests_by_trans.lookup t = some ds →
            ds.Pairwise (fun a b => (s.nodes a).range_begin < (s.nodes b).range_begin) →
            (∀ d, resolve_transaction ivt s me t key = some (false, d) ↔
              (d ∈ ds ∧ (s.nodes d).range_begin ≤ key ∧ key < (s.nodes d).range_end
                ∧ ∀ d' ∈ ds, (s.nodes d').range_begin ≤ key →
                    (s.nodes d').range_begin ≤ (s.nodes d).range_begin))
            ∧ ((∀ d ∈ ds, ¬ ((s.nodes d).range_begin ≤ key ∧ key < (s.nodes d).range_end)) →
              resolve_transaction ivt s me t key = none))
      ∧ ((s.nodes me).is_valid = true →
          ivt me t = (false, viewable_state_t.stable_become_retired) →
          (s.nodes me).copy_dests_by_trans.lookup t = none →
          resolve_transaction ivt s me t key = none) := by
  refine ⟨?_, ?_, ?_, ?_, ?_⟩
  · intro hv
    unfold resolve_transaction
    rw [hv]
    rfl
  · intro hv hview
    unfold resolve_transaction
    rw [if_pos hv, if_pos hview, hview]
  · intro hv hivt hst m hm hcd
    unfold resolve_transaction find_pending_version
    rw [if_pos hv, hivt]
    simp [hst, hm, hcd]
  · intro hv hivt hst ds hl hs
    have hfind := find_pending_version_retired s me t key ds hst hl hs
    have hres : resolve_transaction ivt s me t key
        = (find_pending_version s me t key viewable_state_t.stable_become_retired).map
            (fun n => (false, n)) := by
      unfold resolve_transaction
      rw [if_pos hv, hivt]
      simp only [Bool.false_eq_true, if_false]
      cases find_pending_version s me t key viewable_state_t.stable_become_retired <;> rfl
    refine ⟨?_, ?_⟩
    · intro d
      rw [hres, ← hfind d]
      cases find_pending_version s me t key viewable_state_t.stable_become_retired with
      | none => simp
      | some n => simp
    · intro hno
      rw [hres]
      cases hf : find_pending_version s me t key viewable_state_t.stable_become_retired with
      | none => rfl
      | some n =>
        obtain ⟨h1, h2, h3, -⟩ := (hfind n).mp hf
        exact absurd ⟨h2, h3⟩ (hno n h1)
  · intro hv hivt hcd
    unfold resolve_transaction find_pending_version
    rw [if_pos hv, hivt]
    simp [hcd]

/-- C10 witness: on the example store, transaction 7 (node 0 retired) and key 35
resolve to the copy dest 2 = [30,60); key 65, which no copy dest contains,
fails; transaction 8 resolves to the mutation-pending version; transaction 9
views the node itself. -/
theorem resolve_transaction_spec_witness :
    resolve_transaction resolve_viewable resolve_store 0 7 35 = some (false, 2)
      ∧ resolve_transaction resolve_viewable resolve_store 0 7 65 = none
      ∧ resolve_transaction resolve_viewable resolve_store 0 8 35 = some (false, 4)
      ∧ resolve_transaction resolve_viewable resolve_store 0 9 35 = some (true, 0) :=
  ⟨((resolve_transaction_spec resolve_viewable resolve_store 0 7 35).2.2.2.1 (by decide)
      (by decide) (by decide) [1, 2, 3] (by decide) (by decide)).1 2 |>.mpr (by decide),
    ((resolve_transaction_spec resolve_viewable resolve_store 0 7 65).2.2.2.1 (by decide)
      (by decide) (by decide) [1, 2, 3] (by decide) (by decide)).2 (by decide),
    (resolve_transaction_spec resolve_viewable resolve_store 0 8 35).2.2.1 (by decide)
      (by decide) (by decide) 4 (by decide) (by decide),
    (resolve_transaction_spec resolve_viewable resolve_store 0 9 35).2.1 (by decide)
      (by decide)⟩

/-! ## The slot of a child in its parent -/

/-- What an accepted search of `get_parent_pos` has found: an entry with the
key, at the lower bound or, after a step back, right before it. -/
theorem Node.parent_pos_some {n : Node} {key i : Nat} (h : n.parent_pos key = some i) :
    n.keys[i]? = some key
      ∧ (i = n.lower_bound key
        ∨ (i + 1 = n.lower_bound key ∧ ∃ k, n.keys[n.lower_bound key]? = some k ∧ key < k)) := by
  unfold Node.parent_pos at h
  simp only at h
  split at h
  · exact absurd h (by simp)
  · rename_i k hk
    split at h
    · rename_i hgt
      split at h
      · exact absurd h (by simp)
      · split at h
        · exact absurd h (by simp)
        · rename_i hne hn0
          split at h
          · exact absurd h (by simp)
          · rename_i k' hk'
            split at h
            · rename_i heq
              simp only [Option.some.injEq] at h
              subst h
              subst heq
              refine ⟨hk', Or.inr ⟨by omega, k, hk, hgt⟩⟩
            · exact absurd h (by simp)
    · split at h
      · rename_i heq
        simp only [Option.some.injEq] at h
        subst h
        subst heq
        exact ⟨hk, Or.inl rfl⟩
      · exact absurd h (by simp)

/-- With strictly increasing keys the search finds the entry that holds the key. -/
theorem Node.parent_pos_of_key {n : Node} (hs : n.keys.Pairwise (fun a b => a < b))
    {key i : Nat} (h : n.keys[i]? = some key) : n.parent_pos key = some i := by
  have hlb := lower_bound_eq_of_key hs h
  unfold Node.parent_pos
  simp only [hlb, h]
  simp

/-- With strictly increasing keys a step back is never accepted: the entry
before the lower bound has a smaller key. -/
theorem Node.parent_pos_step_back {n : Node} {key k : Nat}
    (hk : n.keys[n.lower_bound key]? = some k) (hgt : key < k) : n.parent_pos key = none := by
  cases hres : n.parent_pos key with
  | none => rfl
  | some i =>
    obtain ⟨hi, hcase⟩ := Node.parent_pos_some hres
    rcases hcase with h1 | ⟨h1, -⟩
    · rw [h1, hk] at hi
      simp only [Option.some.injEq] at hi
      omega
    · have hlt : i < n.lower_bound key := by omega
      have := lt_of_lt_findIdx_lower hi hlt
      omega

/-- C20: `get_parent_pos` of a child whose tracker names the parent `parent`.
When the parent (strictly increasing keys) holds the child's begin key at
index `i`, it returns `i`. Whatever it returns is the index of an entry whose
key is the child's begin key, found at the lower bound of the begin key or,
when the key located there is strictly greater, one entry before it; in that
second case the entry before has a smaller key, so the call fails. It fails
when the parent holds no entry for the child's begin key. -/
theorem get_parent_pos_spec (s : Store) (me : ChildPtr) (parent : NodeRef)
    (hp : peek_parent_node s me = some parent) :
    (∀ i : Nat, (s.nodes parent).keys.Pairwise (fun a b => a < b) →
        (s.nodes parent).keys[i]? = some (s.child_objs me).node_begin →
        get_parent_pos s me = some i)
      ∧ (∀ i : Nat, get_parent_pos s me = some i →
          (s.nodes parent).keys[i]? = some (s.child_objs me).node_begin
            ∧ (i = (s.nodes parent).lower_bound (s.child_objs me).node_begin
              ∨ (i + 1 = (s.nodes parent).lower_bound (s.child_objs me).node_begin
                ∧ ∃ k, (s.nodes parent).keys[(s.nodes parent).lower_bound
                      (s.child_objs me).node_begin]? = some k
                    ∧ (s.child_objs me).node_begin < k)))
      ∧ (∀ k : Nat, (s.nodes parent).keys[(s.nodes parent).lower_bound
            (s.child_objs me).node_begin]? = some k →
          (s.child_objs me).node_begin < k → get_parent_pos s me = none)
      ∧ ((∀ i : Nat, (s.nodes parent).keys[i]? ≠ some (s.child_objs me).node_begin) →
          get_parent_pos s me = none) := by
  have hdef : get_parent_pos s me
      = (s.nodes parent).parent_pos (s.child_objs me).node_begin := by
    unfold get_parent_pos
    rw [hp]
  refine ⟨?_, ?_, ?_, ?_⟩
  · intro i hs hi
    rw [hdef]
    exact Node.parent_pos_of_key hs hi
  · intro i hi
    rw [hdef] at hi
    exact Node.parent_pos_some hi
  · intro k hk hgt
    rw [hdef]
    exact Node.parent_pos_step_back hk hgt
  · intro hno
    rw [hdef]
    cases hres : (s.nodes parent).parent_pos (s.child_objs me).node_begin with
    | none => rfl
    | some i => exact absurd (Node.parent_pos_some hres).1 (hno i)

/-- C20 witness: the child 102 (begin key 20) of the parent of `family_store`
is found at index 2. -/
theorem get_parent_pos_spec_witness :
    peek_parent_node family_store 102 = some 0 ∧ get_parent_pos family_store 102 = some 2 :=
  ⟨by decide,
    (get_parent_pos_spec family_store 102 0 (by decide)).1 2 (by decide) (by decide)⟩

/-! ## Promotion of a child across versions -/

@[simp] theorem reset_parent_tracker_nodes (s : Store) (c : ChildPtr) (p : Option TrackerRef) :
    (reset_parent_tracker s c p).nodes = s.nodes := rfl

@[simp] theorem reset_parent_tracker_trackers (s : Store) (c : ChildPtr)
    (p : Option TrackerRef) : (reset_parent_tracker s c p).trackers = s.trackers := rfl

@[simp] theorem reset_parent_tracker_same (s : Store) (c : ChildPtr) (p : Option TrackerRef) :
    ((reset_parent_tracker s c p).child_objs c).parent_tracker = p := by
  simp [reset_parent_tracker]

@[simp] theorem reset_parent_tracker_begin (s : Store) (c x : ChildPtr)
    (p : Option TrackerRef) :
    ((reset_parent_tracker s c p).child_objs x).node_begin = (s.child_objs x).node_begin := by
  unfold reset_parent_tracker
  by_cases hx : x = c
  · simp [hx]
  · simp [hx]

theorem reset_parent_tracker_other (s : Store) (c : ChildPtr) (p : Option TrackerRef)
    {x : ChildPtr} (hx : x ≠ c) : (reset_parent_tracker s c p).child_objs x = s.child_objs x := by
  simp [reset_parent_tracker, hx]

@[simp] theorem Store.set_children_child_objs (s : Store) (r : NodeRef) (l : List ChildPtr) :
    (s.set_children r l).child_objs = s.child_objs := rfl

@[simp] theorem Store.set_children_trackers (s : Store) (r : NodeRef) (l : List ChildPtr) :
    (s.set_children r l).trackers = s.trackers := rfl

@[simp] theorem Store.set_children_same (s : Store) (r : NodeRef) (l : List ChildPtr) :
    ((s.set_children r l).nodes r).children = l := by
  simp [Store.set_children]

theorem Store.set_children_other (s : Store) (r : NodeRef) (l : List ChildPtr) {x : NodeRef}
    (hx : x ≠ r) : (s.set_children r l).nodes x = s.nodes x := by
  simp [Store.set_children, Store.set_node_other _ _ _ hx]

/-- C19: `take_parent_from_prior` on a non-root child `me` whose prior instance
`prior` carries the tracker `tr` of the parent `parent` and occupies the slot
`i` that `get_parent_pos` finds for `me` once it carries that tracker: the call
returns, the child's parent tracker is `tr`, the parent's `children[i]` is `me`,
every other slot of the parent and every other node are as before. -/
theorem take_parent_from_prior_spec (s : Store) (me prior : ChildPtr) (tr : TrackerRef)
    (parent : NodeRef) (i : Nat)
    (htr : (s.child_objs prior).parent_tracker = some tr)
    (hpar : (s.trackers tr).get_parent = some parent)
    (hpos : get_parent_pos (reset_parent_tracker s me (some tr)) me = some i)
    (hslot : (s.nodes parent).children[i]? = some prior) :
    ∃ s', take_parent_from_prior s me false (some prior) = some s'
      ∧ (s'.child_objs me).parent_tracker = some tr
      ∧ (s'.nodes parent).children[i]? = some me
      ∧ (∀ j : Nat, j ≠ i → (s'.nodes parent).children[j]? = (s.nodes parent).children[j]?)
      ∧ (∀ x, x ≠ parent → s'.nodes x = s.nodes x) := by
  have hpeek : peek_parent_node (reset_parent_tracker s me (some tr)) me = some parent := by
    unfold peek_parent_node
    simp [hpar]
  have hi : i < (s.nodes parent).children.length :=
    (List.getElem?_eq_some_iff.mp hslot).1
  refine ⟨(reset_parent_tracker s me (some tr)).set_children parent
      ((s.nodes parent).children.set i me), ?_, ?_, ?_, ?_, ?_⟩
  · unfold take_parent_from_prior _take_parent_from_prior
    simp [htr, hpos, hpeek, hslot, BaseChildNode.has_parent_tracker]
  · simp
  · simp [hi]
  · intro j hj
    simp [List.getElem?_set, Ne.symm hj]
  · intro x hx
    rw [Store.set_children_other _ _ _ hx]
    rfl

/-- C19 witness: in `family_store` the child 112, a new version of the child
102 (begin key 20), takes the tracker 0 and the slot 2 of the parent. -/
theorem take_parent_from_prior_spec_witness :
    ∃ s', take_parent_from_prior family_store 112 false (some 102) = some s'
      ∧ (s'.child_objs 112).parent_tracker = some 0
      ∧ (s'.nodes 0).children[2]? = some 112
      ∧ (∀ j : Nat, j ≠ 2 → (s'.nodes 0).children[j]? = (family_store.nodes 0).children[j]?)
      ∧ (∀ x, x ≠ 0 → s'.nodes x = family_store.nodes x) :=
  take_parent_from_prior_spec family_store 112 102 0 0 2 (by decide) (by decide) (by decide)
    (by decide)

/-! ## The tracker loop in closed form -/

theorem Store.ext_fields {a b : Store} (h1 : a.nodes = b.nodes) (h2 : a.child_objs = b.child_objs)
    (h3 : a.trackers = b.trackers) (h4 : a.next_tracker = b.next_tracker) : a = b := by
  cases a; cases b
  simp only at h1 h2 h3 h4
  subst h1 h2 h3 h4
  rfl

/-- The method `set_child_ptracker` of a node that has a tracker. -/
theorem set_child_ptracker_has {s : Store} {me : NodeRef} {tr : TrackerRef}
    (h : (s.nodes me).my_tracker = some tr) (c : ChildPtr) :
    set_child_ptracker s me c
      = { s with
          child_objs := fun x =>
            if x = c then { s.child_objs x with parent_tracker := some tr } else s.child_objs x } := by
  unfold set_child_ptracker
  simp only [h]

/-- The method `set_child_ptracker` of a node that has no tracker yet. -/
theorem set_child_ptracker_none {s : Store} {me : NodeRef}
    (h : (s.nodes me).my_tracker = none) (c : ChildPtr) :
    set_child_ptracker s me c
      = { nodes := fun x =>
            if x = me then { s.nodes me with my_tracker := some s.next_tracker } else s.nodes x,
          child_objs := fun x =>
            if x = c then { s.child_objs x with parent_tracker := some s.next_tracker }
            else s.child_objs x,
          trackers := fun x => if x = s.next_tracker then ⟨some me⟩ else s.trackers x,
          next_tracker := s.next_tracker + 1 } := by
  unfold set_child_ptracker
  simp only [h]
  apply Store.ext_fields
  · rfl
  · funext x
    simp [Store.set_node]
  · rfl
  · rfl

/-- The tracker loop for a node that has the tracker `tr`: the valid pointers of
the list get `tr`, nothing else changes. -/
theorem foldl_ptracker_has (dest : NodeRef) (tr : TrackerRef) (l : List ChildPtr) :
    ∀ s : Store, (s.nodes dest).my_tracker = some tr →
      l.foldl (fun st child =>
          if is_valid_child_ptr child then set_child_ptracker st dest child else st) s
        = { s with
            child_objs := fun x =>
              if x ∈ l ∧ is_valid_child_ptr x = true then
                { s.child_objs x with parent_tracker := some tr }
              else s.child_objs x } := by
  induction l with
  | nil =>
    intro s _
    apply Store.ext_fields <;> simp
  | cons a l ih =>
    intro s h
    simp only [List.foldl_cons]
    by_cases ha : is_valid_child_ptr a = true
    · rw [if_pos ha, set_child_ptracker_has h, ih _ (by exact h)]
      apply Store.ext_fields
      · rfl
      · funext x
        by_cases hx : x = a
        · subst hx
          by_cases hxl : x ∈ l <;> simp [hxl, ha]
        · by_cases hxl : x ∈ l <;> simp [hxl, hx]
      · rfl
      · rfl
    · rw [if_neg ha, ih _ h]
      apply Store.ext_fields
      · rfl
      · funext x
        by_cases hx : x = a
        · subst hx
          simp [ha]
        · simp [hx]
      · rfl
      · rfl

/-- Replacing a node by a version with the same tracker field (an expanded
child array) leaves the trackers alone. -/
theorem set_node_trackers (s : Store) (r : NodeRef) (n : Node)
    (hn : n.my_tracker = (s.nodes r).my_tracker) :
    (∀ d, tracker_owned s d → tracker_owned (s.set_node r n) d)
      ∧ (∀ d c, tracked_by s d c → tracked_by (s.set_node r n) d c)
      ∧ (∀ x, ((s.set_node r n).nodes x).my_tracker = (s.nodes x).my_tracker) := by
  have hmt : ∀ x, ((s.set_node r n).nodes x).my_tracker = (s.nodes x).my_tracker := by
    intro x
    by_cases hx : x = r
    · subst hx; rw [Store.set_node_same]; exact hn
    · rw [Store.set_node_other _ _ _ hx]
  refine ⟨?_, ?_, hmt⟩
  · intro d hod tr htr
    rw [hmt] at htr
    exact hod tr htr
  · intro d c ⟨tr, h1, h2, h3⟩
    exact ⟨tr, by rw [hmt]; exact h1, h2, h3⟩

/-! ## Trackers after split, merge and balance -/

/-- The store that `set_children_from_prior_instance` returns for a node whose
prior instance has the tracker `tr`. -/
theorem set_children_from_prior_instance_has {s : Store} {me prior : NodeRef}
    {tr : TrackerRef}
    (hprior : (s.nodes me).prior_instance = some prior)
    (htr : (s.nodes prior).my_tracker = some tr)
    (hcap : (s.nodes me).get_size ≤ (s.nodes me).children_size) :
    set_children_from_prior_instance s me
      = some
        { nodes := fun x => if x = me then { s.nodes me with my_tracker := some tr } else s.nodes x,
          child_objs := fun x =>
            if x ∈ (s.nodes me).children.take (s.nodes me).get_size
                ∧ is_valid_child_ptr x = true then
              { s.child_objs x with parent_tracker := some tr }
            else s.child_objs x,
          trackers := fun x => if x = tr then ⟨some me⟩ else s.trackers x,
          next_tracker := s.next_tracker } := by
  have hfold := foldl_ptracker_has me tr ((s.nodes me).children.take (s.nodes me).get_size)
    (({ s with trackers := fun x => if x = tr then ⟨some me⟩ else s.trackers x } : Store).set_node
      me { s.nodes me with my_tracker := some tr }) (by simp)
  unfold set_children_from_prior_instance
  rw [hprior]
  have ha : assert_tracker_or_empty s prior = true := by
    simp [assert_tracker_or_empty, htr]
  simp only [ha, if_true, htr]
  unfold adjust_ptracker_for_children
  simp only [Store.set_node_same]
  have hsz : ({ s.nodes me with my_tracker := some tr } : Node).get_size
      ≤ ({ s.nodes me with my_tracker := some tr } : Node).children_size := hcap
  rw [if_pos hsz]
  simp only
  have hsz2 : ({ s.nodes me with my_tracker := some tr } : Node).get_size
      = (s.nodes me).get_size := rfl
  rw [hsz2, hfold]
  have hb : assert_tracker_or_empty
      { (({ s with trackers := fun x => if x = tr then ⟨some me⟩ else s.trackers x } :
            Store).set_node me { s.nodes me with my_tracker := some tr }) with
        child_objs := fun x =>
          if x ∈ (s.nodes me).children.take (s.nodes me).get_size
              ∧ is_valid_child_ptr x = true then
            { (({ s with trackers := fun x => if x = tr then ⟨some me⟩ else s.trackers x } :
                Store).set_node me { s.nodes me with my_tracker := some tr }).child_objs x with
              parent_tracker := some tr }
          else (({ s with trackers := fun x => if x = tr then ⟨some me⟩ else s.trackers x } :
                Store).set_node me { s.nodes me with my_tracker := some tr }).child_objs x } me
      = true := by
    simp [assert_tracker_or_empty, Store.set_node]
  rw [if_pos hb]
  congr 1

/-- C18: `set_children_from_prior_instance` on a node `me` (logical size at
most the `size()` of its child array) whose prior instance `prior` has the
tracker `tr` returns, and then:
`get_parent()` of `tr` is `me`; every child that carried `tr` still carries it
and resolves its parent to `me`, and a child that is not a valid pointer of
`me`'s slots `[0, size)` is not written at all; `me.my_tracker` is `tr`; the
slots and the size of `me` are as before and every valid child pointer of the
slots `[0, size)` carries `tr`. A tracker cell
without parent makes `get_parent()` fail, and after `reset_parent(p)` it
returns `p`. -/
theorem set_children_from_prior_instance_retargets (s : Store) (me prior : NodeRef)
    (tr : TrackerRef)
    (hprior : (s.nodes me).prior_instance = some prior)
    (htr : (s.nodes prior).my_tracker = some tr)
    (hcap : (s.nodes me).get_size ≤ (s.nodes me).children_size) :
    (∃ s', set_children_from_prior_instance s me = some s'
        ∧ (s'.trackers tr).get_parent = some me
        ∧ (∀ c, (s.child_objs c).parent_tracker = some tr →
            (s'.child_objs c).parent_tracker = some tr ∧ peek_parent_node s' c = some me)
        ∧ (∀ c, ¬ (c ∈ (s.nodes me).children.take (s.nodes me).get_size
              ∧ is_valid_child_ptr c = true) → s'.child_objs c = s.child_objs c)
        ∧ (s'.nodes me).my_tracker = some tr
        ∧ (s'.nodes me).children = (s.nodes me).children
        ∧ (s'.nodes me).get_size = (s.nodes me).get_size
        ∧ (∀ c ∈ (s.nodes me).children.take (s.nodes me).get_size,
            is_valid_child_ptr c = true → (s'.child_objs c).parent_tracker = some tr))
      ∧ (∀ t : parent_tracker_t, t.parent = none → t.get_parent = none)
      ∧ (∀ (st : Store) (t : TrackerRef) (p : NodeRef),
          ((st.reset_parent t p).trackers t).get_parent = some p) := by
  refine ⟨?_, fun t ht => ht, fun st t p => by simp [Store.reset_parent,
    parent_tracker_t.get_parent]⟩
  refine ⟨_, set_children_from_prior_instance_has hprior htr hcap, ?_, ?_, ?_, ?_, ?_, ?_, ?_⟩
  · simp [parent_tracker_t.get_parent]
  · intro c hc
    have h1 : ((if c ∈ (s.nodes me).children.take (s.nodes me).get_size
          ∧ is_valid_child_ptr c = true then
        { s.child_objs c with parent_tracker := some tr }
        else s.child_objs c) : BaseChildNode).parent_tracker = some tr := by
      split
      · rfl
      · exact hc
    refine ⟨h1, ?_⟩
    unfold peek_parent_node
    simp only [h1]
    simp [parent_tracker_t.get_parent]
  · intro c hc
    simp only [hc, if_false]
  · simp
  · simp
  · simp [Node.get_size]
  · intro c hc hv
    simp [hc, hv]

/-- C18 witness: the mutation-pending version of `retarget_store` takes over
the tracker of its prior instance. -/
theorem set_children_from_prior_instance_retargets_witness :
    ∃ s', set_children_from_prior_instance retarget_store 1 = some s'
      ∧ (s'.trackers 0).get_parent = some 1
      ∧ peek_parent_node s' 102 = some 1
      ∧ (s'.nodes 1).my_tracker = some 0
      ∧ (s'.child_objs 111).parent_tracker = some 0 := by
  obtain ⟨⟨s', h, h1, h2, -, h4, -, -, h6⟩, -, -⟩ :=
    set_children_from_prior_instance_retargets retarget_store 1 0 0 (by decide) (by decide)
      (by decide)
  exact ⟨s', h, h1, (h2 102 (by decide)).2, h4,
    h6 111 (by decide) (by decide)⟩

/-! ## Removal of a child pointer -/

/-- The method `maybe_shink_children` keeps the slots below the logical size,
for an array that is at least a third full. -/
theorem maybe_shink_children_take (U : Nat) (n : Node) {m : Nat} (hm : m ≤ n.get_size)
    (hvec : n.children.length / 3 ≤ n.children_size) :
    (maybe_shink_children U n).children.take m = n.children.take m
      ∧ (maybe_shink_children U n).keys = n.keys
      ∧ n.same_links (maybe_shink_children U n) := by
  unfold maybe_shink_children
  split
  · rename_i hU
    split
    · rename_i hs
      have hsl := Node.same_links_trans (Node.resize_children_same_links n
        (p2roundup n.get_size U)) (Node.shrink_children_to_fit_same_links _)
      refine ⟨?_, Node.same_links_keys hsl, hsl⟩
      have hp := p2roundup_ge n.get_size U hU
      unfold Node.shrink_children_to_fit
      simp only
      rw [Node.resize_children_size, List.take_take, Nat.min_eq_left (by omega)]
      exact Node.resize_children_take _ _ _ (by omega) (by omega)
    · exact ⟨rfl, rfl, Node.same_links_refl _⟩
  · exact ⟨rfl, rfl, Node.same_links_refl _⟩

/-- What `remove_child_ptr(offset)` does on a node of logical size at most its
capacity with `offset` below the size, the array being at least a third full. -/
theorem remove_child_ptr_slots (U : Nat) (s : Store) (me : NodeRef) (offset : Nat)
    (hoff : offset < (s.nodes me).get_size)
    (hcap : (s.nodes me).get_size ≤ (s.nodes me).children.length)
    (hvec : (s.nodes me).children.length / 3 ≤ (s.nodes me).children_size) :
    ∃ s', remove_child_ptr U s me offset = some s'
      ∧ (s'.nodes me).children.take ((s.nodes me).get_size - 1)
          = (s.nodes me).children.take offset
            ++ ((s.nodes me).children.drop (offset + 1)).take
                ((s.nodes me).get_size - offset - 1)
      ∧ (∀ i : Nat, i < offset → (s'.nodes me).children[i]? = (s.nodes me).children[i]?)
      ∧ (∀ i : Nat, offset ≤ i → i + 1 < (s.nodes me).get_size →
          (s'.nodes me).children[i]? = (s.nodes me).children[i + 1]?)
      ∧ (s.nodes me).same_links (s'.nodes me)
      ∧ (∀ x, x ≠ me → s'.nodes x = s.nodes x)
      ∧ s'.child_objs = s.child_objs ∧ s'.trackers = s.trackers := by
  obtain ⟨seg, hsegd⟩ : ∃ seg, seg = ((s.nodes me).children.drop (offset + 1)).take
      ((s.nodes me).get_size - offset - 1) := ⟨_, rfl⟩
  have hseg : seg.length = (s.nodes me).get_size - offset - 1 := by
    rw [hsegd]; simp; omega
  have hmm := memmove_take_end (s.nodes me).children offset seg (by omega)
  rw [hseg] at hmm
  have hmlen := memmove_length (s.nodes me).children offset seg (by rw [hseg]; omega)
  obtain ⟨n1, hn1⟩ : ∃ n1 : Node, n1
      = { s.nodes me with children := memmove (s.nodes me).children offset seg } := ⟨_, rfl⟩
  have hn1c : n1.children = memmove (s.nodes me).children offset seg := by rw [hn1]
  have hn1s : n1.get_size = (s.nodes me).get_size := by rw [hn1]; rfl
  have hn1z : n1.children_size = (s.nodes me).children_size := by
    rw [hn1]; simp only [Node.children_size, hmlen]
  obtain ⟨k1, k2, k3⟩ := maybe_shink_children_take U n1
    (m := (s.nodes me).get_size - 1) (by rw [hn1s]; omega)
    (by rw [hn1c, hmlen, hn1z]; exact hvec)
  have htake : (maybe_shink_children U n1).children.take ((s.nodes me).get_size - 1)
      = (s.nodes me).children.take offset ++ seg := by
    rw [k1, hn1c]
    have : offset + ((s.nodes me).get_size - offset - 1) = (s.nodes me).get_size - 1 := by omega
    rw [← this]
    exact hmm
  have hget : ∀ i : Nat, i < (s.nodes me).get_size - 1 →
      (maybe_shink_children U n1).children[i]?
        = ((s.nodes me).children.take offset ++ seg)[i]? := by
    intro i hi
    rw [← htake, List.getElem?_take_of_lt hi]
  have hres : remove_child_ptr U s me offset
      = some (s.set_node me (maybe_shink_children U n1)) := by
    unfold remove_child_ptr
    rw [if_pos ⟨hoff, hcap⟩, hn1, hsegd]
  refine ⟨_, hres, ?_, ?_, ?_, ?_, ?_, rfl, rfl⟩
  · rw [Store.set_node_same, htake, hsegd]
  · intro i hi
    rw [Store.set_node_same, hget i (by omega)]
    rw [List.getElem?_append_left (by simp; omega), List.getElem?_take_of_lt hi]
  · intro i hi1 hi2
    rw [Store.set_node_same, hget i (by omega)]
    have hlen : ((s.nodes me).children.take offset).length = offset := by simp; omega
    rw [List.getElem?_append_right (by omega), hlen, hsegd,
      List.getElem?_take_of_lt (by omega), List.getElem?_drop]
    congr 1
    omega
  · rw [Store.set_node_same]
    exact Node.same_links_trans (by rw [hn1]; exact ⟨_, _, _, rfl⟩) k3
  · intro x hx
    exact Store.set_node_other _ _ _ hx

/-- C13: `remove_child_ptr(offset)` on a node of logical size `n` (at most its
capacity) with `offset < n`, for a fixed-capacity and for a dynamically sized
node type alike (whether the array is shrunk or not), the array being at least
a third full (`capacity() / 3 <= size()`, which holds of every array that the
constructor, `resize` and `shrink_to_fit` of this class have made: libstdc++
at most doubles the storage): the call returns, and `children[0..n-1)` is the
old `children[0..offset)` followed by the old `children[offset+1..n)`; the
slots before `offset` are as before and every later slot holds what the next
slot held. -/
theorem remove_child_ptr_spec (U : Nat) (s : Store) (me : NodeRef) (offset : Nat)
    (hoff : offset < (s.nodes me).get_size)
    (hcap : (s.nodes me).get_size ≤ (s.nodes me).children.length)
    (hvec : (s.nodes me).children.length / 3 ≤ (s.nodes me).children_size) :
    ∃ s', remove_child_ptr U s me offset = some s'
      ∧ (s'.nodes me).children.take ((s.nodes me).get_size - 1)
          = (s.nodes me).children.take offset
            ++ ((s.nodes me).children.drop (offset + 1)).take
                ((s.nodes me).get_size - offset - 1)
      ∧ (∀ i : Nat, i < offset → (s'.nodes me).children[i]? = (s.nodes me).children[i]?)
      ∧ (∀ i : Nat, offset ≤ i → i + 1 < (s.nodes me).get_size →
          (s'.nodes me).children[i]? = (s.nodes me).children[i + 1]?)
      ∧ (s.nodes me).same_links (s'.nodes me)
      ∧ (∀ x, x ≠ me → s'.nodes x = s.nodes x) := by
  obtain ⟨s', h1, h2, h3, h4, h5, h6, -, -⟩ :=
    remove_child_ptr_slots U s me offset hoff hcap hvec
  exact ⟨s', h1, h2, h3, h4, h5, h6⟩

/-- C13 witness: the removal of the slot 1 of a node with three keys and twelve
slots, `CHILD_VEC_UNIT` being 2: the array is shrunk to four slots. -/
theorem remove_child_ptr_spec_witness :
    (∃ s', remove_child_ptr 2 shrink_store 0 1 = some s'
        ∧ (s'.nodes 0).children.take ((shrink_store.nodes 0).get_size - 1)
            = (shrink_store.nodes 0).children.take 1
              ++ ((shrink_store.nodes 0).children.drop (1 + 1)).take
                  ((shrink_store.nodes 0).get_size - 1 - 1)
        ∧ (∀ i : Nat, i < 1 →
            (s'.nodes 0).children[i]? = (shrink_store.nodes 0).children[i]?)
        ∧ (∀ i : Nat, 1 ≤ i → i + 1 < (shrink_store.nodes 0).get_size →
            (s'.nodes 0).children[i]? = (shrink_store.nodes 0).children[i + 1]?)
        ∧ (shrink_store.nodes 0).same_links (s'.nodes 0)
        ∧ (∀ x, x ≠ 0 → s'.nodes x = shrink_store.nodes x))
      ∧ (remove_child_ptr 2 shrink_store 0 1).map (fun s' => (s'.nodes 0).children)
          = some [100, 102, 102, nullptr] :=
  ⟨remove_child_ptr_spec 2 shrink_store 0 1 (by decide) (by decide) (by decide), by decide⟩

/-! ## Linking and inserting a child -/

/-- What `set_child_ptracker` of node `me` does for the child `c`: the child
carries the tracker of `me`, a tracker that `me` had is kept, a new one has
`me` as parent; child arrays and the other nodes are as before. -/
theorem set_child_ptracker_spec (s : Store) (me : NodeRef) (c : ChildPtr) :
    (∃ tr, ((set_child_ptracker s me c).nodes me).my_tracker = some tr
        ∧ ((set_child_ptracker s me c).child_objs c).parent_tracker = some tr
        ∧ (∀ tr0, (s.nodes me).my_tracker = some tr0 →
            tr = tr0 ∧ (set_child_ptracker s me c).trackers = s.trackers)
        ∧ ((s.nodes me).my_tracker = none →
            ((set_child_ptracker s me c).trackers tr).get_parent = some me))
      ∧ (∀ x, ((set_child_ptracker s me c).nodes x).children = (s.nodes x).children)
      ∧ (∀ x, x ≠ me → (set_child_ptracker s me c).nodes x = s.nodes x)
      ∧ (∀ c', c' ≠ c → (set_child_ptracker s me c).child_objs c' = s.child_objs c') := by
  refine ⟨?_, set_child_ptracker_children s me c, ?_, ?_⟩
  · cases hmt : (s.nodes me).my_tracker with
    | some tr =>
      rw [set_child_ptracker_has hmt]
      refine ⟨tr, hmt, by simp, ?_, ?_⟩
      · intro tr0 h0
        cases h0
        exact ⟨rfl, rfl⟩
      · intro h0
        cases h0
    | none =>
      rw [set_child_ptracker_none hmt]
      refine ⟨s.next_tracker, by simp, by simp, ?_, ?_⟩
      · intro tr0 h0
        cases h0
      · intro _
        simp [parent_tracker_t.get_parent]
  · intro x hx
    cases hmt : (s.nodes me).my_tracker with
    | some tr => rw [set_child_ptracker_has hmt]
    | none =>
      rw [set_child_ptracker_none hmt]
      simp [hx]
  · intro c' hc'
    cases hmt : (s.nodes me).my_tracker with
    | some tr =>
      rw [set_child_ptracker_has hmt]
      simp [hc']
    | none =>
      rw [set_child_ptracker_none hmt]
      simp [hc']

/-- C11: `link_child(child, pos)` on a node whose tracker, when it has one, has
the node as parent. It returns if and only if the node is stable, `child` is a
valid pointer to a stable child, `pos` is below the size and the capacity, and
`children[pos]` is null. When it returns, `children[pos]` is `child`, every
other slot and every other node are as before, and the child carries the
node's tracker (the one the node had, if any), whose parent is the node. When
it does not return, it aborts in the store of the call: nothing was written. -/
theorem link_child_spec (s : Store) (me : NodeRef) (child : ChildPtr) (pos : Nat)
    (hown : ∀ tr, (s.nodes me).my_tracker = some tr → (s.trackers tr).get_parent = some me) :
    ((∃ s', link_child s me child pos = some s') ↔
        ((s.nodes me).is_stable = true ∧ is_valid_child_ptr child = true
          ∧ (s.child_objs child).is_stable = true
          ∧ pos < (s.nodes me).get_size ∧ pos < (s.nodes me).children.length
          ∧ (s.nodes me).children[pos]? = some nullptr))
      ∧ (∀ s', link_child s me child pos = some s' →
          (s'.nodes me).children[pos]? = some child
          ∧ (∀ i : Nat, i ≠ pos → (s'.nodes me).children[i]? = (s.nodes me).children[i]?)
          ∧ (∀ x, x ≠ me → s'.nodes x = s.nodes x)
          ∧ ∃ tr, (s'.nodes me).my_tracker = some tr
              ∧ (s'.child_objs child).parent_tracker = some tr
              ∧ (s'.trackers tr).get_parent = some me
              ∧ (∀ tr0, (s.nodes me).my_tracker = some tr0 → tr = tr0))
      ∧ (link_child s me child pos = none →
          link_child_traced s me child pos = Except.error s) := by
  have hvalid : is_valid_child_ptr child = true → child ≠ nullptr := by
    intro hv hn
    rw [hn] at hv
    exact absurd hv (by decide)
  refine ⟨?_, ?_, ?_⟩
  · constructor
    · rintro ⟨s', h⟩
      unfold link_child at h
      split at h
      · rename_i hc
        exact ⟨hc.2.2.2.1, hc.2.2.2.2.2.2, hc.2.2.2.2.1, hc.1, hc.2.1, hc.2.2.2.2.2.1⟩
      · exact absurd h (by simp)
    · rintro ⟨h1, h2, h3, h4, h5, h6⟩
      unfold link_child
      rw [if_pos ⟨h4, h5, hvalid h2, h1, h3, h6, h2⟩]
      unfold update_child_ptr
      rw [if_pos h5, if_pos h2]
      exact ⟨_, rfl⟩
  · intro s' h
    unfold link_child at h
    split at h
    · rename_i hc
      unfold update_child_ptr at h
      rw [if_pos hc.2.1, if_pos hc.2.2.2.2.2.2] at h
      simp only [Option.some.injEq] at h
      subst h
      obtain ⟨⟨tr, t1, t2, t3, t4⟩, k1, k2, -⟩ := set_child_ptracker_spec
        (s.set_children me ((s.nodes me).children.set pos child)) me child
      have hmt : ((s.set_children me ((s.nodes me).children.set pos child)).nodes me).my_tracker
          = (s.nodes me).my_tracker := by
        simp [Store.set_children]
      refine ⟨?_, ?_, ?_, tr, t1, t2, ?_, ?_⟩
      · rw [k1, Store.set_children_same]
        simp [hc.2.1]
      · intro i hi
        rw [k1, Store.set_children_same]
        simp [List.getElem?_set, Ne.symm hi]
      · intro x hx
        rw [k2 x hx, Store.set_children_other _ _ _ hx]
      · cases hm : (s.nodes me).my_tracker with
        | some tr0 =>
          obtain ⟨e1, e2⟩ := t3 tr0 (by rw [hmt]; exact hm)
          rw [e2, e1]
          exact hown tr0 hm
        | none => exact t4 (by rw [hmt]; exact hm)
      · intro tr0 h0
        exact (t3 tr0 (by rw [hmt]; exact h0)).1
    · exact absurd h (by simp)
  · intro h
    unfold link_child at h
    unfold link_child_traced
    split
    · rename_i hc
      rw [if_pos hc] at h
      rw [h]
    · rfl

/-- C11 witness: in `link_store` the child 102 is linked at the empty slot 2 of
the parent and carries the parent's tracker 0; the child 105 cannot be linked
at the slot 1, which is taken, and the call aborts in the store of the call. -/
theorem link_child_spec_witness :
    (∃ s', link_child link_store 0 102 2 = some s'
        ∧ (s'.nodes 0).children[2]? = some 102
        ∧ (s'.child_objs 102).parent_tracker = some 0
        ∧ (s'.trackers 0).get_parent = some 0)
      ∧ link_child_traced link_store 0 105 1 = Except.error link_store := by
  constructor
  · obtain ⟨s', h⟩ := (link_child_spec link_store 0 102 2 (by decide)).1.mpr
      ⟨by decide, by decide, by decide, by decide, by decide, by decide⟩
    obtain ⟨h1, -, -, tr, -, h3, h4, h5⟩ :=
      (link_child_spec link_store 0 102 2 (by decide)).2.1 s' h
    have htr : tr = 0 := h5 0 (by decide)
    subst htr
    exact ⟨s', h, h1, h3, h4⟩
  · refine (link_child_spec link_store 0 105 1 (by decide)).2.2 ?_
    cases h : link_child link_store 0 105 1 with
    | none => rfl
    | some s' =>
      have := ((link_child_spec link_store 0 105 1 (by decide)).1.mp ⟨s', h⟩).2.2.2.2.2
      exact absurd this (by decide)

theorem take_of_take_eq {N old : List ChildPtr} (hN : N.take old.length = old) {a : Nat}
    (ha : a ≤ old.length) : N.take a = old.take a := by
  rw [← hN, List.take_take, Nat.min_eq_left ha]

theorem drop_take_of_take_eq {N old : List ChildPtr} (hN : N.take old.length = old)
    {a b : Nat} (hab : a + b ≤ old.length) : (N.drop a).take b = (old.drop a).take b := by
  rw [← hN, List.drop_take, List.take_take]
  congr 1
  omega

/-- The child array that `insert_child_ptr` builds from the expanded array `N`:
its slots `[0, sz]` are the old slots `[0, offset)`, the child, and the old
slots `[offset, sz)`. -/
theorem insert_layout {N old : List ChildPtr} (hN : N.take old.length = old) {offset sz : Nat}
    (child : ChildPtr) (hoff : offset ≤ sz) (hsz : sz ≤ old.length)
    (hlen : sz + 1 ≤ N.length) :
    ((memmove N (offset + 1) ((N.drop offset).take (sz - offset))).set offset child).take
        (sz + 1)
      = old.take offset ++ [child] ++ (old.drop offset).take (sz - offset) := by
  have hseg : ((N.drop offset).take (sz - offset)).length = sz - offset := by
    simp; omega
  have hmm := memmove_take_end N (offset + 1) ((N.drop offset).take (sz - offset)) (by omega)
  rw [hseg] at hmm
  have hk : offset + 1 + (sz - offset) = sz + 1 := by omega
  rw [hk] at hmm
  rw [List.set_take, hmm]
  rw [List.set_append_left _ _ (by simp; omega)]
  rw [drop_take_of_take_eq hN (by omega)]
  congr 1
  rw [List.set_eq_take_append_cons_drop]
  rw [if_pos (by simp; omega)]
  rw [List.take_take, Nat.min_eq_left (Nat.le_succ _), List.drop_take]
  simp only [Nat.sub_self, List.take_zero]
  rw [take_of_take_eq hN (by omega)]

/-- C12 (as stated) fails: with the default `size = 0` the size used is
`get_size()`, so on a full fixed-capacity node (four keys, capacity four)
`insert_child_ptr(0, child, 0)` aborts although `offset <= size`, the child is
not null and `size < capacity`. And on a dynamically sized node type
(`CHILD_VEC_UNIT` 2) the layout is lost once pointers live past `size()`: node
0 of `grow_store` takes the children 104 .. 107 at its end (the first
insertion grows the array to `size()` 6 and `capacity()` 8, the last two write
the slots 6 and 7 past `size()`), and the insertion of 108 at offset 8 with
size 8 returns with the slots 6 and 7 null, the reallocation having copied
the 6 elements only. -/
theorem insert_child_ptr_claim_fails :
    ((0 : Nat) ≤ 0 ∧ (105 : ChildPtr) ≠ nullptr
      ∧ 0 < (family_store.nodes 0).children.length
      ∧ (insert_child_ptr 0 family_store 0 0 105 0).isSome = false)
    ∧ (grown_store.bind fun s3 => append_child 2 s3 0 107 70).map
        (fun s4 => ((s4.nodes 0).keys, (s4.nodes 0).children.take 8,
          (s4.nodes 0).children_size, (s4.nodes 0).children.length))
        = some ([0, 10, 20, 30, 40, 50, 60, 70],
            [100, 101, 102, 103, 104, 105, 106, 107], 6, 8)
    ∧ (grown_store.bind fun s3 => (append_child 2 s3 0 107 70).bind fun s4 =>
          insert_child_ptr 2 s4 0 8 108 8).map
        (fun s5 => (s5.nodes 0).children.take 9)
        = some [100, 101, 102, 103, 104, 105, nullptr, nullptr, 108] := by
  decide

/-- C12 (amended): `insert_child_ptr(offset, child, size)` with a non-null
child, `sz` being the size the call works with (`size`, or `get_size()` when
`size` is 0) and `offset <= sz`. On a dynamically sized node type it returns;
on a fixed-capacity node type it returns iff `sz < capacity`, and otherwise
aborts in the store of the call. When it returns, `sz` being less than the
capacity or at most the `size()` of the array (a reallocation copies the
`size()` elements only), `children[0..sz+1)` is the old `children[0..offset)`,
then `child`, then the old `children[offset..sz)`; a child other than the
reserved sentinel carries the node's tracker, the reserved sentinel leaves
every child object and the node's tracker as they were. -/
theorem insert_child_ptr_spec (U : Nat) (s : Store) (me : NodeRef) (offset : Nat)
    (child : ChildPtr) (size sz : Nat)
    (hsz : sz = if size = 0 then (s.nodes me).get_size else size)
    (hchild : child ≠ nullptr) (hoff : offset ≤ sz) :
    (U ≠ 0 → ∃ s', insert_child_ptr U s me offset child size = some s')
      ∧ (U = 0 → ((∃ s', insert_child_ptr U s me offset child size = some s')
          ↔ sz < (s.nodes me).children.length))
      ∧ (U = 0 → ¬ sz < (s.nodes me).children.length →
          insert_child_ptr_traced U s me offset child size = Except.error s)
      ∧ (∀ s', insert_child_ptr U s me offset child size = some s' →
          (sz < (s.nodes me).children.length ∨ sz ≤ (s.nodes me).children_size) →
          (s'.nodes me).children.take (sz + 1)
              = (s.nodes me).children.take offset ++ [child]
                ++ ((s.nodes me).children.drop offset).take (sz - offset)
            ∧ (child ≠ get_reserved_ptr →
              ∃ tr, (s'.nodes me).my_tracker = some tr
                ∧ (s'.child_objs child).parent_tracker = some tr)
            ∧ (child = get_reserved_ptr →
              s'.child_objs = s.child_objs
                ∧ (s'.nodes me).my_tracker = (s.nodes me).my_tracker)) := by
  have hgen : ∀ n, maybe_expand_children U (s.nodes me) (sz + 1) = some n →
      ∃ s1 : Store, (s1.nodes me).children
          = (memmove n.children (offset + 1) ((n.children.drop offset).take (sz - offset))).set
              offset child
        ∧ (s1.nodes me).my_tracker = n.my_tracker ∧ s1.child_objs = s.child_objs
        ∧ insert_child_ptr U s me offset child size
          = some (if is_reserved_ptr child then s1 else set_child_ptracker s1 me child) := by
    intro n hn
    obtain ⟨ch, hch⟩ : ∃ ch, ch
        = (memmove n.children (offset + 1) ((n.children.drop offset).take (sz - offset))).set
            offset child := ⟨_, rfl⟩
    refine ⟨s.set_node me { n with children := ch }, ?_, ?_, ?_, ?_⟩
    · rw [Store.set_node_same, hch]
    · rw [Store.set_node_same]
    · rfl
    · unfold insert_child_ptr
      rw [if_neg hchild]
      simp only [← hsz, hn]
      rw [if_pos ⟨by have := (maybe_expand_children_some hn).1; omega, hoff⟩, hch]
  have hnone : maybe_expand_children U (s.nodes me) (sz + 1) = none →
      insert_child_ptr U s me offset child size = none := by
    intro hn
    unfold insert_child_ptr
    rw [if_neg hchild]
    simp only [← hsz, hn]
  refine ⟨?_, ?_, ?_, ?_⟩
  · intro hU
    obtain ⟨n, hn⟩ := maybe_expand_children_isSome U (s.nodes me) (sz + 1)
      (fun h0 => absurd h0 hU)
    obtain ⟨s1, -, -, -, h⟩ := hgen n hn
    exact ⟨_, h⟩
  · intro hU
    constructor
    · rintro ⟨s', h⟩
      cases hn : maybe_expand_children U (s.nodes me) (sz + 1) with
      | none => rw [hnone hn] at h; cases h
      | some n =>
        unfold maybe_expand_children at hn
        simp only [hU, ne_eq, not_true_eq_false, if_false] at hn
        split at hn
        · omega
        · cases hn
    · intro hlt
      obtain ⟨n, hn⟩ := maybe_expand_children_isSome U (s.nodes me) (sz + 1)
        (fun _ => by omega)
      obtain ⟨s1, -, -, -, h⟩ := hgen n hn
      exact ⟨_, h⟩
  · intro hU hlt
    have hn : maybe_expand_children U (s.nodes me) (sz + 1) = none := by
      unfold maybe_expand_children
      simp only [hU, ne_eq, not_true_eq_false, if_false]
      rw [if_neg (by omega)]
    unfold insert_child_ptr_traced
    rw [if_neg hchild]
    simp only [← hsz, hn]
  · intro s' h hcap
    cases hn : maybe_expand_children U (s.nodes me) (sz + 1) with
    | none => rw [hnone hn] at h; cases h
    | some n =>
      obtain ⟨s1, g1, g2, g3, g4⟩ := hgen n hn
      rw [g4] at h
      simp only [Option.some.injEq] at h
      obtain ⟨e1, -, e3, -, e5⟩ := maybe_expand_children_some hn
      have hszl := Node.children_size_le (s.nodes me)
      have hN : n.children.take (s.nodes me).children.length = (s.nodes me).children := by
        by_cases hlt : sz < (s.nodes me).children.length
        · rw [maybe_expand_children_of_le hn (by omega), List.take_length]
        · have hse : (s.nodes me).children_size = (s.nodes me).children.length := by omega
          rw [hse] at e5
          rw [e5, List.take_length]
      have hlay := insert_layout hN child hoff (by omega) e1
      rw [← g1] at hlay
      by_cases hr : is_reserved_ptr child = true
      · rw [if_pos hr] at h
        subst h
        refine ⟨hlay, ?_, ?_⟩
        · intro hne
          exact absurd (by simpa [is_reserved_ptr] using hr) hne
        · intro _
          exact ⟨g3, by rw [g2]; exact e3⟩
      · rw [if_neg hr] at h
        subst h
        obtain ⟨⟨tr, t1, t2, -, -⟩, k1, -, -⟩ := set_child_ptracker_spec s1 me child
        refine ⟨by rw [k1]; exact hlay, ?_, ?_⟩
        · intro _
          exact ⟨tr, t1, t2⟩
        · intro he
          exact absurd (by simp [is_reserved_ptr, he]) hr

/-- C12 witness: on the dynamically sized node of `shrink_store` (three keys)
the child 105 is inserted at offset 1; on the full fixed-capacity parent of
`family_store` the insertion with the default size aborts in the store of the
call. -/
theorem insert_child_ptr_spec_witness :
    (∃ s', insert_child_ptr 2 shrink_store 0 1 105 3 = some s'
        ∧ (s'.nodes 0).children.take (3 + 1)
            = (shrink_store.nodes 0).children.take 1 ++ [105]
              ++ ((shrink_store.nodes 0).children.drop 1).take (3 - 1)
        ∧ ∃ tr, (s'.nodes 0).my_tracker = some tr
            ∧ (s'.child_objs 105).parent_tracker = some tr)
      ∧ insert_child_ptr_traced 0 family_store 0 0 105 0 = Except.error family_store := by
  constructor
  · obtain ⟨s', h⟩ := (insert_child_ptr_spec 2 shrink_store 0 1 105 3 3 (by decide)
      (by decide) (by decide)).1 (by decide)
    obtain ⟨h1, h2, -⟩ := (insert_child_ptr_spec 2 shrink_store 0 1 105 3 3 (by decide)
      (by decide) (by decide)).2.2.2 s' h (Or.inl (by decide))
    exact ⟨s', h, h1, h2 (by decide)⟩
  · exact (insert_child_ptr_spec 0 family_store 0 0 105 0 4 (by decide) (by decide)
      (by decide)).2.2.1 rfl (by decide)

/-! ## Stability query -/

/-- The loop of `copy_children_from_stable_source` never writes a slot that is not null. -/
theorem copy_children_loop_keep (source : Node) (fe : Nat) :
    ∀ (fuel : Nat) (me : Node) (f l : Nat) (me' : Node) (next : Nat),
      copy_children_loop source fe fuel me f l = some (me', next) →
      ∀ (i : Nat) (c : ChildPtr), me.children[i]? = some c → c ≠ nullptr →
        me'.children[i]? = some c := by
  intro fuel
  induction fuel with
  | zero => intro me f l me' next h; simp [copy_children_loop] at h
  | succ n ih =>
    intro me f l me' next h i c hi hc
    unfold copy_children_loop at h
    split at h
    · split at h
      · rename_i child fkey lkey hchild hfk hlk
        split at h
        · split at h
          · rename_i hnull
            split at h
            · rename_i c' hc'
              refine ih _ _ _ _ _ h i c ?_ hc
              simp only []
              rw [List.getElem?_set]
              by_cases hli : l = i
              · subst hli
                rw [hchild] at hi
                simp only [Option.some.injEq] at hi
                exact absurd (hi.symm.trans hnull) hc
              · rw [if_neg hli]; exact hi
            · exact absurd h (by simp)
          · exact ih _ _ _ _ _ h i c hi hc
        · split at h
          · exact ih _ _ _ _ _ h i c hi hc
          · exact ih _ _ _ _ _ h i c hi hc
      · exact absurd h (by simp)
    · simp only [Option.some.injEq, Prod.mk.injEq] at h
      rw [← h.1]
      exact hi

/-- The loop of `copy_children_from_stable_source` reads only the keys and the
child arrays of the two nodes. -/
theorem copy_children_loop_congr (fe : Nat) :
    ∀ (fuel : Nat) (src1 src2 me1 me2 : Node) (f l : Nat),
      src1.keys = src2.keys → src1.children = src2.children →
      me1.keys = me2.keys → me1.children = me2.children →
      (copy_children_loop src1 fe fuel me1 f l).map (fun r => (r.1.children, r.2))
        = (copy_children_loop src2 fe fuel me2 f l).map (fun r => (r.1.children, r.2)) := by
  intro fuel
  induction fuel with
  | zero => intro src1 src2 me1 me2 f l _ _ _ _; simp [copy_children_loop]
  | succ n ih =>
    intro src1 src2 me1 me2 f l hsk hsc hmk hmc
    unfold copy_children_loop
    have hsz : me1.get_size = me2.get_size := by unfold Node.get_size; rw [hmk]
    rw [hsz, hmc, hsk, hmk]
    split
    · split
      · split
        · split
          · rw [hsc]
            split
            · exact ih _ _ _ _ _ _ hsk hsc rfl rfl
            · rfl
          · exact ih _ _ _ _ _ _ hsk hsc hmk hmc
        · split
          · exact ih _ _ _ _ _ _ hsk hsc hmk hmc
          · exact ih _ _ _ _ _ _ hsk hsc hmk hmc
      · rfl
    · simp [hmc]

theorem copy_sources_loop_keep (me : NodeRef) :
    ∀ (R : List NodeRef) (s s' : Store) (sp L : Nat),
      copy_sources_loop me R s sp L = some s' →
      ∀ (i : Nat) (c : ChildPtr), (s.nodes me).children[i]? = some c → c ≠ nullptr →
        (s'.nodes me).children[i]? = some c := by
  intro R
  induction R with
  | nil =>
    intro s s' sp L h i c hi _
    simp only [copy_sources_loop, Option.some.injEq] at h
    subst h
    exact hi
  | cons cs rest ih =>
    intro s s' sp L h i c hi hc
    simp only [copy_sources_loop] at h
    generalize (if (s.nodes cs).is_in_range (s.nodes me).range_end = true then
          (s.nodes cs).upper_bound (s.nodes me).range_end
        else (s.nodes cs).get_size) = ep at h
    cases hw : copy_children_from_stable_source (s.nodes me) (s.nodes cs) sp ep L with
    | none => rw [hw] at h; exact absurd h (by simp)
    | some r =>
      obtain ⟨me1, next⟩ := r
      rw [hw] at h
      simp only at h
      have h1 : me1.children[i]? = some c :=
        copy_children_loop_keep _ _ _ _ _ _ _ _ hw i c hi hc
      by_cases hb : ep ≠ (s.nodes cs).get_size
      · rw [if_pos hb] at h
        simp only [Option.some.injEq] at h
        subst h
        rw [Store.set_node_same]
        exact h1
      · rw [if_neg hb] at h
        exact ih _ _ _ _ h i c (by rw [Store.set_node_same]; exact h1) hc

theorem copy_children_from_stable_sources_keep {s s' : Store} {me : NodeRef}
    (h : copy_children_from_stable_sources s me = some s') :
    ∀ (i : Nat) (c : ChildPtr), (s.nodes me).children[i]? = some c → c ≠ nullptr →
      (s'.nodes me).children[i]? = some c := by
  simp only [copy_children_from_stable_sources] at h
  split at h
  · simp only [Option.some.injEq] at h
    subst h
    exact fun _ _ hi _ => hi
  · split at h
    · exact absurd h (by simp)
    · split at h
      · exact absurd h (by simp)
      · split at h
        · exact copy_sources_loop_keep me _ _ _ _ _ h
        · exact copy_sources_loop_keep me _ _ _ _ _ h

theorem adjust_ptracker_for_children_children {s s' : Store} {me : NodeRef}
    (h : adjust_ptracker_for_children s me = some s') :
    ∀ x, (s'.nodes x).children = (s.nodes x).children := by
  unfold adjust_ptracker_for_children at h
  split at h
  · simp only [Option.some.injEq] at h
    subst h
    exact fun x => foldl_ptracker_children _ _ _ x
  · exact absurd h (by simp)

theorem set_children_from_prior_instance_children {s s' : Store} {me : NodeRef}
    (h : set_children_from_prior_instance s me = some s') :
    ∀ x, (s'.nodes x).children = (s.nodes x).children := by
  unfold set_children_from_prior_instance at h
  split at h
  · exact absurd h (by simp)
  · split at h
    · split at h
      · rename_i tr htr
        simp only at h
        split at h
        · exact absurd h (by simp)
        · rename_i s3 h3
          split at h
          · simp only [Option.some.injEq] at h
            subst h
            intro x
            rw [adjust_ptracker_for_children_children h3 x]
            by_cases hx : x = me
            · subst hx; rw [Store.set_node_same]
            · rw [Store.set_node_other _ _ _ hx]
          · exact absurd h (by simp)
      · split at h
        · simp only [Option.some.injEq] at h
          subst h
          exact fun _ => rfl
        · exact absurd h (by simp)
    · exact absurd h (by simp)

/-- What a successful `take_children_from_prior_instance` of a node that is not
mutation-pending leaves in the child array: the result of the walk over the
prior instance, which is the one copy source. -/
theorem take_children_from_prior_instance_children {s s' : Store} {me : NodeRef}
    (h : take_children_from_prior_instance s me = some s')
    (hmp : (s.nodes me).is_mutation_pending = false) :
    ∃ prior m n, (s.nodes me).prior_instance = some prior
      ∧ (s.nodes me).copy_sources = [prior]
      ∧ copy_children_from_stable_source (s.nodes me) (s.nodes prior) 0
          (s.nodes prior).get_size 0 = some (m, n)
      ∧ (s'.nodes me).children = m.children := by
  unfold take_children_from_prior_instance at h
  rw [hmp] at h
  simp only [Bool.false_or] at h
  split at h
  · rename_i hlen
    split at h
    · exact absurd h (by simp)
    · rename_i prior hprior
      split at h
      · rename_i hhead
        split at h
        · exact absurd h (by simp)
        · rename_i s1 h1
          split at h
          · exact absurd h (by simp)
          · rename_i me1 copied hw
            split at h
            · simp only [Option.some.injEq] at h
              subst h
              have hsl := set_children_from_prior_instance_same_links h1
              have hch := set_children_from_prior_instance_children h1
              have hcs : (s.nodes me).copy_sources = [prior] := by
                cases hl : (s.nodes me).copy_sources with
                | nil => rw [hl] at hlen; simp at hlen
                | cons a t =>
                  rw [hl] at hlen hhead
                  cases t with
                  | nil =>
                    have : a = prior := by simpa using hhead
                    rw [this]
                  | cons b t' => simp at hlen
              have hcongr := copy_children_loop_congr (s1.nodes prior).get_size
                (((s1.nodes prior).get_size - 0) + ((s1.nodes me).get_size - 0) + 1)
                (s1.nodes prior) (s.nodes prior) (s1.nodes me) (s.nodes me) 0 0
                (Node.same_links_keys (hsl prior)) (hch prior)
                (Node.same_links_keys (hsl me)) (hch me)
              unfold copy_children_from_stable_source at hw
              rw [hw] at hcongr
              simp only [Option.map_some'] at hcongr
              rw [Node.same_links_get_size (hsl prior), Node.same_links_get_size (hsl me)]
                at hcongr
              cases hr : copy_children_loop (s.nodes prior) (s.nodes prior).get_size
                  (((s.nodes prior).get_size - 0) + ((s.nodes me).get_size - 0) + 1)
                  (s.nodes me) 0 0 with
              | none => rw [hr] at hcongr; simp at hcongr
              | some r =>
                obtain ⟨m, n⟩ := r
                rw [hr] at hcongr
                simp only [Option.map_some', Option.some.injEq, Prod.mk.injEq] at hcongr
                refine ⟨prior, m, n, hprior, hcs, ?_, ?_⟩
                · unfold copy_children_from_stable_source
                  exact hr
                · rw [Store.set_node_same]
                  exact hcongr.1
            · exact absurd h (by simp)
      · exact absurd h (by simp)
  · exact absurd h (by simp)

theorem take_children_from_prior_instance_keep {s s' : Store} {me : NodeRef}
    (h : take_children_from_prior_instance s me = some s') :
    ∀ (i : Nat) (c : ChildPtr), (s.nodes me).children[i]? = some c → c ≠ nullptr →
      (s'.nodes me).children[i]? = some c := by
  unfold take_children_from_prior_instance at h
  split at h
  · split at h
    · exact absurd h (by simp)
    · split at h
      · split at h
        · exact absurd h (by simp)
        · rename_i s1 h1
          split at h
          · exact absurd h (by simp)
          · rename_i me1 copied hw
            split at h
            · simp only [Option.some.injEq] at h
              subst h
              intro i c hi hc
              rw [Store.set_node_same]
              refine copy_children_loop_keep _ _ _ _ _ _ _ _ hw i c ?_ hc
              rw [set_children_from_prior_instance_children h1 me]
              exact hi
            · exact absurd h (by simp)
      · exact absurd h (by simp)
  · exact absurd h (by simp)

/-- C14: `prepare_commit` on a node that is not initial-pending returns the
store unchanged. When it returns on an initial-pending node: the node's
`copy_sources` are empty; no slot that was non-null before the call has
changed; for a rewrite the node had its prior instance as only copy source and
its child array is the one `copy_children_from_stable_source` builds from the
prior instance; otherwise its child array is the one that
`copy_children_from_stable_sources` builds from the copy sources. -/
theorem prepare_commit_spec (s : Store) (me : NodeRef) :
    ((s.nodes me).is_initial_pending = false → prepare_commit s me = some s)
      ∧ (∀ s', (s.nodes me).is_initial_pending = true → prepare_commit s me = some s' →
          (s'.nodes me).copy_sources = []
          ∧ (∀ (i : Nat) (c : ChildPtr), (s.nodes me).children[i]? = some c → c ≠ nullptr →
              (s'.nodes me).children[i]? = some c)
          ∧ ((s.nodes me).is_rewrite = true →
              ∃ prior m n, (s.nodes me).prior_instance = some prior
                ∧ (s.nodes me).copy_sources = [prior]
                ∧ copy_children_from_stable_source (s.nodes me) (s.nodes prior) 0
                    (s.nodes prior).get_size 0 = some (m, n)
                ∧ (s'.nodes me).children = m.children)
          ∧ ((s.nodes me).is_rewrite = false →
              ∃ s0, copy_children_from_stable_sources s me = some s0
                ∧ (s'.nodes me).children = (s0.nodes me).children)) := by
  constructor
  · intro hip
    unfold prepare_commit
    rw [hip]
    simp
  · intro s' hip h
    have hmp : (s.nodes me).is_mutation_pending = false := by
      unfold Node.is_initial_pending at hip
      unfold Node.is_mutation_pending
      simp only [beq_iff_eq] at hip
      rw [hip]
      rfl
    unfold prepare_commit at h
    rw [if_pos hip] at h
    split at h
    · exact absurd h (by simp)
    · rename_i s1 h1
      split at h
      · simp only [Option.some.injEq] at h
        subst h
        have hcs : ∀ x, ((s1.set_copy_sources me []).nodes x).children = (s1.nodes x).children := by
          intro x
          unfold Store.set_copy_sources
          by_cases hx : x = me
          · subst hx; rw [Store.set_node_same]
          · rw [Store.set_node_other _ _ _ hx]
        refine ⟨by simp [Store.set_copy_sources], ?_, ?_, ?_⟩
        · intro i c hi hc
          rw [hcs]
          by_cases hrw : (s.nodes me).is_rewrite = true
          · rw [if_pos hrw] at h1
            exact take_children_from_prior_instance_keep h1 i c hi hc
          · rw [if_neg hrw] at h1
            unfold take_children_from_stable_sources at h1
            split at h1
            · exact absurd h1 (by simp)
            · rename_i s0 h0
              rw [adjust_ptracker_for_children_children h1 me]
              exact copy_children_from_stable_sources_keep h0 i c hi hc
        · intro hrw
          rw [if_pos hrw] at h1
          obtain ⟨prior, m, n, e1, e2, e3, e4⟩ :=
            take_children_from_prior_instance_children h1 hmp
          exact ⟨prior, m, n, e1, e2, e3, by rw [hcs]; exact e4⟩
        · intro hrw
          rw [if_neg (by simp [hrw])] at h1
          unfold take_children_from_stable_sources at h1
          split at h1
          · exact absurd h1 (by simp)
          · rename_i s0 h0
            exact ⟨s0, h0, by rw [hcs, adjust_ptracker_for_children_children h1 me]⟩
      · exact absurd h (by simp)

/-- C14 witness: `prepare_commit` leaves the stable node 3 of `index_store`
alone; on the rewrite of `rewrite_store` it keeps the child 111 of slot 1 and
takes the other children from the prior instance; on the initial-pending node
0 of `index_store` it takes the children from the copy sources 3 and 4. -/
theorem prepare_commit_spec_witness :
    prepare_commit index_store 3 = some index_store
      ∧ (∃ s', prepare_commit rewrite_store 1 = some s'
          ∧ (s'.nodes 1).copy_sources = []
          ∧ (s'.nodes 1).children[1]? = some 111)
      ∧ (prepare_commit rewrite_store 1).map (fun s' => (s'.nodes 1).children)
          = some [100, 111, 102, 103]
      ∧ (prepare_commit index_store 0).map (fun s' => (s'.nodes 0).children)
          = some [100, 101, 102, 103, 104, 105] := by
  refine ⟨(prepare_commit_spec index_store 3).1 (by decide), ?_, by decide, by decide⟩
  obtain ⟨s', h⟩ := Option.isSome_iff_exists.mp
    (show (prepare_commit rewrite_store 1).isSome = true by decide)
  obtain ⟨h1, h2, -, -⟩ := (prepare_commit_spec rewrite_store 1).2 s' (by decide) h
  exact ⟨s', h, h1, h2 1 111 (by decide) (by decide)⟩

/-! ## Agreement of children and trackers -/

/-- The destructor of a tracker writes no child object, no tracker cell, no
child array and no key. -/
theorem parent_tracker_t.destructor_frame (s : Store) (tr : TrackerRef) :
    (parent_tracker_t.destructor s tr).child_objs = s.child_objs
      ∧ (parent_tracker_t.destructor s tr).trackers = s.trackers
      ∧ (∀ x, (s.nodes x).same_links ((parent_tracker_t.destructor s tr).nodes x))
      ∧ (∀ x, ((parent_tracker_t.destructor s tr).nodes x).children = (s.nodes x).children) := by
  unfold parent_tracker_t.destructor
  split
  · exact ⟨rfl, rfl, fun _ => Node.same_links_refl _, fun _ => rfl⟩
  · split
    · exact ⟨rfl, rfl, fun x => Store.clear_my_tracker_same_links _ _ x,
        fun x => Store.clear_my_tracker_children _ _ x⟩
    · exact ⟨rfl, rfl, fun _ => Node.same_links_refl _, fun _ => rfl⟩

/-- The method `on_invalidated` writes the parent tracker of the child and, when
the tracker is destroyed, `my_tracker` of the parent; nothing else. -/
theorem on_invalidated_frame (s : Store) (me : ChildPtr) (last_reference : Bool) :
    (on_invalidated s me last_reference).child_objs = (reset_parent_tracker s me none).child_objs
      ∧ (on_invalidated s me last_reference).trackers = s.trackers
      ∧ (∀ x, (s.nodes x).same_links ((on_invalidated s me last_reference).nodes x))
      ∧ (∀ x, ((on_invalidated s me last_reference).nodes x).children
          = (s.nodes x).children) := by
  unfold on_invalidated
  split
  · exact ⟨rfl, rfl, fun _ => Node.same_links_refl _, fun _ => rfl⟩
  · rename_i tr htr
    split
    · obtain ⟨d1, d2, d3, d4⟩ :=
        parent_tracker_t.destructor_frame (reset_parent_tracker s me none) tr
      exact ⟨d1, d2, d3, d4⟩
    · exact ⟨rfl, rfl, fun _ => Node.same_links_refl _, fun _ => rfl⟩

/-- C21: `on_invalidated` on a child `C` whose tracker references the parent `P`,
whether `C` holds the last reference to the tracker or not, leaves `C` without
parent tracker (`has_parent_tracker()` and `is_parent_valid()` are false), and
leaves the child array of `P` (the slot that references `C` included) and of
every other node, every tracker cell (the one that `C` referenced still
references `P`) and every other child as they were. No node but `P` is
written; `P` is not written when `C` did not hold the last reference, and
otherwise `my_tracker` of `P`, when it is the tracker of `C`, is cleared by the
destructor of the tracker. -/
theorem on_invalidated_spec (s : Store) (C : ChildPtr) (P : NodeRef) (last_reference : Bool)
    (h : peek_parent_node s C = some P) :
    ((on_invalidated s C last_reference).child_objs C).has_parent_tracker = false
      ∧ is_parent_valid (on_invalidated s C last_reference) C = false
      ∧ ((on_invalidated s C last_reference).nodes P).children = (s.nodes P).children
      ∧ (∀ i : Nat, (s.nodes P).children[i]? = some C →
          ((on_invalidated s C last_reference).nodes P).children[i]? = some C)
      ∧ (∀ x, ((on_invalidated s C last_reference).nodes x).children = (s.nodes x).children)
      ∧ (∃ tr, (s.child_objs C).parent_tracker = some tr
          ∧ ((on_invalidated s C last_reference).trackers tr).get_parent = some P)
      ∧ (on_invalidated s C last_reference).trackers = s.trackers
      ∧ (∀ c, c ≠ C → (on_invalidated s C last_reference).child_objs c = s.child_objs c)
      ∧ (∀ x, x ≠ P → (on_invalidated s C last_reference).nodes x = s.nodes x)
      ∧ (last_reference = false → (on_invalidated s C last_reference).nodes P = s.nodes P)
      ∧ (last_reference = true → ∀ tr, (s.child_objs C).parent_tracker = some tr →
          ((on_invalidated s C last_reference).nodes P).my_tracker
            = if (s.nodes P).my_tracker = some tr then none else (s.nodes P).my_tracker) := by
  obtain ⟨f1, f2, f3, f4⟩ := on_invalidated_frame s C last_reference
  have hC : ((on_invalidated s C last_reference).child_objs C).parent_tracker = none := by
    rw [f1]; simp [reset_parent_tracker]
  obtain ⟨tr, htr, hpar⟩ : ∃ tr, (s.child_objs C).parent_tracker = some tr
      ∧ (s.trackers tr).get_parent = some P := by
    unfold peek_parent_node at h
    cases htr : (s.child_objs C).parent_tracker with
    | none => rw [htr] at h; cases h
    | some tr =>
      rw [htr] at h
      exact ⟨tr, rfl, h⟩
  have hpar' : (s.trackers tr).parent = some P := hpar
  refine ⟨?_, ?_, f4 P, fun i hi => by rw [f4]; exact hi, f4, ⟨tr, htr, by rw [f2]; exact hpar⟩,
    f2, ?_, ?_, ?_, ?_⟩
  · unfold BaseChildNode.has_parent_tracker
    rw [hC]; rfl
  · unfold is_parent_valid
    rw [hC]
  · intro c hc
    rw [f1]
    exact reset_parent_tracker_other _ _ _ hc
  · intro x hx
    unfold on_invalidated
    rw [htr]
    simp only
    split
    · unfold parent_tracker_t.destructor
      simp only [reset_parent_tracker_trackers, hpar', reset_parent_tracker_nodes]
      split
      · unfold Store.clear_my_tracker
        rw [Store.set_node_other _ _ _ hx, reset_parent_tracker_nodes]
      · rw [reset_parent_tracker_nodes]
    · rw [reset_parent_tracker_nodes]
  · intro hl
    unfold on_invalidated
    rw [htr, hl]
    simp only [Bool.false_eq_true, if_false, reset_parent_tracker_nodes]
  · intro hl tr' htr'
    rw [htr] at htr'
    cases htr'
    unfold on_invalidated
    rw [htr, hl]
    simp only [if_true]
    unfold parent_tracker_t.destructor
    simp only [reset_parent_tracker_trackers, hpar', reset_parent_tracker_nodes]
    by_cases hm : (s.nodes P).my_tracker = some tr
    · rw [if_pos hm, if_pos hm, Store.clear_my_tracker_tracker]
    · rw [if_neg hm, if_neg hm, reset_parent_tracker_nodes]

/-- C21 witness: the child 102 of `family_store` (slot 2 of the parent 0) is
invalidated, as one carrier of the tracker 0 among others and as the last one. -/
theorem on_invalidated_spec_witness :
    peek_parent_node family_store 102 = some 0
      ∧ (family_store.nodes 0).children[2]? = some 102
      ∧ ((on_invalidated family_store 102 false).child_objs 102).has_parent_tracker = false
      ∧ is_parent_valid (on_invalidated family_store 102 false) 102 = false
      ∧ is_parent_valid family_store 102 = true
      ∧ ((on_invalidated family_store 102 false).nodes 0).children[2]? = some 102
      ∧ ((on_invalidated family_store 102 true).nodes 0).children[2]? = some 102
      ∧ ((on_invalidated family_store 102 false).nodes 0).my_tracker = some 0
      ∧ ((on_invalidated family_store 102 true).nodes 0).my_tracker = none := by
  have h := on_invalidated_spec family_store 102 0 false (by decide)
  have h' := on_invalidated_spec family_store 102 0 true (by decide)
  exact ⟨by decide, by decide, h.1, h.2.1, by decide, h.2.2.2.1 2 (by decide),
    h'.2.2.2.1 2 (by decide), by decide, by decide⟩

/-- C22: `destroy` on a non-root child that has a parent tracker and is the
pointer held in the slot `i = get_parent_pos()` of its parent `P` returns, with
that slot null and every other slot of `P`, every other node, every child
object and every tracker cell as before; it aborts when the child has no parent
tracker, when the slot at `i` does not hold this child, and on the root. -/
theorem destroy_spec (s : Store) (me : ChildPtr) :
    (∀ (P : NodeRef) (i : Nat), (s.child_objs me).has_parent_tracker = true →
        peek_parent_node s me = some P → get_parent_pos s me = some i →
        (s.nodes P).children[i]? = some me →
        ∃ s', destroy s me false = some s'
          ∧ (s'.nodes P).children[i]? = some nullptr
          ∧ (∀ j : Nat, j ≠ i → (s'.nodes P).children[j]? = (s.nodes P).children[j]?)
          ∧ (s'.nodes P).children.length = (s.nodes P).children.length
          ∧ (∀ x, x ≠ P → s'.nodes x = s.nodes x)
          ∧ s'.child_objs = s.child_objs ∧ s'.trackers = s.trackers)
      ∧ ((s.child_objs me).has_parent_tracker = false → ∀ r, destroy s me r = none)
      ∧ (∀ (P : NodeRef) (i : Nat), peek_parent_node s me = some P →
          get_parent_pos s me = some i → (s.nodes P).children[i]? ≠ some me →
          ∀ r, destroy s me r = none)
      ∧ (get_parent_pos s me = none → ∀ r, destroy s me r = none)
      ∧ destroy s me true = none := by
  refine ⟨?_, ?_, ?_, ?_, ?_⟩
  · intro P i htr hP hi hslot
    have hlt : i < (s.nodes P).children.length := by
      rcases Nat.lt_or_ge i (s.nodes P).children.length with h | h
      · exact h
      · rw [List.getElem?_eq_none h] at hslot; cases hslot
    refine ⟨s.set_children P ((s.nodes P).children.set i nullptr), ?_, ?_, ?_, ?_, ?_, rfl, rfl⟩
    · unfold destroy
      simp [htr, hP, hi, hslot]
    · rw [Store.set_children_same, List.getElem?_set]
      simp [hlt]
    · intro j hj
      rw [Store.set_children_same, List.getElem?_set]
      simp [Ne.symm hj]
    · rw [Store.set_children_same]
      simp
    · intro x hx
      exact Store.set_children_other _ _ _ hx
  · intro htr r
    unfold destroy
    cases r <;> simp [htr]
  · intro P i hP hi hslot r
    unfold destroy
    cases r <;> simp [hP, hi, hslot]
  · intro hi r
    unfold destroy
    cases r <;> simp [hi]
  · unfold destroy
    simp

/-- C22 witness: the child 102 of `family_store` is destroyed: slot 2 of the
parent is null, the other slots stay; the child 105, which has no tracker,
cannot be destroyed. -/
theorem destroy_spec_witness :
    (∃ s', destroy family_store 102 false = some s'
        ∧ (s'.nodes 0).children[2]? = some nullptr
        ∧ (∀ j : Nat, j ≠ 2 → (s'.nodes 0).children[j]? = (family_store.nodes 0).children[j]?)
        ∧ (s'.nodes 0).children.length = (family_store.nodes 0).children.length
        ∧ (∀ x, x ≠ 0 → s'.nodes x = family_store.nodes x)
        ∧ s'.child_objs = family_store.child_objs ∧ s'.trackers = family_store.trackers)
      ∧ destroy family_store 105 false = none :=
  ⟨(destroy_spec family_store 102).1 0 2 (by decide) (by decide) (by decide) (by decide),
    (destroy_spec family_store 105).2.1 (by decide) false⟩

/-! ## The copy sources through the structural operations -/

/-- C23, the failing input: the copy sources 3 = [0,30) and 4 = [30,60) of the
initial-pending node 0 = [0,60) of `index_store` are stable and overlap its
range (class invariant 3d holds for the donor). The call
`adjust_copy_src_dest_on_split` returns and has handed both to both new nodes
(`push_copy_sources` inserts every copy source of an initial-pending donor
without looking at the ranges): the new node 1 = [0,30) has the copy source 4
and the new node 2 = [30,60) has the copy source 3, whose ranges do not
overlap theirs, so the invariant does not hold for the new nodes. -/
theorem copy_sources_overlap_broken_by_split :
    copy_sources_overlap index_store 0
      ∧ (index_store.nodes 0).is_initial_pending = true
      ∧ (adjust_copy_src_dest_on_split index_store 7 0 1 2).map
          (fun s' => ((s'.nodes 1).copy_sources, (s'.nodes 2).copy_sources,
            (s'.nodes 4).overlaps (s'.nodes 1), (s'.nodes 3).overlaps (s'.nodes 2)))
          = some ([3, 4], [3, 4], false, false)
      ∧ (∃ s', adjust_copy_src_dest_on_split index_store 7 0 1 2 = some s'
          ∧ ¬ copy_sources_overlap s' 1 ∧ ¬ copy_sources_overlap s' 2) := by
  have e1 : (adjust_copy_src_dest_on_split index_store 7 0 1 2).map
      (fun s' => ((s'.nodes 1).copy_sources, (s'.nodes 2).copy_sources,
        (s'.nodes 4).overlaps (s'.nodes 1), (s'.nodes 3).overlaps (s'.nodes 2)))
      = some ([3, 4], [3, 4], false, false) := by decide
  refine ⟨?_, by decide, e1, ?_⟩
  · intro S hS
    have hS' : S = 3 ∨ S = 4 := by
      have : (index_store.nodes 0).copy_sources = [3, 4] := by decide
      rw [this] at hS
      simpa using hS
    rcases hS' with rfl | rfl
    · exact ⟨by decide, by decide⟩
    · exact ⟨by decide, by decide⟩
  · cases h : adjust_copy_src_dest_on_split index_store 7 0 1 2 with
    | none => rw [h] at e1; cases e1
    | some s' =>
      rw [h] at e1
      simp only [Option.map_some', Option.some.injEq, Prod.mk.injEq] at e1
      obtain ⟨a1, a2, a3, a4⟩ := e1
      refine ⟨s', rfl, fun hov => ?_, fun hov => ?_⟩
      · have := (hov 4 (by rw [a1]; decide)).2
        rw [a3] at this
        cases this
      · have := (hov 3 (by rw [a2]; decide)).2
        rw [a4] at this
        cases this

/-! ## Sizing of the backing array -/

theorem run_steps_append (a b : List surgery_step) (s : Store) :
    run_steps (a ++ b) s = (run_steps a s).bind (run_steps b) := by
  induction a generalizing s with
  | nil => rfl
  | cons st rest ih =>
    cases st with
    | move d sr ds ss se =>
      simp only [List.cons_append, run_steps]
      cases move_child_ptrs s d sr ds ss se with
      | none => rfl
      | some s1 => exact ih s1
    | clear r =>
      simp only [List.cons_append, run_steps]
      exact ih _

/-- The statements change child arrays and trackers only. -/
theorem run_steps_same_links :
    ∀ (steps : List surgery_step) (s s' : Store), run_steps steps s = some s' →
      ∀ x, (s.nodes x).same_links (s'.nodes x) := by
  intro steps
  induction steps with
  | nil =>
    intro s s' h x
    simp only [run_steps, Option.some.injEq] at h
    subst h
    exact Node.same_links_refl _
  | cons st rest ih =>
    intro s s' h x
    cases st with
    | move d sr ds ss se =>
      simp only [run_steps] at h
      cases hm : move_child_ptrs s d sr ds ss se with
      | none => rw [hm] at h; exact absurd h (by simp)
      | some s1 =>
        rw [hm] at h
        exact Node.same_links_trans ((move_child_ptrs_some hm).2.2 x) (ih s1 s' h x)
    | clear r =>
      simp only [run_steps] at h
      exact Node.same_links_trans (Store.clear_my_tracker_same_links s r x) (ih _ s' h x)

/-- The donor phase with one move, as statements. -/
theorem one_move_steps (s : Store) (dest donor : NodeRef) (ds ss se : Nat) (p : Bool) :
    (if p = true then
        (move_child_ptrs s dest donor ds ss se).bind fun a => some (a.clear_my_tracker donor)
      else some s)
      = run_steps (if p = true then
          [surgery_step.move dest donor ds ss se, surgery_step.clear donor] else []) s := by
  cases p with
  | false => simp [run_steps]
  | true =>
    simp only [if_true, run_steps]
    cases move_child_ptrs s dest donor ds ss se <;> rfl

/-- The donor phase with two moves, as statements. -/
theorem two_move_steps (s : Store) (d1 d2 donor : NodeRef) (ds1 ss1 se1 ds2 ss2 se2 : Nat)
    (p : Bool) :
    (if p = true then
        (move_child_ptrs s d1 donor ds1 ss1 se1).bind fun a =>
          (move_child_ptrs a d2 donor ds2 ss2 se2).bind fun b =>
            some (b.clear_my_tracker donor)
      else some s)
      = run_steps (if p = true then
          [surgery_step.move d1 donor ds1 ss1 se1, surgery_step.move d2 donor ds2 ss2 se2,
            surgery_step.clear donor] else []) s := by
  cases p with
  | false => simp [run_steps]
  | true =>
    simp only [if_true, run_steps]
    cases move_child_ptrs s d1 donor ds1 ss1 se1 with
    | none => rfl
    | some a =>
      simp only [Option.some_bind]
      cases move_child_ptrs a d2 donor ds2 ss2 se2 <;> rfl

/-- The body of `split_child_ptrs` after the calls of `maybe_expand_children`
is the run of its statements. -/
theorem split_child_ptrs_eq_steps (U : Nat) (s : Store) (me left right : NodeRef) (pivot : Nat)
    (l r : Node)
    (hlm : left ≠ me) (hrm : right ≠ me) (hlr : left ≠ right)
    (hlt : (s.nodes left).my_tracker = none) (hrt : (s.nodes right).my_tracker = none)
    (hp : pivot ≤ (s.nodes me).get_size)
    (hl : maybe_expand_children U (s.nodes left) pivot = some l)
    (hr : maybe_expand_children U (s.nodes right) ((s.nodes me).get_size - pivot) = some r) :
    split_child_ptrs U s me left right pivot
      = run_steps (split_child_ptrs_steps s me left right pivot)
          ((s.set_node left l).set_node right r) := by
  have hs1r : (s.set_node left l).nodes right = s.nodes right :=
    Store.set_node_other _ _ _ hlr.symm
  have hs1m : (s.set_node left l).nodes me = s.nodes me :=
    Store.set_node_other _ _ _ hlm.symm
  have hs2m : ((s.set_node left l).set_node right r).nodes me = s.nodes me := by
    rw [Store.set_node_other _ _ _ hrm.symm, hs1m]
  unfold split_child_ptrs split_child_ptrs_steps
  simp only [hlt, hrt, Option.isSome_none, Bool.or_self, Bool.false_eq_true, if_false,
    Nat.not_lt.mpr hp, Option.bind_eq_bind, hl, Option.some_bind, hs1r, hs1m, hr, hs2m]
  cases hpend : (s.nodes me).is_pending with
  | false => simp [run_steps]
  | true =>
    simp only [if_true, run_steps]
    cases h3 : move_child_ptrs ((s.set_node left l).set_node right r) left me 0 0 pivot with
    | none => rfl
    | some s3 =>
      simp only [Option.some_bind]
      rw [Node.same_links_get_size ((move_child_ptrs_some h3).2.2 me), hs2m]
      cases move_child_ptrs s3 right me 0 pivot (s.nodes me).get_size <;> rfl

/-- The body of `merge_child_ptrs` after the call of `maybe_expand_children` is
the run of its statements. -/
theorem merge_child_ptrs_eq_steps (U : Nat) (s : Store) (me left right : NodeRef) (m : Node)
    (hlm : left ≠ me) (hrm : right ≠ me)
    (hmt : (s.nodes me).my_tracker = none)
    (hm : maybe_expand_children U (s.nodes me)
      ((s.nodes left).get_size + (s.nodes right).get_size) = some m) :
    merge_child_ptrs U s me left right
      = run_steps (merge_child_ptrs_steps s me left right) (s.set_node me m) := by
  have hs1l : (s.set_node me m).nodes left = s.nodes left := Store.set_node_other _ _ _ hlm
  have hs1r : (s.set_node me m).nodes right = s.nodes right := Store.set_node_other _ _ _ hrm
  unfold merge_child_ptrs merge_child_ptrs_steps
  simp only [hmt, Option.isSome_none, Bool.false_eq_true, if_false, Option.bind_eq_bind, hm,
    Option.some_bind]
  rw [hs1l, hs1r, run_steps_append]
  cases hlp : (s.nodes left).is_pending with
  | false =>
    simp only [Bool.false_eq_true, if_false, run_steps, Option.some_bind]
    exact one_move_steps (s.set_node me m) me right _ _ _ (s.nodes right).is_pending
  | true =>
    simp only [if_true, run_steps]
    cases h2 : move_child_ptrs (s.set_node me m) me left 0 0 (s.nodes left).get_size with
    | none => rfl
    | some a =>
      simp only [Option.some_bind]
      have hsl : ∀ x, ((s.set_node me m).nodes x).same_links ((a.clear_my_tracker left).nodes x) :=
        fun x => Node.same_links_trans ((move_child_ptrs_some h2).2.2 x)
          (Store.clear_my_tracker_same_links a left x)
      have e1 : ((a.clear_my_tracker left).nodes left).get_size = (s.nodes left).get_size := by
        rw [Node.same_links_get_size (hsl left), hs1l]
      have e2 : ((a.clear_my_tracker left).nodes right).get_size = (s.nodes right).get_size := by
        rw [Node.same_links_get_size (hsl right), hs1r]
      rw [e1, e2, Node.same_links_is_pending (hsl right), hs1r]
      exact one_move_steps (a.clear_my_tracker left) me right _ _ _ (s.nodes right).is_pending

/-- The body of `balance_child_ptrs` after the calls of `maybe_expand_children`
and the assertions is the run of its statements. -/
theorem balance_child_ptrs_eq_steps (U : Nat) (s : Store) (left right rl rr : NodeRef)
    (pivot : Nat) (L R : Node)
    (hd : rl ≠ rr) (hll : rl ≠ left) (hlr : rl ≠ right) (hrl : rr ≠ left) (hrr : rr ≠ right)
    (hlt : (s.nodes rl).my_tracker = none) (hrt : (s.nodes rr).my_tracker = none)
    (hpl : pivot ≠ (s.nodes left).get_size) (hpr : pivot ≠ (s.nodes right).get_size)
    (hpn : pivot ≤ (s.nodes right).get_size + (s.nodes left).get_size)
    (hL : maybe_expand_children U (s.nodes rl) pivot = some L)
    (hR : maybe_expand_children U (s.nodes rr)
      ((s.nodes right).get_size + (s.nodes left).get_size - pivot) = some R) :
    balance_child_ptrs U s left right pivot rl rr
      = run_steps (balance_child_ptrs_steps s left right pivot rl rr)
          ((s.set_node rl L).set_node rr R) := by
  obtain ⟨-, -, hL3, -, -⟩ := maybe_expand_children_some hL
  obtain ⟨-, -, hR3, -, -⟩ := maybe_expand_children_some hR
  have hs1rr : (s.set_node rl L).nodes rr = s.nodes rr := Store.set_node_other _ _ _ hd.symm
  have hs2 : ∀ x, x ≠ rl → x ≠ rr → ((s.set_node rl L).set_node rr R).nodes x = s.nodes x := by
    intro x h1 h2
    rw [Store.set_node_other _ _ _ h2, Store.set_node_other _ _ _ h1]
  have hs2l := hs2 left hll.symm hrl.symm
  have hs2r := hs2 right hlr.symm hrr.symm
  have hs2rl : ((s.set_node rl L).set_node rr R).nodes rl = L := by
    rw [Store.set_node_other _ _ _ hd]; simp
  have hs2rr : ((s.set_node rl L).set_node rr R).nodes rr = R := by simp
  have htrk : ((((s.set_node rl L).set_node rr R).nodes rl).my_tracker.isSome
      || (((s.set_node rl L).set_node rr R).nodes rr).my_tracker.isSome) = false := by
    rw [hs2rl, hs2rr, hL3, hR3, hlt, hrt]; rfl
  have hnot : ¬ (pivot = (s.nodes left).get_size ∨ pivot = (s.nodes right).get_size) := by
    omega
  have hsum : ¬ (pivot > (s.nodes right).get_size + (s.nodes left).get_size) := by omega
  unfold balance_child_ptrs balance_child_ptrs_steps
  simp only [if_neg hnot, if_neg hsum, hL, hs1rr, hR, Option.bind_eq_bind, Option.some_bind,
    htrk, Bool.false_eq_true, if_false, hs2l]
  by_cases hcase : pivot < (s.nodes left).get_size
  · simp only [if_pos hcase]
    rw [run_steps_append]
    cases hlp : (s.nodes left).is_pending with
    | false =>
      simp only [Bool.false_eq_true, if_false, run_steps, Option.some_bind]
      rw [hs2r]
      exact one_move_steps _ rr right _ _ _ (s.nodes right).is_pending
    | true =>
      simp only [if_true, run_steps]
      cases ha : move_child_ptrs ((s.set_node rl L).set_node rr R) rl left 0 0 pivot with
      | none => rfl
      | some a =>
        simp only [Option.some_bind]
        cases hb : move_child_ptrs a rr left 0 pivot (s.nodes left).get_size with
        | none => rfl
        | some b =>
          simp only [Option.some_bind]
          have hsl : ((b.clear_my_tracker left).nodes right).is_pending
              = (s.nodes right).is_pending := by
            rw [Node.same_links_is_pending (Store.clear_my_tracker_same_links b left right),
              Node.same_links_is_pending ((move_child_ptrs_some hb).2.2 right),
              Node.same_links_is_pending ((move_child_ptrs_some ha).2.2 right), hs2r]
          rw [hsl]
          exact one_move_steps _ rr right _ _ _ (s.nodes right).is_pending
  · simp only [if_neg hcase]
    rw [run_steps_append]
    cases hlp : (s.nodes left).is_pending with
    | false =>
      simp only [Bool.false_eq_true, if_false, run_steps, Option.some_bind]
      rw [hs2r]
      exact two_move_steps _ rl rr right _ _ _ _ _ _ (s.nodes right).is_pending
    | true =>
      simp only [if_true, run_steps]
      cases ha : move_child_ptrs ((s.set_node rl L).set_node rr R) rl left 0 0
          (s.nodes left).get_size with
      | none => rfl
      | some a =>
        simp only [Option.some_bind]
        have hsl : ((a.clear_my_tracker left).nodes right).is_pending
            = (s.nodes right).is_pending := by
          rw [Node.same_links_is_pending (Store.clear_my_tracker_same_links a left right),
            Node.same_links_is_pending ((move_child_ptrs_some ha).2.2 right), hs2r]
        rw [hsl]
        exact two_move_steps _ rl rr right _ _ _ _ _ _ (s.nodes right).is_pending

theorem writes_apart_clear_left (r : NodeRef) (st : surgery_step) :
    surgery_step.writes_apart (surgery_step.clear r) st := by
  cases st <;> trivial

theorem writes_apart_clear_right (r : NodeRef) (st : surgery_step) :
    surgery_step.writes_apart st (surgery_step.clear r) := by
  cases st <;> trivial

theorem surgery_step.in_bounds_congr {s s1 : Store} {st : surgery_step}
    (hlen : ∀ x, (s1.nodes x).children.length = (s.nodes x).children.length
      ∧ (s1.nodes x).children_size = (s.nodes x).children_size)
    (h : st.in_bounds s) : st.in_bounds s1 := by
  cases st with
  | move d sr ds ss se =>
    simp only [surgery_step.in_bounds] at h ⊢
    rw [(hlen sr).2, (hlen d).1]
    exact h
  | clear r => trivial

/-- A call of `move_child_ptrs` inside the arrays leaves every array its
capacity and its size. -/
theorem move_child_ptrs_length {s s' : Store} {dest src : NodeRef} {ds ss se : Nat}
    (h : move_child_ptrs s dest src ds ss se = some s') :
    ∀ x, (s'.nodes x).children.length = (s.nodes x).children.length
      ∧ (s'.nodes x).children_size = (s.nodes x).children_size :=
  fun x => move_child_ptrs_children_size h x

theorem Store.clear_my_tracker_length_size (s : Store) (r : NodeRef) :
    ∀ x, ((s.clear_my_tracker r).nodes x).children.length = (s.nodes x).children.length
      ∧ ((s.clear_my_tracker r).nodes x).children_size = (s.nodes x).children_size :=
  fun x => ⟨by rw [Store.clear_my_tracker_children], Store.clear_my_tracker_children_size s r x⟩

/-- Statements whose calls of `move_child_ptrs` are inside the arrays and move
at least one slot run to the end: no call aborts. -/
theorem run_steps_isSome :
    ∀ (steps : List surgery_step) (s : Store), (∀ st ∈ steps, st.in_bounds s) →
      (∀ d sr ds ss se, surgery_step.move d sr ds ss se ∈ steps → ss < se) →
      ∃ s', run_steps steps s = some s' := by
  intro steps
  induction steps with
  | nil => intro s _ _; exact ⟨s, rfl⟩
  | cons st rest ih =>
    intro s hb hne
    cases st with
    | move d sr ds ss se =>
      have h0 := hb _ (List.mem_cons_self _ _)
      simp only [surgery_step.in_bounds] at h0
      obtain ⟨s1, h1⟩ := move_child_ptrs_isSome s d sr ds ss se
        (hne d sr ds ss se (List.mem_cons_self _ _)) h0.2.1 h0.2.2
      obtain ⟨s', hs'⟩ := ih s1
        (fun st hst => surgery_step.in_bounds_congr (move_child_ptrs_length h1)
          (hb st (List.mem_cons_of_mem _ hst)))
        (fun d' sr' ds' ss' se' hm => hne d' sr' ds' ss' se' (List.mem_cons_of_mem _ hm))
      exact ⟨s', by simp only [run_steps, h1]; exact hs'⟩
    | clear r =>
      obtain ⟨s', hs'⟩ := ih (s.clear_my_tracker r)
        (fun st hst => surgery_step.in_bounds_congr
          (Store.clear_my_tracker_length_size s r)
          (hb st (List.mem_cons_of_mem _ hst)))
        (fun d' sr' ds' ss' se' hm => hne d' sr' ds' ss' se' (List.mem_cons_of_mem _ hm))
      exact ⟨s', by simp only [run_steps]; exact hs'⟩

/-- Statements that run to the end had every call of `move_child_ptrs` inside
the arrays, moving at least one slot. -/
theorem run_steps_some_inv :
    ∀ (steps : List surgery_step) (s s' : Store), run_steps steps s = some s' →
      (∀ st ∈ steps, st.in_bounds s)
        ∧ (∀ d sr ds ss se, surgery_step.move d sr ds ss se ∈ steps → ss < se) := by
  intro steps
  induction steps with
  | nil =>
    intro s s' _
    exact ⟨fun st hst => absurd hst (List.not_mem_nil _),
      fun _ _ _ _ _ hst => absurd hst (List.not_mem_nil _)⟩
  | cons st rest ih =>
    intro s s' h
    cases st with
    | move d sr ds ss se =>
      simp only [run_steps] at h
      cases hm : move_child_ptrs s d sr ds ss se with
      | none => rw [hm] at h; exact absurd h (by simp)
      | some s1 =>
        rw [hm] at h
        have hg : ss < se ∧ se ≤ (s.nodes sr).children_size
            ∧ ds + (se - ss) ≤ (s.nodes d).children.length := by
          unfold move_child_ptrs at hm
          by_contra hc
          rw [if_neg hc] at hm
          exact absurd hm (by simp)
        obtain ⟨i1, i2⟩ := ih s1 s' h
        have hlen := move_child_ptrs_length hm
        refine ⟨?_, ?_⟩
        · intro st hst
          rcases List.mem_cons.mp hst with rfl | hst
          · exact ⟨Nat.le_of_lt hg.1, hg.2.1, hg.2.2⟩
          · exact surgery_step.in_bounds_congr
              (fun x => ⟨(hlen x).1.symm, (hlen x).2.symm⟩) (i1 st hst)
        · intro d' sr' ds' ss' se' hst
          rcases List.mem_cons.mp hst with heq | hst
          · simp only [surgery_step.move.injEq] at heq
            obtain ⟨-, -, -, rfl, rfl⟩ := heq
            exact hg.1
          · exact i2 d' sr' ds' ss' se' hst
    | clear r =>
      simp only [run_steps] at h
      obtain ⟨i1, i2⟩ := ih _ s' h
      refine ⟨?_, ?_⟩
      · intro st hst
        rcases List.mem_cons.mp hst with rfl | hst
        · trivial
        · exact surgery_step.in_bounds_congr
            (fun x => ⟨((Store.clear_my_tracker_length_size s r) x).1.symm,
              ((Store.clear_my_tracker_length_size s r) x).2.symm⟩) (i1 st hst)
      · intro d' sr' ds' ss' se' hst
        rcases List.mem_cons.mp hst with heq | hst
        · cases heq
        · exact i2 d' sr' ds' ss' se' hst

theorem maybe_expand_children_fixed {n n' : Node} {size : Nat}
    (h : maybe_expand_children 0 n size = some n') : size ≤ n.children.length := by
  unfold maybe_expand_children at h
  simp only [ne_eq, not_true_eq_false, if_false] at h
  by_contra hc
  rw [if_neg hc] at h
  exact absurd h (by simp)

/-! ## Balance: where the child pointers go -/

/-- Helper for the balance: how the pieces are laid out after a balance of two
pending donors. -/
theorem balance_child_ptrs_pending_layout (U : Nat) (s : Store) (left right rl rr : NodeRef)
    (pivot : Nat)
    (hlp : (s.nodes left).is_pending = true) (hrp : (s.nodes right).is_pending = true)
    (hd : rl ≠ rr) (hll : rl ≠ left) (hlr : rl ≠ right) (hrl : rr ≠ left) (hrr : rr ≠ right)
    (hlt : (s.nodes rl).my_tracker = none) (hrt : (s.nodes rr).my_tracker = none)
    (hl0 : 0 < (s.nodes left).get_size) (hr0 : 0 < (s.nodes right).get_size)
    (hp0 : 0 < pivot) (hpn : pivot < (s.nodes left).get_size + (s.nodes right).get_size)
    (hpl : pivot ≠ (s.nodes left).get_size) (hpr : pivot ≠ (s.nodes right).get_size)
    (hlsz : (s.nodes left).get_size ≤ (s.nodes left).children_size)
    (hrsz : (s.nodes right).get_size ≤ (s.nodes right).children_size)
    (hfix : U = 0 → pivot ≤ (s.nodes rl).children.length
      ∧ (s.nodes right).get_size + (s.nodes left).get_size - pivot
          ≤ (s.nodes rr).children.length) :
    ∃ s', balance_child_ptrs U s left right pivot rl rr = some s'
      ∧ (s'.nodes rl).children.take pivot
          = ((s.nodes left).children.take (s.nodes left).get_size
              ++ (s.nodes right).children.take (s.nodes right).get_size).take pivot
      ∧ (s'.nodes rr).children.take
            ((s.nodes left).get_size + (s.nodes right).get_size - pivot)
          = ((s.nodes left).children.take (s.nodes left).get_size
              ++ (s.nodes right).children.take (s.nodes right).get_size).drop pivot
      ∧ (s'.nodes left).children = (s.nodes left).children
      ∧ (s'.nodes right).children = (s.nodes right).children := by
  have hlcap : (s.nodes left).get_size ≤ (s.nodes left).children.length :=
    Nat.le_trans hlsz (Node.children_size_le _)
  have hrcap : (s.nodes right).get_size ≤ (s.nodes right).children.length :=
    Nat.le_trans hrsz (Node.children_size_le _)
  obtain ⟨L, hL⟩ := maybe_expand_children_isSome U (s.nodes rl) pivot (fun h => (hfix h).1)
  obtain ⟨R, hR⟩ := maybe_expand_children_isSome U (s.nodes rr)
    ((s.nodes right).get_size + (s.nodes left).get_size - pivot) (fun h => (hfix h).2)
  obtain ⟨hL1, -, hL3, -, -⟩ := maybe_expand_children_some hL
  obtain ⟨hR1, -, hR3, -, -⟩ := maybe_expand_children_some hR
  have hs1rr : (s.set_node rl L).nodes rr = s.nodes rr := Store.set_node_other _ _ _ hd.symm
  have hs2 : ∀ x, x ≠ rl → x ≠ rr → ((s.set_node rl L).set_node rr R).nodes x = s.nodes x := by
    intro x h1 h2
    rw [Store.set_node_other _ _ _ h2, Store.set_node_other _ _ _ h1]
  have hs2l := hs2 left hll.symm hrl.symm
  have hs2r := hs2 right hlr.symm hrr.symm
  have hs2rl : ((s.set_node rl L).set_node rr R).nodes rl = L := by
    rw [Store.set_node_other _ _ _ hd]; simp
  have hs2rr : ((s.set_node rl L).set_node rr R).nodes rr = R := by simp
  have htrk : ((((s.set_node rl L).set_node rr R).nodes rl).my_tracker.isSome
      || (((s.set_node rl L).set_node rr R).nodes rr).my_tracker.isSome) = false := by
    rw [hs2rl, hs2rr, hL3, hR3, hlt, hrt]; rfl
  obtain ⟨ls, hls⟩ : ∃ ls, ls = (s.nodes left).get_size := ⟨_, rfl⟩
  obtain ⟨rs, hrs⟩ : ∃ rs, rs = (s.nodes right).get_size := ⟨_, rfl⟩
  obtain ⟨lc, hlc⟩ : ∃ lc, lc = (s.nodes left).children := ⟨_, rfl⟩
  obtain ⟨rc, hrc⟩ : ∃ rc, rc = (s.nodes right).children := ⟨_, rfl⟩
  rw [← hls, ← hlc] at hlcap
  rw [← hrs, ← hrc] at hrcap
  rw [← hls] at hlsz
  rw [← hrs] at hrsz
  rw [← hls] at hl0 hpl
  rw [← hrs] at hr0 hpr
  rw [← hls, ← hrs] at hpn hR1 hR
  rw [← hls, ← hrs, ← hlc, ← hrc]
  have hlen_l : (lc.take ls).length = ls := by simp; omega
  have hlen_r : (rc.take rs).length = rs := by simp; omega
  have hnot : ¬ (pivot = ls ∨ pivot = rs) := by omega
  have hsum : ¬ (pivot > rs + ls) := by omega
  rcases Nat.lt_or_ge pivot ls with hcase | hcase
  · -- the pivot is inside the left donor
    obtain ⟨a, ha⟩ := move_child_ptrs_isSome ((s.set_node rl L).set_node rr R) rl left
      0 0 pivot hp0 (by rw [hs2l]; omega) (by rw [hs2rl]; omega)
    obtain ⟨a1, a2, a3⟩ := move_child_ptrs_some ha
    rw [hs2rl, hs2l, ← hlc] at a1
    have harr : (a.nodes rr).children = R.children := by rw [a2 rr hd.symm, hs2rr]
    have hal : (a.nodes left).children = lc := by rw [a2 left hll.symm, hs2l, hlc]
    obtain ⟨b, hb⟩ := move_child_ptrs_isSome a rr left 0 pivot ls hcase
      (by rw [(move_child_ptrs_children_size ha left).2, hs2l]; exact hlsz) (by rw [harr]; omega)
    obtain ⟨b1, b2, b3⟩ := move_child_ptrs_some hb
    rw [harr, hal] at b1
    have hbr : ((b.clear_my_tracker left).nodes right).children = rc := by
      rw [Store.clear_my_tracker_children, b2 right hrr.symm, a2 right hlr.symm, hs2r, hrc]
    have hbrp : ((b.clear_my_tracker left).nodes right).is_pending = true := by
      rw [Node.same_links_is_pending (Store.clear_my_tracker_same_links b left right),
        Node.same_links_is_pending (b3 right), Node.same_links_is_pending (a3 right), hs2r]
      exact hrp
    have hseg1 : ((lc.drop pivot).take (ls - pivot)).length = ls - pivot := by simp; omega
    have hbrr : ((b.clear_my_tracker left).nodes rr).children.length = R.children.length := by
      rw [Store.clear_my_tracker_children, b1, memmove_length _ _ _ (by rw [hseg1]; omega)]
    obtain ⟨c, hc⟩ := move_child_ptrs_isSome (b.clear_my_tracker left) rr right (ls - pivot) 0 rs
      hr0 (by rw [Store.clear_my_tracker_children_size, (move_child_ptrs_children_size hb right).2,
        (move_child_ptrs_children_size ha right).2, hs2r]; exact hrsz) (by rw [hbrr]; omega)
    obtain ⟨c1, c2, c3⟩ := move_child_ptrs_some hc
    rw [hbr, Store.clear_my_tracker_children, b1] at c1
    simp only [List.drop_zero, Nat.sub_zero] at c1 a1
    refine ⟨c.clear_my_tracker right, ?_, ?_, ?_, ?_, ?_⟩
    · unfold balance_child_ptrs
      have e1 : (((s.set_node rl L).set_node rr R).nodes left).is_pending = true := by
        rw [hs2l]; exact hlp
      simp only [← hls, ← hrs, if_neg hnot, if_neg hsum, hL, hs1rr, hR, Option.bind_eq_bind,
        Option.some_bind, htrk, Bool.false_eq_true, if_false, if_pos hcase, e1, if_true, ha, hb,
        hbrp, hc]
    · rw [Store.clear_my_tracker_children, c2 rl hd, Store.clear_my_tracker_children,
        b2 rl hd, a1]
      have h1 := memmove_take_end L.children 0 (lc.take pivot) (by omega)
      have h2 : (lc.take pivot).length = pivot := by simp; omega
      rw [h2] at h1
      simp only [Nat.zero_add, List.take_zero, List.nil_append] at h1
      rw [h1, List.take_append_of_le_length (by rw [hlen_l]; omega), List.take_take]
      congr 1
      omega
    · rw [Store.clear_my_tracker_children, c1]
      have h1 := memmove_take_end (memmove R.children 0 ((lc.drop pivot).take (ls - pivot)))
        (ls - pivot) (rc.take rs)
        (by rw [memmove_length _ _ _ (by rw [hseg1]; omega)]; omega)
      rw [hlen_r] at h1
      have h2 := memmove_take_end R.children 0 ((lc.drop pivot).take (ls - pivot)) (by omega)
      rw [hseg1] at h2
      simp only [Nat.zero_add, List.take_zero, List.nil_append] at h2
      have e : ls + rs - pivot = ls - pivot + rs := by omega
      rw [e, h1, h2, List.drop_append_of_le_length (by rw [hlen_l]; omega), List.drop_take]
    · rw [Store.clear_my_tracker_children, c2 left hrl.symm, Store.clear_my_tracker_children,
        b2 left hrl.symm, hal, hlc]
    · rw [Store.clear_my_tracker_children, c2 right hrr.symm, hbr, hrc]
  · -- the pivot is inside the right donor
    have hgt : ls < pivot := by omega
    obtain ⟨a, ha⟩ := move_child_ptrs_isSome ((s.set_node rl L).set_node rr R) rl left
      0 0 ls hl0 (by rw [hs2l]; omega) (by rw [hs2rl]; omega)
    obtain ⟨a1, a2, a3⟩ := move_child_ptrs_some ha
    rw [hs2rl, hs2l, ← hlc] at a1
    simp only [List.drop_zero, Nat.sub_zero] at a1
    have har : ((a.clear_my_tracker left).nodes right).children = rc := by
      rw [Store.clear_my_tracker_children, a2 right hlr.symm, hs2r, hrc]
    have harp : ((a.clear_my_tracker left).nodes right).is_pending = true := by
      rw [Node.same_links_is_pending (Store.clear_my_tracker_same_links a left right),
        Node.same_links_is_pending (a3 right), hs2r]
      exact hrp
    have harl : ((a.clear_my_tracker left).nodes rl).children.length = L.children.length := by
      rw [Store.clear_my_tracker_children, a1, memmove_length _ _ _ (by rw [hlen_l]; omega)]
    obtain ⟨b, hb⟩ := move_child_ptrs_isSome (a.clear_my_tracker left) rl right ls 0 (pivot - ls)
      (by omega)
      (by rw [Store.clear_my_tracker_children_size, (move_child_ptrs_children_size ha right).2,
        hs2r]; omega)
      (by rw [harl]; omega)
    obtain ⟨b1, b2, b3⟩ := move_child_ptrs_some hb
    rw [har, Store.clear_my_tracker_children, a1] at b1
    simp only [List.drop_zero, Nat.sub_zero] at b1
    have hbr : (b.nodes right).children = rc := by rw [b2 right hlr.symm, har]
    have hbrr : (b.nodes rr).children = R.children := by
      rw [b2 rr hd.symm, Store.clear_my_tracker_children, a2 rr hd.symm, hs2rr]
    obtain ⟨c, hc⟩ := move_child_ptrs_isSome b rr right 0 (pivot - ls) rs
      (by omega) (by rw [(move_child_ptrs_children_size hb right).2, Store.clear_my_tracker_children_size,
        (move_child_ptrs_children_size ha right).2, hs2r]; exact hrsz) (by rw [hbrr]; omega)
    obtain ⟨c1, c2, c3⟩ := move_child_ptrs_some hc
    rw [hbr, hbrr] at c1
    have hseg2 : ((rc.drop (pivot - ls)).take (rs - (pivot - ls))).length
        = rs - (pivot - ls) := by simp; omega
    have hseg3 : (rc.take (pivot - ls)).length = pivot - ls := by simp; omega
    refine ⟨c.clear_my_tracker right, ?_, ?_, ?_, ?_, ?_⟩
    · unfold balance_child_ptrs
      have e1 : (((s.set_node rl L).set_node rr R).nodes left).is_pending = true := by
        rw [hs2l]; exact hlp
      simp only [← hls, ← hrs, if_neg hnot, if_neg hsum, hL, hs1rr, hR, Option.bind_eq_bind,
        Option.some_bind, htrk, Bool.false_eq_true, if_false, if_neg (Nat.not_lt.mpr hcase), e1,
        if_true, ha, harp, hb, hc]
    · rw [Store.clear_my_tracker_children, c2 rl hd, b1]
      have h1 := memmove_take_end (memmove L.children 0 (lc.take ls)) ls (rc.take (pivot - ls))
        (by rw [memmove_length _ _ _ (by rw [hlen_l]; omega)]; omega)
      rw [hseg3] at h1
      have h2 := memmove_take_end L.children 0 (lc.take ls) (by omega)
      rw [hlen_l] at h2
      simp only [Nat.zero_add, List.take_zero, List.nil_append] at h2
      have e : pivot = ls + (pivot - ls) := by omega
      rw [← e] at h1
      rw [h1, h2, List.take_append_eq_append_take, hlen_l, List.take_take, List.take_take]
      congr 2
      · omega
      · omega
    · rw [Store.clear_my_tracker_children, c1]
      have h1 := memmove_take_end R.children 0 ((rc.drop (pivot - ls)).take (rs - (pivot - ls)))
        (by omega)
      rw [hseg2] at h1
      simp only [Nat.zero_add, List.take_zero, List.nil_append] at h1
      have e : ls + rs - pivot = rs - (pivot - ls) := by omega
      have e2 : pivot = (lc.take ls).length + (pivot - ls) := by rw [hlen_l]; omega
      rw [e, h1]
      conv_rhs => rw [e2, List.drop_append, List.drop_take]
    · rw [Store.clear_my_tracker_children, c2 left hrl.symm, b2 left hll.symm,
        Store.clear_my_tracker_children, a2 left hll.symm, hs2l, hlc]
    · rw [Store.clear_my_tracker_children, c2 right hrr.symm, hbr, hrc]

/-- What a balance of two pending donors that returns has met on its way: the
assertions, the room in the new nodes and the bounds of every move. -/
theorem balance_child_ptrs_some_inv {U : Nat} {s s' : Store} {left right rl rr : NodeRef}
    {pivot : Nat} (h : balance_child_ptrs U s left right pivot rl rr = some s')
    (hlp : (s.nodes left).is_pending = true) (hrp : (s.nodes right).is_pending = true)
    (hd : rl ≠ rr) (hll : rl ≠ left) (hlr : rl ≠ right) (hrl : rr ≠ left) (hrr : rr ≠ right) :
    (s.nodes rl).my_tracker = none ∧ (s.nodes rr).my_tracker = none
      ∧ 0 < (s.nodes left).get_size ∧ 0 < (s.nodes right).get_size
      ∧ 0 < pivot ∧ pivot < (s.nodes left).get_size + (s.nodes right).get_size
      ∧ pivot ≠ (s.nodes left).get_size ∧ pivot ≠ (s.nodes right).get_size
      ∧ (s.nodes left).get_size ≤ (s.nodes left).children_size
      ∧ (s.nodes right).get_size ≤ (s.nodes right).children_size
      ∧ (U = 0 → pivot ≤ (s.nodes rl).children.length
          ∧ (s.nodes right).get_size + (s.nodes left).get_size - pivot
              ≤ (s.nodes rr).children.length) := by
  have h0 := h
  unfold balance_child_ptrs at h
  simp only at h
  split at h
  · exact absurd h (by simp)
  · rename_i hpiv
    split at h
    · exact absurd h (by simp)
    · rename_i hsum
      simp only [Option.bind_eq_bind] at h
      obtain ⟨L, hL, h⟩ := Option.bind_eq_some.mp h
      obtain ⟨R, hR, h⟩ := Option.bind_eq_some.mp h
      have hs1rr : (s.set_node rl L).nodes rr = s.nodes rr :=
        Store.set_node_other _ _ _ hd.symm
      rw [hs1rr] at hR
      split at h
      · exact absurd h (by simp)
      · rename_i htrk
        have hs2 : ∀ x, x ≠ rl → x ≠ rr →
            ((s.set_node rl L).set_node rr R).nodes x = s.nodes x := by
          intro x h1 h2
          rw [Store.set_node_other _ _ _ h2, Store.set_node_other _ _ _ h1]
        have hs2l := hs2 left hll.symm hrl.symm
        have hs2r := hs2 right hlr.symm hrr.symm
        have hs2rl : ((s.set_node rl L).set_node rr R).nodes rl = L := by
          rw [Store.set_node_other _ _ _ hd]; simp
        have hs2rr : ((s.set_node rl L).set_node rr R).nodes rr = R := by simp
        rw [hs2rl, hs2rr, (maybe_expand_children_some hL).2.2.1,
          (maybe_expand_children_some hR).2.2.1] at htrk
        have hlt : (s.nodes rl).my_tracker = none := by
          cases hx : (s.nodes rl).my_tracker with
          | none => rfl
          | some t => simp [hx] at htrk
        have hrt : (s.nodes rr).my_tracker = none := by
          cases hx : (s.nodes rr).my_tracker with
          | none => rfl
          | some t => simp [hx] at htrk
        have hpl : pivot ≠ (s.nodes left).get_size := fun e => hpiv (Or.inl e)
        have hpr : pivot ≠ (s.nodes right).get_size := fun e => hpiv (Or.inr e)
        have htie := balance_child_ptrs_eq_steps U s left right rl rr pivot L R hd hll hlr hrl
          hrr hlt hrt hpl hpr (by omega) hL hR
        rw [htie] at h0
        obtain ⟨hb, hne⟩ := run_steps_some_inv _ _ _ h0
        have hfix : U = 0 → pivot ≤ (s.nodes rl).children.length
            ∧ (s.nodes right).get_size + (s.nodes left).get_size - pivot
                ≤ (s.nodes rr).children.length := by
          intro hU
          subst hU
          exact ⟨maybe_expand_children_fixed hL, maybe_expand_children_fixed hR⟩
        by_cases hcase : pivot < (s.nodes left).get_size
        · have hsteps : balance_child_ptrs_steps s left right pivot rl rr
              = [surgery_step.move rl left 0 0 pivot,
                  surgery_step.move rr left 0 pivot (s.nodes left).get_size,
                  surgery_step.clear left,
                  surgery_step.move rr right ((s.nodes left).get_size - pivot) 0
                    (s.nodes right).get_size,
                  surgery_step.clear right] := by
            unfold balance_child_ptrs_steps
            simp [hcase, hlp, hrp]
          rw [hsteps] at hb hne
          have b2 := hb (surgery_step.move rr left 0 pivot (s.nodes left).get_size) (by simp)
          have b3 := hb (surgery_step.move rr right ((s.nodes left).get_size - pivot) 0
            (s.nodes right).get_size) (by simp)
          have n1 := hne rl left 0 0 pivot (by simp)
          have n3 := hne rr right ((s.nodes left).get_size - pivot) 0 (s.nodes right).get_size
            (by simp)
          simp only [surgery_step.in_bounds, hs2l, hs2r] at b2 b3
          exact ⟨hlt, hrt, by omega, n3, n1, by omega, hpl, hpr, b2.2.1, b3.2.1, hfix⟩
        · have hsteps : balance_child_ptrs_steps s left right pivot rl rr
              = [surgery_step.move rl left 0 0 (s.nodes left).get_size,
                  surgery_step.clear left,
                  surgery_step.move rl right (s.nodes left).get_size 0
                    (pivot - (s.nodes left).get_size),
                  surgery_step.move rr right 0 (pivot - (s.nodes left).get_size)
                    (s.nodes right).get_size,
                  surgery_step.clear right] := by
            unfold balance_child_ptrs_steps
            simp [hcase, hlp, hrp]
          rw [hsteps] at hb hne
          have b1 := hb (surgery_step.move rl left 0 0 (s.nodes left).get_size) (by simp)
          have b3 := hb (surgery_step.move rr right 0 (pivot - (s.nodes left).get_size)
            (s.nodes right).get_size) (by simp)
          have n1 := hne rl left 0 0 (s.nodes left).get_size (by simp)
          have n2 := hne rl right (s.nodes left).get_size 0 (pivot - (s.nodes left).get_size)
            (by simp)
          have n3 := hne rr right 0 (pivot - (s.nodes left).get_size) (s.nodes right).get_size
            (by simp)
          simp only [surgery_step.in_bounds, hs2l, hs2r] at b1 b3
          exact ⟨hlt, hrt, n1, by omega, by omega, by omega, hpl, hpr, b1.2.1, b3.2.1, hfix⟩

/-- C25: for a pending left donor of size `l` and a pending right donor of size
`r`, the two replacements being other nodes than the donors and each other.
Whenever `balance_child_ptrs` returns, `replacement_left.children[0..pivot_idx)`
followed by `replacement_right.children[0..l+r-pivot_idx)` is
`left.children[0..l)` followed by `right.children[0..r)`. It returns when
`l >= 1`, `r >= 1` (sizes at most the `size()` of the donors' arrays),
`0 < pivot_idx < l + r`, `pivot_idx != l`, `pivot_idx != r` and the
replacements have no tracker (and, for a fixed-capacity node type, capacity at
least `pivot_idx` and `l + r - pivot_idx`). It aborts whenever `pivot_idx` is
`l` or `r`. -/
theorem balance_child_ptrs_pending (U : Nat) (s : Store) (left right rl rr : NodeRef)
    (pivot : Nat) :
    (∀ s', (s.nodes left).is_pending = true → (s.nodes right).is_pending = true →
        rl ≠ rr → rl ≠ left → rl ≠ right → rr ≠ left → rr ≠ right →
        balance_child_ptrs U s left right pivot rl rr = some s' →
        (s'.nodes rl).children.take pivot
            ++ (s'.nodes rr).children.take
                ((s.nodes left).get_size + (s.nodes right).get_size - pivot)
          = (s.nodes left).children.take (s.nodes left).get_size
            ++ (s.nodes right).children.take (s.nodes right).get_size)
      ∧ ((s.nodes left).is_pending = true → (s.nodes right).is_pending = true →
        rl ≠ rr → rl ≠ left → rl ≠ right → rr ≠ left → rr ≠ right →
        (s.nodes rl).my_tracker = none → (s.nodes rr).my_tracker = none →
        0 < (s.nodes left).get_size → 0 < (s.nodes right).get_size →
        0 < pivot → pivot < (s.nodes left).get_size + (s.nodes right).get_size →
        pivot ≠ (s.nodes left).get_size → pivot ≠ (s.nodes right).get_size →
        (s.nodes left).get_size ≤ (s.nodes left).children_size →
        (s.nodes right).get_size ≤ (s.nodes right).children_size →
        (U = 0 → pivot ≤ (s.nodes rl).children.length
          ∧ (s.nodes right).get_size + (s.nodes left).get_size - pivot
              ≤ (s.nodes rr).children.length) →
        ∃ s', balance_child_ptrs U s left right pivot rl rr = some s')
      ∧ ((pivot = (s.nodes left).get_size ∨ pivot = (s.nodes right).get_size) →
          balance_child_ptrs U s left right pivot rl rr = none) := by
  refine ⟨?_, ?_, ?_⟩
  · intro s' hlp hrp hd hll hlr hrl hrr h
    obtain ⟨hlt, hrt, hl0, hr0, hp0, hpn, hpl, hpr, hlcap, hrcap, hfix⟩ :=
      balance_child_ptrs_some_inv h hlp hrp hd hll hlr hrl hrr
    obtain ⟨s'', hs'', h1, h2, -, -⟩ := balance_child_ptrs_pending_layout U s left right rl rr
      pivot hlp hrp hd hll hlr hrl hrr hlt hrt hl0 hr0 hp0 hpn hpl hpr hlcap hrcap hfix
    rw [h] at hs''
    obtain rfl := Option.some.inj hs''
    rw [h1, h2, List.take_append_drop]
  · intro hlp hrp hd hll hlr hrl hrr hlt hrt hl0 hr0 hp0 hpn hpl hpr hlcap hrcap hfix
    obtain ⟨s', hs', -⟩ := balance_child_ptrs_pending_layout U s left right rl rr pivot
      hlp hrp hd hll hlr hrl hrr hlt hrt hl0 hr0 hp0 hpn hpl hpr hlcap hrcap hfix
    exact ⟨s', hs'⟩
  · intro hp
    unfold balance_child_ptrs
    simp only [if_pos hp]

/-- C25 witness: the donors of `balance_store` (sizes 4 and 2) balanced at the
pivot 3 into two fresh nodes, and the pivots 4 and 2, which abort. -/
theorem balance_child_ptrs_pending_witness :
    (∃ s', balance_child_ptrs 0 balance_store 0 1 3 2 3 = some s'
        ∧ (s'.nodes 2).children.take 3
            ++ (s'.nodes 3).children.take
                ((balance_store.nodes 0).get_size + (balance_store.nodes 1).get_size - 3)
            = (balance_store.nodes 0).children.take (balance_store.nodes 0).get_size
              ++ (balance_store.nodes 1).children.take (balance_store.nodes 1).get_size)
      ∧ balance_child_ptrs 0 balance_store 0 1 4 2 3 = none
      ∧ balance_child_ptrs 0 balance_store 0 1 2 2 3 = none
      ∧ (balance_child_ptrs 0 balance_store 0 1 3 2 3).map
          (fun s' => ((s'.nodes 2).children, (s'.nodes 3).children))
          = some ([100, 101, 102, nullptr], [103, 104, 105, nullptr]) := by
  obtain ⟨s', hs'⟩ := (balance_child_ptrs_pending 0 balance_store 0 1 2 3 3).2.1
    (by decide) (by decide) (by decide) (by decide) (by decide) (by decide) (by decide)
    (by decide) (by decide) (by decide) (by decide) (by decide) (by decide) (by decide)
    (by decide) (by decide) (by decide) (by decide)
  exact ⟨⟨s', hs', (balance_child_ptrs_pending 0 balance_store 0 1 2 3 3).1 s' (by decide)
      (by decide) (by decide) (by decide) (by decide) (by decide) (by decide) hs'⟩,
    (balance_child_ptrs_pending 0 balance_store 0 1 2 3 4).2.2 (Or.inl (by decide)),
    (balance_child_ptrs_pending 0 balance_store 0 1 2 3 2).2.2 (Or.inr (by decide)),
    by decide⟩

/-! ## The stable predecessor for a key -/

/-- In a set of copy sources in comparator order, with non-empty and pairwise
disjoint ranges, `upper_bound(key)` is the position after the source whose
range contains `key`. -/
theorem set_upper_bound_of_in_range (s : Store) (L : List NodeRef) (key : Nat)
    (hsorted : L.Pairwise (fun a b => (s.nodes a).range_begin < (s.nodes b).range_begin))
    (hne : ∀ c ∈ L, (s.nodes c).range_begin < (s.nodes c).range_end)
    (hdis : L.Pairwise (fun a b => (s.nodes a).range_end ≤ (s.nodes b).range_begin
      ∨ (s.nodes b).range_end ≤ (s.nodes a).range_begin))
    {i : Nat} {S : NodeRef} (hi : L[i]? = some S) (hin : (s.nodes S).is_in_range key = true) :
    set_upper_bound s L key = i + 1 := by
  obtain ⟨hil, hiS⟩ := List.getElem?_eq_some_iff.mp hi
  unfold Node.is_in_range at hin
  simp only [Bool.and_eq_true, decide_eq_true_eq] at hin
  have hbefore : ∀ j (hj : j < L.length), j ≤ i → (s.nodes L[j]).range_begin ≤ key := by
    intro j hj hji
    rcases Nat.lt_or_ge j i with h | h
    · have := pairwise_getElem? hsorted h (List.getElem?_eq_getElem hj) hi
      omega
    · have hji' : j = i := by omega
      subst hji'
      rw [hiS]; exact hin.1
  have hafter : ∀ j (hj : j < L.length), i < j → key < (s.nodes L[j]).range_begin := by
    intro j hj hij
    have h1 := pairwise_getElem? hsorted hij hi (List.getElem?_eq_getElem hj)
    have h2 := pairwise_getElem? hdis hij hi (List.getElem?_eq_getElem hj)
    have h3 := hne L[j] (List.getElem_mem hj)
    omega
  unfold set_upper_bound
  rcases Nat.lt_or_ge (i + 1) L.length with h | h
  · rw [List.findIdx_eq h]
    refine ⟨?_, ?_⟩
    · simp only [decide_eq_true_eq]
      exact hafter (i + 1) h (by omega)
    · intro j hj
      simp only [decide_eq_false_iff_not, not_lt]
      exact hbefore j (by omega) (by omega)
  · have hlen : L.length = i + 1 := by omega
    rw [← hlen, List.findIdx_eq_length]
    intro x hx
    obtain ⟨j, hj, rfl⟩ := List.getElem_of_mem hx
    simp only [decide_eq_false_iff_not, not_lt]
    exact hbefore j hj (by omega)

/-- The copy source that `get_stable_for_key` returns is a member that contains the key. -/
theorem get_stable_for_key_some {s : Store} {me : NodeRef} {key : Nat} {S : NodeRef}
    (hmp : (s.nodes me).is_mutation_pending = false)
    (h : get_stable_for_key s me key = some S) :
    S ∈ (s.nodes me).copy_sources ∧ (s.nodes S).is_in_range key = true
      ∧ (s.nodes me).copy_sources[set_upper_bound s (s.nodes me).copy_sources key - 1]? = some S
      ∧ 0 < set_upper_bound s (s.nodes me).copy_sources key := by
  unfold get_stable_for_key at h
  rw [hmp] at h
  simp only [Bool.false_eq_true, if_false] at h
  split at h
  · split at h
    · exact absurd h (by simp)
    · split at h
      · exact absurd h (by simp)
      · rename_i hub
        split at h
        · exact absurd h (by simp)
        · rename_i cs hcs
          split at h
          · rename_i hr
            simp only [Option.some.injEq] at h
            subst h
            obtain ⟨hl, he⟩ := List.getElem?_eq_some_iff.mp hcs
            exact ⟨he ▸ List.getElem_mem hl, hr, hcs, by omega⟩
          · exact absurd h (by simp)
  · exact absurd h (by simp)

/-- C26: `get_stable_for_key(key)` returns the prior instance on a
mutation-pending node. On another pending node whose `copy_sources` is not
empty and holds, in comparator order, nodes with non-empty pairwise disjoint
ranges, it returns a node exactly when that node is a copy source whose range
contains `key`; that copy source is the only one containing `key` and has the
greatest begin key `<= key`; it aborts when no copy source contains `key`, in
particular when the copy source with the greatest begin key `<= key` does not.
It aborts on a node that is not pending, and on a node that is not
mutation-pending and has no copy source. -/
theorem get_stable_for_key_spec (s : Store) (me : NodeRef) (key : Nat) :
    ((s.nodes me).is_mutation_pending = true →
        get_stable_for_key s me key = (s.nodes me).prior_instance)
      ∧ ((s.nodes me).is_pending = true → (s.nodes me).is_mutation_pending = false →
          (s.nodes me).copy_sources ≠ [] →
          (s.nodes me).copy_sources.Pairwise
            (fun a b => (s.nodes a).range_begin < (s.nodes b).range_begin) →
          (∀ c ∈ (s.nodes me).copy_sources, (s.nodes c).range_begin < (s.nodes c).range_end) →
          (s.nodes me).copy_sources.Pairwise
            (fun a b => (s.nodes a).range_end ≤ (s.nodes b).range_begin
              ∨ (s.nodes b).range_end ≤ (s.nodes a).range_begin) →
          (∀ S, get_stable_for_key s me key = some S ↔
              (S ∈ (s.nodes me).copy_sources ∧ (s.nodes S).is_in_range key = true))
            ∧ (∀ S, get_stable_for_key s me key = some S →
                (∀ S' ∈ (s.nodes me).copy_sources, (s.nodes S').is_in_range key = true → S' = S)
                ∧ (∀ S' ∈ (s.nodes me).copy_sources, (s.nodes S').range_begin ≤ key →
                    (s.nodes S').range_begin ≤ (s.nodes S).range_begin))
            ∧ ((∀ S ∈ (s.nodes me).copy_sources, (s.nodes S).is_in_range key = false) →
                get_stable_for_key s me key = none)
            ∧ (∀ S0 ∈ (s.nodes me).copy_sources, (s.nodes S0).range_begin ≤ key →
                (∀ S' ∈ (s.nodes me).copy_sources, (s.nodes S').range_begin ≤ key →
                  (s.nodes S').range_begin ≤ (s.nodes S0).range_begin) →
                (s.nodes S0).is_in_range key = false → get_stable_for_key s me key = none))
      ∧ ((s.nodes me).is_pending = false → get_stable_for_key s me key = none)
      ∧ ((s.nodes me).is_mutation_pending = false → (s.nodes me).copy_sources = [] →
          get_stable_for_key s me key = none) := by
  refine ⟨?_, ?_, ?_, ?_⟩
  · intro hmp
    have hp : (s.nodes me).is_pending = true := by
      unfold Node.is_mutation_pending at hmp
      unfold Node.is_pending
      simp [hmp]
    unfold get_stable_for_key
    rw [if_pos hp, if_pos hmp]
  · intro hp hmp hnil hsorted hne hdis
    have hiff : ∀ S, get_stable_for_key s me key = some S ↔
        (S ∈ (s.nodes me).copy_sources ∧ (s.nodes S).is_in_range key = true) := by
      intro S
      constructor
      · intro h
        obtain ⟨h1, h2, -, -⟩ := get_stable_for_key_some hmp h
        exact ⟨h1, h2⟩
      · rintro ⟨hmem, hin⟩
        obtain ⟨i, hi, hiS⟩ := List.getElem_of_mem hmem
        have hget : (s.nodes me).copy_sources[i]? = some S := by
          rw [List.getElem?_eq_getElem hi, hiS]
        have hub := set_upper_bound_of_in_range s _ key hsorted hne hdis hget hin
        have hemp : (s.nodes me).copy_sources.isEmpty = false := by
          cases hcs : (s.nodes me).copy_sources with
          | nil => exact absurd hcs hnil
          | cons a t => rfl
        unfold get_stable_for_key
        rw [if_pos hp, hmp]
        simp only [Bool.false_eq_true, if_false, hemp, hub, Nat.add_sub_cancel, hget, hin,
          if_true]
        simp
    have hgreat : ∀ S, get_stable_for_key s me key = some S →
        ∀ S' ∈ (s.nodes me).copy_sources, (s.nodes S').range_begin ≤ key →
          (s.nodes S').range_begin ≤ (s.nodes S).range_begin := by
      intro S h S' hS' hb
      obtain ⟨-, -, hat, hpos⟩ := get_stable_for_key_some hmp h
      obtain ⟨j, hj, hjS⟩ := List.getElem_of_mem hS'
      have hjub : j < set_upper_bound s (s.nodes me).copy_sources key := by
        by_contra hcon
        have hle : set_upper_bound s (s.nodes me).copy_sources key ≤ j := Nat.le_of_not_lt hcon
        have hlt : set_upper_bound s (s.nodes me).copy_sources key
            < (s.nodes me).copy_sources.length := by omega
        have hx := List.getElem?_eq_getElem hlt
        have hp1 : key < (s.nodes ((s.nodes me).copy_sources[set_upper_bound s
            (s.nodes me).copy_sources key])).range_begin := by
          have := findIdx_true_at (p := fun r => decide (key < (s.nodes r).range_begin)) hx
          simpa using this
        rcases Nat.lt_or_ge (set_upper_bound s (s.nodes me).copy_sources key) j with h1 | h1
        · have := pairwise_getElem? hsorted h1 hx (List.getElem?_eq_getElem hj)
          rw [hjS] at this
          omega
        · have hej : j = set_upper_bound s (s.nodes me).copy_sources key := by omega
          subst hej
          rw [hjS] at hp1
          omega
      rcases Nat.lt_or_ge j (set_upper_bound s (s.nodes me).copy_sources key - 1) with h1 | h1
      · have := pairwise_getElem? hsorted h1 (List.getElem?_eq_getElem hj) hat
        rw [hjS] at this
        omega
      · have hej : j = set_upper_bound s (s.nodes me).copy_sources key - 1 := by omega
        rw [← hej, List.getElem?_eq_getElem hj, hjS] at hat
        simp only [Option.some.injEq] at hat
        rw [hat]
    have hnone : (∀ S ∈ (s.nodes me).copy_sources, (s.nodes S).is_in_range key = false) →
        get_stable_for_key s me key = none := by
      intro hall
      cases hres : get_stable_for_key s me key with
      | none => rfl
      | some S =>
        obtain ⟨h1, h2⟩ := (hiff S).mp hres
        rw [hall S h1] at h2
        cases h2
    refine ⟨hiff, ?_, hnone, ?_⟩
    · intro S h
      refine ⟨?_, hgreat S h⟩
      intro S' hS' hin'
      have h' := (hiff S').mpr ⟨hS', hin'⟩
      rw [h] at h'
      exact (Option.some.inj h').symm
    · intro S0 hS0 hb0 hmax hout
      cases hres : get_stable_for_key s me key with
      | none => rfl
      | some S =>
        exfalso
        obtain ⟨hS, hin⟩ := (hiff S).mp hres
        have hin' := hin
        unfold Node.is_in_range at hin'
        simp only [Bool.and_eq_true, decide_eq_true_eq] at hin'
        have h1 := hmax S hS hin'.1
        have h2 := hgreat S hres S0 hS0 hb0
        have hbeq : (s.nodes S0).range_begin = (s.nodes S).range_begin := by omega
        -- two members with one begin key are one member
        obtain ⟨i, hi, hiS⟩ := List.getElem_of_mem hS
        obtain ⟨j, hj, hjS⟩ := List.getElem_of_mem hS0
        have hij : i = j := by
          rcases Nat.lt_trichotomy i j with h | h | h
          · have := pairwise_getElem? hsorted h (List.getElem?_eq_getElem hi)
              (List.getElem?_eq_getElem hj)
            rw [hiS, hjS] at this
            omega
          · exact h
          · have := pairwise_getElem? hsorted h (List.getElem?_eq_getElem hj)
              (List.getElem?_eq_getElem hi)
            rw [hiS, hjS] at this
            omega
        subst hij
        rw [hiS] at hjS
        rw [hjS, hout] at hin
        cases hin
  · intro hp
    unfold get_stable_for_key
    rw [hp]
    simp
  · intro hmp hnil
    unfold get_stable_for_key
    rw [hmp, hnil]
    simp

/-- C26 witness: node 0 of `scenario_store` (initial-pending, range [5,15)) has
the copy sources 1 = [0,10) and 2 = [10,20): the key 7 is resolved to node 1,
the key 12 to node 2, and the key 25 to none. -/
theorem get_stable_for_key_spec_witness :
    get_stable_for_key scenario_store 0 7 = some 1
      ∧ get_stable_for_key scenario_store 0 12 = some 2
      ∧ get_stable_for_key scenario_store 0 25 = none
      ∧ get_stable_for_key (scenario1_store 102) 1 20 = some 0 := by
  have h := fun key => (get_stable_for_key_spec scenario_store 0 key).2.1 (by decide) (by decide)
    (by decide) (by decide) (by decide) (by decide)
  refine ⟨((h 7).1 1).mpr (by decide), ((h 12).1 2).mpr (by decide),
    (h 25).2.2.1 (by decide), ?_⟩
  exact (get_stable_for_key_spec (scenario1_store 102) 1 20).1 (by decide)

/-! ## Key alignment at commit -/

theorem set_child_ptracker_begin (s : Store) (me : NodeRef) (c x : ChildPtr) :
    ((set_child_ptracker s me c).child_objs x).node_begin = (s.child_objs x).node_begin := by
  unfold set_child_ptracker
  cases h : (s.nodes me).my_tracker with
  | none =>
    simp only
    by_cases hx : x = c
    · simp [hx, Store.set_node]
    · simp [hx, Store.set_node]
  | some tr =>
    simp only
    by_cases hx : x = c
    · simp [hx]
    · simp [hx]

theorem foldl_ptracker_begin (dest : NodeRef) (l : List ChildPtr) (s : Store) (x : ChildPtr) :
    ((l.foldl
        (fun st child => if is_valid_child_ptr child then set_child_ptracker st dest child else st)
        s).child_objs x).node_begin = (s.child_objs x).node_begin := by
  induction l generalizing s with
  | nil => rfl
  | cons c t ih =>
    simp only [List.foldl_cons]
    rw [ih]
    split
    · exact set_child_ptracker_begin _ _ _ _
    · rfl

theorem adjust_ptracker_for_children_begin {s s' : Store} {me : NodeRef}
    (h : adjust_ptracker_for_children s me = some s') (x : ChildPtr) :
    (s'.child_objs x).node_begin = (s.child_objs x).node_begin := by
  unfold adjust_ptracker_for_children at h
  split at h
  · simp only [Option.some.injEq] at h
    subst h
    exact foldl_ptracker_begin _ _ _ x
  · exact absurd h (by simp)

theorem set_children_from_prior_instance_begin {s s' : Store} {me : NodeRef}
    (h : set_children_from_prior_instance s me = some s') (x : ChildPtr) :
    (s'.child_objs x).node_begin = (s.child_objs x).node_begin := by
  unfold set_children_from_prior_instance at h
  split at h
  · exact absurd h (by simp)
  · split at h
    · split at h
      · simp only at h
        split at h
        · exact absurd h (by simp)
        · rename_i s3 h3
          split at h
          · simp only [Option.some.injEq] at h
            subst h
            rw [adjust_ptracker_for_children_begin h3 x]
            rfl
          · exact absurd h (by simp)
      · split at h
        · simp only [Option.some.injEq] at h
          subst h
          rfl
        · exact absurd h (by simp)
    · exact absurd h (by simp)

/-- Key alignment read off the arrays: it depends on the keys, the child array
and the begin keys of the children only. -/
theorem Node.keys_aligned_congr {nb nb' : ChildPtr → Nat} {a b : Node}
    (h : a.keys_aligned nb) (hk : b.keys = a.keys) (hc : b.children = a.children)
    (hb : ∀ c, nb' c = nb c) : b.keys_aligned nb' := by
  intro i k c h1 h2 h3
  rw [hb]
  rw [hk] at h1
  rw [hc] at h2
  exact h i k c h1 h2 h3

/-- Key alignment from the check that `validate_stable_children` makes. -/
theorem Node.keys_aligned_of_all {nb : ChildPtr → Nat} {n : Node}
    (h : (n.keys.zip n.children).all
      (fun kc => !(is_valid_child_ptr kc.2 && nb kc.2 != kc.1)) = true) :
    n.keys_aligned nb := by
  intro i k c h1 h2 h3
  rw [List.all_eq_true] at h
  have hz : (n.keys.zip n.children)[i]? = some (k, c) := by
    rw [List.getElem?_zip_eq_some]
    exact ⟨h1, h2⟩
  obtain ⟨hi, he⟩ := List.getElem?_eq_some_iff.mp hz
  have := h (k, c) (he ▸ List.getElem_mem hi)
  simp only [h3, Bool.true_and, Bool.not_eq_true', bne_eq_false_iff_eq] at this
  exact this

/-- The loop of `copy_children_from_stable_source` keeps the key alignment: a
pointer is copied only between slots with equal keys. -/
theorem copy_children_loop_aligned (nb : ChildPtr → Nat) (source : Node) (fe : Nat)
    (hsrc : source.keys_aligned nb) :
    ∀ (fuel : Nat) (me : Node) (f l : Nat) (me' : Node) (next : Nat),
      copy_children_loop source fe fuel me f l = some (me', next) →
      me.keys_aligned nb →
      me'.keys_aligned nb ∧ me'.keys = me.keys
        ∧ me'.children.length = me.children.length := by
  intro fuel
  induction fuel with
  | zero => intro me f l me' next h; simp [copy_children_loop] at h
  | succ n ih =>
    intro me f l me' next h hal
    unfold copy_children_loop at h
    split at h
    · split at h
      · rename_i child fkey lkey hchild hfk hlk
        split at h
        · rename_i hkeys
          split at h
          · rename_i hnull
            split at h
            · rename_i c' hc'
              obtain ⟨r1, r2, r3⟩ := ih _ _ _ _ _ h (by
                intro i k c h1 h2 h3
                simp only [] at h1 h2
                rw [List.getElem?_set] at h2
                by_cases hli : l = i
                · subst hli
                  rw [if_pos rfl] at h2
                  split at h2
                  · simp only [Option.some.injEq] at h2
                    subst h2
                    rw [hlk] at h1
                    simp only [Option.some.injEq] at h1
                    rw [← h1, ← hkeys]
                    exact hsrc f fkey c' hfk hc' h3
                  · cases h2
                · rw [if_neg hli] at h2
                  exact hal i k c h1 h2 h3)
              refine ⟨r1, r2, ?_⟩
              rw [r3]
              simp
            · exact absurd h (by simp)
          · exact ih _ _ _ _ _ h hal
        · split at h
          · exact ih _ _ _ _ _ h hal
          · exact ih _ _ _ _ _ h hal
      · exact absurd h (by simp)
    · simp only [Option.some.injEq, Prod.mk.injEq] at h
      rw [← h.1]
      exact ⟨hal, rfl, rfl⟩

/-- The loop over the copy sources keeps the key alignment of the node. -/
theorem copy_sources_loop_aligned (me : NodeRef) :
    ∀ (R : List NodeRef) (s s' : Store) (sp L : Nat),
      copy_sources_loop me R s sp L = some s' →
      s.keys_aligned me → (∀ c ∈ R, s.keys_aligned c) →
      s'.keys_aligned me ∧ s'.child_objs = s.child_objs
        ∧ (s'.nodes me).keys = (s.nodes me).keys
        ∧ (s'.nodes me).children.length = (s.nodes me).children.length := by
  intro R
  induction R with
  | nil =>
    intro s s' sp L h hme _
    simp only [copy_sources_loop, Option.some.injEq] at h
    subst h
    exact ⟨hme, rfl, rfl, rfl⟩
  | cons cs rest ih =>
    intro s s' sp L h hme hR
    simp only [copy_sources_loop] at h
    generalize (if (s.nodes cs).is_in_range (s.nodes me).range_end = true then
          (s.nodes cs).upper_bound (s.nodes me).range_end
        else (s.nodes cs).get_size) = ep at h
    cases hw : copy_children_from_stable_source (s.nodes me) (s.nodes cs) sp ep L with
    | none => rw [hw] at h; exact absurd h (by simp)
    | some r =>
      obtain ⟨me1, next⟩ := r
      rw [hw] at h
      simp only at h
      obtain ⟨a1, a2, a3⟩ := copy_children_loop_aligned _ _ _ (hR cs (List.mem_cons_self _ _))
        _ _ _ _ _ _ hw hme
      have hme1 : (s.set_node me me1).keys_aligned me := by
        unfold Store.keys_aligned
        rw [Store.set_node_same]
        exact a1
      by_cases hb : ep ≠ (s.nodes cs).get_size
      · rw [if_pos hb] at h
        simp only [Option.some.injEq] at h
        subst h
        refine ⟨hme1, rfl, ?_, ?_⟩
        · rw [Store.set_node_same]; exact a2
        · rw [Store.set_node_same]; exact a3
      · rw [if_neg hb] at h
        obtain ⟨b1, b2, b3, b4⟩ := ih _ _ _ _ h hme1 (by
          intro c hc
          by_cases hcm : c = me
          · subst hcm; exact hme1
          · unfold Store.keys_aligned
            rw [Store.set_node_other _ _ _ hcm]
            exact hR c (List.mem_cons_of_mem _ hc))
        refine ⟨b1, b2, ?_, ?_⟩
        · rw [b3, Store.set_node_same]; exact a2
        · rw [b4, Store.set_node_same]; exact a3

theorem copy_children_from_stable_sources_aligned {s s' : Store} {me : NodeRef}
    (h : copy_children_from_stable_sources s me = some s')
    (hme : s.keys_aligned me) (hR : ∀ c ∈ (s.nodes me).copy_sources, s.keys_aligned c) :
    s'.keys_aligned me ∧ s'.child_objs = s.child_objs
      ∧ (s'.nodes me).keys = (s.nodes me).keys
      ∧ (s'.nodes me).children.length = (s.nodes me).children.length := by
  simp only [copy_children_from_stable_sources] at h
  split at h
  · simp only [Option.some.injEq] at h
    subst h
    exact ⟨hme, rfl, rfl, rfl⟩
  · split at h
    · exact absurd h (by simp)
    · split at h
      · exact absurd h (by simp)
      · split at h
        · exact copy_sources_loop_aligned me _ _ _ _ _ h hme
            (fun c hc => hR c (List.mem_of_mem_drop hc))
        · exact copy_sources_loop_aligned me _ _ _ _ _ h hme
            (fun c hc => hR c (List.mem_of_mem_drop hc))

/-- The loop of `copy_children_from_stable_source` writes slots of the array
and leaves its `size()`. -/
theorem copy_children_loop_children_size (source : Node) (fe : Nat) :
    ∀ (fuel : Nat) (me : Node) (f l : Nat) (me' : Node) (next : Nat),
      copy_children_loop source fe fuel me f l = some (me', next) →
      me'.children_size = me.children_size := by
  intro fuel
  induction fuel with
  | zero => intro me f l me' next h; simp [copy_children_loop] at h
  | succ n ih =>
    intro me f l me' next h
    unfold copy_children_loop at h
    split at h
    · split at h
      · split at h
        · split at h
          · split at h
            · rw [ih _ _ _ _ _ h]
              simp [Node.children_size]
            · exact absurd h (by simp)
          · exact ih _ _ _ _ _ h
        · split at h
          · exact ih _ _ _ _ _ h
          · exact ih _ _ _ _ _ h
      · exact absurd h (by simp)
    · simp only [Option.some.injEq, Prod.mk.injEq] at h
      rw [← h.1]

theorem copy_sources_loop_children_size (me : NodeRef) :
    ∀ (R : List NodeRef) (s s' : Store) (sp L : Nat),
      copy_sources_loop me R s sp L = some s' →
      (s'.nodes me).children_size = (s.nodes me).children_size := by
  intro R
  induction R with
  | nil =>
    intro s s' sp L h
    simp only [copy_sources_loop, Option.some.injEq] at h
    subst h
    rfl
  | cons cs rest ih =>
    intro s s' sp L h
    simp only [copy_sources_loop] at h
    generalize (if (s.nodes cs).is_in_range (s.nodes me).range_end = true then
          (s.nodes cs).upper_bound (s.nodes me).range_end
        else (s.nodes cs).get_size) = ep at h
    cases hw : copy_children_from_stable_source (s.nodes me) (s.nodes cs) sp ep L with
    | none => rw [hw] at h; exact absurd h (by simp)
    | some r =>
      obtain ⟨me1, next⟩ := r
      rw [hw] at h
      simp only at h
      have a := copy_children_loop_children_size _ _ _ _ _ _ _ _ hw
      by_cases hb : ep ≠ (s.nodes cs).get_size
      · rw [if_pos hb] at h
        simp only [Option.some.injEq] at h
        subst h
        rw [Store.set_node_same]; exact a
      · rw [if_neg hb] at h
        rw [ih _ _ _ _ h, Store.set_node_same]; exact a

theorem take_children_from_stable_sources_children_size {s s' : Store} {me : NodeRef}
    (h : take_children_from_stable_sources s me = some s') :
    (s'.nodes me).children_size = (s.nodes me).children_size := by
  unfold take_children_from_stable_sources at h
  split at h
  · exact absurd h (by simp)
  · rename_i s1 h1
    have h2 : (s1.nodes me).children_size = (s.nodes me).children_size := by
      simp only [copy_children_from_stable_sources] at h1
      split at h1
      · simp only [Option.some.injEq] at h1
        subst h1
        rfl
      · split at h1
        · exact absurd h1 (by simp)
        · split at h1
          · exact absurd h1 (by simp)
          · split at h1
            · exact copy_sources_loop_children_size me _ _ _ _ _ h1
            · exact copy_sources_loop_children_size me _ _ _ _ _ h1
    rw [← h2]
    unfold adjust_ptracker_for_children at h
    split at h
    · simp only [Option.some.injEq] at h
      subst h
      exact foldl_ptracker_children_size _ _ _ _
    · exact absurd h (by simp)

theorem set_children_from_prior_instance_children_size {s s' : Store} {me : NodeRef}
    (h : set_children_from_prior_instance s me = some s') (x : NodeRef) :
    (s'.nodes x).children_size = (s.nodes x).children_size := by
  unfold set_children_from_prior_instance at h
  split at h
  · exact absurd h (by simp)
  · split at h
    · split at h
      · simp only at h
        split at h
        · exact absurd h (by simp)
        · rename_i s3 h3
          split at h
          · simp only [Option.some.injEq] at h
            subst h
            unfold adjust_ptracker_for_children at h3
            split at h3
            · simp only [Option.some.injEq] at h3
              subst h3
              rw [foldl_ptracker_children_size]
              by_cases hx : x = me
              · subst hx; rw [Store.set_node_same]; rfl
              · rw [Store.set_node_other _ _ _ hx]
            · exact absurd h3 (by simp)
          · exact absurd h (by simp)
      · split at h
        · simp only [Option.some.injEq] at h
          subst h
          rfl
        · exact absurd h (by simp)
    · exact absurd h (by simp)

theorem take_children_from_prior_instance_children_size {s s' : Store} {me : NodeRef}
    (h : take_children_from_prior_instance s me = some s') :
    (s'.nodes me).children_size = (s.nodes me).children_size := by
  unfold take_children_from_prior_instance at h
  split at h
  · split at h
    · exact absurd h (by simp)
    · split at h
      · split at h
        · exact absurd h (by simp)
        · rename_i s1 h1
          split at h
          · exact absurd h (by simp)
          · rename_i me1 copied hw
            split at h
            · simp only [Option.some.injEq] at h
              subst h
              rw [Store.set_node_same, copy_children_loop_children_size _ _ _ _ _ _ _ _ hw,
                set_children_from_prior_instance_children_size h1]
            · exact absurd h (by simp)
      · exact absurd h (by simp)
  · exact absurd h (by simp)

/-- The check of `validate_stable_children` passes on an aligned node with a
non-empty child array that has a slot for every key. -/
theorem validate_stable_children_of_aligned {s : Store} {me : NodeRef}
    (hal : s.keys_aligned me) (hne : (s.nodes me).children_size ≠ 0)
    (hcap : (s.nodes me).get_size ≤ (s.nodes me).children.length) :
    validate_stable_children s me = some true := by
  unfold validate_stable_children
  rw [if_neg hne, if_pos hcap]
  rw [if_pos]
  rw [List.all_eq_true]
  intro kc hkc
  obtain ⟨i, hi, hikc⟩ := List.getElem_of_mem hkc
  have hz := List.getElem?_eq_getElem hi
  rw [hikc, List.getElem?_zip_eq_some] at hz
  cases hv : is_valid_child_ptr kc.2 with
  | false => simp
  | true =>
    have := hal i kc.1 kc.2 hz.1 hz.2 hv
    simp only [Bool.true_and, Bool.not_eq_true', bne_eq_false_iff_eq]
    exact this

/-- What a successful `take_children_from_prior_instance` keeps: the alignment,
the keys and the length of the child array. -/
theorem take_children_from_prior_instance_aligned {s s' : Store} {me prior : NodeRef}
    (h : take_children_from_prior_instance s me = some s')
    (hp : (s.nodes me).prior_instance = some prior)
    (hme : s.keys_aligned me) (hpr : s.keys_aligned prior) :
    s'.keys_aligned me ∧ (s'.nodes me).keys = (s.nodes me).keys
      ∧ (s'.nodes me).children.length = (s.nodes me).children.length := by
  unfold take_children_from_prior_instance at h
  split at h
  · rw [hp] at h
    simp only at h
    split at h
    · split at h
      · exact absurd h (by simp)
      · rename_i s1 h1
        split at h
        · exact absurd h (by simp)
        · rename_i me1 copied hw
          split at h
          · simp only [Option.some.injEq] at h
            subst h
            have hsl := set_children_from_prior_instance_same_links h1
            have hch := set_children_from_prior_instance_children h1
            have hbg := set_children_from_prior_instance_begin h1
            have hme1 : (s1.nodes me).keys_aligned (fun c => (s1.child_objs c).node_begin) :=
              Node.keys_aligned_congr hme (Node.same_links_keys (hsl me)) (hch me) hbg
            have hpr1 : (s1.nodes prior).keys_aligned (fun c => (s1.child_objs c).node_begin) :=
              Node.keys_aligned_congr hpr (Node.same_links_keys (hsl prior)) (hch prior) hbg
            obtain ⟨a1, a2, a3⟩ := copy_children_loop_aligned _ _ _ hpr1 _ _ _ _ _ _ hw hme1
            unfold Store.keys_aligned
            rw [Store.set_node_same]
            refine ⟨a1, ?_, ?_⟩
            · rw [a2, Node.same_links_keys (hsl me)]
            · rw [a3, hch me]
          · exact absurd h (by simp)
    · exact absurd h (by simp)
  · exact absurd h (by simp)

/-- What a successful `take_children_from_stable_sources` keeps: the alignment,
the keys and the length of the child array. -/
theorem take_children_from_stable_sources_aligned {s s' : Store} {me : NodeRef}
    (h : take_children_from_stable_sources s me = some s')
    (hme : s.keys_aligned me) (hR : ∀ c ∈ (s.nodes me).copy_sources, s.keys_aligned c) :
    s'.keys_aligned me ∧ (s'.nodes me).keys = (s.nodes me).keys
      ∧ (s'.nodes me).children.length = (s.nodes me).children.length := by
  unfold take_children_from_stable_sources at h
  split at h
  · exact absurd h (by simp)
  · rename_i s1 h1
    obtain ⟨a1, a2, a3, a4⟩ := copy_children_from_stable_sources_aligned h1 hme hR
    have hch := adjust_ptracker_for_children_children h
    have hsl := adjust_ptracker_for_children_same_links h
    refine ⟨?_, ?_, ?_⟩
    · exact Node.keys_aligned_congr a1 (Node.same_links_keys (hsl me)) (hch me)
        (adjust_ptracker_for_children_begin h)
    · rw [Node.same_links_keys (hsl me), a3]
    · rw [hch me, a4]

/-- C27: key alignment at commit. For a node with a non-empty child array
(`children.empty()` is false) that has a slot for every key: if every valid
child pointer in a slot of the node
and of its stable source(s) (the prior instance, every copy source) has the key
of its slot as begin key, then after `take_children_from_prior_instance` and
after `take_children_from_stable_sources` every valid child pointer in a slot
of the node has the key of the slot as begin key, and
`validate_stable_children` passes: `on_replace_prior` and `prepare_commit`
return whenever the adoption of the children returns. -/
theorem commit_key_alignment (s : Store) (me : NodeRef)
    (hne : (s.nodes me).children_size ≠ 0)
    (hcap : (s.nodes me).get_size ≤ (s.nodes me).children.length)
    (hme : s.keys_aligned me) :
    (∀ s' prior, (s.nodes me).prior_instance = some prior → s.keys_aligned prior →
        take_children_from_prior_instance s me = some s' →
        s'.keys_aligned me ∧ validate_stable_children s' me = some true
          ∧ ((s.nodes me).is_rewrite = false → on_replace_prior s me = some s')
          ∧ ((s.nodes me).is_rewrite = true →
              prepare_commit s me = some (s'.set_copy_sources me [])))
      ∧ (∀ s', (∀ c ∈ (s.nodes me).copy_sources, s.keys_aligned c) →
          take_children_from_stable_sources s me = some s' →
          s'.keys_aligned me ∧ validate_stable_children s' me = some true
            ∧ ((s.nodes me).is_initial_pending = true → (s.nodes me).is_rewrite = false →
                prepare_commit s me = some (s'.set_copy_sources me []))) := by
  have hne' : ∀ s' : Store, (s'.nodes me).children_size = (s.nodes me).children_size →
      (s'.nodes me).children_size ≠ 0 := by
    intro s' hl
    rw [hl]
    exact hne
  have hcap' : ∀ s' : Store, (s'.nodes me).keys = (s.nodes me).keys →
      (s'.nodes me).children.length = (s.nodes me).children.length →
      (s'.nodes me).get_size ≤ (s'.nodes me).children.length := by
    intro s' hk hl
    unfold Node.get_size at hcap ⊢
    rw [hk, hl]
    exact hcap
  refine ⟨?_, ?_⟩
  · intro s' prior hp hpr h
    obtain ⟨a1, a2, a3⟩ := take_children_from_prior_instance_aligned h hp hme hpr
    have hv := validate_stable_children_of_aligned a1
      (hne' s' (take_children_from_prior_instance_children_size h)) (hcap' s' a2 a3)
    refine ⟨a1, hv, ?_, ?_⟩
    · intro hrw
      unfold on_replace_prior
      rw [hrw, h]
      simp [hv]
    · intro hrw
      have hip : (s.nodes me).is_initial_pending = true := by
        unfold Node.is_rewrite at hrw
        simp only [Bool.and_eq_true] at hrw
        exact hrw.1
      unfold prepare_commit
      rw [if_pos hip, if_pos hrw, h]
      simp [hv]
  · intro s' hR h
    obtain ⟨a1, a2, a3⟩ := take_children_from_stable_sources_aligned h hme hR
    have hv := validate_stable_children_of_aligned a1
      (hne' s' (take_children_from_stable_sources_children_size h)) (hcap' s' a2 a3)
    refine ⟨a1, hv, ?_⟩
    intro hip hrw
    unfold prepare_commit
    rw [if_pos hip, hrw, if_neg (by simp), h]
    simp [hv]

/-- C27 witness: the commit of the rewrite of `rewrite_store` (prior instance
0), the replacement of the prior instance by the mutation-pending node 1 of
`retarget_store`, and the commit of the initial-pending node 0 of
`index_store` (copy sources 3 and 4). -/
theorem commit_key_alignment_witness :
    (∃ s', take_children_from_prior_instance rewrite_store 1 = some s'
        ∧ s'.keys_aligned 1 ∧ validate_stable_children s' 1 = some true
        ∧ prepare_commit rewrite_store 1 = some (s'.set_copy_sources 1 []))
      ∧ (∃ s', take_children_from_prior_instance retarget_store 1 = some s'
        ∧ s'.keys_aligned 1 ∧ on_replace_prior retarget_store 1 = some s')
      ∧ (∃ s', take_children_from_stable_sources index_store 0 = some s'
        ∧ s'.keys_aligned 0 ∧ validate_stable_children s' 0 = some true
        ∧ prepare_commit index_store 0 = some (s'.set_copy_sources 0 [])) := by
  refine ⟨?_, ?_, ?_⟩
  · obtain ⟨s', h⟩ := Option.isSome_iff_exists.mp
      (show (take_children_from_prior_instance rewrite_store 1).isSome = true by decide)
    obtain ⟨a1, a2, -, a4⟩ := (commit_key_alignment rewrite_store 1 (by decide) (by decide)
      (Node.keys_aligned_of_all (by decide))).1 s' 0 (by decide)
      (Node.keys_aligned_of_all (by decide)) h
    exact ⟨s', h, a1, a2, a4 (by decide)⟩
  · obtain ⟨s', h⟩ := Option.isSome_iff_exists.mp
      (show (take_children_from_prior_instance retarget_store 1).isSome = true by decide)
    obtain ⟨a1, -, a3, -⟩ := (commit_key_alignment retarget_store 1 (by decide) (by decide)
      (Node.keys_aligned_of_all (by decide))).1 s' 0 (by decide)
      (Node.keys_aligned_of_all (by decide)) h
    exact ⟨s', h, a1, a3 (by decide)⟩
  · obtain ⟨s', h⟩ := Option.isSome_iff_exists.mp
      (show (take_children_from_stable_sources index_store 0).isSome = true by decide)
    obtain ⟨a1, a2, a3⟩ := (commit_key_alignment index_store 0 (by decide) (by decide)
      (Node.keys_aligned_of_all (by decide))).2 s'
      (fun c hc => by
        have hc' : c = 3 ∨ c = 4 := by
          have : (index_store.nodes 0).copy_sources = [3, 4] := by decide
          rw [this] at hc
          simpa using hc
        rcases hc' with rfl | rfl
        · exact Node.keys_aligned_of_all (by decide)
        · exact Node.keys_aligned_of_all (by decide)) h
    exact ⟨s', h, a1, a2, a3 (by decide) (by decide)⟩

/-! ## The bulk moves and the bounds of the arrays -/

/-- C28, the failing input, for a dynamically sized node type (`CHILD_VEC_UNIT`
not zero), the new nodes being other nodes than the donors and each other. In
`split_child_ptrs` (`0 < pivot < size`), `merge_child_ptrs` and
`balance_child_ptrs` (`0 < pivot_idx < l + r`) the calls of
`maybe_expand_children` return, what follows is the run of the listed
statements on the expanded arrays, every call of `move_child_ptrs` among them
writes a destination range inside the capacity of the expanded destination,
two calls into one new node write ranges that do not overlap, and every source
range ends at or below the logical size `get_size()` of the donor. The source
range need not lie within the donor's array: node 0 of `grow_store` after
three appended children (`grown_store`, `CHILD_VEC_UNIT` 2) has seven keys and
an array of `size()` 6, its split at the pivot 3 calls
`move_child_ptrs(right, me, 0, 3, 7)`, whose source range `[3, 7)` is not
inside the six elements, and the split aborts in the assertion
`src.children.size() >= src_end`. -/
theorem bulk_moves_source_past_size (U : Nat) (hU : U ≠ 0) (s : Store) :
    (∀ (me left right : NodeRef) (pivot : Nat), left ≠ me → right ≠ me → left ≠ right →
        0 < pivot → pivot < (s.nodes me).get_size →
        ∃ l r, maybe_expand_children U (s.nodes left) pivot = some l
          ∧ maybe_expand_children U (s.nodes right) ((s.nodes me).get_size - pivot) = some r
          ∧ ((s.nodes left).my_tracker = none → (s.nodes right).my_tracker = none →
              split_child_ptrs U s me left right pivot
                = run_steps (split_child_ptrs_steps s me left right pivot)
                    ((s.set_node left l).set_node right r))
          ∧ (∀ d sr ds ss se,
              surgery_step.move d sr ds ss se ∈ split_child_ptrs_steps s me left right pivot →
              ss < se ∧ se ≤ (s.nodes sr).get_size
                ∧ ds + (se - ss) ≤ (((s.set_node left l).set_node right r).nodes d).children.length)
          ∧ (split_child_ptrs_steps s me left right pivot).Pairwise surgery_step.writes_apart)
      ∧ (∀ (me left right : NodeRef), left ≠ me → right ≠ me →
          ∃ m, maybe_expand_children U (s.nodes me)
              ((s.nodes left).get_size + (s.nodes right).get_size) = some m
            ∧ ((s.nodes me).my_tracker = none →
                merge_child_ptrs U s me left right
                  = run_steps (merge_child_ptrs_steps s me left right) (s.set_node me m))
            ∧ (∀ d sr ds ss se,
                surgery_step.move d sr ds ss se ∈ merge_child_ptrs_steps s me left right →
                ss ≤ se ∧ se ≤ (s.nodes sr).get_size
                  ∧ ds + (se - ss) ≤ ((s.set_node me m).nodes d).children.length)
            ∧ (merge_child_ptrs_steps s me left right).Pairwise surgery_step.writes_apart)
      ∧ (∀ (left right : NodeRef) (pivot : Nat) (rl rr : NodeRef),
          rl ≠ rr → rl ≠ left → rl ≠ right → rr ≠ left → rr ≠ right →
          0 < pivot → pivot < (s.nodes left).get_size + (s.nodes right).get_size →
          ∃ L R, maybe_expand_children U (s.nodes rl) pivot = some L
            ∧ maybe_expand_children U (s.nodes rr)
                ((s.nodes right).get_size + (s.nodes left).get_size - pivot) = some R
            ∧ ((s.nodes rl).my_tracker = none → (s.nodes rr).my_tracker = none →
                pivot ≠ (s.nodes left).get_size → pivot ≠ (s.nodes right).get_size →
                balance_child_ptrs U s left right pivot rl rr
                  = run_steps (balance_child_ptrs_steps s left right pivot rl rr)
                      ((s.set_node rl L).set_node rr R))
            ∧ (∀ d sr ds ss se,
                surgery_step.move d sr ds ss se
                  ∈ balance_child_ptrs_steps s left right pivot rl rr →
                ss ≤ se ∧ se ≤ (s.nodes sr).get_size
                  ∧ ds + (se - ss) ≤ (((s.set_node rl L).set_node rr R).nodes d).children.length)
            ∧ (balance_child_ptrs_steps s left right pivot rl rr).Pairwise
                surgery_step.writes_apart)
      ∧ grown_store.map (fun s3 => ((s3.nodes 0).is_pending, (s3.nodes 0).keys,
            (s3.nodes 0).children.take 7))
          = some (true, [0, 10, 20, 30, 40, 50, 60], [100, 101, 102, 103, 104, 105, 106])
      ∧ grown_store.map (fun s3 => ((s3.nodes 0).get_size, (s3.nodes 0).children_size,
            (s3.nodes 0).children.length))
          = some (7, 6, 8)
      ∧ grown_store.map (fun s3 => split_child_ptrs_steps s3 0 1 2 3)
          = some [surgery_step.move 1 0 0 0 3, surgery_step.move 2 0 0 3 7,
              surgery_step.clear 0]
      ∧ grown_store.map (fun s3 => (split_child_ptrs 2 s3 0 1 2 3).isSome) = some false := by
  refine ⟨?_, ?_, ?_, by decide, by decide, by decide, by decide⟩
  · intro me left right pivot hlm hrm hlr hp0 hpn
    obtain ⟨l, hl⟩ := maybe_expand_children_isSome U (s.nodes left) pivot
      (fun h => absurd h hU)
    obtain ⟨r, hr⟩ := maybe_expand_children_isSome U (s.nodes right)
      ((s.nodes me).get_size - pivot) (fun h => absurd h hU)
    obtain ⟨hl1, -, -, -, -⟩ := maybe_expand_children_some hl
    obtain ⟨hr1, -, -, -, -⟩ := maybe_expand_children_some hr
    have hs2l : ((s.set_node left l).set_node right r).nodes left = l := by
      rw [Store.set_node_other _ _ _ hlr]; simp
    have hs2r : ((s.set_node left l).set_node right r).nodes right = r := by simp
    have htie := fun hlt hrt => split_child_ptrs_eq_steps U s me left right pivot l r
      hlm hrm hlr hlt hrt (Nat.le_of_lt hpn) hl hr
    refine ⟨l, r, hl, hr, htie, ?_, ?_⟩
    · intro d sr ds ss se hst
      unfold split_child_ptrs_steps at hst
      split at hst
      · simp only [List.mem_cons, List.mem_singleton, List.not_mem_nil, or_false,
          surgery_step.move.injEq, reduceCtorEq] at hst
        rcases hst with ⟨rfl, rfl, rfl, rfl, rfl⟩ | ⟨rfl, rfl, rfl, rfl, rfl⟩
        · rw [hs2l]
          exact ⟨hp0, Nat.le_of_lt hpn, by omega⟩
        · rw [hs2r]
          exact ⟨hpn, Nat.le_refl _, by omega⟩
      · exact absurd hst (List.not_mem_nil _)
    · have h1 : ∀ a b c d e f g h, (surgery_step.move left a b c d).writes_apart
          (surgery_step.move right e f g h) := fun _ _ _ _ _ _ _ _ heq => absurd heq hlr
      unfold split_child_ptrs_steps
      split
      · simp only [List.pairwise_cons, List.Pairwise.nil, List.mem_cons, List.mem_singleton,
          List.not_mem_nil, forall_eq_or_imp, forall_eq, and_true, IsEmpty.forall_iff,
          implies_true, writes_apart_clear_left, writes_apart_clear_right, and_self, true_and,
          h1]
      · exact List.Pairwise.nil
  · intro me left right hlm hrm
    obtain ⟨m, hm⟩ := maybe_expand_children_isSome U (s.nodes me)
      ((s.nodes left).get_size + (s.nodes right).get_size) (fun h => absurd h hU)
    obtain ⟨hm1, -, -, -, -⟩ := maybe_expand_children_some hm
    have hs1m : (s.set_node me m).nodes me = m := by simp
    have hmem : ∀ st ∈ merge_child_ptrs_steps s me left right,
        ((s.nodes left).is_pending = true
          ∧ (st = surgery_step.move me left 0 0 (s.nodes left).get_size
            ∨ st = surgery_step.clear left))
        ∨ ((s.nodes right).is_pending = true
          ∧ (st = surgery_step.move me right (s.nodes left).get_size 0 (s.nodes right).get_size
            ∨ st = surgery_step.clear right)) := by
      intro st hst
      unfold merge_child_ptrs_steps at hst
      rcases List.mem_append.mp hst with h | h
      · split at h
        · rename_i hp
          simp only [List.mem_cons, List.mem_singleton, List.not_mem_nil, or_false] at h
          exact Or.inl ⟨hp, h⟩
        · exact absurd h (List.not_mem_nil _)
      · split at h
        · rename_i hp
          simp only [List.mem_cons, List.mem_singleton, List.not_mem_nil, or_false] at h
          exact Or.inr ⟨hp, h⟩
        · exact absurd h (List.not_mem_nil _)
    have htie := fun hmt => merge_child_ptrs_eq_steps U s me left right m hlm hrm hmt hm
    refine ⟨m, hm, htie, ?_, ?_⟩
    · intro d sr ds ss se hst
      rcases hmem _ hst with ⟨-, h | h⟩ | ⟨-, h | h⟩
      · simp only [surgery_step.move.injEq] at h
        obtain ⟨rfl, rfl, rfl, rfl, rfl⟩ := h
        rw [hs1m]
        exact ⟨Nat.zero_le _, Nat.le_refl _, by omega⟩
      · cases h
      · simp only [surgery_step.move.injEq] at h
        obtain ⟨rfl, rfl, rfl, rfl, rfl⟩ := h
        rw [hs1m]
        exact ⟨Nat.zero_le _, Nat.le_refl _, by omega⟩
      · cases h
    · have h1 : (surgery_step.move me left 0 0 (s.nodes left).get_size).writes_apart
          (surgery_step.move me right (s.nodes left).get_size 0 (s.nodes right).get_size) :=
        fun _ => Or.inl (by omega)
      unfold merge_child_ptrs_steps
      cases (s.nodes left).is_pending <;> cases (s.nodes right).is_pending <;>
        simp only [if_true, if_false, Bool.false_eq_true, List.cons_append, List.nil_append,
          List.append_nil, List.pairwise_cons, List.Pairwise.nil, List.mem_cons,
          List.mem_singleton, List.not_mem_nil, forall_eq_or_imp, forall_eq, and_true,
          IsEmpty.forall_iff, implies_true, writes_apart_clear_left, writes_apart_clear_right,
          and_self, true_and, h1]
  · intro left right pivot rl rr hd hll hlr hrl hrr hp0 hpn
    obtain ⟨L, hL⟩ := maybe_expand_children_isSome U (s.nodes rl) pivot
      (fun h => absurd h hU)
    obtain ⟨R, hR⟩ := maybe_expand_children_isSome U (s.nodes rr)
      ((s.nodes right).get_size + (s.nodes left).get_size - pivot) (fun h => absurd h hU)
    obtain ⟨hL1, -, -, -, -⟩ := maybe_expand_children_some hL
    obtain ⟨hR1, -, -, -, -⟩ := maybe_expand_children_some hR
    have hs2rl : ((s.set_node rl L).set_node rr R).nodes rl = L := by
      rw [Store.set_node_other _ _ _ hd]; simp
    have hs2rr : ((s.set_node rl L).set_node rr R).nodes rr = R := by simp
    have hmem : ∀ st ∈ balance_child_ptrs_steps s left right pivot rl rr,
        (pivot < (s.nodes left).get_size
          ∧ (((s.nodes left).is_pending = true
              ∧ (st = surgery_step.move rl left 0 0 pivot
                ∨ st = surgery_step.move rr left 0 pivot (s.nodes left).get_size
                ∨ st = surgery_step.clear left))
            ∨ ((s.nodes right).is_pending = true
              ∧ (st = surgery_step.move rr right ((s.nodes left).get_size - pivot) 0
                    (s.nodes right).get_size
                ∨ st = surgery_step.clear right))))
        ∨ (¬ pivot < (s.nodes left).get_size
          ∧ (((s.nodes left).is_pending = true
              ∧ (st = surgery_step.move rl left 0 0 (s.nodes left).get_size
                ∨ st = surgery_step.clear left))
            ∨ ((s.nodes right).is_pending = true
              ∧ (st = surgery_step.move rl right (s.nodes left).get_size 0
                    (pivot - (s.nodes left).get_size)
                ∨ st = surgery_step.move rr right 0 (pivot - (s.nodes left).get_size)
                    (s.nodes right).get_size
                ∨ st = surgery_step.clear right)))) := by
      intro st hst
      unfold balance_child_ptrs_steps at hst
      simp only at hst
      split at hst
      · rename_i hc
        refine Or.inl ⟨hc, ?_⟩
        rcases List.mem_append.mp hst with h | h
        · split at h
          · rename_i hp
            simp only [List.mem_cons, List.mem_singleton, List.not_mem_nil, or_false] at h
            exact Or.inl ⟨hp, h⟩
          · exact absurd h (List.not_mem_nil _)
        · split at h
          · rename_i hp
            simp only [List.mem_cons, List.mem_singleton, List.not_mem_nil, or_false] at h
            exact Or.inr ⟨hp, h⟩
          · exact absurd h (List.not_mem_nil _)
      · rename_i hc
        refine Or.inr ⟨hc, ?_⟩
        rcases List.mem_append.mp hst with h | h
        · split at h
          · rename_i hp
            simp only [List.mem_cons, List.mem_singleton, List.not_mem_nil, or_false] at h
            exact Or.inl ⟨hp, h⟩
          · exact absurd h (List.not_mem_nil _)
        · split at h
          · rename_i hp
            simp only [List.mem_cons, List.mem_singleton, List.not_mem_nil, or_false] at h
            exact Or.inr ⟨hp, h⟩
          · exact absurd h (List.not_mem_nil _)
    have htie := fun hlt hrt hpl hpr => balance_child_ptrs_eq_steps U s left right rl rr pivot
      L R hd hll hlr hrl hrr hlt hrt hpl hpr (by omega) hL hR
    refine ⟨L, R, hL, hR, htie, ?_, ?_⟩
    · intro d sr ds ss se hst
      rcases hmem _ hst with ⟨hc, ⟨-, h | h | h⟩ | ⟨-, h | h⟩⟩
        | ⟨hc, ⟨-, h | h⟩ | ⟨-, h | h | h⟩⟩
      · simp only [surgery_step.move.injEq] at h
        obtain ⟨rfl, rfl, rfl, rfl, rfl⟩ := h
        rw [hs2rl]
        exact ⟨Nat.zero_le _, Nat.le_of_lt hc, by omega⟩
      · simp only [surgery_step.move.injEq] at h
        obtain ⟨rfl, rfl, rfl, rfl, rfl⟩ := h
        rw [hs2rr]
        exact ⟨Nat.le_of_lt hc, Nat.le_refl _, by omega⟩
      · cases h
      · simp only [surgery_step.move.injEq] at h
        obtain ⟨rfl, rfl, rfl, rfl, rfl⟩ := h
        rw [hs2rr]
        exact ⟨Nat.zero_le _, Nat.le_refl _, by omega⟩
      · cases h
      · simp only [surgery_step.move.injEq] at h
        obtain ⟨rfl, rfl, rfl, rfl, rfl⟩ := h
        rw [hs2rl]
        exact ⟨Nat.zero_le _, Nat.le_refl _, by omega⟩
      · cases h
      · simp only [surgery_step.move.injEq] at h
        obtain ⟨rfl, rfl, rfl, rfl, rfl⟩ := h
        rw [hs2rl]
        exact ⟨Nat.zero_le _, by omega, by omega⟩
      · simp only [surgery_step.move.injEq] at h
        obtain ⟨rfl, rfl, rfl, rfl, rfl⟩ := h
        rw [hs2rr]
        exact ⟨by omega, Nat.le_refl _, by omega⟩
      · cases h
    · have h1 : ∀ a b c d e f g h, (surgery_step.move rl a b c d).writes_apart
          (surgery_step.move rr e f g h) := fun _ _ _ _ _ _ _ _ heq => absurd heq hd
      have h2 : (surgery_step.move rr left 0 pivot (s.nodes left).get_size).writes_apart
          (surgery_step.move rr right ((s.nodes left).get_size - pivot) 0
            (s.nodes right).get_size) := fun _ => Or.inl (by omega)
      have h3 : (surgery_step.move rl left 0 0 (s.nodes left).get_size).writes_apart
          (surgery_step.move rl right (s.nodes left).get_size 0
            (pivot - (s.nodes left).get_size)) := fun _ => Or.inl (by omega)
      unfold balance_child_ptrs_steps
      simp only
      split
      · cases (s.nodes left).is_pending <;> cases (s.nodes right).is_pending <;>
          simp only [if_true, if_false, Bool.false_eq_true, List.cons_append, List.nil_append,
            List.append_nil, List.pairwise_cons, List.Pairwise.nil, List.mem_cons,
            List.mem_singleton, List.not_mem_nil, forall_eq_or_imp, forall_eq, and_true,
            IsEmpty.forall_iff, implies_true, writes_apart_clear_left,
            writes_apart_clear_right, and_self, true_and, h1, h2]
      · cases (s.nodes left).is_pending <;> cases (s.nodes right).is_pending <;>
          simp only [if_true, if_false, Bool.false_eq_true, List.cons_append, List.nil_append,
            List.append_nil, List.pairwise_cons, List.Pairwise.nil, List.mem_cons,
            List.mem_singleton, List.not_mem_nil, forall_eq_or_imp, forall_eq, and_true,
            IsEmpty.forall_iff, implies_true, writes_apart_clear_left,
            writes_apart_clear_right, and_self, true_and, h1, h3]

/-- C28 witness, `CHILD_VEC_UNIT` being 4: the split of a pending node with
four children into two fresh nodes of capacity 1 (both are expanded to four
slots), the merge of two pending donors into a fresh node of capacity 1, and
the balance of the donors of `balance_store` at the pivot index 3. -/
theorem bulk_moves_source_past_size_witness :
    (∃ l r, maybe_expand_children 4 ((Store.with_fresh_pair split_pending_node 1).nodes 1) 2
          = some l
        ∧ maybe_expand_children 4 ((Store.with_fresh_pair split_pending_node 1).nodes 2)
            (((Store.with_fresh_pair split_pending_node 1).nodes 0).get_size - 2) = some r
        ∧ split_child_ptrs 4 (Store.with_fresh_pair split_pending_node 1) 0 1 2 2
            = run_steps (split_child_ptrs_steps (Store.with_fresh_pair split_pending_node 1)
                0 1 2 2)
              (((Store.with_fresh_pair split_pending_node 1).set_node 1 l).set_node 2 r)
        ∧ (split_child_ptrs_steps (Store.with_fresh_pair split_pending_node 1) 0 1 2 2).Pairwise
            surgery_step.writes_apart)
      ∧ (∃ m, maybe_expand_children 4
            ((Store.with_donors merge_pending_left merge_pending_right 1).nodes 0)
            (((Store.with_donors merge_pending_left merge_pending_right 1).nodes 1).get_size
              + ((Store.with_donors merge_pending_left merge_pending_right 1).nodes 2).get_size)
            = some m
        ∧ merge_child_ptrs 4 (Store.with_donors merge_pending_left merge_pending_right 1) 0 1 2
            = run_steps (merge_child_ptrs_steps
                (Store.with_donors merge_pending_left merge_pending_right 1) 0 1 2)
              ((Store.with_donors merge_pending_left merge_pending_right 1).set_node 0 m))
      ∧ (∃ L R, maybe_expand_children 4 (balance_store.nodes 2) 3 = some L
        ∧ maybe_expand_children 4 (balance_store.nodes 3)
            ((balance_store.nodes 1).get_size + (balance_store.nodes 0).get_size - 3) = some R
        ∧ balance_child_ptrs 4 balance_store 0 1 3 2 3
            = run_steps (balance_child_ptrs_steps balance_store 0 1 3 2 3)
                ((balance_store.set_node 2 L).set_node 3 R))
      ∧ split_child_ptrs_steps (Store.with_fresh_pair split_pending_node 1) 0 1 2 2
          = [surgery_step.move 1 0 0 0 2, surgery_step.move 2 0 0 2 4, surgery_step.clear 0]
      ∧ balance_child_ptrs_steps balance_store 0 1 3 2 3
          = [surgery_step.move 2 0 0 0 3, surgery_step.move 3 0 0 3 4, surgery_step.clear 0,
              surgery_step.move 3 1 1 0 2, surgery_step.clear 1]
      ∧ (split_child_ptrs 4 (Store.with_fresh_pair split_pending_node 1) 0 1 2 2).map
          (fun s' => ((s'.nodes 1).children, (s'.nodes 2).children))
          = some ([100, 200, nullptr, nullptr], [300, 400, nullptr, nullptr]) := by
  refine ⟨?_, ?_, ?_, by decide, by decide, by decide⟩
  · obtain ⟨l, r, h1, h2, h3, -, h5⟩ :=
      (bulk_moves_source_past_size 4 (by decide)
        (Store.with_fresh_pair split_pending_node 1)).1
        0 1 2 2 (by decide) (by decide) (by decide) (by decide) (by decide)
    exact ⟨l, r, h1, h2, h3 (by decide) (by decide), h5⟩
  · obtain ⟨m, h1, h2, -, -⟩ :=
      (bulk_moves_source_past_size 4 (by decide)
        (Store.with_donors merge_pending_left merge_pending_right 1)).2.1
        0 1 2 (by decide) (by decide)
    exact ⟨m, h1, h2 (by decide)⟩
  · obtain ⟨L, R, h1, h2, h3, -, -⟩ :=
      (bulk_moves_source_past_size 4 (by decide) balance_store).2.2.1 0 1 3 2 3 (by decide)
        (by decide) (by decide) (by decide) (by decide) (by decide) (by decide)
    exact ⟨L, R, h1, h2, h3 (by decide) (by decide) (by decide) (by decide)⟩

/-! ## Split: where the child pointers go -/

/-- What a split of a pending node that returns has met on its way: the
assertions, the room in the new nodes and the bounds of the two moves. -/
theorem split_child_ptrs_some_inv {U : Nat} {s s' : Store} {me left right : NodeRef}
    {pivot : Nat} (h : split_child_ptrs U s me left right pivot = some s')
    (hpend : (s.nodes me).is_pending = true)
    (hlm : left ≠ me) (hrm : right ≠ me) (hlr : left ≠ right) :
    (s.nodes left).my_tracker = none ∧ (s.nodes right).my_tracker = none
      ∧ 0 < pivot ∧ pivot < (s.nodes me).get_size
      ∧ (s.nodes me).get_size ≤ (s.nodes me).children_size
      ∧ (U = 0 → pivot ≤ (s.nodes left).children.length
          ∧ (s.nodes me).get_size - pivot ≤ (s.nodes right).children.length) := by
  have h0 := h
  unfold split_child_ptrs at h
  split at h
  · exact absurd h (by simp)
  · rename_i htrk
    split at h
    · exact absurd h (by simp)
    · rename_i hpiv
      simp only [Option.bind_eq_bind] at h
      obtain ⟨l, hl, h⟩ := Option.bind_eq_some.mp h
      obtain ⟨r, hr, h⟩ := Option.bind_eq_some.mp h
      have hs1r : (s.set_node left l).nodes right = s.nodes right :=
        Store.set_node_other _ _ _ hlr.symm
      have hs1m : (s.set_node left l).nodes me = s.nodes me :=
        Store.set_node_other _ _ _ hlm.symm
      rw [hs1r, hs1m] at hr
      have hs2m : ((s.set_node left l).set_node right r).nodes me = s.nodes me := by
        rw [Store.set_node_other _ _ _ hrm.symm, hs1m]
      have hlt : (s.nodes left).my_tracker = none := by
        cases hx : (s.nodes left).my_tracker with
        | none => rfl
        | some t => simp [hx] at htrk
      have hrt : (s.nodes right).my_tracker = none := by
        cases hx : (s.nodes right).my_tracker with
        | none => rfl
        | some t => simp [hx] at htrk
      have htie := split_child_ptrs_eq_steps U s me left right pivot l r hlm hrm hlr hlt hrt
        (by omega) hl hr
      rw [htie] at h0
      obtain ⟨hb, hne⟩ := run_steps_some_inv _ _ _ h0
      have hsteps : split_child_ptrs_steps s me left right pivot
          = [surgery_step.move left me 0 0 pivot,
              surgery_step.move right me 0 pivot (s.nodes me).get_size,
              surgery_step.clear me] := by
        unfold split_child_ptrs_steps
        rw [if_pos hpend]
      rw [hsteps] at hb hne
      have b2 := hb (surgery_step.move right me 0 pivot (s.nodes me).get_size) (by simp)
      have n1 := hne left me 0 0 pivot (by simp)
      have n2 := hne right me 0 pivot (s.nodes me).get_size (by simp)
      simp only [surgery_step.in_bounds, hs2m] at b2
      refine ⟨hlt, hrt, n1, n2, b2.2.1, ?_⟩
      intro hU
      subst hU
      exact ⟨maybe_expand_children_fixed hl, maybe_expand_children_fixed hr⟩

/-- C1 (as stated) fails: split of a stable node moves nothing, so the two
halves are not the node's children; after the split of a pending node whose
slots are null the null pointer is in both halves; and a child that the node
holds in two slots is in both halves. -/
theorem split_child_ptrs_claim_fails :
    ((split_child_ptrs 0 (Store.with_fresh_pair split_stable_node 1) 0 1 2 1).map
        (fun s' => (s'.nodes 1).children.take 1 ++ (s'.nodes 2).children.take 1)
        = some [nullptr, nullptr]
      ∧ ((Store.with_fresh_pair split_stable_node 1).nodes 0).children.take 2 = [100, 200])
    ∧ ((split_child_ptrs 0 (Store.with_fresh_pair split_null_node 1) 0 1 2 1).map
        (fun s' => ((s'.nodes 1).children.take 1, (s'.nodes 2).children.take 1))
        = some ([nullptr], [nullptr]))
    ∧ ((split_child_ptrs 0 (Store.with_fresh_pair split_twice_node 1) 0 1 2 1).map
        (fun s' => ((s'.nodes 1).children.take 1, (s'.nodes 2).children.take 1))
        = some ([100], [100])) := by
  decide

/-- C1 (amended): for a pending node of logical size `n` and two other nodes
`left` and `right`. Whenever `split_child_ptrs` returns,
`left.children[0..p) ++ right.children[0..n-p)` is the node's `children[0..n)`
as before the call, and when the valid pointers of `children[0..n)` are
pairwise distinct no valid pointer is in both halves. It returns when
`0 < p < n`, `n` is at most the `size()` of the node's array, `left` and
`right` have no tracker (and, for a fixed-capacity node type, capacity at
least `p` and `n - p`). It aborts when `n` exceeds the `size()` of the node's
array. -/
theorem split_child_ptrs_pending (U : Nat) (s : Store) (me left right : NodeRef)
    (pivot : Nat) :
    (∀ s', (s.nodes me).is_pending = true → left ≠ me → right ≠ me → left ≠ right →
        split_child_ptrs U s me left right pivot = some s' →
        (s'.nodes left).children.take pivot
            ++ (s'.nodes right).children.take ((s.nodes me).get_size - pivot)
          = (s.nodes me).children.take (s.nodes me).get_size
        ∧ ((((s.nodes me).children.take (s.nodes me).get_size).filter
              (fun c => is_valid_child_ptr c)).Nodup →
            ∀ c, is_valid_child_ptr c = true → c ∈ (s'.nodes left).children.take pivot →
              c ∉ (s'.nodes right).children.take ((s.nodes me).get_size - pivot)))
      ∧ ((s.nodes me).is_pending = true → left ≠ me → right ≠ me → left ≠ right →
        (s.nodes left).my_tracker = none → (s.nodes right).my_tracker = none →
        0 < pivot → pivot < (s.nodes me).get_size →
        (s.nodes me).get_size ≤ (s.nodes me).children_size →
        (U = 0 → pivot ≤ (s.nodes left).children.length
          ∧ (s.nodes me).get_size - pivot ≤ (s.nodes right).children.length) →
        ∃ s', split_child_ptrs U s me left right pivot = some s')
      ∧ ((s.nodes me).is_pending = true → left ≠ me → right ≠ me → left ≠ right →
        (s.nodes me).children_size < (s.nodes me).get_size →
        split_child_ptrs U s me left right pivot = none) := by
  refine ⟨?_, ?_, ?_⟩
  · intro s' hpend hlm hrm hlr h
    obtain ⟨hlt, hrt, hp0, hpn, hsize, hfix⟩ := split_child_ptrs_some_inv h hpend hlm hrm hlr
    obtain ⟨s'', hs'', hl, hr, -, -⟩ :=
      split_child_ptrs_pending_layout U s me left right pivot hpend hlm hrm hlr hlt hrt hp0 hpn
        hsize hfix
    rw [h] at hs''
    obtain rfl := Option.some.inj hs''
    have hsplit : (s.nodes me).children.take (s.nodes me).get_size
        = (s.nodes me).children.take pivot
          ++ ((s.nodes me).children.drop pivot).take ((s.nodes me).get_size - pivot) := by
      rw [← List.take_add]
      congr 1
      omega
    refine ⟨?_, ?_⟩
    · rw [hl, hr, hsplit]
    · intro hnd c hc hcl hcr
      rw [hsplit, List.filter_append] at hnd
      rw [hl] at hcl
      rw [hr] at hcr
      have hdis := (List.nodup_append.mp hnd).2.2
      exact hdis (List.mem_filter.mpr ⟨hcl, hc⟩) (List.mem_filter.mpr ⟨hcr, hc⟩)
  · intro hpend hlm hrm hlr hlt hrt hp0 hpn hsize hfix
    obtain ⟨s', hs', -⟩ :=
      split_child_ptrs_pending_layout U s me left right pivot hpend hlm hrm hlr hlt hrt hp0 hpn
        hsize hfix
    exact ⟨s', hs'⟩
  · intro hpend hlm hrm hlr hlt
    cases h : split_child_ptrs U s me left right pivot with
    | none => rfl
    | some s' =>
      obtain ⟨-, -, -, -, hsize, -⟩ := split_child_ptrs_some_inv h hpend hlm hrm hlr
      omega

/-- C1 (amended) witness: a pending node with four children split at pivot 2
into two fresh nodes; and the split of node 0 of `grown_store`, seven keys on
an array of `size()` 6, which aborts. -/
theorem split_child_ptrs_pending_witness :
    (∃ s', split_child_ptrs 0 (Store.with_fresh_pair split_pending_node 2) 0 1 2 2 = some s'
      ∧ (s'.nodes 1).children.take 2
          ++ (s'.nodes 2).children.take
            (((Store.with_fresh_pair split_pending_node 2).nodes 0).get_size - 2)
          = ((Store.with_fresh_pair split_pending_node 2).nodes 0).children.take
              ((Store.with_fresh_pair split_pending_node 2).nodes 0).get_size
      ∧ (∀ c, is_valid_child_ptr c = true → c ∈ (s'.nodes 1).children.take 2 →
            c ∉ (s'.nodes 2).children.take
              (((Store.with_fresh_pair split_pending_node 2).nodes 0).get_size - 2)))
      ∧ (split_child_ptrs 0 (Store.with_fresh_pair split_pending_node 2) 0 1 2 2).map
          (fun s' => ((s'.nodes 1).children, (s'.nodes 2).children))
          = some ([100, 200], [300, 400])
      ∧ (∃ s3, grown_store = some s3 ∧ split_child_ptrs 2 s3 0 1 2 3 = none) := by
  refine ⟨?_, by decide, ?_⟩
  · obtain ⟨s', hs'⟩ :=
      (split_child_ptrs_pending 0 (Store.with_fresh_pair split_pending_node 2) 0 1 2 2).2.1
        (by decide) (by decide) (by decide) (by decide) (by decide) (by decide) (by decide)
        (by decide) (by decide) (by decide)
    obtain ⟨h1, h2⟩ :=
      (split_child_ptrs_pending 0 (Store.with_fresh_pair split_pending_node 2) 0 1 2 2).1 s'
        (by decide) (by decide) (by decide) (by decide) hs'
    exact ⟨s', hs', h1, h2 (by decide)⟩
  · obtain ⟨s3, h3⟩ := Option.isSome_iff_exists.mp (show grown_store.isSome = true by decide)
    refine ⟨s3, h3, ?_⟩
    have e1 : grown_store.map (fun s3 => ((s3.nodes 0).is_pending, (s3.nodes 0).get_size,
        (s3.nodes 0).children_size)) = some (true, 7, 6) := by decide
    rw [h3] at e1
    simp only [Option.map_some', Option.some.injEq, Prod.mk.injEq] at e1
    obtain ⟨a1, a2, a3⟩ := e1
    exact (split_child_ptrs_pending 2 s3 0 1 2 3).2.2 a1 (by decide) (by decide) (by decide)
      (by rw [a2, a3]; decide)

/-! ## Merge: where the child pointers go -/

theorem memmove_take_start (dst seg : List ChildPtr) (k : Nat) (hk : k ≤ dst.length) :
    (memmove dst k seg).take k = dst.take k := by
  unfold memmove
  rw [List.append_assoc]
  exact List.take_left' (by rw [List.length_take]; omega)

theorem memmove_drop_start (dst seg : List ChildPtr) (k : Nat) (hk : k ≤ dst.length) :
    ((memmove dst k seg).drop k).take seg.length = seg := by
  unfold memmove
  rw [List.append_assoc, List.drop_left' (by rw [List.length_take]; omega)]
  exact List.take_left' rfl

theorem memmove_drop_end (dst seg : List ChildPtr) (k : Nat) (hk : k ≤ dst.length) :
    (memmove dst k seg).drop (k + seg.length) = dst.drop (k + seg.length) := by
  unfold memmove
  exact List.drop_left' (by rw [List.length_append, List.length_take]; omega)

/-- What a call of `move_child_ptrs` that returns has met and done: the two
assertions, the room in the destination, and the array of the destination
before, in and after the written range. -/
theorem move_child_ptrs_layout {s a : Store} {dest src : NodeRef} {ds ss se : Nat}
    (h : move_child_ptrs s dest src ds ss se = some a) :
    ss < se ∧ se ≤ (s.nodes src).children_size
      ∧ ds + (se - ss) ≤ (s.nodes dest).children.length
      ∧ (a.nodes dest).children.take ds = (s.nodes dest).children.take ds
      ∧ ((a.nodes dest).children.drop ds).take (se - ss)
          = ((s.nodes src).children.drop ss).take (se - ss)
      ∧ (a.nodes dest).children.drop (ds + (se - ss))
          = (s.nodes dest).children.drop (ds + (se - ss))
      ∧ (∀ x, x ≠ dest → (a.nodes x).children = (s.nodes x).children)
      ∧ (∀ x, (s.nodes x).same_links (a.nodes x)) := by
  have hg : ss < se ∧ se ≤ (s.nodes src).children_size
      ∧ ds + (se - ss) ≤ (s.nodes dest).children.length := by
    unfold move_child_ptrs at h
    by_contra hc
    rw [if_neg hc] at h
    exact absurd h (by simp)
  obtain ⟨a1, a2, a3⟩ := move_child_ptrs_some h
  have hle := Node.children_size_le (s.nodes src)
  have hseg : (((s.nodes src).children.drop ss).take (se - ss)).length = se - ss :=
    take_length_drop_take _ _ _ (by omega)
  refine ⟨hg.1, hg.2.1, hg.2.2, ?_, ?_, ?_, a2, a3⟩
  · rw [a1]
    exact memmove_take_start _ _ _ (by omega)
  · rw [a1]
    have := memmove_drop_start (s.nodes dest).children
      (((s.nodes src).children.drop ss).take (se - ss)) ds (by omega)
    rw [hseg] at this
    exact this
  · rw [a1]
    have := memmove_drop_end (s.nodes dest).children
      (((s.nodes src).children.drop ss).take (se - ss)) ds (by omega)
    rw [hseg] at this
    exact this

/-- What a merge that returns has met and done: the assertion on the tracker of
the new node, the bounds of the moves, the run of every pending donor in its
place, and the slots of the run of a donor that is not pending as the
expansion of the array left them. -/
theorem merge_child_ptrs_some_layout {U : Nat} {s s' : Store} {me left right : NodeRef}
    (h : merge_child_ptrs U s me left right = some s') (hlm : left ≠ me) (hrm : right ≠ me) :
    ∃ m, maybe_expand_children U (s.nodes me)
        ((s.nodes left).get_size + (s.nodes right).get_size) = some m
      ∧ (s.nodes me).my_tracker = none
      ∧ ((s.nodes left).is_pending = true →
          0 < (s.nodes left).get_size
            ∧ (s.nodes left).get_size ≤ (s.nodes left).children_size)
      ∧ ((s.nodes right).is_pending = true →
          0 < (s.nodes right).get_size
            ∧ (s.nodes right).get_size ≤ (s.nodes right).children_size)
      ∧ (s'.nodes me).children.take (s.nodes left).get_size
          = (if (s.nodes left).is_pending then
              (s.nodes left).children.take (s.nodes left).get_size
            else m.children.take (s.nodes left).get_size)
      ∧ ((s'.nodes me).children.drop (s.nodes left).get_size).take (s.nodes right).get_size
          = (if (s.nodes right).is_pending then
              (s.nodes right).children.take (s.nodes right).get_size
            else (m.children.drop (s.nodes left).get_size).take (s.nodes right).get_size) := by
  have h0 := h
  unfold merge_child_ptrs at h
  split at h
  · exact absurd h (by simp)
  · rename_i htrk
    have hmt : (s.nodes me).my_tracker = none := by
      cases hx : (s.nodes me).my_tracker with
      | none => rfl
      | some t => simp [hx] at htrk
    simp only [Option.bind_eq_bind] at h
    obtain ⟨m, hm, -⟩ := Option.bind_eq_some.mp h
    refine ⟨m, hm, hmt, ?_⟩
    rw [merge_child_ptrs_eq_steps U s me left right m hlm hrm hmt hm] at h0
    have hs1l : (s.set_node me m).nodes left = s.nodes left := Store.set_node_other _ _ _ hlm
    have hs1r : (s.set_node me m).nodes right = s.nodes right := Store.set_node_other _ _ _ hrm
    have hs1m : (s.set_node me m).nodes me = m := by simp
    unfold merge_child_ptrs_steps at h0
    -- the phase of the left donor
    obtain ⟨s2, hphaseL, h2run⟩ : ∃ s2,
        (((s.nodes left).is_pending = true →
            0 < (s.nodes left).get_size
              ∧ (s.nodes left).get_size ≤ (s.nodes left).children_size)
          ∧ (s2.nodes me).children.take (s.nodes left).get_size
              = (if (s.nodes left).is_pending then
                  (s.nodes left).children.take (s.nodes left).get_size
                else m.children.take (s.nodes left).get_size)
          ∧ (s2.nodes me).children.drop (s.nodes left).get_size
              = m.children.drop (s.nodes left).get_size
          ∧ (s2.nodes right).children = (s.nodes right).children
          ∧ (s2.nodes right).children_size = (s.nodes right).children_size)
        ∧ run_steps (if (s.nodes right).is_pending = true then
              [surgery_step.move me right (s.nodes left).get_size 0 (s.nodes right).get_size,
                surgery_step.clear right]
            else []) s2 = some s' := by
      cases hlp : (s.nodes left).is_pending with
      | false =>
        rw [hlp] at h0
        simp only [Bool.false_eq_true, if_false, List.nil_append] at h0
        refine ⟨s.set_node me m, ⟨?_, ?_, ?_, ?_, ?_⟩, h0⟩
        · intro hc; cases hc
        · rw [hs1m]; rfl
        · rw [hs1m]
        · rw [hs1r]
        · rw [hs1r]
      | true =>
        rw [hlp] at h0
        simp only [if_true, List.cons_append, List.nil_append, run_steps] at h0
        cases hmv : move_child_ptrs (s.set_node me m) me left 0 0 (s.nodes left).get_size with
        | none => rw [hmv] at h0; exact absurd h0 (by simp)
        | some a =>
          rw [hmv] at h0
          simp only at h0
          obtain ⟨g1, g2, g3, g4, g5, g6, g7, g8⟩ := move_child_ptrs_layout hmv
          rw [hs1l] at g2 g5
          rw [hs1m] at g3 g4 g6
          simp only [Nat.sub_zero, List.drop_zero, Nat.zero_add] at g5 g6
          refine ⟨a.clear_my_tracker left, ⟨?_, ?_, ?_, ?_, ?_⟩, h0⟩
          · intro _; exact ⟨g1, g2⟩
          · rw [Store.clear_my_tracker_children, if_pos rfl]
            exact g5
          · rw [Store.clear_my_tracker_children]; exact g6
          · rw [Store.clear_my_tracker_children, g7 right hrm, hs1r]
          · rw [Store.clear_my_tracker_children_size,
              (move_child_ptrs_children_size hmv right).2, hs1r]
    obtain ⟨p1, p2, p3, p4, p5⟩ := hphaseL
    refine ⟨p1, ?_⟩
    -- the phase of the right donor
    cases hrp : (s.nodes right).is_pending with
    | false =>
      rw [hrp] at h2run
      simp only [Bool.false_eq_true, if_false, run_steps, Option.some.injEq] at h2run
      subst h2run
      refine ⟨fun hc => (by cases hc), p2, ?_⟩
      rw [p3]; rfl
    | true =>
      rw [hrp] at h2run
      simp only [if_true, run_steps] at h2run
      cases hmv : move_child_ptrs s2 me right (s.nodes left).get_size 0
          (s.nodes right).get_size with
      | none => rw [hmv] at h2run; exact absurd h2run (by simp)
      | some b =>
        rw [hmv] at h2run
        simp only [Option.some.injEq] at h2run
        subst h2run
        obtain ⟨g1, g2, g3, g4, g5, g6, g7, g8⟩ := move_child_ptrs_layout hmv
        rw [p5] at g2
        rw [p4] at g5
        simp only [Nat.sub_zero, List.drop_zero] at g5
        refine ⟨fun _ => ⟨g1, g2⟩, ?_, ?_⟩
        · rw [Store.clear_my_tracker_children, g4]
          exact p2
        · rw [Store.clear_my_tracker_children, if_pos rfl]
          exact g5

/-- C2 (as stated) fails: a stable donor is not moved, so the slots of the new
node that stand for the stable left donor stay null, while the run of the
pending right donor is in its place. -/
theorem merge_child_ptrs_claim_fails :
    (merge_child_ptrs 0 (Store.with_donors merge_stable_left merge_pending_right 2) 0 1 2).map
        (fun s' => (s'.nodes 0).children.take (1 + 1)) = some [nullptr, 300]
      ∧ ((Store.with_donors merge_stable_left merge_pending_right 2).nodes 1).children.take 1
          ++ ((Store.with_donors merge_stable_left merge_pending_right 2).nodes 2).children.take 1
          = [100, 300] := by
  decide

/-- C2 (amended): for a left donor of size `m` and a right donor of size `n`
merged into another node. Whenever `merge_child_ptrs` returns, the run of
every pending donor is in its place, `children[0..m)` of the new node being
`left.children[0..m)` for a pending left donor and `children[m..m+n)` being
`right.children[0..n)` for a pending right donor, as the donors were before
the call; the slots of the run of a donor that is not pending are not written
(they are as `maybe_expand_children(m + n)` left the array of the new node,
unchanged when `m + n` is within its capacity); with two pending donors
`children[0..m+n)` is `left.children[0..m)` followed by `right.children[0..n)`.
It returns when the new node has no tracker and every pending donor has a
size of at least 1 and at most the `size()` of its array (and, for a
fixed-capacity node type, the new node has capacity at least `m + n`); it
aborts when a pending donor has no key or more keys than the `size()` of its
array. -/
theorem merge_child_ptrs_placed (U : Nat) (s : Store) (me left right : NodeRef) :
    (∀ s', left ≠ me → right ≠ me → merge_child_ptrs U s me left right = some s' →
        ∃ m, maybe_expand_children U (s.nodes me)
            ((s.nodes left).get_size + (s.nodes right).get_size) = some m
          ∧ ((s.nodes left).get_size + (s.nodes right).get_size ≤ (s.nodes me).children.length →
              m = s.nodes me)
          ∧ ((s.nodes left).is_pending = true →
              (s'.nodes me).children.take (s.nodes left).get_size
                = (s.nodes left).children.take (s.nodes left).get_size)
          ∧ ((s.nodes left).is_pending = false →
              (s'.nodes me).children.take (s.nodes left).get_size
                = m.children.take (s.nodes left).get_size)
          ∧ ((s.nodes right).is_pending = true →
              ((s'.nodes me).children.drop (s.nodes left).get_size).take (s.nodes right).get_size
                = (s.nodes right).children.take (s.nodes right).get_size)
          ∧ ((s.nodes right).is_pending = false →
              ((s'.nodes me).children.drop (s.nodes left).get_size).take (s.nodes right).get_size
                = (m.children.drop (s.nodes left).get_size).take (s.nodes right).get_size)
          ∧ ((s.nodes left).is_pending = true → (s.nodes right).is_pending = true →
              (s'.nodes me).children.take ((s.nodes left).get_size + (s.nodes right).get_size)
                = (s.nodes left).children.take (s.nodes left).get_size
                  ++ (s.nodes right).children.take (s.nodes right).get_size))
      ∧ (left ≠ me → right ≠ me → (s.nodes me).my_tracker = none →
        ((s.nodes left).is_pending = true →
          0 < (s.nodes left).get_size
            ∧ (s.nodes left).get_size ≤ (s.nodes left).children_size) →
        ((s.nodes right).is_pending = true →
          0 < (s.nodes right).get_size
            ∧ (s.nodes right).get_size ≤ (s.nodes right).children_size) →
        (U = 0 →
          (s.nodes left).get_size + (s.nodes right).get_size ≤ (s.nodes me).children.length) →
        ∃ s', merge_child_ptrs U s me left right = some s')
      ∧ (left ≠ me → right ≠ me →
        (((s.nodes left).is_pending = true
            ∧ ((s.nodes left).get_size = 0
              ∨ (s.nodes left).children_size < (s.nodes left).get_size))
          ∨ ((s.nodes right).is_pending = true
            ∧ ((s.nodes right).get_size = 0
              ∨ (s.nodes right).children_size < (s.nodes right).get_size))) →
        merge_child_ptrs U s me left right = none) := by
  refine ⟨?_, ?_, ?_⟩
  · intro s' hlm hrm h
    obtain ⟨m, hm, -, -, -, hL, hR⟩ := merge_child_ptrs_some_layout h hlm hrm
    refine ⟨m, hm, fun hle => maybe_expand_children_of_le hm hle, ?_, ?_, ?_, ?_, ?_⟩
    · intro hp; rw [hL, if_pos hp]
    · intro hp; rw [hL, hp]; rfl
    · intro hp; rw [hR, if_pos hp]
    · intro hp; rw [hR, hp]; rfl
    · intro hlp hrp
      rw [List.take_add, hL, hR, if_pos hlp, if_pos hrp]
  · intro hlm hrm hmt hl hr hfix
    obtain ⟨m, hm⟩ := maybe_expand_children_isSome U (s.nodes me)
      ((s.nodes left).get_size + (s.nodes right).get_size) hfix
    obtain ⟨hm1, -, -, -, -⟩ := maybe_expand_children_some hm
    have hs1l : (s.set_node me m).nodes left = s.nodes left := Store.set_node_other _ _ _ hlm
    have hs1r : (s.set_node me m).nodes right = s.nodes right := Store.set_node_other _ _ _ hrm
    have hs1m : (s.set_node me m).nodes me = m := by simp
    rw [merge_child_ptrs_eq_steps U s me left right m hlm hrm hmt hm]
    have hmem : ∀ st ∈ merge_child_ptrs_steps s me left right,
        ((s.nodes left).is_pending = true
          ∧ (st = surgery_step.move me left 0 0 (s.nodes left).get_size
            ∨ st = surgery_step.clear left))
        ∨ ((s.nodes right).is_pending = true
          ∧ (st = surgery_step.move me right (s.nodes left).get_size 0 (s.nodes right).get_size
            ∨ st = surgery_step.clear right)) := by
      intro st hst
      unfold merge_child_ptrs_steps at hst
      rcases List.mem_append.mp hst with h | h
      · split at h
        · rename_i hp
          simp only [List.mem_cons, List.mem_singleton, List.not_mem_nil, or_false] at h
          exact Or.inl ⟨hp, h⟩
        · exact absurd h (List.not_mem_nil _)
      · split at h
        · rename_i hp
          simp only [List.mem_cons, List.mem_singleton, List.not_mem_nil, or_false] at h
          exact Or.inr ⟨hp, h⟩
        · exact absurd h (List.not_mem_nil _)
    refine run_steps_isSome _ _ ?_ ?_
    · intro st hst
      rcases hmem st hst with ⟨hp, rfl | rfl⟩ | ⟨hp, rfl | rfl⟩
      · simp only [surgery_step.in_bounds, hs1l, hs1m]
        have := (hl hp).2
        omega
      · trivial
      · simp only [surgery_step.in_bounds, hs1r, hs1m]
        have := (hr hp).2
        omega
      · trivial
    · intro d sr ds ss se hst
      rcases hmem _ hst with ⟨hp, h | h⟩ | ⟨hp, h | h⟩
      · simp only [surgery_step.move.injEq] at h
        obtain ⟨-, -, -, rfl, rfl⟩ := h
        exact (hl hp).1
      · cases h
      · simp only [surgery_step.move.injEq] at h
        obtain ⟨-, -, -, rfl, rfl⟩ := h
        exact (hr hp).1
      · cases h
  · intro hlm hrm hbad
    cases h : merge_child_ptrs U s me left right with
    | none => rfl
    | some s' =>
      obtain ⟨m, -, -, hl, hr, -, -⟩ := merge_child_ptrs_some_layout h hlm hrm
      rcases hbad with ⟨hp, hb⟩ | ⟨hp, hb⟩
      · have := hl hp
        omega
      · have := hr hp
        omega

/-- C2 (amended) witness: two pending donors of sizes 2 and 1 merged into a
fresh node of capacity 3, and a stable donor of size 1 merged with a pending
donor of size 1 into a fresh node of capacity 2. -/
theorem merge_child_ptrs_placed_witness :
    (∃ s', merge_child_ptrs 0 (Store.with_donors merge_pending_left merge_pending_right 3) 0 1 2
        = some s'
      ∧ (s'.nodes 0).children.take
          (((Store.with_donors merge_pending_left merge_pending_right 3).nodes 1).get_size
            + ((Store.with_donors merge_pending_left merge_pending_right 3).nodes 2).get_size)
          = ((Store.with_donors merge_pending_left merge_pending_right 3).nodes 1).children.take
              ((Store.with_donors merge_pending_left merge_pending_right 3).nodes 1).get_size
            ++ ((Store.with_donors merge_pending_left merge_pending_right 3).nodes
                2).children.take
              ((Store.with_donors merge_pending_left merge_pending_right 3).nodes 2).get_size)
      ∧ (merge_child_ptrs 0 (Store.with_donors merge_pending_left merge_pending_right 3)
            0 1 2).map (fun s' => (s'.nodes 0).children) = some [100, 200, 300]
      ∧ (∃ s', merge_child_ptrs 0 (Store.with_donors merge_stable_left merge_pending_right 2)
            0 1 2 = some s'
          ∧ ((s'.nodes 0).children.drop 1).take 1 = [300]) := by
  refine ⟨?_, by decide, ?_⟩
  · obtain ⟨s', hs'⟩ :=
      (merge_child_ptrs_placed 0 (Store.with_donors merge_pending_left merge_pending_right 3)
        0 1 2).2.1 (by decide) (by decide) (by decide) (fun _ => by decide)
        (fun _ => by decide) (fun _ => by decide)
    obtain ⟨m, -, -, -, -, -, -, h7⟩ :=
      (merge_child_ptrs_placed 0 (Store.with_donors merge_pending_left merge_pending_right 3)
        0 1 2).1 s' (by decide) (by decide) hs'
    exact ⟨s', hs', h7 (by decide) (by decide)⟩
  · obtain ⟨s', hs'⟩ :=
      (merge_child_ptrs_placed 0 (Store.with_donors merge_stable_left merge_pending_right 2)
        0 1 2).2.1 (by decide) (by decide) (by decide) (fun h => absurd h (by decide))
        (fun _ => by decide) (fun _ => by decide)
    obtain ⟨m, -, -, -, -, h5, -, -⟩ :=
      (merge_child_ptrs_placed 0 (Store.with_donors merge_stable_left merge_pending_right 2)
        0 1 2).1 s' (by decide) (by decide) hs'
    exact ⟨s', hs', h5 (by decide)⟩

/-! ## Agreement through the pointer surgery -/

end LinkedTreeNode
